import Mathlib

/-!
# FreeImage copy / paste routines (`FreeImageToolkit/CopyPaste.cpp`)

A shallow embedding of the combine / paste / copy / view routines of
`CopyPaste.cpp`, followed by theorems about them.

Conventions of the embedding.

* A pixel buffer is a byte-addressed memory `Mem = Nat → Nat`; a pointer is an
  address in it.  A bitmap carries the memory its pixel pointer refers to
  (`mem`) and the address of its first scanline (`bits`).  An owning bitmap and
  a view created on it share `mem` and differ in `bits`.
* `unsigned` values are naturals below `2^32`; unsigned arithmetic is written
  with `uadd`, `usub`, `umul` (reduction modulo `2^32`).  `int` values are
  integers; conversions are `u32` (to unsigned) and `i32` (to int).
* A store to a `uint8_t` cell keeps the low eight bits (`% 256`).
* Every bitmap carries the content of its pixel buffer (`mem`) and the name of
  that buffer (`buffer`).  Two bitmaps refer to the same buffer (`sharesBuffer`)
  when they carry the same name and at least one of them has external bits
  (`externalBits`, a view made by `FreeImage_CreateView`); two bitmaps that own
  their pixels never share a buffer.  A view carries the name of the bitmap it
  was created on; the buffer that `FreeImage_Copy` allocates gets the name that
  follows the name of the source buffer.  Different buffers are to carry
  different names: the sample inputs name their buffer 0, and a second buffer
  on which views are made is given another name (`{ b with buffer := 1 }`, as
  in `separate_blend8`).  Bitmaps that share a buffer carry the same content on
  entry to a call.  (One bitmap pasted into itself fits at the origin only,
  where each step reads a byte before it writes that byte or writes back the
  bits it has read; the call then never reads a value that it has changed.)
* A combine function reads the source from the memory as it is at the moment
  of the read: when source and destination share the buffer, a source byte
  that an earlier step of the same call has written is read with its new
  value (`sourceMem`); otherwise the source buffer is not written by the call.
* `for` loops are `forLoop n body`, running `body 0`, ..., `body (n-1)`.
-/

namespace FreeImage

/-! ## Machine arithmetic -/

/-- Byte-addressed memory. -/
abbrev Mem := Nat → Nat

/-- Conversion of an integer to `unsigned` (32 bits). -/
def u32 (n : Int) : Nat := (n % 4294967296).toNat

/-- Conversion of an `unsigned` value to `int` (two's complement, 32 bits). -/
def i32 (n : Nat) : Int :=
  if n % 4294967296 < 2147483648 then ((n % 4294967296 : Nat) : Int)
  else ((n % 4294967296 : Nat) : Int) - 4294967296

/-- Unsigned 32-bit addition. -/
def uadd (a b : Nat) : Nat := (a + b) % 4294967296

/-- Unsigned 32-bit subtraction (of values below `2^32`). -/
def usub (a b : Nat) : Nat := (a + 4294967296 - b % 4294967296) % 4294967296

/-- Unsigned 32-bit multiplication. -/
def umul (a b : Nat) : Nat := (a * b) % 4294967296

/-- The loop `for (i = 0; i < n; i++) s = body i s`. -/
def forLoop {σ : Type} (n : Nat) (body : Nat → σ → σ) (s : σ) : σ :=
  match n with
  | 0 => s
  | k + 1 => body k (forLoop k body s)

/-- Store of the byte `v` at address `a`. -/
def store (m : Mem) (a v : Nat) : Mem := fun i => if i = a then v else m i

/-- The library call `memcpy(dst + d, src + s, n)`: every byte of the block is
taken from `src` as it is before the call (for blocks that overlap in one
buffer C leaves the result undefined). -/
def memcpy (dst : Mem) (d : Nat) (src : Mem) (s n : Nat) : Mem :=
  fun a => if d ≤ a ∧ a < d + n then src (s + (a - d)) else dst a

/-! ## Data model -/

/-- A palette entry (`FIRGBA8`); each channel is a byte. -/
structure FIRGBA8 where
  red : Nat
  green : Nat
  blue : Nat
  alpha : Nat

/-- The part of a `FIBITMAP` that the copy / paste routines read and write.
`mem` is the content of the pixel buffer and `bits` the address of the first
scanline in it; `buffer` names the pixel buffer and `externalBits` tells that
the bitmap does not own it (a header over external bits, as
`FreeImage_CreateView` makes with `FreeImage_AllocateHeaderForBits`). -/
structure FIBITMAP where
  hasPixels : Bool
  imageType : Nat
  width : Nat
  height : Nat
  bpp : Nat
  pitch : Nat
  redMask : Nat
  greenMask : Nat
  blueMask : Nat
  colorsUsed : Nat
  palette : Option (Nat → FIRGBA8)
  mem : Mem
  bits : Nat
  buffer : Nat := 0
  externalBits : Bool := false

/-- Whether two bitmaps refer to the same pixel buffer: one of them is a view
(external bits) and both carry the same buffer name.  The hypothesis
`sharesBuffer dst src = false` of a theorem says that source and destination
do not overlap: neither is a view on the buffer of the other. -/
def sharesBuffer (a b : FIBITMAP) : Bool :=
  (a.externalBits || b.externalBits) && (a.buffer == b.buffer)

/-- The memory a combine function reads the source from while the destination
buffer holds `m`: `m` itself when the source shares the buffer of the
destination, otherwise the buffer of the source. -/
def sourceMem (dst_dib src_dib : FIBITMAP) : Mem → Mem :=
  fun m => if sharesBuffer dst_dib src_dib then m else src_dib.mem

/-- Modelled from the spec: the type tag of the standard bitmap family
(`FIT_BITMAP`, declared in `FreeImage.h`). -/
def FIT_BITMAP : Nat := 1

/-- Modelled from the spec: `FreeImage_GetLine` (defined outside this file), the
minimum number of bytes needed to store one row, `ceil(width * bpp / 8)`. -/
def FreeImage_GetLine (dib : FIBITMAP) : Nat := (dib.width * dib.bpp + 7) / 8

/-- Modelled from the spec: `FreeImage_GetScanLine` (defined outside this file),
the address of buffer row `scanline`; row 0 is the bottom scanline and
consecutive rows are `pitch` bytes apart. -/
def FreeImage_GetScanLine (dib : FIBITMAP) (scanline : Int) : Nat :=
  ((dib.bits : Int) + (dib.pitch : Int) * scanline).toNat

/-- Modelled from the spec: the 16-bit channel masks and shifts of the 555 and
565 layouts (`FI16_*`, declared in `FreeImage.h`). -/
def FI16_555_RED_MASK : Nat := 0x7C00

/-- Modelled from the spec: green mask of the 555 layout. -/
def FI16_555_GREEN_MASK : Nat := 0x03E0

/-- Modelled from the spec: blue mask of the 555 layout. -/
def FI16_555_BLUE_MASK : Nat := 0x001F

/-- Modelled from the spec: red shift of the 555 layout. -/
def FI16_555_RED_SHIFT : Nat := 10

/-- Modelled from the spec: green shift of the 555 layout. -/
def FI16_555_GREEN_SHIFT : Nat := 5

/-- Modelled from the spec: blue shift of the 555 layout. -/
def FI16_555_BLUE_SHIFT : Nat := 0

/-- Modelled from the spec: red mask of the 565 layout. -/
def FI16_565_RED_MASK : Nat := 0xF800

/-- Modelled from the spec: green mask of the 565 layout. -/
def FI16_565_GREEN_MASK : Nat := 0x07E0

/-- Modelled from the spec: blue mask of the 565 layout. -/
def FI16_565_BLUE_MASK : Nat := 0x001F

/-- Modelled from the spec: red shift of the 565 layout. -/
def FI16_565_RED_SHIFT : Nat := 11

/-- Modelled from the spec: green shift of the 565 layout. -/
def FI16_565_GREEN_SHIFT : Nat := 5

/-- Modelled from the spec: blue shift of the 565 layout. -/
def FI16_565_BLUE_SHIFT : Nat := 0

/-- Modelled from the spec: the packing macro `RGB555(r, g, b)` of `Utilities.h`:
each 8-bit channel is shifted back by 3 into its 5-bit field. -/
def RGB555 (r g b : Nat) : Nat :=
  ((b >>> 3) <<< FI16_555_BLUE_SHIFT) ||| ((g >>> 3) <<< FI16_555_GREEN_SHIFT)
    ||| ((r >>> 3) <<< FI16_555_RED_SHIFT)

/-- Modelled from the spec: the packing macro `RGB565(r, g, b)` of `Utilities.h`:
red and blue are shifted back by 3, green by 2. -/
def RGB565 (r g b : Nat) : Nat :=
  ((b >>> 3) <<< FI16_565_BLUE_SHIFT) ||| ((g >>> 2) <<< FI16_565_GREEN_SHIFT)
    ||| ((r >>> 3) <<< FI16_565_RED_SHIFT)

/-- Modelled from the spec: the macro `HINIBBLE` of `Utilities.h`, the high nibble
of a byte left in place (the source shifts it right by 4 to index the table). -/
def HINIBBLE (byte : Nat) : Nat := byte &&& 0xF0

/-- Modelled from the spec: the macro `LOWNIBBLE` of `Utilities.h`. -/
def LOWNIBBLE (byte : Nat) : Nat := byte &&& 0x0F

/-- The external collaborators of the file: allocation, format promotion and
`malloc`.  Each may fail (`none` / `false`). -/
structure Collaborators where
  allocateT : Nat → Int → Int → Nat → Nat → Nat → Nat → Option FIBITMAP
  allocateHeaderForBits :
    Mem → Nat → Nat → Nat → Int → Int → Nat → Nat → Nat → Nat → Option FIBITMAP
  convertTo4Bits : FIBITMAP → Option FIBITMAP
  convertTo8Bits : FIBITMAP → Option FIBITMAP
  convertTo16Bits555 : FIBITMAP → Option FIBITMAP
  convertTo16Bits565 : FIBITMAP → Option FIBITMAP
  convertTo24Bits : FIBITMAP → Option FIBITMAP
  convertTo32Bits : FIBITMAP → Option FIBITMAP
  mallocOk : Nat → Bool

/-! ## Row loops shared by the combiners -/

/-- The loop `for (rows = 0; rows < n; rows++) { body; dst_bits += dp; src_bits += sp; }`
over the state (memory, `dst_bits`, `src_bits`). -/
def rowLoop (n : Nat) (body : Mem → Nat → Nat → Mem) (dp sp : Nat)
    (m : Mem) (d s : Nat) : Mem × Nat × Nat :=
  forLoop n (fun _ st => (body st.1 st.2.1 st.2.2, st.2.1 + dp, st.2.2 + sp)) (m, d, s)

/-- The byte blend `(uint8_t)(((s - d) * alpha + (d << 8)) >> 8)`: `s - d` is an
`int`, the product and the sum are `unsigned`. -/
def blend (s d alpha : Nat) : Nat :=
  ((uadd (umul (u32 ((s : Int) - (d : Int))) alpha) (d <<< 8)) >>> 8) % 256

/-- Little-endian read of the `uint16_t` at address `a`. -/
def read16 (m : Mem) (a : Nat) : Nat := m a + 256 * m (a + 1)

/-- Little-endian store of the `uint16_t` value `v` at address `a`. -/
def store16 (m : Mem) (a v : Nat) : Mem :=
  store (store m a (v % 256)) (a + 1) ((v / 256) % 256)

/-! ## Combiners -/

/-- One row of `Combine1`: for every column, read the source bit from the
source memory `rd m` as it is at that moment, and set or clear the destination
bit at column `x + cols`. -/
def combine1Row (rd : Mem → Mem) (x width : Nat) (m : Mem) (dst_bits src_bits : Nat) :
    Mem :=
  forLoop width (fun cols m =>
    let value := (rd m (src_bits + (cols >>> 3)) &&& (0x80 >>> (cols &&& 0x07))) ≠ 0
    let a := dst_bits + ((uadd x cols) >>> 3)
    if value then store m a ((m a ||| (0x80 >>> ((uadd x cols) &&& 0x7))) % 256)
    else store m a ((m a &&& (0xFF7F >>> ((uadd x cols) &&& 0x7))) % 256)) m

/-- The row `combine1Row` when the source does not share the buffer of the
destination: the call does not write the source buffer, whose content is
`srcm` at every read. -/
def combine1RowSep (srcm : Mem) (x width : Nat) (m : Mem) (dst_bits src_bits : Nat) : Mem :=
  combine1Row (fun _ => srcm) x width m dst_bits src_bits

/-- The source function `Combine1`. -/
def Combine1 (dst_dib src_dib : FIBITMAP) (x y _alpha : Nat) : Bool × FIBITMAP :=
  if dst_dib.bpp ≠ 1 ∨ src_dib.bpp ≠ 1 then (false, dst_dib)
  else if uadd x src_dib.width > dst_dib.width ∨ uadd y src_dib.height > dst_dib.height then
    (false, dst_dib)
  else
    let dst_bits := dst_dib.bits
      + umul (usub (usub dst_dib.height src_dib.height) y) dst_dib.pitch
    let src_bits := src_dib.bits
    let r := rowLoop src_dib.height
      (combine1Row (sourceMem dst_dib src_dib) x src_dib.width)
      dst_dib.pitch src_dib.pitch dst_dib.mem dst_bits src_bits
    (true, { dst_dib with mem := r.1 })

/-- Manhattan distance of two palette entries as computed in `Combine4`,
converted to `uint16_t`. -/
def absDiff (s d : FIRGBA8) : Nat :=
  (Int.natAbs ((s.blue : Int) - (d.blue : Int))
    + Int.natAbs ((s.green : Int) - (d.green : Int))
    + Int.natAbs ((s.red : Int) - (d.red : Int))) % 65536

/-- State of the inner loop of the swap-table construction: the table entry
(`none` while unassigned), `min_diff`, and whether `break` was taken. -/
structure SwapState where
  entry : Option Nat
  minDiff : Nat
  done : Bool

/-- One iteration (index `j`) of the inner loop of the swap-table construction. -/
def swapStep (src_pal dst_pal : Nat → FIRGBA8) (i j : Nat) (st : SwapState) : SwapState :=
  if st.done then st
  else
    let abs_diff := absDiff (src_pal i) (dst_pal j)
    if abs_diff < st.minDiff then
      { entry := some j, minDiff := abs_diff, done := decide (abs_diff = 0) }
    else st

/-- The entry `swapTable[i]` built by `Combine4` (`none` if never assigned). -/
def swapTableEntry (src_pal dst_pal : Nat → FIRGBA8) (i : Nat) : Option Nat :=
  (forLoop 16 (swapStep src_pal dst_pal i) { entry := none, minDiff := 65535, done := false }).entry

/-- The array `swapTable` of `Combine4`; an unassigned entry reads as 0. -/
def swapTable (src_pal dst_pal : Nat → FIRGBA8) (i : Nat) : Nat :=
  (swapTableEntry src_pal dst_pal i).getD 0

/-- One row of `Combine4`: copy the source row, read from the source memory
`rd m` as it is at that moment, to the temporary buffer, remap every nibble
through the swap table, merge the first and last byte with the destination when
the start or the end is odd, and copy the buffer to the destination. -/
def combine4Row (rd : Mem → Mem) (table : Nat → Nat) (src_line : Nat)
    (bOddStart bOddEnd : Bool) (m : Mem) (dst_bits src_bits : Nat) : Mem :=
  let buffer0 : Mem := memcpy (fun _ => 0) 0 (rd m) src_bits src_line
  let buffer1 := forLoop src_line (fun cols buffer =>
    store buffer cols
      (((table (HINIBBLE (buffer cols) >>> 4) <<< 4) + table (LOWNIBBLE (buffer cols))) % 256))
    buffer0
  let buffer2 :=
    if bOddStart then store buffer1 0 ((HINIBBLE (m dst_bits) + LOWNIBBLE (buffer1 0)) % 256)
    else buffer1
  let buffer3 :=
    if bOddEnd then
      store buffer2 (usub src_line 1)
        ((HINIBBLE (buffer2 (usub src_line 1)) + LOWNIBBLE (m (dst_bits + usub src_line 1))) % 256)
    else buffer2
  memcpy m dst_bits buffer3 0 src_line

/-- The row `combine4Row` when the source does not share the buffer of the
destination: the call does not write the source buffer, whose content is
`srcm` at every read. -/
def combine4RowSep (srcm : Mem) (table : Nat → Nat) (src_line : Nat) (bOddStart bOddEnd : Bool)
    (m : Mem) (dst_bits src_bits : Nat) : Mem :=
  combine4Row (fun _ => srcm) table src_line bOddStart bOddEnd m dst_bits src_bits

/-- The source function `Combine4`. -/
def Combine4 (env : Collaborators) (dst_dib src_dib : FIBITMAP) (x y _alpha : Nat) :
    Bool × FIBITMAP :=
  if dst_dib.bpp ≠ 4 ∨ src_dib.bpp ≠ 4 then (false, dst_dib)
  else if uadd x src_dib.width > dst_dib.width ∨ uadd y src_dib.height > dst_dib.height then
    (false, dst_dib)
  else
    match src_dib.palette, dst_dib.palette with
    | some src_pal, some dst_pal =>
      let table := swapTable src_pal dst_pal
      let dst_bits := dst_dib.bits
        + umul (usub (usub dst_dib.height src_dib.height) y) dst_dib.pitch + (x >>> 1)
      let src_bits := src_dib.bits
      let src_line := FreeImage_GetLine src_dib
      let src_width := src_dib.width
      let src_height := src_dib.height
      if ¬ env.mallocOk src_line then (false, dst_dib)
      else
        let bOddStart : Bool := decide (x &&& 0x01 ≠ 0)
        let bOddEnd : Bool :=
          (bOddStart && decide (src_width &&& 0x01 = 0))
            || (!bOddStart && decide (src_width &&& 0x01 ≠ 0))
        let r := rowLoop src_height
          (combine4Row (sourceMem dst_dib src_dib) table src_line bOddStart bOddEnd)
          dst_dib.pitch src_dib.pitch dst_dib.mem dst_bits src_bits
        (true, { dst_dib with mem := r.1 })
    | _, _ => (false, dst_dib)

/-- The overwrite branch shared by the 8-, 16-, 24- and 32-bit combiners: one
`memcpy` of `line` bytes per row, from the source memory `rd m` as it is when
the row is copied. -/
def copyRow (rd : Mem → Mem) (line : Nat) (m : Mem) (dst_bits src_bits : Nat) : Mem :=
  memcpy m dst_bits (rd m) src_bits line

/-- The row `copyRow` when the source does not share the buffer of the
destination: the call does not write the source buffer, whose content is
`srcm` at every read. -/
def copyRowSep (srcm : Mem) (line : Nat) (m : Mem) (dst_bits src_bits : Nat) : Mem :=
  copyRow (fun _ => srcm) line m dst_bits src_bits

/-- The blend branch shared by `Combine8`, `Combine24` and `Combine32`: every
byte of the row is blended with the source byte read from the source memory
`rd m` as it is at that moment. -/
def blendRow (rd : Mem → Mem) (line alpha : Nat) (m : Mem) (dst_bits src_bits : Nat) :
    Mem :=
  forLoop line (fun cols m =>
    store m (dst_bits + cols)
      (blend (rd m (src_bits + cols)) (m (dst_bits + cols)) alpha)) m

/-- The row `blendRow` when the source does not share the buffer of the
destination: the call does not write the source buffer, whose content is
`srcm` at every read. -/
def blendRowSep (srcm : Mem) (line alpha : Nat) (m : Mem) (dst_bits src_bits : Nat) : Mem :=
  blendRow (fun _ => srcm) line alpha m dst_bits src_bits

/-- The common body of `Combine8`, `Combine24` and `Combine32`, which differ in
the required depth and in the column byte offset `xoff` (`x`, `x * 3`, `x * 4`). -/
def combineBytes (depth xoff : Nat) (dst_dib src_dib : FIBITMAP) (x y alpha : Nat) :
    Bool × FIBITMAP :=
  if dst_dib.bpp ≠ depth ∨ src_dib.bpp ≠ depth then (false, dst_dib)
  else if uadd x src_dib.width > dst_dib.width ∨ uadd y src_dib.height > dst_dib.height then
    (false, dst_dib)
  else
    let dst_bits := dst_dib.bits
      + umul (usub (usub dst_dib.height src_dib.height) y) dst_dib.pitch + xoff
    let src_bits := src_dib.bits
    if alpha > 255 then
      let r := rowLoop src_dib.height
        (copyRow (sourceMem dst_dib src_dib) (FreeImage_GetLine src_dib))
        dst_dib.pitch src_dib.pitch dst_dib.mem dst_bits src_bits
      (true, { dst_dib with mem := r.1 })
    else
      let r := rowLoop src_dib.height
        (blendRow (sourceMem dst_dib src_dib) (FreeImage_GetLine src_dib) alpha)
        dst_dib.pitch src_dib.pitch dst_dib.mem dst_bits src_bits
      (true, { dst_dib with mem := r.1 })

/-- The source function `Combine8`. -/
def Combine8 (dst_dib src_dib : FIBITMAP) (x y alpha : Nat) : Bool × FIBITMAP :=
  combineBytes 8 x dst_dib src_dib x y alpha

/-- The source function `Combine24`. -/
def Combine24 (dst_dib src_dib : FIBITMAP) (x y alpha : Nat) : Bool × FIBITMAP :=
  combineBytes 24 (umul x 3) dst_dib src_dib x y alpha

/-- The source function `Combine32`. -/
def Combine32 (dst_dib src_dib : FIBITMAP) (x y alpha : Nat) : Bool × FIBITMAP :=
  combineBytes 32 (umul x 4) dst_dib src_dib x y alpha

/-- One pixel of the blend branch of `Combine16_555`: unpack both pixels to
8-bit channels, blend each channel, repack. -/
def blendPixel555 (t1 t2 alpha : Nat) : Nat :=
  let s_red := (((t1 &&& FI16_555_RED_MASK) >>> FI16_555_RED_SHIFT) <<< 3) % 256
  let s_green := (((t1 &&& FI16_555_GREEN_MASK) >>> FI16_555_GREEN_SHIFT) <<< 3) % 256
  let s_blue := (((t1 &&& FI16_555_BLUE_MASK) >>> FI16_555_BLUE_SHIFT) <<< 3) % 256
  let t_red := (((t2 &&& FI16_555_RED_MASK) >>> FI16_555_RED_SHIFT) <<< 3) % 256
  let t_green := (((t2 &&& FI16_555_GREEN_MASK) >>> FI16_555_GREEN_SHIFT) <<< 3) % 256
  let t_blue := (((t2 &&& FI16_555_BLUE_MASK) >>> FI16_555_BLUE_SHIFT) <<< 3) % 256
  let r := blend t_red s_red alpha
  let g := blend t_green s_green alpha
  let b := blend t_blue s_blue alpha
  (RGB555 r g b) % 65536

/-- One pixel of the blend branch of `Combine16_565`. -/
def blendPixel565 (t1 t2 alpha : Nat) : Nat :=
  let s_red := (((t1 &&& FI16_565_RED_MASK) >>> FI16_565_RED_SHIFT) <<< 3) % 256
  let s_green := (((t1 &&& FI16_565_GREEN_MASK) >>> FI16_565_GREEN_SHIFT) <<< 2) % 256
  let s_blue := (((t1 &&& FI16_565_BLUE_MASK) >>> FI16_565_BLUE_SHIFT) <<< 3) % 256
  let t_red := (((t2 &&& FI16_565_RED_MASK) >>> FI16_565_RED_SHIFT) <<< 3) % 256
  let t_green := (((t2 &&& FI16_565_GREEN_MASK) >>> FI16_565_GREEN_SHIFT) <<< 2) % 256
  let t_blue := (((t2 &&& FI16_565_BLUE_MASK) >>> FI16_565_BLUE_SHIFT) <<< 3) % 256
  let r := blend t_red s_red alpha
  let g := blend t_green s_green alpha
  let b := blend t_blue s_blue alpha
  (RGB565 r g b) % 65536

/-- The blend branch of the 16-bit combiners: the loop
`for (cols = 0; cols < line; cols += 2)` runs `(line + 1) / 2` times, iteration
`k` handling `cols = 2 * k`; the source pixel is read from the source memory
`rd m` as it is at that moment. -/
def blendRow16 (pix : Nat → Nat → Nat → Nat) (rd : Mem → Mem) (line alpha : Nat)
    (m : Mem) (dst_bits src_bits : Nat) : Mem :=
  forLoop ((line + 1) / 2) (fun k m =>
    let cols := 2 * k
    store16 m (dst_bits + cols)
      (pix (read16 m (dst_bits + cols)) (read16 (rd m) (src_bits + cols)) alpha)) m

/-- The row `blendRow16` when the source does not share the buffer of the
destination: the call does not write the source buffer, whose content is
`srcm` at every read. -/
def blendRow16Sep (pix : Nat → Nat → Nat → Nat) (srcm : Mem) (line alpha : Nat)
    (m : Mem) (dst_bits src_bits : Nat) : Mem :=
  blendRow16 pix (fun _ => srcm) line alpha m dst_bits src_bits

/-- The common body of `Combine16_555` and `Combine16_565`, which differ in the
pixel blend. -/
def combine16 (pix : Nat → Nat → Nat → Nat) (dst_dib src_dib : FIBITMAP) (x y alpha : Nat) :
    Bool × FIBITMAP :=
  if dst_dib.bpp ≠ 16 ∨ src_dib.bpp ≠ 16 then (false, dst_dib)
  else if uadd x src_dib.width > dst_dib.width ∨ uadd y src_dib.height > dst_dib.height then
    (false, dst_dib)
  else
    let dst_bits := dst_dib.bits
      + umul (usub (usub dst_dib.height src_dib.height) y) dst_dib.pitch + umul x 2
    let src_bits := src_dib.bits
    if alpha > 255 then
      let r := rowLoop src_dib.height
        (copyRow (sourceMem dst_dib src_dib) (FreeImage_GetLine src_dib))
        dst_dib.pitch src_dib.pitch dst_dib.mem dst_bits src_bits
      (true, { dst_dib with mem := r.1 })
    else
      let r := rowLoop src_dib.height
        (blendRow16 pix (sourceMem dst_dib src_dib) (FreeImage_GetLine src_dib) alpha)
        dst_dib.pitch src_dib.pitch dst_dib.mem dst_bits src_bits
      (true, { dst_dib with mem := r.1 })

/-- The source function `Combine16_555`. -/
def Combine16_555 (dst_dib src_dib : FIBITMAP) (x y alpha : Nat) : Bool × FIBITMAP :=
  combine16 blendPixel555 dst_dib src_dib x y alpha

/-- The source function `Combine16_565`. -/
def Combine16_565 (dst_dib src_dib : FIBITMAP) (x y alpha : Nat) : Bool × FIBITMAP :=
  combine16 blendPixel565 dst_dib src_dib x y alpha

/-- The source function `CombineSameType`. -/
def CombineSameType (dst_dib src_dib : FIBITMAP) (x y : Nat) : Bool × FIBITMAP :=
  if dst_dib.imageType ≠ src_dib.imageType then (false, dst_dib)
  else
    let src_width := src_dib.width
    let src_height := src_dib.height
    let src_pitch := src_dib.pitch
    let src_line := FreeImage_GetLine src_dib
    let dst_width := dst_dib.width
    let dst_height := dst_dib.height
    let dst_pitch := dst_dib.pitch
    if uadd x src_width > dst_width ∨ uadd y src_height > dst_height then (false, dst_dib)
    else
      let dst_bits := dst_dib.bits + umul (usub (usub dst_height src_height) y) dst_pitch
        + umul x (src_line / src_width)
      let src_bits := src_dib.bits
      let r := rowLoop src_height (copyRow (sourceMem dst_dib src_dib) src_line)
        dst_pitch src_pitch dst_dib.mem dst_bits src_bits
      (true, { dst_dib with mem := r.1 })

/-! ## FreeImage interface -/

/-- The call `memcpy(FreeImage_GetPalette(dst), FreeImage_GetPalette(src), n * sizeof(FIRGBA8))`
seen on the destination palette. -/
def copyPalette (dst_pal src_pal : Option (Nat → FIRGBA8)) (n : Nat) : Option (Nat → FIRGBA8) :=
  match dst_pal, src_pal with
  | some dp, some sp => some (fun i => if i < n then sp i else dp i)
  | dp, _ => dp

/-- The 1-bit branch of the pixel copy of `FreeImage_Copy`; `left`, `dst_width`
and `dst_height` are non-negative when it runs. -/
def copyBits1 (srcm : Mem) (src_bits dst_bits : Nat) (src_pitch dst_pitch : Int)
    (left dst_width dst_height : Nat) (m : Mem) : Mem :=
  forLoop dst_height (fun y m =>
    let y_src := u32 ((y : Int) * src_pitch)
    let y_dst := u32 ((y : Int) * dst_pitch)
    forLoop dst_width (fun x m =>
      let value :=
        (srcm (src_bits + uadd y_src ((left + x) >>> 3)) &&& (0x80 >>> ((left + x) &&& 0x07))) ≠ 0
      let a := dst_bits + uadd y_dst (x >>> 3)
      if value then store m a ((m a ||| (0x80 >>> (x &&& 0x7))) % 256)
      else store m a ((m a &&& (0xff7f >>> (x &&& 0x7))) % 256)) m) m

/-- The 4-bit branch of the pixel copy of `FreeImage_Copy`; `~` is the 32-bit
complement. -/
def copyBits4 (srcm : Mem) (src_bits dst_bits : Nat) (src_pitch dst_pitch : Int)
    (left dst_width dst_height : Nat) (m : Mem) : Mem :=
  forLoop dst_height (fun y m =>
    let y_src := u32 ((y : Int) * src_pitch)
    let y_dst := u32 ((y : Int) * dst_pitch)
    forLoop dst_width (fun x m =>
      let shift := ((1 - (left + x) % 2) <<< 2) % 256
      let value :=
        ((srcm (src_bits + uadd y_src ((left + x) >>> 1)) &&& (0x0F <<< shift)) >>> shift) % 256
      let shift := ((1 - x % 2) <<< 2) % 256
      let a := dst_bits + uadd y_dst (x >>> 1)
      let m1 := store m a ((m a &&& (4294967295 - (0x0F <<< shift))) % 256)
      store m1 a ((m1 a ||| ((value &&& 0x0F) <<< shift)) % 256)) m) m

/-- The branch `bpp >= 8` of the pixel copy of `FreeImage_Copy`: one `memcpy` of
`dst_line` bytes per row. -/
def copyBits8 (srcm : Mem) (src_bits dst_bits : Nat) (src_pitch dst_pitch dst_line : Int)
    (dst_height : Nat) (m : Mem) : Mem :=
  forLoop dst_height (fun y m =>
    memcpy m ((dst_bits : Int) + (y : Int) * dst_pitch).toNat srcm
      ((src_bits : Int) + (y : Int) * src_pitch).toNat dst_line.toNat) m

/-- The source function `FreeImage_Copy`; `none` is the null result.  The
clones of metadata, transparency table, background colour, resolution and ICC
profile do not touch the fields modelled here.  The quotient `line / width` is
evaluated with Lean's division (a zero width has no defined result in C).  The
result owns the pixel buffer that `FreeImage_AllocateT` has just allocated; its
name follows the name of the source buffer, so that it is the buffer of neither
the source nor a view of the source. -/
def FreeImage_Copy (env : Collaborators) (src : FIBITMAP) (left top right bottom : Int) :
    Option FIBITMAP :=
  if !src.hasPixels then none
  else
    let lr : Int × Int := if right < left then (right, left) else (left, right)
    let tb : Int × Int := if bottom < top then (bottom, top) else (top, bottom)
    let left := lr.1
    let right := lr.2
    let top := tb.1
    let bottom := tb.2
    let src_width := i32 src.width
    let src_height := i32 src.height
    if left < 0 ∨ right > src_width ∨ top < 0 ∨ bottom > src_height then none
    else
      let bpp := src.bpp
      let dst_width := right - left
      let dst_height := bottom - top
      match env.allocateT src.imageType dst_width dst_height bpp
          src.redMask src.greenMask src.blueMask with
      | none => none
      | some dst =>
        let dst_line := i32 (FreeImage_GetLine dst)
        let dst_pitch := i32 dst.pitch
        let src_pitch := i32 src.pitch
        let src_bits0 := FreeImage_GetScanLine src (src_height - top - dst_height)
        let src_bits :=
          if bpp = 1 then src_bits0
          else if bpp = 4 then src_bits0
          else src_bits0 + umul (u32 left) (FreeImage_GetLine src / src.width)
        let dst_bits := dst.bits
        let pal := copyPalette dst.palette src.palette src.colorsUsed
        let m :=
          if bpp = 1 then
            copyBits1 src.mem src_bits dst_bits src_pitch dst_pitch
              left.toNat dst_width.toNat dst_height.toNat dst.mem
          else if bpp = 4 then
            copyBits4 src.mem src_bits dst_bits src_pitch dst_pitch
              left.toNat dst_width.toNat dst_height.toNat dst.mem
          else if bpp ≥ 8 then
            copyBits8 src.mem src_bits dst_bits src_pitch dst_pitch dst_line
              dst_height.toNat dst.mem
          else dst.mem
        some { dst with
          palette := pal, mem := m, buffer := src.buffer + 1, externalBits := false }

/-- The promotion step of `FreeImage_Paste`: the bitmap handed to the combiner,
or `none` when the function returns `FALSE` (no promotion path, demotion, or a
null clone). -/
def promote (env : Collaborators) (dst src : FIBITMAP) (isRGB565 : Bool) : Option FIBITMAP :=
  let bpp_src := src.bpp
  let bpp_dst := dst.bpp
  if bpp_dst = bpp_src then some src
  else if bpp_dst > bpp_src then
    if bpp_dst = 4 then env.convertTo4Bits src
    else if bpp_dst = 8 then env.convertTo8Bits src
    else if bpp_dst = 16 then
      (if isRGB565 then env.convertTo16Bits565 src else env.convertTo16Bits555 src)
    else if bpp_dst = 24 then env.convertTo24Bits src
    else if bpp_dst = 32 then env.convertTo32Bits src
    else none
  else none

/-- The source function `FreeImage_Paste`: the returned flag and the
destination after the call. -/
def FreeImage_Paste (env : Collaborators) (dst src : FIBITMAP) (left top alpha : Int) :
    Bool × FIBITMAP :=
  if !src.hasPixels || !dst.hasPixels then (false, dst)
  else if left < 0 ∨ top < 0 then (false, dst)
  else if uadd (u32 left) src.width > dst.width ∨ uadd (u32 top) src.height > dst.height then
    (false, dst)
  else
    let image_type := dst.imageType
    if image_type ≠ src.imageType then (false, dst)
    else if image_type = FIT_BITMAP then
      let isRGB565 : Bool :=
        decide (dst.redMask = FI16_565_RED_MASK ∧ dst.greenMask = FI16_565_GREEN_MASK
          ∧ dst.blueMask = FI16_565_BLUE_MASK)
      match promote env dst src isRGB565 with
      | none => (false, dst)
      | some clone =>
        if dst.bpp = 1 then Combine1 dst clone (u32 left) (u32 top) (u32 alpha)
        else if dst.bpp = 4 then Combine4 env dst clone (u32 left) (u32 top) (u32 alpha)
        else if dst.bpp = 8 then Combine8 dst clone (u32 left) (u32 top) (u32 alpha)
        else if dst.bpp = 16 then
          (if isRGB565 then Combine16_565 dst clone (u32 left) (u32 top) (u32 alpha)
           else Combine16_555 dst clone (u32 left) (u32 top) (u32 alpha))
        else if dst.bpp = 24 then Combine24 dst clone (u32 left) (u32 top) (u32 alpha)
        else if dst.bpp = 32 then Combine32 dst clone (u32 left) (u32 top) (u32 alpha)
        else (false, dst)
    else CombineSameType dst src (u32 left) (u32 top)

/-- The source function `FreeImage_CreateView`; `none` is the null result.  The
view has external bits: it refers to the pixel buffer of `dib`, and its pixel
pointer is the computed address in it. -/
def FreeImage_CreateView (env : Collaborators) (dib : FIBITMAP) (left top right bottom : Nat) :
    Option FIBITMAP :=
  if !dib.hasPixels then none
  else
    let lr : Nat × Nat := if right < left then (right, left) else (left, right)
    let tb : Nat × Nat := if bottom < top then (bottom, top) else (top, bottom)
    let left := lr.1
    let right := lr.2
    let top := tb.1
    let bottom := tb.2
    let width := dib.width
    let height := dib.height
    if left < 0 ∨ right > width ∨ top < 0 ∨ bottom > height then none
    else
      let bpp := dib.bpp
      let bits := FreeImage_GetScanLine dib (i32 (usub height bottom))
      let start : Option Nat :=
        if bpp = 1 then (if left % 8 ≠ 0 then none else some (bits + left / 8))
        else if bpp = 4 then (if left % 2 ≠ 0 then none else some (bits + left / 2))
        else some (bits + umul left (bpp / 8))
      match start with
      | none => none
      | some bits =>
        match env.allocateHeaderForBits dib.mem bits dib.pitch dib.imageType
            (i32 (usub right left)) (i32 (usub bottom top)) bpp
            dib.redMask dib.greenMask dib.blueMask with
        | none => none
        | some dst =>
          some { dst with
            palette := copyPalette dst.palette dib.palette dib.colorsUsed,
            buffer := dib.buffer, externalBits := true }

/-! ## Pixels at logical coordinates -/

/-- The value of the pixel at logical position `(i, j)` (column `i`, row `j`,
origin at the top left): buffer row `height - 1 - j`; the bit for 1-bit images
(`byte = col >> 3`, mask `0x80 >> (col & 7)`), the nibble for 4-bit images (high
nibble first), otherwise the `bpp / 8` bytes of the pixel. -/
def getPixel (dib : FIBITMAP) (i j : Nat) : List Nat :=
  let row := dib.bits + dib.pitch * (dib.height - 1 - j)
  if dib.bpp = 1 then
    [if dib.mem (row + (i >>> 3)) &&& (0x80 >>> (i &&& 7)) ≠ 0 then 1 else 0]
  else if dib.bpp = 4 then
    [(dib.mem (row + (i >>> 1)) &&& (0x0F <<< ((1 - i % 2) <<< 2))) >>> ((1 - i % 2) <<< 2)]
  else (List.range (dib.bpp / 8)).map (fun k => dib.mem (row + i * (dib.bpp / 8) + k))

/-- The storage location of the pixel at logical position `(i, j)`: the address
of its first byte, and the bit position (1-bit) or nibble shift (4-bit) in it. -/
def pixelLoc (dib : FIBITMAP) (i j : Nat) : Nat × Nat :=
  let row := dib.bits + dib.pitch * (dib.height - 1 - j)
  if dib.bpp = 1 then (row + (i >>> 3), i &&& 7)
  else if dib.bpp = 4 then (row + (i >>> 1), (1 - i % 2) <<< 2)
  else (row + i * (dib.bpp / 8), 0)

/-- Well-formed bitmap: dimensions fit an `int`, a row fits the pitch, and the
pixel buffer is addressable with 32-bit offsets. -/
structure FIBITMAP.WF (dib : FIBITMAP) : Prop where
  width_lt : dib.width < 2147483648
  height_lt : dib.height < 2147483648
  line_le : FreeImage_GetLine dib ≤ dib.pitch
  size_lt : dib.height * dib.pitch < 2147483648
  pitch_lt : dib.pitch < 2147483648

/-! ## Bit rows -/

/-- The bit at column `col` of the row starting at address `row`
(`byte = col >> 3`, mask `0x80 >> (col & 7)`). -/
def bitAt (m : Mem) (row col : Nat) : Bool :=
  decide (m (row + (col >>> 3)) &&& (0x80 >>> (col &&& 7)) ≠ 0)

/-- The column loop common to `Combine1` and to the 1-bit branch of
`FreeImage_Copy`, without wrap-around: for every `c < n` the bit at column
`doff + c` of the destination row is set or cleared according to the bit at
column `soff + c` of the source row. -/
def bitRow (srcm : Mem) (soff doff n : Nat) (m : Mem) (da sa : Nat) : Mem :=
  forLoop n (fun c m =>
    let value := (srcm (sa + ((soff + c) >>> 3)) &&& (0x80 >>> ((soff + c) &&& 0x07))) ≠ 0
    let a := da + ((doff + c) >>> 3)
    if value then store m a ((m a ||| (0x80 >>> ((doff + c) &&& 0x7))) % 256)
    else store m a ((m a &&& (0xFF7F >>> ((doff + c) &&& 0x7))) % 256)) m

/-- What a successful call `FreeImage_AllocateT(type, width, height, bpp, masks)`
returns, as far as this file relies on it: a well-formed bitmap with pixels of
the requested type, size and depth. -/
structure Allocated (d : FIBITMAP) (ty : Nat) (w h : Int) (bpp : Nat) : Prop where
  wf : d.WF
  hasPixels : d.hasPixels = true
  imageType : d.imageType = ty
  width : (d.width : Int) = w
  height : (d.height : Int) = h
  bpp : d.bpp = bpp

/-! ## Nibble rows -/

/-- The nibble at column `col` of the row starting at address `row` (high
nibble first). -/
def nibAt (m : Mem) (row col : Nat) : Nat :=
  (m (row + (col >>> 1)) &&& (0x0F <<< ((1 - col % 2) <<< 2))) >>> ((1 - col % 2) <<< 2)

/-- The column loop of the 4-bit branch of `FreeImage_Copy`, without
wrap-around: for every `c < n` the nibble at column `doff + c` of the
destination row receives the nibble at column `soff + c` of the source row. -/
def nibRow (srcm : Mem) (soff doff n : Nat) (m : Mem) (da sa : Nat) : Mem :=
  forLoop n (fun c m =>
    let shift := ((1 - (soff + c) % 2) <<< 2) % 256
    let value := ((srcm (sa + ((soff + c) >>> 1)) &&& (0x0F <<< shift)) >>> shift) % 256
    let shift := ((1 - (doff + c) % 2) <<< 2) % 256
    let a := da + ((doff + c) >>> 1)
    let m1 := store m a ((m a &&& (4294967295 - (0x0F <<< shift))) % 256)
    store m1 a ((m1 a ||| ((value &&& 0x0F) <<< shift)) % 256)) m

/-- What a successful call `FreeImage_AllocateHeaderForBits(ext_bits, ext_pitch,
type, width, height, bpp, masks)` returns, as far as this file relies on it: a
header of the requested size and depth whose pixel pointer is `ext_bits` and
whose pitch is `ext_pitch`. -/
structure HeaderFor (d : FIBITMAP) (m : Mem) (bits pitch : Nat) (w h : Int) (bpp : Nat) :
    Prop where
  mem : d.mem = m
  bits : d.bits = bits
  pitch : d.pitch = pitch
  width : (d.width : Int) = w
  height : (d.height : Int) = h
  bpp : d.bpp = bpp

/-- The header allocator of `env` returns headers as requested. -/
def HeaderSpec (env : Collaborators) : Prop :=
  ∀ m bits pitch ty w h bpp rm gm bm d,
    env.allocateHeaderForBits m bits pitch ty w h bpp rm gm bm = some d →
      HeaderFor d m bits pitch w h bpp

/-- Column byte offset of a view: `left / 8` for 1-bit, `left / 2` for 4-bit,
otherwise `left * (bpp / 8)`. -/
def viewColumnOffset (bpp left : Nat) : Nat :=
  if bpp = 1 then left / 8 else if bpp = 4 then left / 2 else left * (bpp / 8)

/-- The byte written by the remap loop of `Combine4` for the source byte `b`:
both nibbles looked up in the swap table. -/
def remapByte (table : Nat → Nat) (b : Nat) : Nat :=
  ((table (HINIBBLE b >>> 4) <<< 4) + table (LOWNIBBLE b)) % 256

/-! ## The nearest palette entry of the specification -/

/-- The distance of the specification between two palette entries:
`|Δr| + |Δg| + |Δb|`, as a natural number (no 16-bit truncation). -/
def specDistance (s d : FIRGBA8) : Nat :=
  Int.natAbs ((s.red : Int) - (d.red : Int)) + Int.natAbs ((s.green : Int) - (d.green : Int))
    + Int.natAbs ((s.blue : Int) - (d.blue : Int))

/-- A palette entry whose red, green and blue channels are bytes, as the
`uint8_t` members of `FIRGBA8` are. -/
def FIRGBA8.IsBytes (e : FIRGBA8) : Prop := e.red < 256 ∧ e.green < 256 ∧ e.blue < 256

/-- The nearest destination entry as the specification words it: scan the
indices 0..15 in order without early exit and keep the first index of the
smallest distance. -/
def specNearest (s : FIRGBA8) (dst_pal : Nat → FIRGBA8) : Nat :=
  forLoop 16 (fun j best =>
    if specDistance s (dst_pal j) < specDistance s (dst_pal best) then j else best) 0

/-- The channel field of a 16-bit pixel as the 16-bit combiners extract it:
`(pixel & mask) >> shift`. -/
def field16 (mask shift pixel : Nat) : Nat := (pixel &&& mask) >>> shift

/-- The statement `byte &= (0xFF7F >> s)` of `Combine1` and of the 1-bit branch
of `FreeImage_Copy`: the value left in the `uint8_t` cell. -/
def clearBit (byte s : Nat) : Nat := (byte &&& (0xFF7F >>> s)) % 256

/-! ## Sample inputs -/

/-- An owning bitmap of the standard family with the given depth, size, pitch
and pixel memory, without palette and with unset channel masks; its buffer has
the name 0. -/
def sampleBitmap (bpp w h pitch : Nat) (m : Mem) : FIBITMAP :=
  { hasPixels := true, imageType := FIT_BITMAP, width := w, height := h, bpp := bpp,
    pitch := pitch, redMask := 0, greenMask := 0, blueMask := 0, colorsUsed := 0,
    palette := none, mem := m, bits := 0 }

/-- Modelled from the spec: a sample allocator result, a zero-filled owning
bitmap of the requested type, size, depth and masks whose pitch is the line
rounded up to a multiple of 4. -/
def sampleAlloc (ty : Nat) (w h : Int) (bpp rm gm bm : Nat) : FIBITMAP :=
  { hasPixels := true, imageType := ty, width := w.toNat, height := h.toNat,
    bpp := bpp, pitch := (((w.toNat * bpp + 7) / 8 + 3) / 4) * 4,
    redMask := rm, greenMask := gm, blueMask := bm, colorsUsed := 0,
    palette := none, mem := fun _ => 0, bits := 0 }

/-- Modelled from the spec: a sample header for external bits, a header of the
requested geometry that aliases the given memory at the given address with the
given pitch. -/
def sampleHeader (m : Mem) (bits pitch ty : Nat) (w h : Int) (bpp rm gm bm : Nat) : FIBITMAP :=
  { hasPixels := true, imageType := ty, width := w.toNat, height := h.toNat,
    bpp := bpp, pitch := pitch, redMask := rm, greenMask := gm, blueMask := bm,
    colorsUsed := 0, palette := none, mem := m, bits := bits }

/-- Modelled from the spec: a sample set of collaborators in which allocation
(of non-negative sizes) and `malloc` succeed and no promotion is available. -/
def sampleEnv : Collaborators :=
  { allocateT := fun ty w h bpp rm gm bm =>
      if w < 0 ∨ h < 0 then none else some (sampleAlloc ty w h bpp rm gm bm),
    allocateHeaderForBits := fun m bits pitch ty w h bpp rm gm bm =>
      if w < 0 ∨ h < 0 then none else some (sampleHeader m bits pitch ty w h bpp rm gm bm),
    convertTo4Bits := fun _ => none,
    convertTo8Bits := fun _ => none,
    convertTo16Bits555 := fun _ => none,
    convertTo16Bits565 := fun _ => none,
    convertTo24Bits := fun _ => none,
    convertTo32Bits := fun _ => none,
    mallocOk := fun _ => true }

/-- A palette that is black except for one white entry at index `k`. -/
def onePalette (k : Nat) : Nat → FIRGBA8 :=
  fun i => if i = k then { red := 255, green := 255, blue := 255, alpha := 0 }
    else { red := 0, green := 0, blue := 0, alpha := 0 }

/-- A 4-bit 2x1 bitmap whose first pixel has index `v` and whose palette is
`onePalette k`. -/
def samplePaletted (v k : Nat) : FIBITMAP :=
  { hasPixels := true, imageType := FIT_BITMAP, width := 2, height := 1, bpp := 4,
    pitch := 4, redMask := 0, greenMask := 0, blueMask := 0, colorsUsed := 16,
    palette := some (onePalette k), mem := fun a => if a = 0 then v * 16 else 0, bits := 0 }

/-- A 16-level grey palette: entry `i` has red, green and blue equal to `i`. -/
def grayPalette : Nat → FIRGBA8 :=
  fun i => { red := i, green := i, blue := i, alpha := 0 }

/-- A 4-bit bitmap of the standard family with the palette `grayPalette`. -/
def sampleGray (w h pitch : Nat) (m : Mem) : FIBITMAP :=
  { hasPixels := true, imageType := FIT_BITMAP, width := w, height := h, bpp := 4,
    pitch := pitch, redMask := 0, greenMask := 0, blueMask := 0, colorsUsed := 16,
    palette := some grayPalette, mem := m, bits := 0 }

/-- A memory that holds the bytes of a list at the addresses `0, 1, ...` and 0
elsewhere. -/
def sampleBytes (l : List Nat) : Mem := fun a => l.getD a 0

/-- The first `n` bytes of a memory. -/
def firstBytes (m : Mem) (n : Nat) : List Nat := (List.range n).map m

/-! ## Arithmetic lemmas -/

theorem uadd_eq {a b : Nat} (h : a + b < 4294967296) : uadd a b = a + b :=
  Nat.mod_eq_of_lt h

theorem usub_eq {a b : Nat} (ha : a < 4294967296) (h : b ≤ a) : usub a b = a - b := by
  unfold usub; omega

theorem umul_eq {a b : Nat} (h : a * b < 4294967296) : umul a b = a * b :=
  Nat.mod_eq_of_lt h

theorem u32_ofNat {n : Nat} (h : n < 4294967296) : u32 (n : Int) = n := by
  unfold u32; omega

theorem i32_eq {n : Nat} (h : n < 2147483648) : i32 n = (n : Int) := by
  unfold i32
  have h1 : n % 4294967296 = n := Nat.mod_eq_of_lt (by omega)
  rw [h1, if_pos h]

/-- The byte blend computes `floor((256 * d + (s - d) * alpha) / 256)` exactly:
nothing is lost in the unsigned 32-bit computation or in the cast to a byte. -/
theorem blend_eq_floor (s d alpha : Nat) (hs : s < 256) (hd : d < 256) (ha : alpha ≤ 255) :
    (blend s d alpha : Int) = (256 * (d : Int) + ((s : Int) - d) * alpha) / 256 := by
  unfold blend uadd umul u32
  simp only [Nat.shiftRight_eq_div_pow, Nat.shiftLeft_eq]
  rcases Nat.lt_or_ge s d with h | h
  · obtain ⟨p, hp⟩ : ∃ p : Nat, p = (d - s) * alpha := ⟨_, rfl⟩
    have hp1 : p ≤ (d - s) * 255 := hp ▸ Nat.mul_le_mul_left _ ha
    have e1 : (((s : Int) - d) % 4294967296).toNat = 4294967296 - (d - s) := by omega
    have e2 : (4294967296 - (d - s)) * alpha = 4294967296 * alpha - p := by
      rw [hp, Nat.sub_mul]
    have e3 : ((s : Int) - d) * alpha = - (p : Int) := by
      rw [hp, Nat.cast_mul, Nat.cast_sub h.le]; ring
    rw [e1, e2, e3]
    have : p ≤ 4294967296 * alpha := by
      have := Nat.mul_le_mul_right alpha (show d - s ≤ 4294967296 by omega)
      omega
    omega
  · obtain ⟨p, hp⟩ : ∃ p : Nat, p = (s - d) * alpha := ⟨_, rfl⟩
    have hp1 : p ≤ (s - d) * 255 := hp ▸ Nat.mul_le_mul_left _ ha
    have e1 : (((s : Int) - d) % 4294967296).toNat = s - d := by omega
    have e3 : ((s : Int) - d) * alpha = (p : Int) := by
      rw [hp, Nat.cast_mul, Nat.cast_sub h]
    rw [e1, ← hp, e3]
    omega

theorem int_addr (a y p : Nat) : ((a : Int) + (y : Int) * (p : Int)).toNat = a + y * p := by
  rw [← Nat.cast_mul, ← Nat.cast_add, Int.toNat_ofNat]

theorem u32_mul (y p : Nat) (h : y * p < 4294967296) : u32 ((y : Int) * (p : Int)) = y * p := by
  rw [← Nat.cast_mul]
  exact u32_ofNat h

/-! ## Loop lemmas -/

theorem forLoop_succ {σ : Type} (n : Nat) (body : Nat → σ → σ) (s : σ) :
    forLoop (n + 1) body s = body n (forLoop n body s) := rfl

theorem rowLoop_succ (n : Nat) (body : Mem → Nat → Nat → Mem) (dp sp : Nat)
    (m : Mem) (d s : Nat) :
    rowLoop (n + 1) body dp sp m d s =
      (body (rowLoop n body dp sp m d s).1 (rowLoop n body dp sp m d s).2.1
          (rowLoop n body dp sp m d s).2.2,
        (rowLoop n body dp sp m d s).2.1 + dp, (rowLoop n body dp sp m d s).2.2 + sp) := rfl

theorem rowLoop_ptrs (n : Nat) (body : Mem → Nat → Nat → Mem) (dp sp : Nat)
    (m : Mem) (d s : Nat) :
    (rowLoop n body dp sp m d s).2 = (d + n * dp, s + n * sp) := by
  induction n with
  | zero => simp [rowLoop, forLoop]
  | succ k ih =>
    rw [rowLoop_succ]
    simp only [ih]
    ext <;> simp <;> ring

/-- Frame property of a row loop: an address outside every row window keeps its
content, when the body writes only inside `[d, d + len)`. -/
theorem rowLoop_frame (body : Mem → Nat → Nat → Mem) (len dp sp : Nat)
    (hframe : ∀ m d s a, ¬ (d ≤ a ∧ a < d + len) → body m d s a = m a)
    (n : Nat) (m : Mem) (d s a : Nat)
    (hout : ∀ r, r < n → ¬ (d + r * dp ≤ a ∧ a < d + r * dp + len)) :
    (rowLoop n body dp sp m d s).1 a = m a := by
  induction n with
  | zero => rfl
  | succ k ih =>
    rw [rowLoop_succ]
    have hp := rowLoop_ptrs k body dp sp m d s
    simp only [hp]
    rw [hframe _ _ _ _ (hout k (Nat.lt_succ_self k))]
    exact ih (fun r hr => hout r (Nat.lt_succ_of_lt hr))

/-- Row property of a row loop: inside the window of row `r` the final memory
is what the body computes for row `r` from the initial memory, when the body
is local to its window and the windows do not overlap (`len ≤ dp`). -/
theorem rowLoop_row (body : Mem → Nat → Nat → Mem) (len dp sp : Nat)
    (hframe : ∀ m d s a, ¬ (d ≤ a ∧ a < d + len) → body m d s a = m a)
    (hlocal : ∀ m m' d s, (∀ a, d ≤ a → a < d + len → m a = m' a) →
      ∀ a, d ≤ a → a < d + len → body m d s a = body m' d s a)
    (hlen : len ≤ dp)
    (n : Nat) (m : Mem) (d s r a : Nat) (hr : r < n)
    (h1 : d + r * dp ≤ a) (h2 : a < d + r * dp + len) :
    (rowLoop n body dp sp m d s).1 a = body m (d + r * dp) (s + r * sp) a := by
  induction n with
  | zero => omega
  | succ k ih =>
    rw [rowLoop_succ]
    have hp := rowLoop_ptrs k body dp sp m d s
    simp only [hp]
    rcases Nat.lt_or_ge r k with hlt | hge
    · have hmul : (r + 1) * dp ≤ k * dp := Nat.mul_le_mul_right dp hlt
      rw [hframe _ _ _ _ (by rw [Nat.add_mul] at hmul; omega)]
      exact ih hlt
    · have hrk : r = k := by omega
      subst hrk
      apply hlocal _ _ _ _ _ a h1 h2
      intro b hb1 hb2
      apply rowLoop_frame body len dp sp hframe
      intro r' hr'
      have hmul : (r' + 1) * dp ≤ r * dp := Nat.mul_le_mul_right dp hr'
      rw [Nat.add_mul] at hmul
      omega

/-- Row property of a row loop without locality: inside the window of row `r`
the final memory is what the body computes for row `r` from the memory left by
the rows before it. -/
theorem rowLoop_row_live (body : Mem → Nat → Nat → Mem) (len dp sp : Nat)
    (hframe : ∀ m d s a, ¬ (d ≤ a ∧ a < d + len) → body m d s a = m a)
    (hlen : len ≤ dp)
    (n : Nat) (m : Mem) (d s r a : Nat) (hr : r < n) (h2 : a < d + r * dp + len) :
    (rowLoop n body dp sp m d s).1 a
      = body (rowLoop r body dp sp m d s).1 (d + r * dp) (s + r * sp) a := by
  induction n with
  | zero => omega
  | succ k ih =>
    rw [rowLoop_succ]
    have hp := rowLoop_ptrs k body dp sp m d s
    simp only [hp]
    rcases Nat.lt_or_ge r k with hlt | hge
    · have hmul : (r + 1) * dp ≤ k * dp := Nat.mul_le_mul_right dp hlt
      rw [hframe _ _ _ _ (by rw [Nat.add_mul] at hmul; omega)]
      exact ih hlt
    · have hrk : r = k := by omega
      subst hrk
      rfl

/-- The rows before row `r` leave the window of row `r` and everything after it
unchanged. -/
theorem rowLoop_before (body : Mem → Nat → Nat → Mem) (len dp sp : Nat)
    (hframe : ∀ m d s a, ¬ (d ≤ a ∧ a < d + len) → body m d s a = m a)
    (hlen : len ≤ dp) (r : Nat) (m : Mem) (d s a : Nat) (h1 : d + r * dp ≤ a) :
    (rowLoop r body dp sp m d s).1 a = m a := by
  apply rowLoop_frame body len dp sp hframe
  intro r' hr'
  have hmul : (r' + 1) * dp ≤ r * dp := Nat.mul_le_mul_right dp hr'
  rw [Nat.add_mul] at hmul
  omega

theorem forLoop_congr {σ : Type} (n : Nat) (f g : Nat → σ → σ) (s : σ)
    (h : ∀ i, i < n → ∀ t, f i t = g i t) : forLoop n f s = forLoop n g s := by
  induction n with
  | zero => rfl
  | succ k ih =>
    rw [forLoop_succ, forLoop_succ, ih (fun i hi t => h i (Nat.lt_succ_of_lt hi) t),
      h k (Nat.lt_succ_self k)]

/-! ## Bit masks -/

theorem and_two_pow_ne_zero (b k : Nat) : b &&& 2 ^ k ≠ 0 ↔ b.testBit k = true := by
  constructor
  · intro h
    by_contra hb
    apply h
    apply Nat.eq_of_testBit_eq
    intro i
    simp only [Nat.testBit_and, Nat.zero_testBit, Nat.testBit_two_pow]
    by_cases hki : k = i
    · subst hki; simp [hb]
    · simp [hki]
  · intro hb h
    have := congrArg (fun n => n.testBit k) h
    simp [Nat.testBit_two_pow_self, hb] at this

theorem mask_eq_two_pow (p : Nat) (hp : p < 8) : 0x80 >>> p = 2 ^ (7 - p) := by
  interval_cases p <;> rfl

theorem and_mask_ne_zero (b p : Nat) (hp : p < 8) :
    b &&& (0x80 >>> p) ≠ 0 ↔ b.testBit (7 - p) = true := by
  rw [mask_eq_two_pow p hp]; exact and_two_pow_ne_zero b _

theorem testBit_set_mask (p q : Nat) (hp : p < 8) (hq : q < 8) :
    (0x80 >>> q).testBit (7 - p) = decide (p = q) := by
  interval_cases p <;> interval_cases q <;> rfl

theorem testBit_clear_mask (p q : Nat) (hp : p < 8) (hq : q < 8) :
    (0xFF7F >>> q).testBit (7 - p) = decide (p ≠ q) := by
  interval_cases p <;> interval_cases q <;> rfl

/-- Setting bit `q` of a byte: bit `p` of the result. -/
theorem set_bit_test (b p q : Nat) (hp : p < 8) (hq : q < 8) :
    ((b ||| (0x80 >>> q)) % 256) &&& (0x80 >>> p) ≠ 0
      ↔ (p = q ∨ b &&& (0x80 >>> p) ≠ 0) := by
  rw [and_mask_ne_zero _ p hp, and_mask_ne_zero _ p hp]
  have h256 : (256 : Nat) = 2 ^ 8 := rfl
  rw [h256, Nat.testBit_mod_two_pow, Nat.testBit_or, testBit_set_mask p q hp hq]
  have : 7 - p < 8 := by omega
  simp [this]
  tauto

/-- Clearing bit `q` of a byte with the mask `0xFF7F >> q`: bit `p` of the result. -/
theorem clear_bit_test (b p q : Nat) (hp : p < 8) (hq : q < 8) :
    ((b &&& (0xFF7F >>> q)) % 256) &&& (0x80 >>> p) ≠ 0
      ↔ (p ≠ q ∧ b &&& (0x80 >>> p) ≠ 0) := by
  rw [and_mask_ne_zero _ p hp, and_mask_ne_zero _ p hp]
  have h256 : (256 : Nat) = 2 ^ 8 := rfl
  rw [h256, Nat.testBit_mod_two_pow, Nat.testBit_and, testBit_clear_mask p q hp hq]
  have : 7 - p < 8 := by omega
  simp [this]
  tauto

theorem and_seven (c : Nat) : c &&& 7 = c % 8 :=
  Nat.and_pow_two_sub_one_eq_mod c 3

theorem shiftRight_three (c : Nat) : c >>> 3 = c / 8 := by
  rw [Nat.shiftRight_eq_div_pow]

theorem forLoop_rows (body : Mem → Nat → Nat → Mem) (dp sp n : Nat) (m : Mem) (d s : Nat) :
    forLoop n (fun y m => body m (d + y * dp) (s + y * sp)) m
      = (rowLoop n body dp sp m d s).1 := by
  induction n with
  | zero => rfl
  | succ k ih =>
    rw [forLoop_succ, rowLoop_succ, ih]
    have hp := rowLoop_ptrs k body dp sp m d s
    simp only [hp]

/-! ## Row bodies -/

theorem store_apply (m : Mem) (a v i : Nat) : store m a v i = if i = a then v else m i := rfl

theorem memcpy_apply (dst : Mem) (d : Nat) (src : Mem) (s n a : Nat) :
    memcpy dst d src s n a = if d ≤ a ∧ a < d + n then src (s + (a - d)) else dst a := rfl

/-- A source that does not share the buffer of the destination is read from
its own buffer, whatever the call has written. -/
theorem sourceMem_sep (dst src : FIBITMAP) (h : sharesBuffer dst src = false) :
    sourceMem dst src = fun _ => src.mem := by
  funext m
  unfold sourceMem
  rw [if_neg (by rw [h]; exact Bool.false_ne_true)]

theorem copyRowSep_apply (srcm : Mem) (line : Nat) (m : Mem) (d s a : Nat) :
    copyRowSep srcm line m d s a = if d ≤ a ∧ a < d + line then srcm (s + (a - d)) else m a := rfl

theorem blendRowSep_apply (srcm : Mem) (line alpha : Nat) (m : Mem) (d s a : Nat) :
    blendRowSep srcm line alpha m d s a =
      if d ≤ a ∧ a < d + line then blend (srcm (s + (a - d))) (m a) alpha else m a := by
  induction line generalizing a with
  | zero =>
    have : ¬ (d ≤ a ∧ a < d + 0) := by omega
    rw [if_neg this]; rfl
  | succ k ih =>
    have hstep : blendRowSep srcm (k + 1) alpha m d s =
        store (blendRowSep srcm k alpha m d s) (d + k)
          (blend (srcm (s + k)) (blendRowSep srcm k alpha m d s (d + k)) alpha) := rfl
    rw [hstep, store_apply]
    by_cases hak : a = d + k
    · subst hak
      have hprev : blendRowSep srcm k alpha m d s (d + k) = m (d + k) := by
        rw [ih (d + k)]
        exact if_neg (by omega)
      rw [if_pos rfl, hprev, if_pos (by omega)]
      congr 2
      omega
    · rw [if_neg hak, ih]
      by_cases hin : d ≤ a ∧ a < d + k
      · rw [if_pos hin, if_pos (by omega)]
      · rw [if_neg hin, if_neg (by omega)]

theorem copyRowSep_frame (srcm : Mem) (line : Nat) (m : Mem) (d s a : Nat)
    (h : ¬ (d ≤ a ∧ a < d + line)) : copyRowSep srcm line m d s a = m a := by
  rw [copyRowSep_apply, if_neg h]

theorem blendRowSep_frame (srcm : Mem) (line alpha : Nat) (m : Mem) (d s a : Nat)
    (h : ¬ (d ≤ a ∧ a < d + line)) : blendRowSep srcm line alpha m d s a = m a := by
  rw [blendRowSep_apply, if_neg h]

theorem copyRowSep_local (srcm : Mem) (line : Nat) (m m' : Mem) (d s : Nat)
    (_h : ∀ a, d ≤ a → a < d + line → m a = m' a) (a : Nat) (h1 : d ≤ a) (h2 : a < d + line) :
    copyRowSep srcm line m d s a = copyRowSep srcm line m' d s a := by
  rw [copyRowSep_apply, copyRowSep_apply, if_pos ⟨h1, h2⟩, if_pos ⟨h1, h2⟩]

theorem blendRowSep_local (srcm : Mem) (line alpha : Nat) (m m' : Mem) (d s : Nat)
    (h : ∀ a, d ≤ a → a < d + line → m a = m' a) (a : Nat) (h1 : d ≤ a) (h2 : a < d + line) :
    blendRowSep srcm line alpha m d s a = blendRowSep srcm line alpha m' d s a := by
  rw [blendRowSep_apply, blendRowSep_apply, if_pos ⟨h1, h2⟩, if_pos ⟨h1, h2⟩, h a h1 h2]

theorem bitRow_succ (srcm : Mem) (soff doff k : Nat) (m : Mem) (da sa : Nat) :
    bitRow srcm soff doff (k + 1) m da sa =
      if (srcm (sa + ((soff + k) >>> 3)) &&& (0x80 >>> ((soff + k) &&& 0x07))) ≠ 0 then
        store (bitRow srcm soff doff k m da sa) (da + ((doff + k) >>> 3))
          ((bitRow srcm soff doff k m da sa (da + ((doff + k) >>> 3))
            ||| (0x80 >>> ((doff + k) &&& 0x7))) % 256)
      else
        store (bitRow srcm soff doff k m da sa) (da + ((doff + k) >>> 3))
          ((bitRow srcm soff doff k m da sa (da + ((doff + k) >>> 3))
            &&& (0xFF7F >>> ((doff + k) &&& 0x7))) % 256) := rfl

/-- A bit row writes only the bytes that hold the columns `doff .. doff + n - 1`. -/
theorem bitRow_frame (srcm : Mem) (soff doff n : Nat) (m : Mem) (da sa a : Nat)
    (h : ∀ c, c < n → a ≠ da + (doff + c) / 8) :
    bitRow srcm soff doff n m da sa a = m a := by
  induction n with
  | zero => rfl
  | succ k ih =>
    have hk : a ≠ da + ((doff + k) >>> 3) := by
      rw [shiftRight_three]; exact h k (Nat.lt_succ_self k)
    rw [bitRow_succ]
    split
    · rw [store_apply, if_neg hk]; exact ih (fun c hc => h c (Nat.lt_succ_of_lt hc))
    · rw [store_apply, if_neg hk]; exact ih (fun c hc => h c (Nat.lt_succ_of_lt hc))

/-- A bit row is byte-wise: the new content of a byte depends on its old
content only. -/
theorem bitRow_pointwise (srcm : Mem) (soff doff n : Nat) (m m' : Mem) (da sa a : Nat)
    (h : m a = m' a) :
    bitRow srcm soff doff n m da sa a = bitRow srcm soff doff n m' da sa a := by
  induction n with
  | zero => exact h
  | succ k ih =>
    rw [bitRow_succ, bitRow_succ]
    by_cases hk : a = da + ((doff + k) >>> 3)
    · subst hk
      split
      · rw [store_apply, store_apply, if_pos rfl, if_pos rfl, ih]
      · rw [store_apply, store_apply, if_pos rfl, if_pos rfl, ih]
    · split
      · rw [store_apply, store_apply, if_neg hk, if_neg hk, ih]
      · rw [store_apply, store_apply, if_neg hk, if_neg hk, ih]

theorem bitAt_iff (m : Mem) (row col : Nat) :
    bitAt m row col = true ↔ m (row + col / 8) &&& (0x80 >>> (col % 8)) ≠ 0 := by
  unfold bitAt
  rw [shiftRight_three, and_seven]
  exact decide_eq_true_iff

/-- Bit-level description of a bit row: the columns `doff .. doff + n - 1` of
the destination row receive the source bits, every other bit keeps its value. -/
theorem bitRow_bit (srcm : Mem) (soff doff n : Nat) (m : Mem) (da sa c : Nat) :
    bitAt (bitRow srcm soff doff n m da sa) da c =
      if doff ≤ c ∧ c < doff + n then bitAt srcm sa (soff + (c - doff)) else bitAt m da c := by
  induction n with
  | zero =>
    rw [if_neg (by omega)]; rfl
  | succ k ih =>
    have hp : c % 8 < 8 := Nat.mod_lt _ (by norm_num)
    have hq : (doff + k) % 8 < 8 := Nat.mod_lt _ (by norm_num)
    have hstep : bitAt (bitRow srcm soff doff (k + 1) m da sa) da c =
        if c = doff + k then bitAt srcm sa (soff + k)
        else bitAt (bitRow srcm soff doff k m da sa) da c := by
      rw [Bool.eq_iff_iff, bitAt_iff, bitRow_succ]
      simp only [shiftRight_three, and_seven]
      by_cases hv : srcm (sa + (soff + k) / 8) &&& (0x80 >>> ((soff + k) % 8)) ≠ 0
      · rw [if_pos hv, store_apply]
        have hsv : bitAt srcm sa (soff + k) = true := (bitAt_iff _ _ _).2 hv
        by_cases hbyte : c / 8 = (doff + k) / 8
        · rw [if_pos (by rw [hbyte]), set_bit_test _ _ _ hp hq]
          by_cases hck : c = doff + k
          · subst hck; simp [hsv]
          · rw [if_neg hck, bitAt_iff, hbyte]
            have : c % 8 ≠ (doff + k) % 8 := by omega
            simp [this]
        · have hck : c ≠ doff + k := fun e => hbyte (by rw [e])
          rw [if_neg (by omega), if_neg hck, bitAt_iff]
      · rw [if_neg hv, store_apply]
        have hsv : bitAt srcm sa (soff + k) = false := by
          rw [← Bool.not_eq_true, bitAt_iff]; exact hv
        by_cases hbyte : c / 8 = (doff + k) / 8
        · rw [if_pos (by rw [hbyte]), clear_bit_test _ _ _ hp hq]
          by_cases hck : c = doff + k
          · subst hck; simp [hsv]
          · rw [if_neg hck, bitAt_iff, hbyte]
            have : c % 8 ≠ (doff + k) % 8 := by omega
            simp [this]
        · have hck : c ≠ doff + k := fun e => hbyte (by rw [e])
          rw [if_neg (by omega), if_neg hck, bitAt_iff]
    rw [hstep]
    by_cases hck : c = doff + k
    · subst hck
      rw [if_pos rfl, if_pos (by omega)]
      congr 1
      omega
    · rw [if_neg hck, ih]
      by_cases hin : doff ≤ c ∧ c < doff + k
      · rw [if_pos hin, if_pos (by omega)]
      · rw [if_neg hin, if_neg (by omega)]

/-- Without wrap-around the row of `Combine1` is a bit row. -/
theorem combine1RowSep_eq (srcm : Mem) (x width : Nat) (m : Mem) (d s : Nat)
    (h : x + width ≤ 4294967296) :
    combine1RowSep srcm x width m d s = bitRow srcm 0 x width m d s := by
  unfold combine1RowSep combine1Row bitRow
  apply forLoop_congr
  intro i hi t
  rw [uadd_eq (by omega), Nat.zero_add]

/-! ## Geometry of a fitting paste -/

theorem line_mono (dst src : FIBITMAP) (hb : src.bpp = dst.bpp) (hw : src.width ≤ dst.width) :
    FreeImage_GetLine src ≤ FreeImage_GetLine dst := by
  unfold FreeImage_GetLine
  rw [hb]
  have := Nat.mul_le_mul_right dst.bpp hw
  omega

/-- For a well-formed destination and a fitting origin the unsigned checks of
the combiners pass and the row offset is computed without wrap-around. -/
theorem fit_checks (dst src : FIBITMAP) (x y : Nat) (hd : dst.WF)
    (hx : x + src.width ≤ dst.width) (hy : y + src.height ≤ dst.height) :
    ¬ (uadd x src.width > dst.width ∨ uadd y src.height > dst.height)
      ∧ umul (usub (usub dst.height src.height) y) dst.pitch
          = (dst.height - src.height - y) * dst.pitch := by
  have hw := hd.width_lt
  have hh := hd.height_lt
  have hs := hd.size_lt
  refine ⟨?_, ?_⟩
  · rw [uadd_eq (by omega), uadd_eq (by omega)]; omega
  · have e1 : usub dst.height src.height = dst.height - src.height :=
      usub_eq (by omega) (by omega)
    rw [e1, usub_eq (by omega) (by omega)]
    apply umul_eq
    have := Nat.mul_le_mul_right dst.pitch (show dst.height - src.height - y ≤ dst.height by omega)
    omega

/-! ## The byte combiners -/

theorem combineBytes_fit_live (depth xoff : Nat) (dst src : FIBITMAP) (x y alpha : Nat)
    (hd : dst.WF) (hdb : dst.bpp = depth) (hsb : src.bpp = depth)
    (hx : x + src.width ≤ dst.width) (hy : y + src.height ≤ dst.height) :
    combineBytes depth xoff dst src x y alpha =
      (true, { dst with mem :=
        (rowLoop src.height
          (if alpha > 255 then copyRow (sourceMem dst src) (FreeImage_GetLine src)
           else blendRow (sourceMem dst src) (FreeImage_GetLine src) alpha)
          dst.pitch src.pitch dst.mem
          (dst.bits + (dst.height - src.height - y) * dst.pitch + xoff) src.bits).1 }) := by
  obtain ⟨hchk, hoff⟩ := fit_checks dst src x y hd hx hy
  unfold combineBytes
  rw [if_neg (by simp [hdb, hsb]), if_neg hchk]
  simp only [hoff]
  by_cases ha : alpha > 255
  · simp only [if_pos ha]
  · simp only [if_neg ha]

theorem combineBytes_fit (depth xoff : Nat) (dst src : FIBITMAP) (x y alpha : Nat)
    (hd : dst.WF) (hdb : dst.bpp = depth) (hsb : src.bpp = depth)
    (hx : x + src.width ≤ dst.width) (hy : y + src.height ≤ dst.height)
    (hsep : sharesBuffer dst src = false) :
    combineBytes depth xoff dst src x y alpha =
      (true, { dst with mem :=
        (rowLoop src.height
          (if alpha > 255 then copyRowSep src.mem (FreeImage_GetLine src)
           else blendRowSep src.mem (FreeImage_GetLine src) alpha)
          dst.pitch src.pitch dst.mem
          (dst.bits + (dst.height - src.height - y) * dst.pitch + xoff) src.bits).1 }) := by
  rw [combineBytes_fit_live depth xoff dst src x y alpha hd hdb hsb hx hy,
    sourceMem_sep dst src hsep]
  rfl

theorem combineBytes_flag (depth xoff : Nat) (dst src : FIBITMAP) (x y alpha : Nat)
    (hd : dst.WF) (hdb : dst.bpp = depth) (hsb : src.bpp = depth)
    (hx : x + src.width ≤ dst.width) (hy : y + src.height ≤ dst.height) :
    (combineBytes depth xoff dst src x y alpha).1 = true := by
  rw [combineBytes_fit_live depth xoff dst src x y alpha hd hdb hsb hx hy]

theorem src_line_le_pitch (dst src : FIBITMAP) (x : Nat) (hd : dst.WF)
    (hb : src.bpp = dst.bpp) (hx : x + src.width ≤ dst.width) :
    FreeImage_GetLine src ≤ dst.pitch :=
  Nat.le_trans (line_mono dst src hb (by omega)) hd.line_le

/-- Blend branch: every byte of every pasted row is the blend of the source
byte and the old destination byte. -/
theorem combineBytes_blend (depth xoff : Nat) (dst src : FIBITMAP) (x y alpha : Nat)
    (hd : dst.WF) (hdb : dst.bpp = depth) (hsb : src.bpp = depth)
    (hx : x + src.width ≤ dst.width) (hy : y + src.height ≤ dst.height)
    (hsep : sharesBuffer dst src = false) (ha : alpha ≤ 255)
    (r c : Nat) (hr : r < src.height) (hc : c < FreeImage_GetLine src) :
    (combineBytes depth xoff dst src x y alpha).2.mem
        (dst.bits + (dst.height - src.height - y) * dst.pitch + xoff + r * dst.pitch + c)
      = blend (src.mem (src.bits + r * src.pitch + c))
          (dst.mem (dst.bits + (dst.height - src.height - y) * dst.pitch + xoff
            + r * dst.pitch + c)) alpha := by
  rw [combineBytes_fit depth xoff dst src x y alpha hd hdb hsb hx hy hsep]
  simp only [if_neg (show ¬ alpha > 255 by omega)]
  rw [rowLoop_row _ (FreeImage_GetLine src) dst.pitch src.pitch
    (blendRowSep_frame src.mem _ alpha) (blendRowSep_local src.mem _ alpha)
    (src_line_le_pitch dst src x hd (by rw [hsb, hdb]) hx) src.height dst.mem _ _ r _ hr
    (by omega) (by omega)]
  rw [blendRowSep_apply, if_pos (by omega)]
  congr 2
  omega

/-- Overwrite branch: every byte of every pasted row is the source byte. -/
theorem combineBytes_copy (depth xoff : Nat) (dst src : FIBITMAP) (x y alpha : Nat)
    (hd : dst.WF) (hdb : dst.bpp = depth) (hsb : src.bpp = depth)
    (hx : x + src.width ≤ dst.width) (hy : y + src.height ≤ dst.height)
    (hsep : sharesBuffer dst src = false) (ha : alpha > 255)
    (r c : Nat) (hr : r < src.height) (hc : c < FreeImage_GetLine src) :
    (combineBytes depth xoff dst src x y alpha).2.mem
        (dst.bits + (dst.height - src.height - y) * dst.pitch + xoff + r * dst.pitch + c)
      = src.mem (src.bits + r * src.pitch + c) := by
  rw [combineBytes_fit depth xoff dst src x y alpha hd hdb hsb hx hy hsep]
  simp only [if_pos ha]
  rw [rowLoop_row _ (FreeImage_GetLine src) dst.pitch src.pitch
    (copyRowSep_frame src.mem _) (copyRowSep_local src.mem _)
    (src_line_le_pitch dst src x hd (by rw [hsb, hdb]) hx) src.height dst.mem _ _ r _ hr
    (by omega) (by omega)]
  rw [copyRowSep_apply, if_pos (by omega)]
  congr 1
  omega

/-- Frame of the byte combiners: an address outside every pasted row window
keeps its content. -/
theorem combineBytes_frame (depth xoff : Nat) (dst src : FIBITMAP) (x y alpha : Nat)
    (hd : dst.WF) (hdb : dst.bpp = depth) (hsb : src.bpp = depth)
    (hx : x + src.width ≤ dst.width) (hy : y + src.height ≤ dst.height)
    (hsep : sharesBuffer dst src = false) (a : Nat)
    (hout : ∀ r, r < src.height →
      ¬ (dst.bits + (dst.height - src.height - y) * dst.pitch + xoff + r * dst.pitch ≤ a
        ∧ a < dst.bits + (dst.height - src.height - y) * dst.pitch + xoff + r * dst.pitch
              + FreeImage_GetLine src)) :
    (combineBytes depth xoff dst src x y alpha).2.mem a = dst.mem a := by
  rw [combineBytes_fit depth xoff dst src x y alpha hd hdb hsb hx hy hsep]
  by_cases ha : alpha > 255
  · simp only [if_pos ha]
    exact rowLoop_frame _ (FreeImage_GetLine src) dst.pitch src.pitch
      (copyRowSep_frame src.mem _) src.height dst.mem _ _ a hout
  · simp only [if_neg ha]
    exact rowLoop_frame _ (FreeImage_GetLine src) dst.pitch src.pitch
      (blendRowSep_frame src.mem _ alpha) src.height dst.mem _ _ a hout

/-- Column byte offset of the byte combiners: `x`, `x * 3`, `x * 4` do not wrap
for a fitting origin. -/
theorem xoff_eq (dst src : FIBITMAP) (x k : Nat) (hd : dst.WF) (hb : dst.bpp = 8 * k)
    (hx : x + src.width ≤ dst.width) : umul x k = x * k := by
  apply umul_eq
  have h1 := hd.line_le
  have h2 := hd.pitch_lt
  unfold FreeImage_GetLine at h1
  rw [hb] at h1
  have h3 : x * k ≤ dst.width * k := Nat.mul_le_mul_right k (by omega)
  have h4 : dst.width * (8 * k) = 8 * (dst.width * k) := by ring
  rw [h4] at h1
  omega

/-! ## The 1-bit combiner -/

theorem width_le_pitch1 (dst : FIBITMAP) (hd : dst.WF) (hb : dst.bpp = 1) :
    dst.width ≤ 8 * dst.pitch := by
  have h := hd.line_le
  unfold FreeImage_GetLine at h
  rw [hb] at h
  omega

theorem Combine1_fit_live (dst src : FIBITMAP) (x y alpha : Nat)
    (hd : dst.WF) (hdb : dst.bpp = 1) (hsb : src.bpp = 1)
    (hx : x + src.width ≤ dst.width) (hy : y + src.height ≤ dst.height) :
    Combine1 dst src x y alpha =
      (true, { dst with mem :=
        (rowLoop src.height (combine1Row (sourceMem dst src) x src.width)
          dst.pitch src.pitch dst.mem
          (dst.bits + (dst.height - src.height - y) * dst.pitch) src.bits).1 }) := by
  obtain ⟨hchk, hoff⟩ := fit_checks dst src x y hd hx hy
  unfold Combine1
  rw [if_neg (by simp [hdb, hsb]), if_neg hchk]
  simp only [hoff]

theorem Combine1_fit (dst src : FIBITMAP) (x y alpha : Nat)
    (hd : dst.WF) (hdb : dst.bpp = 1) (hsb : src.bpp = 1)
    (hx : x + src.width ≤ dst.width) (hy : y + src.height ≤ dst.height)
    (hsep : sharesBuffer dst src = false) :
    Combine1 dst src x y alpha =
      (true, { dst with mem :=
        (rowLoop src.height (bitRow src.mem 0 x src.width) dst.pitch src.pitch dst.mem
          (dst.bits + (dst.height - src.height - y) * dst.pitch) src.bits).1 }) := by
  have hw := hd.width_lt
  have hrow : combine1Row (fun _ => src.mem) x src.width
      = bitRow src.mem 0 x src.width := by
    funext m d s
    exact combine1RowSep_eq src.mem x src.width m d s (by omega)
  rw [Combine1_fit_live dst src x y alpha hd hdb hsb hx hy, sourceMem_sep dst src hsep, hrow]

/-- Bits of the pasted rows after `Combine1`: columns `x .. x + width - 1`
receive the source bits, the other columns of the row keep their bits. -/
theorem Combine1_bit (dst src : FIBITMAP) (x y alpha : Nat)
    (hd : dst.WF) (hdb : dst.bpp = 1) (hsb : src.bpp = 1)
    (hx : x + src.width ≤ dst.width) (hy : y + src.height ≤ dst.height)
    (hsep : sharesBuffer dst src = false)
    (r c : Nat) (hr : r < src.height) (hc : c < 8 * dst.pitch) :
    bitAt (Combine1 dst src x y alpha).2.mem
        (dst.bits + (dst.height - src.height - y) * dst.pitch + r * dst.pitch) c
      = if x ≤ c ∧ c < x + src.width then bitAt src.mem (src.bits + r * src.pitch) (c - x)
        else bitAt dst.mem
          (dst.bits + (dst.height - src.height - y) * dst.pitch + r * dst.pitch) c := by
  rw [Combine1_fit dst src x y alpha hd hdb hsb hx hy hsep]
  have hwp := width_le_pitch1 dst hd hdb
  have hframe : ∀ (m : Mem) (d s a : Nat), ¬ (d ≤ a ∧ a < d + dst.pitch) →
      bitRow src.mem 0 x src.width m d s a = m a := by
    intro m d s a ha
    apply bitRow_frame
    intro c' hc'
    omega
  have hlocal : ∀ (m m' : Mem) (d s : Nat), (∀ a, d ≤ a → a < d + dst.pitch → m a = m' a) →
      ∀ a, d ≤ a → a < d + dst.pitch →
        bitRow src.mem 0 x src.width m d s a = bitRow src.mem 0 x src.width m' d s a := by
    intro m m' d s h a h1 h2
    exact bitRow_pointwise _ _ _ _ _ _ _ _ _ (h a h1 h2)
  have hbyte := rowLoop_row (bitRow src.mem 0 x src.width) dst.pitch dst.pitch src.pitch
    hframe hlocal (Nat.le_refl _) src.height dst.mem
    (dst.bits + (dst.height - src.height - y) * dst.pitch) src.bits r
    (dst.bits + (dst.height - src.height - y) * dst.pitch + r * dst.pitch + c / 8) hr
    (by omega) (by omega)
  have hb1 : ∀ (m m' : Mem) (row : Nat), m (row + c / 8) = m' (row + c / 8) →
      bitAt m row c = bitAt m' row c := by
    intro m m' row h
    unfold bitAt
    rw [shiftRight_three, h]
  rw [hb1 _ _ _ hbyte, bitRow_bit]
  simp only [Nat.zero_add]

/-- Frame of `Combine1`: a byte outside the pasted rows keeps its content. -/
theorem Combine1_frame (dst src : FIBITMAP) (x y alpha : Nat)
    (hd : dst.WF) (hdb : dst.bpp = 1) (hsb : src.bpp = 1)
    (hx : x + src.width ≤ dst.width) (hy : y + src.height ≤ dst.height)
    (hsep : sharesBuffer dst src = false) (a : Nat)
    (hout : ∀ r, r < src.height →
      ¬ (dst.bits + (dst.height - src.height - y) * dst.pitch + r * dst.pitch ≤ a
        ∧ a < dst.bits + (dst.height - src.height - y) * dst.pitch + r * dst.pitch
              + dst.pitch)) :
    (Combine1 dst src x y alpha).2.mem a = dst.mem a := by
  rw [Combine1_fit dst src x y alpha hd hdb hsb hx hy hsep]
  have hwp := width_le_pitch1 dst hd hdb
  have hframe : ∀ (m : Mem) (d s a : Nat), ¬ (d ≤ a ∧ a < d + dst.pitch) →
      bitRow src.mem 0 x src.width m d s a = m a := by
    intro m d s a ha
    apply bitRow_frame
    intro c' hc'
    omega
  exact rowLoop_frame _ dst.pitch dst.pitch src.pitch hframe src.height dst.mem _ _ a hout

/-! ## The 16-bit combiners -/

theorem combine16_fit_live (pix : Nat → Nat → Nat → Nat) (dst src : FIBITMAP)
    (x y alpha : Nat)
    (hd : dst.WF) (hdb : dst.bpp = 16) (hsb : src.bpp = 16)
    (hx : x + src.width ≤ dst.width) (hy : y + src.height ≤ dst.height) :
    combine16 pix dst src x y alpha =
      (true, { dst with mem :=
        (rowLoop src.height
          (if alpha > 255 then copyRow (sourceMem dst src) (FreeImage_GetLine src)
           else blendRow16 pix (sourceMem dst src) (FreeImage_GetLine src) alpha)
          dst.pitch src.pitch dst.mem
          (dst.bits + (dst.height - src.height - y) * dst.pitch + x * 2) src.bits).1 }) := by
  obtain ⟨hchk, hoff⟩ := fit_checks dst src x y hd hx hy
  have hx2 : umul x 2 = x * 2 := xoff_eq dst src x 2 hd (by rw [hdb]) hx
  unfold combine16
  rw [if_neg (by simp [hdb, hsb]), if_neg hchk]
  simp only [hoff, hx2]
  by_cases ha : alpha > 255
  · simp only [if_pos ha]
  · simp only [if_neg ha]

theorem combine16_fit (pix : Nat → Nat → Nat → Nat) (dst src : FIBITMAP) (x y alpha : Nat)
    (hd : dst.WF) (hdb : dst.bpp = 16) (hsb : src.bpp = 16)
    (hx : x + src.width ≤ dst.width) (hy : y + src.height ≤ dst.height)
    (hsep : sharesBuffer dst src = false) :
    combine16 pix dst src x y alpha =
      (true, { dst with mem :=
        (rowLoop src.height
          (if alpha > 255 then copyRowSep src.mem (FreeImage_GetLine src)
           else blendRow16Sep pix src.mem (FreeImage_GetLine src) alpha)
          dst.pitch src.pitch dst.mem
          (dst.bits + (dst.height - src.height - y) * dst.pitch + x * 2) src.bits).1 }) := by
  rw [combine16_fit_live pix dst src x y alpha hd hdb hsb hx hy, sourceMem_sep dst src hsep]
  rfl

/-! ## Pixels of a pasted region -/

theorem line_of_bytes (d : FIBITMAP) (B : Nat) (hb : d.bpp = 8 * B) :
    FreeImage_GetLine d = d.width * B := by
  unfold FreeImage_GetLine
  rw [hb]
  have : d.width * (8 * B) = 8 * (d.width * B) := by ring
  omega

theorem pixel_byte_lt (w B i k : Nat) (hi : i < w) (hk : k < B) : i * B + k < w * B := by
  have h : (i + 1) * B ≤ w * B := Nat.mul_le_mul_right B hi
  rw [Nat.add_mul] at h
  omega

theorem row_addr (bits pitch H h y j : Nat) (hy : y + h ≤ H) (hj : j < h) :
    bits + pitch * (H - 1 - (y + j))
      = bits + (H - h - y) * pitch + (h - 1 - j) * pitch := by
  have e : H - 1 - (y + j) = (H - h - y) + (h - 1 - j) := by omega
  rw [e, Nat.mul_add, Nat.mul_comm pitch, Nat.mul_comm pitch, Nat.add_assoc]

theorem getPixel_bytes (d : FIBITMAP) (B i j : Nat) (hb : d.bpp = 8 * B) :
    getPixel d i j = (List.range B).map
      (fun k => d.mem (d.bits + d.pitch * (d.height - 1 - j) + i * B + k)) := by
  unfold getPixel
  have h1 : d.bpp ≠ 1 := by omega
  have h4 : d.bpp ≠ 4 := by omega
  have h8 : d.bpp / 8 = B := by omega
  simp only [if_neg h1, if_neg h4, h8]

theorem getPixel_bit (d : FIBITMAP) (i j : Nat) (hb : d.bpp = 1) :
    getPixel d i j =
      [if bitAt d.mem (d.bits + d.pitch * (d.height - 1 - j)) i = true then 1 else 0] := by
  unfold getPixel bitAt
  simp only [if_pos hb, decide_eq_true_eq]

/-- Pixels after an overwrite of whole rows: with `B` bytes per pixel, the
destination pixel at logical `(x + i, y + j)` is the source pixel at `(i, j)`. -/
theorem copyRows_getPixel (dst src : FIBITMAP) (B x y : Nat)
    (hd : dst.WF) (hdb : dst.bpp = 8 * B) (hsb : src.bpp = 8 * B)
    (hx : x + src.width ≤ dst.width) (hy : y + src.height ≤ dst.height)
    (i j : Nat) (hi : i < src.width) (hj : j < src.height) :
    getPixel { dst with mem :=
        (rowLoop src.height (copyRowSep src.mem (FreeImage_GetLine src)) dst.pitch src.pitch
          dst.mem (dst.bits + (dst.height - src.height - y) * dst.pitch + x * B) src.bits).1 }
        (x + i) (y + j)
      = getPixel src i j := by
  have hb' : ({ dst with mem :=
        (rowLoop src.height (copyRowSep src.mem (FreeImage_GetLine src)) dst.pitch src.pitch
          dst.mem (dst.bits + (dst.height - src.height - y) * dst.pitch + x * B) src.bits).1 }
      : FIBITMAP).bpp = 8 * B := hdb
  rw [getPixel_bytes _ B _ _ hb', getPixel_bytes src B i j hsb]
  apply List.map_congr_left
  intro k hk
  have hk' : k < B := List.mem_range.1 hk
  have hline := line_of_bytes src B hsb
  have hc := pixel_byte_lt src.width B i k hi hk'
  show (rowLoop src.height (copyRowSep src.mem (FreeImage_GetLine src)) dst.pitch src.pitch
          dst.mem (dst.bits + (dst.height - src.height - y) * dst.pitch + x * B) src.bits).1
        (dst.bits + dst.pitch * (dst.height - 1 - (y + j)) + (x + i) * B + k)
      = src.mem (src.bits + src.pitch * (src.height - 1 - j) + i * B + k)
  rw [row_addr dst.bits dst.pitch dst.height src.height y j hy hj]
  have hlen := src_line_le_pitch dst src x hd (by rw [hsb, hdb]) hx
  rw [rowLoop_row _ (FreeImage_GetLine src) dst.pitch src.pitch
    (copyRowSep_frame src.mem _) (copyRowSep_local src.mem _) hlen src.height dst.mem _ _
    (src.height - 1 - j) _ (by omega)
    (by rw [Nat.add_mul]; omega) (by rw [Nat.add_mul]; omega)]
  rw [copyRowSep_apply, if_pos (by rw [Nat.add_mul]; omega)]
  congr 1
  rw [Nat.add_mul, Nat.mul_comm src.pitch]
  omega

theorem Combine1_getPixel (dst src : FIBITMAP) (x y alpha : Nat)
    (hd : dst.WF) (hdb : dst.bpp = 1) (hsb : src.bpp = 1)
    (hx : x + src.width ≤ dst.width) (hy : y + src.height ≤ dst.height)
    (hsep : sharesBuffer dst src = false)
    (i j : Nat) (hi : i < src.width) (hj : j < src.height) :
    getPixel (Combine1 dst src x y alpha).2 (x + i) (y + j) = getPixel src i j := by
  have hbit := Combine1_bit dst src x y alpha hd hdb hsb hx hy hsep (src.height - 1 - j) (x + i)
    (by omega) (by have := width_le_pitch1 dst hd hdb; omega)
  rw [if_pos (by omega)] at hbit
  have hfit := Combine1_fit dst src x y alpha hd hdb hsb hx hy hsep
  have e1 : (Combine1 dst src x y alpha).2.bpp = 1 := by rw [hfit]; exact hdb
  have e2 : (Combine1 dst src x y alpha).2.bits = dst.bits := by rw [hfit]
  have e3 : (Combine1 dst src x y alpha).2.pitch = dst.pitch := by rw [hfit]
  have e4 : (Combine1 dst src x y alpha).2.height = dst.height := by rw [hfit]
  rw [getPixel_bit _ _ _ e1, getPixel_bit src i j hsb, e2, e3, e4,
    row_addr dst.bits dst.pitch dst.height src.height y j hy hj, hbit]
  have e5 : x + i - x = i := by omega
  rw [e5, Nat.mul_comm src.pitch]

theorem combineBytes_getPixel (B xoff : Nat) (dst src : FIBITMAP) (x y alpha : Nat)
    (hxoff : xoff = x * B)
    (hd : dst.WF) (hdb : dst.bpp = 8 * B) (hsb : src.bpp = 8 * B)
    (hx : x + src.width ≤ dst.width) (hy : y + src.height ≤ dst.height)
    (hsep : sharesBuffer dst src = false) (ha : alpha > 255)
    (i j : Nat) (hi : i < src.width) (hj : j < src.height) :
    getPixel (combineBytes (8 * B) xoff dst src x y alpha).2 (x + i) (y + j)
      = getPixel src i j := by
  rw [combineBytes_fit (8 * B) xoff dst src x y alpha hd hdb hsb hx hy hsep]
  simp only [if_pos ha, hxoff]
  exact copyRows_getPixel dst src B x y hd hdb hsb hx hy i j hi hj

theorem combine16_getPixel (pix : Nat → Nat → Nat → Nat) (dst src : FIBITMAP) (x y alpha : Nat)
    (hd : dst.WF) (hdb : dst.bpp = 16) (hsb : src.bpp = 16)
    (hx : x + src.width ≤ dst.width) (hy : y + src.height ≤ dst.height)
    (hsep : sharesBuffer dst src = false) (ha : alpha > 255)
    (i j : Nat) (hi : i < src.width) (hj : j < src.height) :
    getPixel (combine16 pix dst src x y alpha).2 (x + i) (y + j) = getPixel src i j := by
  rw [combine16_fit pix dst src x y alpha hd hdb hsb hx hy hsep]
  simp only [if_pos ha]
  exact copyRows_getPixel dst src 2 x y hd hdb hsb hx hy i j hi hj

/-! ## The 16-bit pixel blend at alpha 0 -/

theorem blend_zero (s d : Nat) (hd : d < 256) : blend s d 0 = d := by
  unfold blend uadd umul
  simp only [Nat.mul_zero, Nat.zero_mod, Nat.zero_add, Nat.shiftLeft_eq,
    Nat.shiftRight_eq_div_pow]
  omega

theorem and_mask_shift (t k n : Nat) :
    (t &&& ((2 ^ n - 1) <<< k)) >>> k = (t / 2 ^ k) % 2 ^ n := by
  apply Nat.eq_of_testBit_eq
  intro i
  rw [← Nat.shiftRight_eq_div_pow]
  simp only [Nat.testBit_shiftRight, Nat.testBit_and, Nat.testBit_shiftLeft,
    Nat.testBit_two_pow_sub_one, Nat.testBit_mod_two_pow]
  have e : k + i - k = i := by omega
  have e2 : k + i ≥ k := by omega
  simp only [e, e2, decide_True, Bool.true_and]
  exact Bool.and_comm _ _

theorem pack3 (a b c i j : Nat) (ha : a < 2 ^ i) (hb : b < 2 ^ (j - i)) (hij : i ≤ j) :
    (a <<< 0) ||| (b <<< i) ||| (c <<< j) = a + b * 2 ^ i + c * 2 ^ j := by
  have h1 : (a <<< 0) ||| (b <<< i) = 2 ^ i * b + a := by
    rw [Nat.shiftLeft_zero, Nat.or_comm, Nat.shiftLeft_eq, Nat.mul_comm b,
      ← Nat.mul_add_lt_is_or ha]
  have h2 : 2 ^ i * b + a < 2 ^ j := by
    have e : 2 ^ j = 2 ^ (j - i) * 2 ^ i := by rw [← Nat.pow_add]; congr 1; omega
    rw [e]
    have : (b + 1) * 2 ^ i ≤ 2 ^ (j - i) * 2 ^ i := Nat.mul_le_mul_right _ hb
    rw [Nat.add_mul, Nat.mul_comm b] at this
    omega
  rw [h1, Nat.or_comm, Nat.shiftLeft_eq, Nat.mul_comm c, ← Nat.mul_add_lt_is_or h2]
  ring

theorem unpack_565_red (t : Nat) :
    (((t &&& FI16_565_RED_MASK) >>> FI16_565_RED_SHIFT) <<< 3) % 256 = (t / 2048 % 32) * 8 := by
  have h := and_mask_shift t 11 5
  change (t &&& FI16_565_RED_MASK) >>> FI16_565_RED_SHIFT = t / 2048 % 32 at h
  rw [h, Nat.shiftLeft_eq]
  omega

theorem unpack_565_green (t : Nat) :
    (((t &&& FI16_565_GREEN_MASK) >>> FI16_565_GREEN_SHIFT) <<< 2) % 256 = (t / 32 % 64) * 4 := by
  have h := and_mask_shift t 5 6
  change (t &&& FI16_565_GREEN_MASK) >>> FI16_565_GREEN_SHIFT = t / 32 % 64 at h
  rw [h, Nat.shiftLeft_eq]
  omega

theorem unpack_565_blue (t : Nat) :
    (((t &&& FI16_565_BLUE_MASK) >>> FI16_565_BLUE_SHIFT) <<< 3) % 256 = (t % 32) * 8 := by
  have h := and_mask_shift t 0 5
  change (t &&& FI16_565_BLUE_MASK) >>> FI16_565_BLUE_SHIFT = t / 1 % 32 at h
  rw [h, Nat.shiftLeft_eq, Nat.div_one]
  omega

theorem unpack_555_red (t : Nat) :
    (((t &&& FI16_555_RED_MASK) >>> FI16_555_RED_SHIFT) <<< 3) % 256 = (t / 1024 % 32) * 8 := by
  have h := and_mask_shift t 10 5
  change (t &&& FI16_555_RED_MASK) >>> FI16_555_RED_SHIFT = t / 1024 % 32 at h
  rw [h, Nat.shiftLeft_eq]
  omega

theorem unpack_555_green (t : Nat) :
    (((t &&& FI16_555_GREEN_MASK) >>> FI16_555_GREEN_SHIFT) <<< 3) % 256 = (t / 32 % 32) * 8 := by
  have h := and_mask_shift t 5 5
  change (t &&& FI16_555_GREEN_MASK) >>> FI16_555_GREEN_SHIFT = t / 32 % 32 at h
  rw [h, Nat.shiftLeft_eq]
  omega

theorem unpack_555_blue (t : Nat) :
    (((t &&& FI16_555_BLUE_MASK) >>> FI16_555_BLUE_SHIFT) <<< 3) % 256 = (t % 32) * 8 := by
  have h := and_mask_shift t 0 5
  change (t &&& FI16_555_BLUE_MASK) >>> FI16_555_BLUE_SHIFT = t / 1 % 32 at h
  rw [h, Nat.shiftLeft_eq, Nat.div_one]
  omega

/-- `RGB565` of three 8-bit channels keeps the top 5, 6 and 5 bits. -/
theorem RGB565_eq (r g b : Nat) (hg : g < 256) (hb : b < 256) :
    RGB565 r g b = b / 8 + (g / 4) * 32 + (r / 8) * 2048 := by
  unfold RGB565
  simp only [Nat.shiftRight_eq_div_pow]
  exact pack3 (b / 2 ^ 3) (g / 2 ^ 2) (r / 2 ^ 3) 5 11
    (by have : b / 2 ^ 3 = b / 8 := rfl; omega) (by have : g / 2 ^ 2 = g / 4 := rfl; omega)
    (by omega)

/-- `RGB555` of three 8-bit channels keeps the top 5 bits of each. -/
theorem RGB555_eq (r g b : Nat) (hg : g < 256) (hb : b < 256) :
    RGB555 r g b = b / 8 + (g / 8) * 32 + (r / 8) * 1024 := by
  unfold RGB555
  simp only [Nat.shiftRight_eq_div_pow]
  exact pack3 (b / 2 ^ 3) (g / 2 ^ 3) (r / 2 ^ 3) 5 10
    (by have : b / 2 ^ 3 = b / 8 := rfl; omega) (by have : g / 2 ^ 3 = g / 8 := rfl; omega)
    (by omega)

theorem blendPixel565_zero (t1 t2 : Nat) (h : t1 < 65536) : blendPixel565 t1 t2 0 = t1 := by
  simp only [blendPixel565, unpack_565_red, unpack_565_green, unpack_565_blue]
  rw [blend_zero _ _ (by omega), blend_zero _ _ (by omega), blend_zero _ _ (by omega),
    RGB565_eq _ _ _ (by omega) (by omega)]
  omega

theorem blendPixel555_zero (t1 t2 : Nat) :
    blendPixel555 t1 t2 0 = t1 % 32768 := by
  simp only [blendPixel555, unpack_555_red, unpack_555_green, unpack_555_blue]
  rw [blend_zero _ _ (by omega), blend_zero _ _ (by omega), blend_zero _ _ (by omega),
    RGB555_eq _ _ _ (by omega) (by omega)]
  omega

/-! ## The 16-bit blend row -/

theorem store16_apply (m : Mem) (a v i : Nat) :
    store16 m a v i = if i = a + 1 then v / 256 % 256 else if i = a then v % 256 else m i := rfl

theorem blendRow16Sep_succ (pix : Nat → Nat → Nat → Nat) (srcm : Mem) (n alpha : Nat)
    (m : Mem) (d s : Nat) :
    forLoop (n + 1) (fun k m => store16 m (d + 2 * k)
        (pix (read16 m (d + 2 * k)) (read16 srcm (s + 2 * k)) alpha)) m
      = store16 (forLoop n (fun k m => store16 m (d + 2 * k)
            (pix (read16 m (d + 2 * k)) (read16 srcm (s + 2 * k)) alpha)) m) (d + 2 * n)
          (pix (read16 (forLoop n (fun k m => store16 m (d + 2 * k)
            (pix (read16 m (d + 2 * k)) (read16 srcm (s + 2 * k)) alpha)) m) (d + 2 * n))
            (read16 srcm (s + 2 * n)) alpha) := rfl

/-- Closed form of the pixel loop of the 16-bit blend: pixel `k` of the row is
replaced by `pix` of the old destination pixel and the source pixel. -/
theorem blendLoop16_apply (pix : Nat → Nat → Nat → Nat) (srcm : Mem) (n alpha : Nat)
    (m : Mem) (d s a : Nat) :
    forLoop n (fun k m => store16 m (d + 2 * k)
        (pix (read16 m (d + 2 * k)) (read16 srcm (s + 2 * k)) alpha)) m a
      = if d ≤ a ∧ a < d + 2 * n then
          (if (a - d) % 2 = 0 then
            pix (read16 m (d + 2 * ((a - d) / 2))) (read16 srcm (s + 2 * ((a - d) / 2))) alpha
              % 256
           else
            pix (read16 m (d + 2 * ((a - d) / 2))) (read16 srcm (s + 2 * ((a - d) / 2))) alpha
              / 256 % 256)
        else m a := by
  induction n generalizing a with
  | zero => rw [if_neg (by omega)]; rfl
  | succ k ih =>
    rw [blendRow16Sep_succ, store16_apply]
    have hread : read16 (forLoop k (fun k m => store16 m (d + 2 * k)
          (pix (read16 m (d + 2 * k)) (read16 srcm (s + 2 * k)) alpha)) m) (d + 2 * k)
        = read16 m (d + 2 * k) := by
      have e0 := ih (d + 2 * k)
      have e1 := ih (d + 2 * k + 1)
      rw [if_neg (by omega)] at e0 e1
      exact congrArg₂ (fun u v => u + 256 * v) e0 e1
    rw [hread]
    by_cases h1 : a = d + 2 * k + 1
    · subst h1
      have e1 : (d + 2 * k + 1 - d) / 2 = k := by omega
      have e2 : d ≤ d + 2 * k + 1 ∧ d + 2 * k + 1 < d + 2 * (k + 1) := by omega
      have e3 : ¬ (d + 2 * k + 1 - d) % 2 = 0 := by omega
      rw [if_pos rfl, if_pos e2, if_neg e3, e1]
    · rw [if_neg h1]
      by_cases h0 : a = d + 2 * k
      · subst h0
        have e1 : (d + 2 * k - d) / 2 = k := by omega
        have e2 : d ≤ d + 2 * k ∧ d + 2 * k < d + 2 * (k + 1) := by omega
        have e3 : (d + 2 * k - d) % 2 = 0 := by omega
        rw [if_pos rfl, if_pos e2, if_pos e3, e1]
      · rw [if_neg h0, ih a]
        by_cases hin : d ≤ a ∧ a < d + 2 * k
        · have hin' : d ≤ a ∧ a < d + 2 * (k + 1) := by omega
          rw [if_pos hin, if_pos hin']
        · have hin' : ¬ (d ≤ a ∧ a < d + 2 * (k + 1)) := by omega
          rw [if_neg hin, if_neg hin']

theorem blendRow16Sep_apply (pix : Nat → Nat → Nat → Nat) (srcm : Mem) (line alpha : Nat)
    (m : Mem) (d s a : Nat) :
    blendRow16Sep pix srcm line alpha m d s a
      = if d ≤ a ∧ a < d + 2 * ((line + 1) / 2) then
          (if (a - d) % 2 = 0 then
            pix (read16 m (d + 2 * ((a - d) / 2))) (read16 srcm (s + 2 * ((a - d) / 2))) alpha
              % 256
           else
            pix (read16 m (d + 2 * ((a - d) / 2))) (read16 srcm (s + 2 * ((a - d) / 2))) alpha
              / 256 % 256)
        else m a :=
  blendLoop16_apply pix srcm ((line + 1) / 2) alpha m d s a

theorem read16_lt (m : Mem) (a : Nat) (h : ∀ i, m i < 256) : read16 m a < 65536 := by
  unfold read16
  have h1 := h a
  have h2 := h (a + 1)
  omega

/-- A row loop whose body leaves the memory `m` unchanged returns `m`. -/
theorem rowLoop_id (body : Mem → Nat → Nat → Mem) (dp sp : Nat) (m : Mem)
    (h : ∀ d s, body m d s = m) (n d s : Nat) :
    (rowLoop n body dp sp m d s).1 = m := by
  induction n with
  | zero => rfl
  | succ k ih =>
    rw [rowLoop_succ]
    simp only [ih]
    exact h _ _

/-- At alpha 0 the byte blend does not depend on the source byte. -/
theorem blend_at_zero (s d : Nat) :
    blend s d 0 = ((0 + d <<< 8) % 4294967296) >>> 8 % 256 := by
  unfold blend uadd umul
  rw [Nat.mul_zero, Nat.zero_mod]

theorem blendPixel565_zero_src (t1 t2 t3 : Nat) :
    blendPixel565 t1 t2 0 = blendPixel565 t1 t3 0 := by
  simp only [blendPixel565, blend_at_zero]

theorem blendPixel555_zero_src (t1 t2 t3 : Nat) :
    blendPixel555 t1 t2 0 = blendPixel555 t1 t3 0 := by
  simp only [blendPixel555, blend_at_zero]

/-- At alpha 0 the blend row does not read the source: the row for a live
source is the row for any fixed source content. -/
theorem blendRow_zero_eq (rd : Mem → Mem) (srcm : Mem) (line : Nat) :
    blendRow rd line 0 = blendRowSep srcm line 0 := by
  funext m d s
  unfold blendRowSep blendRow
  apply forLoop_congr
  intro i _ t
  simp only [blend_at_zero]

theorem blendRow16_zero_eq (pix : Nat → Nat → Nat → Nat)
    (hpix : ∀ t1 t2 t3, pix t1 t2 0 = pix t1 t3 0) (rd : Mem → Mem) (srcm : Mem)
    (line : Nat) :
    blendRow16 pix rd line 0 = blendRow16Sep pix srcm line 0 := by
  funext m d s
  unfold blendRow16Sep blendRow16
  apply forLoop_congr
  intro i _ t
  simp only [hpix _ (read16 (rd t) (s + 2 * i)) (read16 srcm (s + 2 * i))]

theorem blendRowSep_zero (srcm : Mem) (line : Nat) (m : Mem) (hm : ∀ i, m i < 256) (d s : Nat) :
    blendRowSep srcm line 0 m d s = m := by
  funext a
  rw [blendRowSep_apply]
  split
  · exact blend_zero _ _ (hm a)
  · rfl

theorem blendRow16Sep_565_zero (srcm : Mem) (line : Nat) (m : Mem) (hm : ∀ i, m i < 256)
    (d s : Nat) : blendRow16Sep blendPixel565 srcm line 0 m d s = m := by
  funext a
  rw [blendRow16Sep_apply]
  split
  · rename_i hin
    rw [blendPixel565_zero _ _ (read16_lt m _ hm)]
    unfold read16
    have h1 := hm (d + 2 * ((a - d) / 2))
    have h2 := hm (d + 2 * ((a - d) / 2) + 1)
    split
    · rename_i hev
      have e : d + 2 * ((a - d) / 2) = a := by omega
      rw [e] at h1 ⊢
      omega
    · rename_i hod
      have e : d + 2 * ((a - d) / 2) + 1 = a := by omega
      rw [e] at h2 ⊢
      omega
  · rfl

/-- Closed form of the 555 blend row at alpha 0: the high byte of every pixel
of the row loses its top bit, every other byte is unchanged. -/
theorem blendRow16Sep_555_zero (srcm : Mem) (line : Nat) (m : Mem) (hm : ∀ i, m i < 256)
    (d s a : Nat) :
    blendRow16Sep blendPixel555 srcm line 0 m d s a
      = if d ≤ a ∧ a < d + 2 * ((line + 1) / 2) ∧ (a - d) % 2 = 1 then m a % 128 else m a := by
  rw [blendRow16Sep_apply]
  by_cases hin : d ≤ a ∧ a < d + 2 * ((line + 1) / 2)
  · rw [if_pos hin, blendPixel555_zero]
    unfold read16
    have h1 := hm (d + 2 * ((a - d) / 2))
    have h2 := hm (d + 2 * ((a - d) / 2) + 1)
    by_cases hev : (a - d) % 2 = 0
    · have e : d + 2 * ((a - d) / 2) = a := by omega
      rw [if_pos hev, if_neg (by omega)]
      rw [e] at h1 ⊢
      omega
    · have e : d + 2 * ((a - d) / 2) + 1 = a := by omega
      rw [if_neg hev, if_pos (by omega)]
      rw [e] at h2 ⊢
      omega
  · rw [if_neg hin, if_neg (by omega)]

/-! ## Blending with alpha 0 -/

theorem combineBytes_zero (depth xoff : Nat) (dst src : FIBITMAP) (x y : Nat)
    (hd : dst.WF) (hdb : dst.bpp = depth) (hsb : src.bpp = depth)
    (hx : x + src.width ≤ dst.width) (hy : y + src.height ≤ dst.height)
    (hm : ∀ a, dst.mem a < 256) :
    combineBytes depth xoff dst src x y 0 = (true, dst) := by
  rw [combineBytes_fit_live depth xoff dst src x y 0 hd hdb hsb hx hy]
  simp only [if_neg (show ¬ (0 : Nat) > 255 by omega)]
  rw [blendRow_zero_eq (sourceMem dst src) src.mem,
    rowLoop_id _ _ _ dst.mem (blendRowSep_zero src.mem _ dst.mem hm)]

theorem combine16_565_zero (dst src : FIBITMAP) (x y : Nat)
    (hd : dst.WF) (hdb : dst.bpp = 16) (hsb : src.bpp = 16)
    (hx : x + src.width ≤ dst.width) (hy : y + src.height ≤ dst.height)
    (hm : ∀ a, dst.mem a < 256) :
    combine16 blendPixel565 dst src x y 0 = (true, dst) := by
  rw [combine16_fit_live blendPixel565 dst src x y 0 hd hdb hsb hx hy]
  simp only [if_neg (show ¬ (0 : Nat) > 255 by omega)]
  rw [blendRow16_zero_eq blendPixel565 blendPixel565_zero_src (sourceMem dst src) src.mem,
    rowLoop_id _ _ _ dst.mem (blendRow16Sep_565_zero src.mem _ dst.mem hm)]

theorem blendRow16Sep_frame (pix : Nat → Nat → Nat → Nat) (srcm : Mem) (line alpha : Nat)
    (m : Mem) (d s a : Nat) (h : ¬ (d ≤ a ∧ a < d + 2 * ((line + 1) / 2))) :
    blendRow16Sep pix srcm line alpha m d s a = m a := by
  rw [blendRow16Sep_apply, if_neg h]

theorem blendRow16Sep_local (pix : Nat → Nat → Nat → Nat) (srcm : Mem) (line alpha : Nat)
    (m m' : Mem) (d s : Nat)
    (h : ∀ a, d ≤ a → a < d + 2 * ((line + 1) / 2) → m a = m' a)
    (a : Nat) (h1 : d ≤ a) (h2 : a < d + 2 * ((line + 1) / 2)) :
    blendRow16Sep pix srcm line alpha m d s a = blendRow16Sep pix srcm line alpha m' d s a := by
  have hin : d ≤ a ∧ a < d + 2 * ((line + 1) / 2) := ⟨h1, h2⟩
  rw [blendRow16Sep_apply, blendRow16Sep_apply, if_pos hin, if_pos hin]
  have e : read16 m (d + 2 * ((a - d) / 2)) = read16 m' (d + 2 * ((a - d) / 2)) := by
    unfold read16
    rw [h _ (by omega) (by omega), h _ (by omega) (by omega)]
  rw [e]

/-- Memory after the 555 combiner at alpha 0: inside the pasted rows the high
byte of every pixel loses its top bit and the low byte is unchanged; outside
the pasted rows nothing changes. -/
theorem combine16_555_zero (dst src : FIBITMAP) (x y : Nat)
    (hd : dst.WF) (hdb : dst.bpp = 16) (hsb : src.bpp = 16)
    (hx : x + src.width ≤ dst.width) (hy : y + src.height ≤ dst.height)
    (hm : ∀ a, dst.mem a < 256) :
    (∀ r a, r < src.height →
        dst.bits + (dst.height - src.height - y) * dst.pitch + x * 2 + r * dst.pitch ≤ a →
        a < dst.bits + (dst.height - src.height - y) * dst.pitch + x * 2 + r * dst.pitch
              + 2 * src.width →
        (combine16 blendPixel555 dst src x y 0).2.mem a
          = if (a - (dst.bits + (dst.height - src.height - y) * dst.pitch + x * 2
                  + r * dst.pitch)) % 2 = 1
            then dst.mem a % 128 else dst.mem a)
    ∧ (∀ a, (∀ r, r < src.height →
          ¬ (dst.bits + (dst.height - src.height - y) * dst.pitch + x * 2 + r * dst.pitch ≤ a
            ∧ a < dst.bits + (dst.height - src.height - y) * dst.pitch + x * 2 + r * dst.pitch
                  + 2 * src.width)) →
        (combine16 blendPixel555 dst src x y 0).2.mem a = dst.mem a) := by
  rw [combine16_fit_live blendPixel555 dst src x y 0 hd hdb hsb hx hy]
  simp only [if_neg (show ¬ (0 : Nat) > 255 by omega)]
  rw [blendRow16_zero_eq blendPixel555 blendPixel555_zero_src (sourceMem dst src) src.mem]
  have hline : FreeImage_GetLine src = src.width * 2 := line_of_bytes src 2 hsb
  have hlen : 2 * ((FreeImage_GetLine src + 1) / 2) = 2 * src.width := by omega
  have hle : 2 * src.width ≤ dst.pitch := by
    have := src_line_le_pitch dst src x hd (by rw [hsb, hdb]) hx
    omega
  have hframe : ∀ (m : Mem) (d s a : Nat), ¬ (d ≤ a ∧ a < d + 2 * src.width) →
      blendRow16Sep blendPixel555 src.mem (FreeImage_GetLine src) 0 m d s a = m a := by
    intro m d s a h
    exact blendRow16Sep_frame _ _ _ _ _ _ _ _ (by rw [hlen]; exact h)
  have hlocal : ∀ (m m' : Mem) (d s : Nat), (∀ a, d ≤ a → a < d + 2 * src.width → m a = m' a) →
      ∀ a, d ≤ a → a < d + 2 * src.width →
        blendRow16Sep blendPixel555 src.mem (FreeImage_GetLine src) 0 m d s a
          = blendRow16Sep blendPixel555 src.mem (FreeImage_GetLine src) 0 m' d s a := by
    intro m m' d s h a h1 h2
    exact blendRow16Sep_local _ _ _ _ _ _ _ _ (by rw [hlen]; exact h) a h1 (by rw [hlen]; exact h2)
  refine ⟨?_, ?_⟩
  · intro r a hr h1 h2
    show (rowLoop src.height (blendRow16Sep blendPixel555 src.mem (FreeImage_GetLine src) 0)
        dst.pitch src.pitch dst.mem _ src.bits).1 a = _
    rw [rowLoop_row _ (2 * src.width) dst.pitch src.pitch hframe hlocal hle src.height dst.mem
      _ _ r a hr h1 h2, blendRow16Sep_555_zero src.mem _ dst.mem hm, hlen]
    by_cases hodd : (a - (dst.bits + (dst.height - src.height - y) * dst.pitch + x * 2
        + r * dst.pitch)) % 2 = 1
    · rw [if_pos ⟨h1, h2, hodd⟩, if_pos hodd]
    · rw [if_neg (fun h => hodd h.2.2), if_neg hodd]
  · intro a hout
    exact rowLoop_frame _ (2 * src.width) dst.pitch src.pitch hframe src.height dst.mem _ _ a hout

/-! ## Dispatch of `FreeImage_Paste` -/

/-- For a well-formed destination and a fitting non-negative origin the checks
of `FreeImage_Paste` pass and the casts of the origin to `unsigned` are exact. -/
theorem paste_checks (dst src : FIBITMAP) (left top : Nat) (hd : dst.WF)
    (hx : left + src.width ≤ dst.width) (hy : top + src.height ≤ dst.height) :
    u32 (left : Int) = left ∧ u32 (top : Int) = top
      ∧ ¬ (uadd (u32 (left : Int)) src.width > dst.width
          ∨ uadd (u32 (top : Int)) src.height > dst.height) := by
  have hw := hd.width_lt
  have hh := hd.height_lt
  have h1 : u32 (left : Int) = left := u32_ofNat (by omega)
  have h2 : u32 (top : Int) = top := u32_ofNat (by omega)
  refine ⟨h1, h2, ?_⟩
  rw [h1, h2, uadd_eq (by omega), uadd_eq (by omega)]
  omega

/-- For a valid paste in the standard family whose promotion step yields
`clone`, `FreeImage_Paste` is the combiner selected by the destination depth. -/
theorem paste_dispatch (env : Collaborators) (dst src clone : FIBITMAP) (left top : Nat)
    (alpha : Int) (hps : src.hasPixels = true) (hpd : dst.hasPixels = true)
    (hty : dst.imageType = FIT_BITMAP) (hts : src.imageType = FIT_BITMAP) (hd : dst.WF)
    (hx : left + src.width ≤ dst.width) (hy : top + src.height ≤ dst.height)
    (hclone : promote env dst src
      (decide (dst.redMask = FI16_565_RED_MASK ∧ dst.greenMask = FI16_565_GREEN_MASK
        ∧ dst.blueMask = FI16_565_BLUE_MASK)) = some clone) :
    FreeImage_Paste env dst src (left : Int) (top : Int) alpha =
      if dst.bpp = 1 then Combine1 dst clone left top (u32 alpha)
      else if dst.bpp = 4 then Combine4 env dst clone left top (u32 alpha)
      else if dst.bpp = 8 then Combine8 dst clone left top (u32 alpha)
      else if dst.bpp = 16 then
        (if decide (dst.redMask = FI16_565_RED_MASK ∧ dst.greenMask = FI16_565_GREEN_MASK
            ∧ dst.blueMask = FI16_565_BLUE_MASK) = true
         then Combine16_565 dst clone left top (u32 alpha)
         else Combine16_555 dst clone left top (u32 alpha))
      else if dst.bpp = 24 then Combine24 dst clone left top (u32 alpha)
      else if dst.bpp = 32 then Combine32 dst clone left top (u32 alpha)
      else (false, dst) := by
  obtain ⟨h1, h2, h3⟩ := paste_checks dst src left top hd hx hy
  unfold FreeImage_Paste
  rw [if_neg (by simp [hps, hpd]), if_neg (by omega), if_neg h3]
  simp only [hty, hts, ne_eq, not_true_eq_false, if_false, if_true]
  rw [hclone]
  simp only [h1, h2]

/-! ## Nibbles -/

theorem and_mod_two_pow (b K n : Nat) (hK : K < 2 ^ n) : b &&& K = (b % 2 ^ n) &&& K := by
  apply Nat.eq_of_testBit_eq
  intro i
  simp only [Nat.testBit_and, Nat.testBit_mod_two_pow]
  by_cases hi : i < n
  · simp [hi]
  · have h2 : K < 2 ^ i := Nat.lt_of_lt_of_le hK (Nat.pow_le_pow_right (by norm_num) (by omega))
    simp [Nat.testBit_lt_two_pow h2]

theorem mod_and_two_pow (b C n : Nat) : (b &&& C) % 2 ^ n = ((b % 2 ^ n) &&& C) % 2 ^ n := by
  apply Nat.eq_of_testBit_eq
  intro i
  simp only [Nat.testBit_and, Nat.testBit_mod_two_pow]
  by_cases hi : i < n <;> simp [hi]

set_option maxRecDepth 1000000 in
theorem nib_write_read_small :
    ∀ b < 256, ∀ v < 16, ∀ p < 2, ∀ q < 2,
      ((((b &&& (4294967295 - (0x0F <<< ((1 - q) <<< 2)))) % 256)
          ||| (v <<< ((1 - q) <<< 2))) % 256 &&& (0x0F <<< ((1 - p) <<< 2))) >>> ((1 - p) <<< 2)
        = if p = q then v else (b &&& (0x0F <<< ((1 - p) <<< 2))) >>> ((1 - p) <<< 2) := by
  decide

theorem nib_mask_lt (p : Nat) (hp : p < 2) : 0x0F <<< ((1 - p) <<< 2) < 2 ^ 8 := by
  interval_cases p <;> decide

/-- Writing the nibble `v` at position `q` of a byte and reading position `p`. -/
theorem nib_write_read (b v p q : Nat) (hv : v < 16) (hp : p < 2) (hq : q < 2) :
    ((((b &&& (4294967295 - (0x0F <<< ((1 - q) <<< 2)))) % 256)
        ||| (v <<< ((1 - q) <<< 2))) % 256 &&& (0x0F <<< ((1 - p) <<< 2))) >>> ((1 - p) <<< 2)
      = if p = q then v else (b &&& (0x0F <<< ((1 - p) <<< 2))) >>> ((1 - p) <<< 2) := by
  have h1 := nib_write_read_small (b % 256) (Nat.mod_lt _ (by norm_num)) v hv p hp q hq
  have e1 : (b &&& (4294967295 - (0x0F <<< ((1 - q) <<< 2)))) % 256
      = ((b % 256) &&& (4294967295 - (0x0F <<< ((1 - q) <<< 2)))) % 256 :=
    mod_and_two_pow b _ 8
  have e2 : b &&& (0x0F <<< ((1 - p) <<< 2)) = (b % 256) &&& (0x0F <<< ((1 - p) <<< 2)) :=
    and_mod_two_pow b _ 8 (nib_mask_lt p hp)
  rw [e1, e2]
  exact h1

set_option maxRecDepth 100000 in
theorem nib_value_small :
    ∀ b < 256, ∀ p < 2,
      (((b &&& (0x0F <<< ((1 - p) <<< 2))) >>> ((1 - p) <<< 2)) % 256) &&& 0x0F
          = (b &&& (0x0F <<< ((1 - p) <<< 2))) >>> ((1 - p) <<< 2)
        ∧ (b &&& (0x0F <<< ((1 - p) <<< 2))) >>> ((1 - p) <<< 2) < 16 := by
  decide

/-- The nibble read by the 4-bit copy is a value below 16 and survives the
casts and the mask `& 0x0F`. -/
theorem nib_value (b p : Nat) (hp : p < 2) :
    (((b &&& (0x0F <<< ((1 - p) <<< 2))) >>> ((1 - p) <<< 2)) % 256) &&& 0x0F
        = (b &&& (0x0F <<< ((1 - p) <<< 2))) >>> ((1 - p) <<< 2)
      ∧ (b &&& (0x0F <<< ((1 - p) <<< 2))) >>> ((1 - p) <<< 2) < 16 := by
  have h1 := nib_value_small (b % 256) (Nat.mod_lt _ (by norm_num)) p hp
  have e2 : b &&& (0x0F <<< ((1 - p) <<< 2)) = (b % 256) &&& (0x0F <<< ((1 - p) <<< 2)) :=
    and_mod_two_pow b _ 8 (nib_mask_lt p hp)
  rw [e2]
  exact h1

theorem nib_shift (c : Nat) : ((1 - c % 2) <<< 2) % 256 = (1 - c % 2) <<< 2 := by
  rcases Nat.mod_two_eq_zero_or_one c with h | h <;> rw [h] <;> decide

theorem shiftRight_one (c : Nat) : c >>> 1 = c / 2 := by
  rw [Nat.shiftRight_eq_div_pow]

theorem nibRow_succ (srcm : Mem) (soff doff k : Nat) (m : Mem) (da sa : Nat) :
    nibRow srcm soff doff (k + 1) m da sa =
      store (store (nibRow srcm soff doff k m da sa) (da + (doff + k) / 2)
          ((nibRow srcm soff doff k m da sa (da + (doff + k) / 2)
            &&& (4294967295 - (0x0F <<< ((1 - (doff + k) % 2) <<< 2)))) % 256))
        (da + (doff + k) / 2)
        ((((nibRow srcm soff doff k m da sa (da + (doff + k) / 2)
            &&& (4294967295 - (0x0F <<< ((1 - (doff + k) % 2) <<< 2)))) % 256)
          ||| (nibAt srcm sa (soff + k) <<< ((1 - (doff + k) % 2) <<< 2))) % 256) := by
  have hv := (nib_value (srcm (sa + (soff + k) / 2)) ((soff + k) % 2)
    (Nat.mod_lt _ (by norm_num))).1
  have raw : nibRow srcm soff doff (k + 1) m da sa =
      (fun (M : Mem) =>
        store (store M (da + ((doff + k) >>> 1))
            ((M (da + ((doff + k) >>> 1))
              &&& (4294967295 - (0x0F <<< (((1 - (doff + k) % 2) <<< 2) % 256)))) % 256))
          (da + ((doff + k) >>> 1))
          ((store M (da + ((doff + k) >>> 1))
              ((M (da + ((doff + k) >>> 1))
                &&& (4294967295 - (0x0F <<< (((1 - (doff + k) % 2) <<< 2) % 256)))) % 256)
              (da + ((doff + k) >>> 1))
            ||| (((((srcm (sa + ((soff + k) >>> 1))
                &&& (0x0F <<< (((1 - (soff + k) % 2) <<< 2) % 256)))
                  >>> (((1 - (soff + k) % 2) <<< 2) % 256)) % 256) &&& 0x0F)
                <<< (((1 - (doff + k) % 2) <<< 2) % 256))) % 256))
        (nibRow srcm soff doff k m da sa) := rfl
  rw [raw]
  generalize nibRow srcm soff doff k m da sa = M
  simp only [nib_shift, shiftRight_one, store_apply, if_true, hv, nibAt]

/-- A nibble row writes only the bytes that hold the columns
`doff .. doff + n - 1`. -/
theorem nibRow_frame (srcm : Mem) (soff doff n : Nat) (m : Mem) (da sa a : Nat)
    (h : ∀ c, c < n → a ≠ da + (doff + c) / 2) :
    nibRow srcm soff doff n m da sa a = m a := by
  induction n with
  | zero => rfl
  | succ k ih =>
    have hk : a ≠ da + (doff + k) / 2 := h k (Nat.lt_succ_self k)
    rw [nibRow_succ, store_apply, if_neg hk, store_apply, if_neg hk]
    exact ih (fun c hc => h c (Nat.lt_succ_of_lt hc))

/-- A nibble row is byte-wise. -/
theorem nibRow_pointwise (srcm : Mem) (soff doff n : Nat) (m m' : Mem) (da sa a : Nat)
    (h : m a = m' a) :
    nibRow srcm soff doff n m da sa a = nibRow srcm soff doff n m' da sa a := by
  induction n with
  | zero => exact h
  | succ k ih =>
    rw [nibRow_succ, nibRow_succ]
    by_cases hk : a = da + (doff + k) / 2
    · subst hk
      simp only [store_apply, if_true, ih]
    · simp only [store_apply, if_neg hk, ih]

theorem nibAt_def (m : Mem) (row col : Nat) :
    nibAt m row col
      = (m (row + col / 2) &&& (0x0F <<< ((1 - col % 2) <<< 2))) >>> ((1 - col % 2) <<< 2) := by
  unfold nibAt
  rw [shiftRight_one]

theorem nibAt_lt (m : Mem) (row col : Nat) : nibAt m row col < 16 := by
  rw [nibAt_def]
  exact (nib_value _ (col % 2) (Nat.mod_lt _ (by norm_num))).2

/-- Nibble-level description of a nibble row: the columns `doff .. doff + n - 1`
of the destination row receive the source nibbles, every other nibble keeps
its value. -/
theorem nibRow_nib (srcm : Mem) (soff doff n : Nat) (m : Mem) (da sa c : Nat) :
    nibAt (nibRow srcm soff doff n m da sa) da c =
      if doff ≤ c ∧ c < doff + n then nibAt srcm sa (soff + (c - doff)) else nibAt m da c := by
  induction n with
  | zero =>
    rw [if_neg (by omega)]; rfl
  | succ k ih =>
    have hp : c % 2 < 2 := Nat.mod_lt _ (by norm_num)
    have hq : (doff + k) % 2 < 2 := Nat.mod_lt _ (by norm_num)
    have hstep : nibAt (nibRow srcm soff doff (k + 1) m da sa) da c =
        if c = doff + k then nibAt srcm sa (soff + k)
        else nibAt (nibRow srcm soff doff k m da sa) da c := by
      rw [nibAt_def, nibRow_succ, store_apply]
      by_cases hbyte : c / 2 = (doff + k) / 2
      · rw [if_pos (by rw [hbyte]),
          nib_write_read _ _ _ _ (nibAt_lt srcm sa (soff + k)) hp hq]
        by_cases hck : c = doff + k
        · subst hck
          rw [if_pos rfl, if_pos rfl]
        · have hne : c % 2 ≠ (doff + k) % 2 := by omega
          rw [if_neg hne, if_neg hck, nibAt_def, hbyte]
      · have hck : c ≠ doff + k := fun e => hbyte (by rw [e])
        rw [if_neg (by omega), store_apply, if_neg (by omega), if_neg hck, nibAt_def]
    rw [hstep]
    by_cases hck : c = doff + k
    · subst hck
      rw [if_pos rfl, if_pos (by omega)]
      congr 1
      omega
    · rw [if_neg hck, ih]
      by_cases hin : doff ≤ c ∧ c < doff + k
      · rw [if_pos hin, if_pos (by omega)]
      · rw [if_neg hin, if_neg (by omega)]

/-- Without wrap-around the 4-bit branch of the copy is a row loop of nibble
rows. -/
theorem copyBits4_eq (srcm : Mem) (sb db sp dp l w h : Nat) (m : Mem)
    (hsrc : ∀ y x, y < h → x < w → y * sp + (l + x) / 2 < 4294967296)
    (hdst : ∀ y x, y < h → x < w → y * dp + x / 2 < 4294967296) :
    copyBits4 srcm sb db (sp : Int) (dp : Int) l w h m
      = (rowLoop h (nibRow srcm l 0 w) dp sp m db sb).1 := by
  rw [← forLoop_rows]
  unfold copyBits4 nibRow
  apply forLoop_congr
  intro y hy t
  apply forLoop_congr
  intro x hx t'
  have h1 := hsrc y x hy hx
  have h2 := hdst y x hy hx
  have e1 : u32 ((y : Int) * (sp : Int)) = y * sp := u32_mul y sp (by omega)
  have e2 : u32 ((y : Int) * (dp : Int)) = y * dp := u32_mul y dp (by omega)
  have e3 : uadd (y * sp) ((l + x) >>> 1) = y * sp + (l + x) >>> 1 :=
    uadd_eq (by rw [shiftRight_one]; exact h1)
  have e4 : uadd (y * dp) (x >>> 1) = y * dp + x >>> 1 :=
    uadd_eq (by rw [shiftRight_one]; exact h2)
  simp only [e1, e2, e3, e4, Nat.zero_add, Nat.add_assoc]

/-- Nibbles after a row loop of nibble rows. -/
theorem nibRows_nib (srcm : Mem) (soff doff w dp sp n : Nat) (m : Mem) (d s : Nat)
    (hfit : doff + w ≤ 2 * dp) (r c : Nat) (hr : r < n) (hc : c < 2 * dp) :
    nibAt (rowLoop n (nibRow srcm soff doff w) dp sp m d s).1 (d + r * dp) c
      = if doff ≤ c ∧ c < doff + w then nibAt srcm (s + r * sp) (soff + (c - doff))
        else nibAt m (d + r * dp) c := by
  have hframe : ∀ (m : Mem) (d s a : Nat), ¬ (d ≤ a ∧ a < d + dp) →
      nibRow srcm soff doff w m d s a = m a := by
    intro m d s a ha
    apply nibRow_frame
    intro c' hc'
    omega
  have hlocal : ∀ (m m' : Mem) (d s : Nat), (∀ a, d ≤ a → a < d + dp → m a = m' a) →
      ∀ a, d ≤ a → a < d + dp →
        nibRow srcm soff doff w m d s a = nibRow srcm soff doff w m' d s a := by
    intro m m' d s h a h1 h2
    exact nibRow_pointwise _ _ _ _ _ _ _ _ _ (h a h1 h2)
  have hbyte := rowLoop_row (nibRow srcm soff doff w) dp dp sp hframe hlocal (Nat.le_refl _)
    n m d s r (d + r * dp + c / 2) hr (by omega) (by omega)
  rw [nibAt_def, hbyte, ← nibAt_def, nibRow_nib]

theorem getPixel_nib (d : FIBITMAP) (i j : Nat) (hb : d.bpp = 4) :
    getPixel d i j = [nibAt d.mem (d.bits + d.pitch * (d.height - 1 - j)) i] := by
  unfold getPixel nibAt
  rw [if_neg (by omega), if_pos hb]

theorem width_le_pitch4 (dst : FIBITMAP) (hd : dst.WF) (hb : dst.bpp = 4) :
    dst.width ≤ 2 * dst.pitch := by
  have h := hd.line_le
  unfold FreeImage_GetLine at h
  rw [hb] at h
  omega

/-- Pixels of a 4-bit copy. -/
theorem copy_getPixel_nib (src dst0 : FIBITMAP) (l t r b : Nat) (pal : Option (Nat → FIRGBA8))
    (hs : src.WF) (hd : dst0.WF) (hsb : src.bpp = 4) (hdb : dst0.bpp = 4)
    (hlr : l ≤ r) (hrw : r ≤ src.width) (htb : t ≤ b) (hbh : b ≤ src.height)
    (hdw : dst0.width = r - l) (hdh : dst0.height = b - t)
    (i j : Nat) (hi : i < r - l) (hj : j < b - t) :
    getPixel { dst0 with
        palette := pal,
        mem := copyBits4 src.mem (src.bits + src.pitch * (src.height - b)) dst0.bits
          (src.pitch : Int) (dst0.pitch : Int) l (r - l) (b - t) dst0.mem } i j
      = getPixel src (l + i) (t + j) := by
  have hb' : ({ dst0 with
        palette := pal,
        mem := copyBits4 src.mem (src.bits + src.pitch * (src.height - b)) dst0.bits
          (src.pitch : Int) (dst0.pitch : Int) l (r - l) (b - t) dst0.mem } : FIBITMAP).bpp = 4 :=
    hdb
  have hsw := width_le_pitch4 src hs hsb
  have hdw2 := width_le_pitch4 dst0 hd hdb
  rw [hdw] at hdw2
  have hssz := hs.size_lt
  have hdsz := hd.size_lt
  rw [hdh] at hdsz
  have hsrc : ∀ y x, y < b - t → x < r - l →
      y * src.pitch + (l + x) / 2 < 4294967296 := by
    intro y x hy hx
    have h1 : (y + 1) * src.pitch ≤ src.height * src.pitch :=
      Nat.mul_le_mul_right _ (by omega)
    rw [Nat.add_mul] at h1
    omega
  have hdst : ∀ y x, y < b - t → x < r - l → y * dst0.pitch + x / 2 < 4294967296 := by
    intro y x hy hx
    have h1 : (y + 1) * dst0.pitch ≤ (b - t) * dst0.pitch :=
      Nat.mul_le_mul_right _ (by omega)
    rw [Nat.add_mul] at h1
    omega
  rw [getPixel_nib _ _ _ hb', getPixel_nib src _ _ hsb]
  show [nibAt (copyBits4 src.mem (src.bits + src.pitch * (src.height - b)) dst0.bits
          (src.pitch : Int) (dst0.pitch : Int) l (r - l) (b - t) dst0.mem)
          (dst0.bits + dst0.pitch * (dst0.height - 1 - j)) i] = _
  rw [copyBits4_eq _ _ _ _ _ _ _ _ _ hsrc hdst, hdh, Nat.mul_comm dst0.pitch,
    nibRows_nib src.mem l 0 (r - l) dst0.pitch src.pitch (b - t) dst0.mem _ _ (by omega)
      (b - t - 1 - j) i (by omega) (by omega),
    if_pos (show 0 ≤ i ∧ i < 0 + (r - l) by omega)]
  have er : src.height - 1 - (t + j) = (src.height - b) + (b - t - 1 - j) := by omega
  have e0 : l + (i - 0) = l + i := by omega
  rw [er, Nat.mul_add, Nat.mul_comm src.pitch (b - t - 1 - j), Nat.add_assoc, e0]

/-! ## The 4-bit combiner -/

theorem swapStep_entry (sp dp : Nat → FIRGBA8) (i k : Nat) (st : SwapState) (j : Nat)
    (h : (swapStep sp dp i k st).entry = some j) : st.entry = some j ∨ j = k := by
  unfold swapStep at h
  by_cases hd : st.done = true
  · rw [if_pos hd] at h; exact Or.inl h
  · rw [if_neg hd] at h
    by_cases hlt : absDiff (sp i) (dp k) < st.minDiff
    · simp only [if_pos hlt, Option.some.injEq] at h
      exact Or.inr h.symm
    · simp only [if_neg hlt] at h
      exact Or.inl h

theorem swapLoop_entry (sp dp : Nat → FIRGBA8) (i n : Nat) :
    ∀ j, (forLoop n (swapStep sp dp i) { entry := none, minDiff := 65535, done := false }).entry
      = some j → j < n := by
  induction n with
  | zero => intro j h; exact absurd h (by simp [forLoop])
  | succ k ih =>
    intro j h
    rw [forLoop_succ] at h
    rcases swapStep_entry sp dp i k _ j h with h1 | h1
    · exact Nat.lt_succ_of_lt (ih j h1)
    · omega

theorem swapTable_lt (sp dp : Nat → FIRGBA8) (i : Nat) : swapTable sp dp i < 16 := by
  unfold swapTable swapTableEntry
  cases h : (forLoop 16 (swapStep sp dp i)
      { entry := none, minDiff := 65535, done := false }).entry with
  | none => simp
  | some j => simpa using swapLoop_entry sp dp i 16 j h

set_option maxRecDepth 100000 in
theorem nib_pack_small : ∀ t1 < 16, ∀ t2 < 16, ∀ p < 2,
    ((((t1 <<< 4) + t2) % 256) &&& (0x0F <<< ((1 - p) <<< 2))) >>> ((1 - p) <<< 2)
      = if p = 0 then t1 else t2 := by
  decide

set_option maxRecDepth 1000000 in
theorem nib_merge_small : ∀ v < 256, ∀ e < 16,
    (((HINIBBLE v + e) % 256) &&& (0x0F <<< ((1 - 0) <<< 2))) >>> ((1 - 0) <<< 2)
      = (v &&& (0x0F <<< ((1 - 0) <<< 2))) >>> ((1 - 0) <<< 2) := by
  decide

theorem remapLoop_apply (table : Nat → Nat) (f : Nat → Mem → Mem)
    (hf : ∀ cols buffer, f cols buffer = store buffer cols (remapByte table (buffer cols)))
    (line : Nat) (buf : Mem) (c : Nat) :
    forLoop line f buf c = if c < line then remapByte table (buf c) else buf c := by
  induction line generalizing c with
  | zero => rfl
  | succ k ih =>
    rw [forLoop_succ, hf, store_apply]
    by_cases hck : c = k
    · subst hck
      rw [if_pos rfl, if_pos (by omega), ih c, if_neg (by omega)]
    · rw [if_neg hck, ih c]
      by_cases hlt : c < k
      · rw [if_pos hlt, if_pos (by omega)]
      · rw [if_neg hlt, if_neg (by omega)]

/-- Closed form of one row of `Combine4`. -/
theorem combine4Row_apply (rd : Mem → Mem) (table : Nat → Nat) (line : Nat) (os oe : Bool)
    (m : Mem) (d s a : Nat) (h0 : 0 < line) (h32 : line < 4294967296) :
    combine4Row rd table line os oe m d s a
      = if d ≤ a ∧ a < d + line then
          (if oe = true ∧ a - d = line - 1 then
            (HINIBBLE (if os = true ∧ a - d = 0 then
                (HINIBBLE (m d) + LOWNIBBLE (remapByte table (rd m s))) % 256
              else remapByte table (rd m (s + (a - d))))
              + LOWNIBBLE (m (d + (line - 1)))) % 256
           else if os = true ∧ a - d = 0 then
            (HINIBBLE (m d) + LOWNIBBLE (remapByte table (rd m s))) % 256
           else remapByte table (rd m (s + (a - d))))
        else m a := by
  have hu : usub line 1 = line - 1 := usub_eq h32 h0
  have hb1 : ∀ c, forLoop line (fun cols buffer => store buffer cols
        (((table (HINIBBLE (buffer cols) >>> 4) <<< 4) + table (LOWNIBBLE (buffer cols))) % 256))
        (memcpy (fun _ => 0) 0 (rd m) s line) c
      = if c < line then remapByte table (rd m (s + c)) else 0 := by
    intro c
    rw [remapLoop_apply table (fun cols buffer => store buffer cols
        (((table (HINIBBLE (buffer cols) >>> 4) <<< 4) + table (LOWNIBBLE (buffer cols))) % 256))
      (fun _ _ => rfl), memcpy_apply]
    by_cases hc : c < line
    · rw [if_pos hc, if_pos (show 0 ≤ c ∧ c < 0 + line by omega), if_pos hc]
      rfl
    · rw [if_neg hc, if_neg (show ¬ (0 ≤ c ∧ c < 0 + line) by omega), if_neg hc]
  unfold combine4Row
  simp only [hu]
  generalize forLoop line (fun cols buffer => store buffer cols
        (((table (HINIBBLE (buffer cols) >>> 4) <<< 4) + table (LOWNIBBLE (buffer cols))) % 256))
        (memcpy (fun _ => 0) 0 (rd m) s line) = B1 at hb1 ⊢
  rw [memcpy_apply]
  by_cases hin : d ≤ a ∧ a < d + line
  · rw [if_pos hin, if_pos hin]
    have hc : a - d < line := by omega
    have hz : 0 + (a - d) = a - d := Nat.zero_add _
    have hs0 : s + 0 = s := rfl
    rw [hz]
    cases os <;> cases oe
    · simp only [Bool.false_eq_true, false_and, if_false]
      rw [hb1, if_pos hc]
    · simp only [Bool.false_eq_true, false_and, if_false, true_and, if_true, store_apply]
      by_cases he : a - d = line - 1
      · rw [if_pos he, if_pos he, hb1, if_pos (by omega), he]
      · rw [if_neg he, if_neg he, hb1, if_pos hc]
    · simp only [Bool.false_eq_true, false_and, if_false, true_and, if_true, store_apply]
      by_cases hs : a - d = 0
      · rw [if_pos hs, if_pos hs, hb1, if_pos h0, hs0]
      · rw [if_neg hs, if_neg hs, hb1, if_pos hc]
    · simp only [true_and, if_true, store_apply]
      by_cases he : a - d = line - 1
      · rw [if_pos he, if_pos he]
        by_cases hs : line - 1 = 0
        · rw [if_pos hs, hb1, if_pos h0, hs0, he, if_pos hs]
        · rw [if_neg hs, hb1, if_pos (by omega), he, if_neg hs]
      · rw [if_neg he, if_neg he]
        by_cases hs : a - d = 0
        · rw [if_pos hs, if_pos hs, hb1, if_pos h0, hs0]
        · rw [if_neg hs, if_neg hs, hb1, if_pos hc]
  · rw [if_neg hin, if_neg hin]

theorem combine4RowSep_apply (srcm : Mem) (table : Nat → Nat) (line : Nat) (os oe : Bool)
    (m : Mem) (d s a : Nat) (h0 : 0 < line) (h32 : line < 4294967296) :
    combine4RowSep srcm table line os oe m d s a
      = if d ≤ a ∧ a < d + line then
          (if oe = true ∧ a - d = line - 1 then
            (HINIBBLE (if os = true ∧ a - d = 0 then
                (HINIBBLE (m d) + LOWNIBBLE (remapByte table (srcm s))) % 256
              else remapByte table (srcm (s + (a - d))))
              + LOWNIBBLE (m (d + (line - 1)))) % 256
           else if os = true ∧ a - d = 0 then
            (HINIBBLE (m d) + LOWNIBBLE (remapByte table (srcm s))) % 256
           else remapByte table (srcm (s + (a - d))))
        else m a :=
  combine4Row_apply (fun _ => srcm) table line os oe m d s a h0 h32

/-- Reading a nibble of a remapped byte: the table entry of the source nibble. -/
theorem nib_remap (table : Nat → Nat) (htab : ∀ i, table i < 16) (b p : Nat) (hp : p < 2) :
    (remapByte table b &&& (0x0F <<< ((1 - p) <<< 2))) >>> ((1 - p) <<< 2)
      = table ((b &&& (0x0F <<< ((1 - p) <<< 2))) >>> ((1 - p) <<< 2)) := by
  unfold remapByte
  rw [nib_pack_small _ (htab _) _ (htab _) p hp]
  interval_cases p
  · rfl
  · rfl

/-- The merge of the last byte keeps the high nibble of the remapped byte. -/
theorem nib_merge (v e : Nat) (hv : v < 256) :
    (((HINIBBLE v + LOWNIBBLE e) % 256) &&& (0x0F <<< ((1 - 0) <<< 2))) >>> ((1 - 0) <<< 2)
      = (v &&& (0x0F <<< ((1 - 0) <<< 2))) >>> ((1 - 0) <<< 2) := by
  have he : LOWNIBBLE e = e % 16 := Nat.and_pow_two_sub_one_eq_mod e 4
  rw [he]
  exact nib_merge_small v hv (e % 16) (Nat.mod_lt _ (by norm_num))

theorem remapByte_lt (table : Nat → Nat) (b : Nat) : remapByte table b < 256 :=
  Nat.mod_lt _ (by norm_num)

theorem line_of_nibbles (d : FIBITMAP) (hb : d.bpp = 4) : FreeImage_GetLine d = (d.width + 1) / 2 := by
  unfold FreeImage_GetLine
  rw [hb]
  omega

theorem Combine4_fit_live (env : Collaborators) (dst src : FIBITMAP) (x y alpha : Nat)
    (sp dp : Nat → FIRGBA8)
    (hd : dst.WF) (hdb : dst.bpp = 4) (hsb : src.bpp = 4)
    (hx : x + src.width ≤ dst.width) (hy : y + src.height ≤ dst.height)
    (hsp : src.palette = some sp) (hdp : dst.palette = some dp)
    (hmal : env.mallocOk (FreeImage_GetLine src) = true) :
    Combine4 env dst src x y alpha =
      (true, { dst with mem :=
        (rowLoop src.height
          (combine4Row (sourceMem dst src) (swapTable sp dp) (FreeImage_GetLine src)
            (decide (x % 2 ≠ 0))
            ((decide (x % 2 ≠ 0) && decide (src.width % 2 = 0))
              || (!decide (x % 2 ≠ 0) && decide (src.width % 2 ≠ 0))))
          dst.pitch src.pitch dst.mem
          (dst.bits + (dst.height - src.height - y) * dst.pitch + x / 2) src.bits).1 }) := by
  obtain ⟨hchk, hoff⟩ := fit_checks dst src x y hd hx hy
  unfold Combine4
  rw [if_neg (by simp [hdb, hsb]), if_neg hchk]
  simp only [hsp, hdp, hoff, hmal, not_true_eq_false, if_false, shiftRight_one,
    Nat.and_one_is_mod]

theorem Combine4_fit (env : Collaborators) (dst src : FIBITMAP) (x y alpha : Nat)
    (sp dp : Nat → FIRGBA8)
    (hd : dst.WF) (hdb : dst.bpp = 4) (hsb : src.bpp = 4)
    (hx : x + src.width ≤ dst.width) (hy : y + src.height ≤ dst.height)
    (hsp : src.palette = some sp) (hdp : dst.palette = some dp)
    (hmal : env.mallocOk (FreeImage_GetLine src) = true)
    (hsep : sharesBuffer dst src = false) :
    Combine4 env dst src x y alpha =
      (true, { dst with mem :=
        (rowLoop src.height
          (combine4RowSep src.mem (swapTable sp dp) (FreeImage_GetLine src)
            (decide (x % 2 ≠ 0))
            ((decide (x % 2 ≠ 0) && decide (src.width % 2 = 0))
              || (!decide (x % 2 ≠ 0) && decide (src.width % 2 ≠ 0))))
          dst.pitch src.pitch dst.mem
          (dst.bits + (dst.height - src.height - y) * dst.pitch + x / 2) src.bits).1 }) := by
  rw [Combine4_fit_live env dst src x y alpha sp dp hd hdb hsb hx hy hsp hdp hmal,
    sourceMem_sep dst src hsep]
  rfl

/-- Pixels after `Combine4` with an even origin column: the destination pixel
at logical `(x + i, y + j)` is the swap-table image of the source pixel at
`(i, j)`. -/
theorem Combine4_getPixel_even (env : Collaborators) (dst src : FIBITMAP) (x y alpha : Nat)
    (sp dp : Nat → FIRGBA8)
    (hd : dst.WF) (hdb : dst.bpp = 4) (hsb : src.bpp = 4)
    (hx : x + src.width ≤ dst.width) (hy : y + src.height ≤ dst.height)
    (hsep : sharesBuffer dst src = false)
    (hsp : src.palette = some sp) (hdp : dst.palette = some dp)
    (hmal : env.mallocOk (FreeImage_GetLine src) = true) (heven : x % 2 = 0)
    (i j : Nat) (hi : i < src.width) (hj : j < src.height) :
    getPixel (Combine4 env dst src x y alpha).2 (x + i) (y + j)
      = (getPixel src i j).map (swapTable sp dp) := by
  have hfit := Combine4_fit env dst src x y alpha sp dp hd hdb hsb hx hy hsp hdp hmal hsep
  have e1 : (Combine4 env dst src x y alpha).2.bpp = 4 := by rw [hfit]; exact hdb
  have e2 : (Combine4 env dst src x y alpha).2.bits = dst.bits := by rw [hfit]
  have e3 : (Combine4 env dst src x y alpha).2.pitch = dst.pitch := by rw [hfit]
  have e4 : (Combine4 env dst src x y alpha).2.height = dst.height := by rw [hfit]
  have hline := line_of_nibbles src hsb
  have hl0 : 0 < FreeImage_GetLine src := by omega
  have hlp := src_line_le_pitch dst src x hd (by rw [hsb, hdb]) hx
  have hl32 : FreeImage_GetLine src < 4294967296 := by have := hd.pitch_lt; omega
  have hos : decide (x % 2 ≠ 0) = false := by simp [heven]
  have hframe : ∀ (m : Mem) (d s a : Nat), ¬ (d ≤ a ∧ a < d + FreeImage_GetLine src) →
      combine4RowSep src.mem (swapTable sp dp) (FreeImage_GetLine src) false
        ((false && decide (src.width % 2 = 0)) || (!false && decide (src.width % 2 ≠ 0)))
        m d s a = m a := by
    intro m d s a h
    rw [combine4RowSep_apply _ _ _ _ _ _ _ _ _ hl0 hl32, if_neg h]
  have hlocal : ∀ (m m' : Mem) (d s : Nat),
      (∀ a, d ≤ a → a < d + FreeImage_GetLine src → m a = m' a) →
      ∀ a, d ≤ a → a < d + FreeImage_GetLine src →
        combine4RowSep src.mem (swapTable sp dp) (FreeImage_GetLine src) false
          ((false && decide (src.width % 2 = 0)) || (!false && decide (src.width % 2 ≠ 0)))
          m d s a
        = combine4RowSep src.mem (swapTable sp dp) (FreeImage_GetLine src) false
          ((false && decide (src.width % 2 = 0)) || (!false && decide (src.width % 2 ≠ 0)))
          m' d s a := by
    intro m m' d s h a h1 h2
    have hin : d ≤ a ∧ a < d + FreeImage_GetLine src := ⟨h1, h2⟩
    rw [combine4RowSep_apply _ _ _ _ _ _ _ _ _ hl0 hl32,
      combine4RowSep_apply _ _ _ _ _ _ _ _ _ hl0 hl32, if_pos hin, if_pos hin,
      h d (by omega) (by omega), h (d + (FreeImage_GetLine src - 1)) (by omega) (by omega)]
  rw [getPixel_nib _ _ _ e1, getPixel_nib src i j hsb, e2, e3, e4, List.map_cons, List.map_nil,
    row_addr dst.bits dst.pitch dst.height src.height y j hy hj, nibAt_def, nibAt_def]
  have haddr : dst.bits + (dst.height - src.height - y) * dst.pitch
        + (src.height - 1 - j) * dst.pitch + (x + i) / 2
      = dst.bits + (dst.height - src.height - y) * dst.pitch + x / 2
        + (src.height - 1 - j) * dst.pitch + i / 2 := by omega
  have hpar : (x + i) % 2 = i % 2 := by omega
  rw [haddr, hpar, hfit]
  show [((rowLoop src.height _ dst.pitch src.pitch dst.mem _ src.bits).1 _ &&& _) >>> _] = _
  rw [hos, rowLoop_row _ (FreeImage_GetLine src) dst.pitch src.pitch hframe hlocal hlp
    src.height dst.mem _ _ (src.height - 1 - j) _ (by omega) (by omega) (by omega),
    combine4RowSep_apply _ _ _ _ _ _ _ _ _ hl0 hl32, if_pos (by omega)]
  have hsub : dst.bits + (dst.height - src.height - y) * dst.pitch + x / 2
        + (src.height - 1 - j) * dst.pitch + i / 2
      - (dst.bits + (dst.height - src.height - y) * dst.pitch + x / 2
        + (src.height - 1 - j) * dst.pitch) = i / 2 := by omega
  have hsrow : src.bits + src.pitch * (src.height - 1 - j)
      = src.bits + (src.height - 1 - j) * src.pitch := by rw [Nat.mul_comm]
  rw [hsub, hsrow]
  simp only [Bool.false_eq_true, false_and, if_false, Bool.false_and, Bool.not_false,
    Bool.true_and, Bool.false_or, decide_eq_true_eq]
  have htab := swapTable_lt sp dp
  by_cases hend : src.width % 2 ≠ 0 ∧ i / 2 = FreeImage_GetLine src - 1
  · have hp0 : i % 2 = 0 := by omega
    rw [if_pos hend, hp0, nib_merge _ _ (remapByte_lt _ _),
      nib_remap _ htab _ 0 (by norm_num)]
  · rw [if_neg hend, nib_remap _ htab _ (i % 2) (Nat.mod_lt _ (by norm_num))]

/-! ## `FreeImage_Copy` -/

/-- Unfolding of `FreeImage_Copy` on a normalized in-bounds rectangle of a
well-formed bitmap with pixels, when the allocation succeeds. -/
theorem copy_ok (env : Collaborators) (src dst0 : FIBITMAP) (l t r b : Nat)
    (hp : src.hasPixels = true) (hs : src.WF)
    (hlr : l ≤ r) (hrw : r ≤ src.width) (htb : t ≤ b) (hbh : b ≤ src.height)
    (hal : env.allocateT src.imageType ((r : Int) - (l : Int)) ((b : Int) - (t : Int))
      src.bpp src.redMask src.greenMask src.blueMask = some dst0)
    (hd : dst0.WF) :
    FreeImage_Copy env src (l : Int) (t : Int) (r : Int) (b : Int) =
      some { dst0 with
        palette := copyPalette dst0.palette src.palette src.colorsUsed,
        mem :=
          if src.bpp = 1 then
            copyBits1 src.mem (src.bits + src.pitch * (src.height - b)) dst0.bits
              (src.pitch : Int) (dst0.pitch : Int) l (r - l) (b - t) dst0.mem
          else if src.bpp = 4 then
            copyBits4 src.mem (src.bits + src.pitch * (src.height - b)) dst0.bits
              (src.pitch : Int) (dst0.pitch : Int) l (r - l) (b - t) dst0.mem
          else if src.bpp ≥ 8 then
            copyBits8 src.mem
              (src.bits + src.pitch * (src.height - b)
                + umul l (FreeImage_GetLine src / src.width)) dst0.bits
              (src.pitch : Int) (dst0.pitch : Int) (FreeImage_GetLine dst0 : Int) (b - t)
              dst0.mem
          else dst0.mem,
        buffer := src.buffer + 1, externalBits := false } := by
  have hw := hs.width_lt
  have hh := hs.height_lt
  have e1 : i32 src.width = (src.width : Int) := i32_eq hw
  have e2 : i32 src.height = (src.height : Int) := i32_eq hh
  have e3 : i32 src.pitch = (src.pitch : Int) := i32_eq hs.pitch_lt
  have e4 : i32 dst0.pitch = (dst0.pitch : Int) := i32_eq hd.pitch_lt
  have e5 : i32 (FreeImage_GetLine dst0) = (FreeImage_GetLine dst0 : Int) :=
    i32_eq (Nat.lt_of_le_of_lt hd.line_le hd.pitch_lt)
  have e6 : FreeImage_GetScanLine src ((src.height : Int) - (t : Int) - ((b : Int) - (t : Int)))
      = src.bits + src.pitch * (src.height - b) := by
    unfold FreeImage_GetScanLine
    have : (src.height : Int) - (t : Int) - ((b : Int) - (t : Int))
        = ((src.height - b : Nat) : Int) := by omega
    rw [this, ← Nat.cast_mul, ← Nat.cast_add, Int.toNat_ofNat]
  have e7 : u32 (l : Int) = l := u32_ofNat (by omega)
  have e8 : ((r : Int) - (l : Int)).toNat = r - l := by omega
  have e9 : ((b : Int) - (t : Int)).toNat = b - t := by omega
  unfold FreeImage_Copy
  rw [if_neg (by simp [hp])]
  simp only [if_neg (show ¬ (r : Int) < (l : Int) by omega),
    if_neg (show ¬ (b : Int) < (t : Int) by omega), e1, e2]
  rw [if_neg (by omega), hal]
  simp only [e3, e4, e5, e6, e7, e8, e9, Int.toNat_ofNat]
  by_cases h1 : src.bpp = 1
  · simp only [if_pos h1]
  · by_cases h4 : src.bpp = 4
    · simp only [if_neg h1, if_pos h4]
    · simp only [if_neg h1, if_neg h4]


/-- The branch `bpp >= 8` of the copy is a row loop of `memcpy`. -/
theorem copyBits8_eq (srcm : Mem) (sb db sp dp line h : Nat) (m : Mem) :
    copyBits8 srcm sb db (sp : Int) (dp : Int) (line : Int) h m
      = (rowLoop h (copyRowSep srcm line) dp sp m db sb).1 := by
  rw [← forLoop_rows]
  unfold copyBits8
  apply forLoop_congr
  intro y _ t
  rw [int_addr, int_addr, Int.toNat_ofNat]
  rfl

/-- Without wrap-around the 1-bit branch of the copy is a row loop of bit rows. -/
theorem copyBits1_eq (srcm : Mem) (sb db sp dp l w h : Nat) (m : Mem)
    (hsrc : ∀ y x, y < h → x < w → y * sp + (l + x) / 8 < 4294967296)
    (hdst : ∀ y x, y < h → x < w → y * dp + x / 8 < 4294967296) :
    copyBits1 srcm sb db (sp : Int) (dp : Int) l w h m
      = (rowLoop h (bitRow srcm l 0 w) dp sp m db sb).1 := by
  rw [← forLoop_rows]
  unfold copyBits1 bitRow
  apply forLoop_congr
  intro y hy t
  apply forLoop_congr
  intro x hx t'
  have h1 := hsrc y x hy hx
  have h2 := hdst y x hy hx
  have e1 : u32 ((y : Int) * (sp : Int)) = y * sp := u32_mul y sp (by omega)
  have e2 : u32 ((y : Int) * (dp : Int)) = y * dp := u32_mul y dp (by omega)
  have e3 : uadd (y * sp) ((l + x) >>> 3) = y * sp + (l + x) >>> 3 :=
    uadd_eq (by rw [shiftRight_three]; exact h1)
  have e4 : uadd (y * dp) (x >>> 3) = y * dp + x >>> 3 :=
    uadd_eq (by rw [shiftRight_three]; exact h2)
  simp only [e1, e2, e3, e4, Nat.zero_add, Nat.add_assoc]

/-- Bits after a row loop of bit rows. -/
theorem bitRows_bit (srcm : Mem) (soff doff w dp sp n : Nat) (m : Mem) (d s : Nat)
    (hfit : doff + w ≤ 8 * dp) (r c : Nat) (hr : r < n) (hc : c < 8 * dp) :
    bitAt (rowLoop n (bitRow srcm soff doff w) dp sp m d s).1 (d + r * dp) c
      = if doff ≤ c ∧ c < doff + w then bitAt srcm (s + r * sp) (soff + (c - doff))
        else bitAt m (d + r * dp) c := by
  have hframe : ∀ (m : Mem) (d s a : Nat), ¬ (d ≤ a ∧ a < d + dp) →
      bitRow srcm soff doff w m d s a = m a := by
    intro m d s a ha
    apply bitRow_frame
    intro c' hc'
    omega
  have hlocal : ∀ (m m' : Mem) (d s : Nat), (∀ a, d ≤ a → a < d + dp → m a = m' a) →
      ∀ a, d ≤ a → a < d + dp →
        bitRow srcm soff doff w m d s a = bitRow srcm soff doff w m' d s a := by
    intro m m' d s h a h1 h2
    exact bitRow_pointwise _ _ _ _ _ _ _ _ _ (h a h1 h2)
  have hbyte := rowLoop_row (bitRow srcm soff doff w) dp dp sp hframe hlocal (Nat.le_refl _)
    n m d s r (d + r * dp + c / 8) hr (by omega) (by omega)
  have hb1 : ∀ (m m' : Mem) (row : Nat), m (row + c / 8) = m' (row + c / 8) →
      bitAt m row c = bitAt m' row c := by
    intro m m' row h
    unfold bitAt
    rw [shiftRight_three, h]
  rw [hb1 _ _ _ hbyte, bitRow_bit]

/-- Pixels of a copy of depth `8 * B`. -/
theorem copy_getPixel_bytes (src dst0 : FIBITMAP) (B l t r b : Nat) (pal : Option (Nat → FIRGBA8))
    (hs : src.WF) (hd : dst0.WF) (hsb : src.bpp = 8 * B) (hdb : dst0.bpp = 8 * B)
    (hlr : l ≤ r) (hrw : r ≤ src.width) (htb : t ≤ b) (hbh : b ≤ src.height)
    (hdw : dst0.width = r - l) (hdh : dst0.height = b - t)
    (i j : Nat) (hi : i < r - l) (hj : j < b - t) :
    getPixel { dst0 with
        palette := pal,
        mem := copyBits8 src.mem
          (src.bits + src.pitch * (src.height - b) + umul l (FreeImage_GetLine src / src.width))
          dst0.bits (src.pitch : Int) (dst0.pitch : Int) (FreeImage_GetLine dst0 : Int) (b - t)
          dst0.mem } i j
      = getPixel src (l + i) (t + j) := by
  have hb' : ({ dst0 with
        palette := pal,
        mem := copyBits8 src.mem
          (src.bits + src.pitch * (src.height - b) + umul l (FreeImage_GetLine src / src.width))
          dst0.bits (src.pitch : Int) (dst0.pitch : Int) (FreeImage_GetLine dst0 : Int) (b - t)
          dst0.mem } : FIBITMAP).bpp = 8 * B := hdb
  rw [getPixel_bytes _ B _ _ hb', getPixel_bytes src B _ _ hsb]
  apply List.map_congr_left
  intro k hk
  have hk' : k < B := List.mem_range.1 hk
  have hsl := line_of_bytes src B hsb
  have hdl := line_of_bytes dst0 B hdb
  have hwpos : 0 < src.width := by omega
  have hq : FreeImage_GetLine src / src.width = B := by
    rw [hsl]; exact Nat.mul_div_cancel_left B hwpos
  have hlB : l * B ≤ src.width * B := Nat.mul_le_mul_right B (by omega)
  have hum : umul l B = l * B := by
    apply umul_eq
    have h1 := hs.line_le
    have h2 := hs.pitch_lt
    omega
  have hc := pixel_byte_lt (r - l) B i k hi hk'
  show (copyBits8 src.mem _ dst0.bits (src.pitch : Int) (dst0.pitch : Int)
      (FreeImage_GetLine dst0 : Int) (b - t) dst0.mem)
        (dst0.bits + dst0.pitch * (dst0.height - 1 - j) + i * B + k)
      = src.mem (src.bits + src.pitch * (src.height - 1 - (t + j)) + (l + i) * B + k)
  rw [copyBits8_eq, hq, hum, hdl, hdw, hdh]
  have hlen : (r - l) * B ≤ dst0.pitch := by
    have := hd.line_le
    rw [hdl, hdw] at this
    exact this
  have ea : dst0.bits + dst0.pitch * (b - t - 1 - j) + i * B + k
      = dst0.bits + (b - t - 1 - j) * dst0.pitch + (i * B + k) := by
    rw [Nat.mul_comm dst0.pitch]; omega
  rw [ea, rowLoop_row _ ((r - l) * B) dst0.pitch src.pitch
    (copyRowSep_frame src.mem _) (copyRowSep_local src.mem _) hlen (b - t) dst0.mem _ _
    (b - t - 1 - j) _ (by omega) (by omega) (by omega)]
  rw [copyRowSep_apply, if_pos (by omega)]
  congr 1
  have er : src.height - 1 - (t + j) = (src.height - b) + (b - t - 1 - j) := by omega
  rw [er, Nat.mul_add, Nat.add_mul, Nat.mul_comm src.pitch (b - t - 1 - j)]
  omega

/-- Pixels of a 1-bit copy. -/
theorem copy_getPixel_bit (src dst0 : FIBITMAP) (l t r b : Nat) (pal : Option (Nat → FIRGBA8))
    (hs : src.WF) (hd : dst0.WF) (hsb : src.bpp = 1) (hdb : dst0.bpp = 1)
    (hlr : l ≤ r) (hrw : r ≤ src.width) (htb : t ≤ b) (hbh : b ≤ src.height)
    (hdw : dst0.width = r - l) (hdh : dst0.height = b - t)
    (i j : Nat) (hi : i < r - l) (hj : j < b - t) :
    getPixel { dst0 with
        palette := pal,
        mem := copyBits1 src.mem (src.bits + src.pitch * (src.height - b)) dst0.bits
          (src.pitch : Int) (dst0.pitch : Int) l (r - l) (b - t) dst0.mem } i j
      = getPixel src (l + i) (t + j) := by
  have hb' : ({ dst0 with
        palette := pal,
        mem := copyBits1 src.mem (src.bits + src.pitch * (src.height - b)) dst0.bits
          (src.pitch : Int) (dst0.pitch : Int) l (r - l) (b - t) dst0.mem } : FIBITMAP).bpp = 1 :=
    hdb
  have hsw := width_le_pitch1 src hs hsb
  have hdw8 := width_le_pitch1 dst0 hd hdb
  rw [hdw] at hdw8
  have hssz := hs.size_lt
  have hdsz := hd.size_lt
  rw [hdh] at hdsz
  have hsrc : ∀ y x, y < b - t → x < r - l →
      y * src.pitch + (l + x) / 8 < 4294967296 := by
    intro y x hy hx
    have h1 : (y + 1) * src.pitch ≤ src.height * src.pitch :=
      Nat.mul_le_mul_right _ (by omega)
    rw [Nat.add_mul] at h1
    omega
  have hdst : ∀ y x, y < b - t → x < r - l → y * dst0.pitch + x / 8 < 4294967296 := by
    intro y x hy hx
    have h1 : (y + 1) * dst0.pitch ≤ (b - t) * dst0.pitch :=
      Nat.mul_le_mul_right _ (by omega)
    rw [Nat.add_mul] at h1
    omega
  rw [getPixel_bit _ _ _ hb', getPixel_bit src _ _ hsb]
  show [if bitAt (copyBits1 src.mem (src.bits + src.pitch * (src.height - b)) dst0.bits
          (src.pitch : Int) (dst0.pitch : Int) l (r - l) (b - t) dst0.mem)
          (dst0.bits + dst0.pitch * (dst0.height - 1 - j)) i = true then 1 else 0] = _
  rw [copyBits1_eq _ _ _ _ _ _ _ _ _ hsrc hdst, hdh, Nat.mul_comm dst0.pitch,
    bitRows_bit src.mem l 0 (r - l) dst0.pitch src.pitch (b - t) dst0.mem _ _ (by omega)
      (b - t - 1 - j) i (by omega) (by omega),
    if_pos (show 0 ≤ i ∧ i < 0 + (r - l) by omega)]
  have er : src.height - 1 - (t + j) = (src.height - b) + (b - t - 1 - j) := by omega
  have e0 : l + (i - 0) = l + i := by omega
  rw [er, Nat.mul_add, Nat.mul_comm src.pitch (b - t - 1 - j), Nat.add_assoc, e0]

/-- Result of `FreeImage_Copy` on a normalized in-bounds rectangle: a bitmap of
the size of the rectangle and of the depth of the source, whose pixel at
logical `(i, j)` is the source pixel at `(l + i, t + j)`. -/
theorem copy_pixels (env : Collaborators) (src dst0 : FIBITMAP) (l t r b : Nat)
    (hp : src.hasPixels = true) (hs : src.WF)
    (hbpp : src.bpp = 1 ∨ src.bpp = 4 ∨ ∃ B, 0 < B ∧ src.bpp = 8 * B)
    (hlr : l ≤ r) (hrw : r ≤ src.width) (htb : t ≤ b) (hbh : b ≤ src.height)
    (hal : env.allocateT src.imageType ((r : Int) - (l : Int)) ((b : Int) - (t : Int))
      src.bpp src.redMask src.greenMask src.blueMask = some dst0)
    (hspec : Allocated dst0 src.imageType ((r : Int) - (l : Int)) ((b : Int) - (t : Int))
      src.bpp) :
    ∃ d, FreeImage_Copy env src (l : Int) (t : Int) (r : Int) (b : Int) = some d
      ∧ d.width = r - l ∧ d.height = b - t ∧ d.bpp = src.bpp
      ∧ ∀ i j, i < r - l → j < b - t → getPixel d i j = getPixel src (l + i) (t + j) := by
  have hd := hspec.wf
  have hdw : dst0.width = r - l := by have := hspec.width; omega
  have hdh : dst0.height = b - t := by have := hspec.height; omega
  have hdb := hspec.bpp
  refine ⟨_, copy_ok env src dst0 l t r b hp hs hlr hrw htb hbh hal hd, hdw, hdh, hdb, ?_⟩
  intro i j hi hj
  rcases hbpp with h1 | h4 | ⟨B, hB, h8⟩
  · simp only [if_pos h1]
    exact copy_getPixel_bit src dst0 l t r b
      (copyPalette dst0.palette src.palette src.colorsUsed) hs hd h1 (by rw [hdb, h1]) hlr hrw htb hbh
      hdw hdh i j hi hj
  · simp only [if_neg (show ¬ src.bpp = 1 by omega), if_pos h4]
    exact copy_getPixel_nib src dst0 l t r b
      (copyPalette dst0.palette src.palette src.colorsUsed) hs hd h4 (by rw [hdb, h4]) hlr hrw htb hbh
      hdw hdh i j hi hj
  · simp only [if_neg (show ¬ src.bpp = 1 by omega), if_neg (show ¬ src.bpp = 4 by omega),
      if_pos (show src.bpp ≥ 8 by omega)]
    exact copy_getPixel_bytes src dst0 B l t r b
      (copyPalette dst0.palette src.palette src.colorsUsed) hs hd h8 (by rw [hdb, h8]) hlr hrw htb hbh
      hdw hdh i j hi hj

/-- `FreeImage_Copy` depends on the rectangle only through its normalized
form. -/
theorem copy_normalized (env : Collaborators) (src : FIBITMAP) (left top right bottom : Int) :
    FreeImage_Copy env src left top right bottom
      = FreeImage_Copy env src (min left right) (min top bottom) (max left right)
          (max top bottom) := by
  have h1 : (if right < left then (right, left) else (left, right))
      = (min left right, max left right) := by
    by_cases h : right < left
    · rw [if_pos h, min_eq_right (le_of_lt h), max_eq_left (le_of_lt h)]
    · rw [if_neg h, min_eq_left (not_lt.1 h), max_eq_right (not_lt.1 h)]
  have h2 : (if bottom < top then (bottom, top) else (top, bottom))
      = (min top bottom, max top bottom) := by
    by_cases h : bottom < top
    · rw [if_pos h, min_eq_right (le_of_lt h), max_eq_left (le_of_lt h)]
    · rw [if_neg h, min_eq_left (not_lt.1 h), max_eq_right (not_lt.1 h)]
  have h3 : (if max left right < min left right then (max left right, min left right)
      else (min left right, max left right)) = (min left right, max left right) :=
    if_neg (not_lt.2 (le_trans (min_le_left _ _) (le_max_left _ _)))
  have h4 : (if max top bottom < min top bottom then (max top bottom, min top bottom)
      else (min top bottom, max top bottom)) = (min top bottom, max top bottom) :=
    if_neg (not_lt.2 (le_trans (min_le_left _ _) (le_max_left _ _)))
  unfold FreeImage_Copy
  simp only [h1, h2, h3, h4]

theorem i32_le (n : Nat) : i32 n ≤ (n : Int) := by
  unfold i32
  split <;> omega

/-! ## `FreeImage_CreateView` -/

theorem minmax_swap_nat (a b : Nat) :
    (if b < a then (b, a) else (a, b)) = (min a b, max a b) := by
  by_cases h : b < a
  · rw [if_pos h, min_eq_right (le_of_lt h), max_eq_left (le_of_lt h)]
  · rw [if_neg h, min_eq_left (not_lt.1 h), max_eq_right (not_lt.1 h)]

theorem col_offset_lt (dib : FIBITMAP) (hd : dib.WF) (l : Nat) (hl : l ≤ dib.width) :
    l * (dib.bpp / 8) < 2147483648 := by
  have h1 := hd.line_le
  have h2 := hd.pitch_lt
  unfold FreeImage_GetLine at h1
  have h3 : l * (dib.bpp / 8) ≤ dib.width * (dib.bpp / 8) := Nat.mul_le_mul_right _ hl
  have h4 : dib.width * (8 * (dib.bpp / 8)) ≤ dib.width * dib.bpp :=
    Nat.mul_le_mul_left _ (Nat.mul_div_le dib.bpp 8)
  have h5 : dib.width * (8 * (dib.bpp / 8)) = 8 * (dib.width * (dib.bpp / 8)) := by ring
  omega

/-- Unfolding of `FreeImage_CreateView` on an in-bounds rectangle of a
well-formed bitmap with pixels. -/
theorem view_ok (env : Collaborators) (dib : FIBITMAP) (left top right bottom : Nat)
    (hp : dib.hasPixels = true) (hd : dib.WF)
    (hr : max left right ≤ dib.width) (hb : max top bottom ≤ dib.height) :
    FreeImage_CreateView env dib left top right bottom =
      if (dib.bpp = 1 ∧ min left right % 8 ≠ 0) ∨ (dib.bpp = 4 ∧ min left right % 2 ≠ 0) then none
      else
        match env.allocateHeaderForBits dib.mem
            (dib.bits + dib.pitch * (dib.height - max top bottom)
              + viewColumnOffset dib.bpp (min left right))
            dib.pitch dib.imageType
            ((max left right - min left right : Nat) : Int)
            ((max top bottom - min top bottom : Nat) : Int) dib.bpp
            dib.redMask dib.greenMask dib.blueMask with
        | none => none
        | some dst =>
          some { dst with
            palette := copyPalette dst.palette dib.palette dib.colorsUsed,
            buffer := dib.buffer, externalBits := true } := by
  have hw := hd.width_lt
  have hh := hd.height_lt
  have hll : min left right ≤ max left right := le_trans (min_le_left _ _) (le_max_left _ _)
  have htt : min top bottom ≤ max top bottom := le_trans (min_le_left _ _) (le_max_left _ _)
  have e1 : usub dib.height (max top bottom) = dib.height - max top bottom :=
    usub_eq (by omega) hb
  have e2 : i32 (dib.height - max top bottom) = ((dib.height - max top bottom : Nat) : Int) :=
    i32_eq (by omega)
  have e3 : usub (max left right) (min left right) = max left right - min left right :=
    usub_eq (by omega) hll
  have e4 : usub (max top bottom) (min top bottom) = max top bottom - min top bottom :=
    usub_eq (by omega) htt
  have e5 : i32 (max left right - min left right)
      = ((max left right - min left right : Nat) : Int) := i32_eq (by omega)
  have e6 : i32 (max top bottom - min top bottom)
      = ((max top bottom - min top bottom : Nat) : Int) := i32_eq (by omega)
  have e7 : FreeImage_GetScanLine dib ((dib.height - max top bottom : Nat) : Int)
      = dib.bits + dib.pitch * (dib.height - max top bottom) := by
    unfold FreeImage_GetScanLine
    rw [← Nat.cast_mul, ← Nat.cast_add, Int.toNat_ofNat]
  have e8 : umul (min left right) (dib.bpp / 8) = min left right * (dib.bpp / 8) :=
    umul_eq (by have := col_offset_lt dib hd (min left right) (by omega); omega)
  unfold FreeImage_CreateView
  rw [if_neg (by simp [hp])]
  simp only [minmax_swap_nat, e1, e2, e3, e4, e5, e6, e7, e8]
  rw [if_neg (by omega)]
  unfold viewColumnOffset
  by_cases h1 : dib.bpp = 1
  · by_cases ha : min left right % 8 ≠ 0
    · simp only [h1, ha, if_true, ne_eq, not_false_eq_true, and_self, true_or]
    · have ha' : min left right % 8 = 0 := by omega
      simp [h1, ha']
  · by_cases h4 : dib.bpp = 4
    · by_cases ha : min left right % 2 ≠ 0
      · simp [h4, ha]
      · have ha' : min left right % 2 = 0 := by omega
        simp [h4, ha']
    · simp [h1, h4]

/-- The pixel value depends on the depth, the memory and the storage location
of the pixel only. -/
theorem getPixel_congr (d d' : FIBITMAP) (i j i' j' : Nat) (hb : d.bpp = d'.bpp)
    (hm : d.mem = d'.mem) (hl : pixelLoc d i j = pixelLoc d' i' j') :
    getPixel d i j = getPixel d' i' j' := by
  unfold getPixel
  unfold pixelLoc at hl
  rw [← hb, ← hm]
  rw [← hb] at hl
  by_cases h1 : d.bpp = 1
  · simp only [if_pos h1] at hl ⊢
    rw [(Prod.mk.inj hl).1, (Prod.mk.inj hl).2]
  · by_cases h4 : d.bpp = 4
    · simp only [if_neg h1, if_pos h4] at hl ⊢
      have e1 := (Prod.mk.inj hl).1
      have e2 := (Prod.mk.inj hl).2
      rw [e1, e2]
    · simp only [if_neg h1, if_neg h4] at hl ⊢
      rw [(Prod.mk.inj hl).1]

/-- A successful `FreeImage_CreateView` was called on a bitmap with pixels and
an in-bounds, aligned rectangle. -/
theorem view_some_inv (env : Collaborators) (dib v : FIBITMAP) (left top right bottom : Nat)
    (hv : FreeImage_CreateView env dib left top right bottom = some v) :
    dib.hasPixels = true ∧ max left right ≤ dib.width ∧ max top bottom ≤ dib.height := by
  unfold FreeImage_CreateView at hv
  simp only [minmax_swap_nat] at hv
  by_cases hp : (!dib.hasPixels) = true
  · rw [if_pos hp] at hv; exact absurd hv (by simp)
  · rw [if_neg hp] at hv
    by_cases hb : min left right < 0 ∨ max left right > dib.width ∨ min top bottom < 0
        ∨ max top bottom > dib.height
    · rw [if_pos hb] at hv; exact absurd hv (by simp)
    · refine ⟨by simpa using hp, by omega, by omega⟩

/-- The sample header allocator returns headers as requested. -/
theorem sampleEnv_headerSpec : HeaderSpec sampleEnv := by
  intro m bits pitch ty w h bpp rm gm bm d hd
  have hd' : (if w < 0 ∨ h < 0 then none
      else some (sampleHeader m bits pitch ty w h bpp rm gm bm)) = some d := hd
  by_cases hneg : w < 0 ∨ h < 0
  · rw [if_pos hneg] at hd'; exact absurd hd' (by simp)
  · rw [if_neg hneg] at hd'
    have e : d = sampleHeader m bits pitch ty w h bpp rm gm bm := (Option.some.inj hd').symm
    subst e
    exact ⟨rfl, rfl, rfl, Int.toNat_of_nonneg (by omega), Int.toNat_of_nonneg (by omega), rfl⟩

/-! ## The swap table -/

theorem absDiff_eq (s d : FIRGBA8) (hs : s.IsBytes) (hd : d.IsBytes) :
    absDiff s d = specDistance s d ∧ specDistance s d < 65535 := by
  obtain ⟨h1, h2, h3⟩ := hs
  obtain ⟨h4, h5, h6⟩ := hd
  unfold absDiff specDistance
  constructor
  · have : Int.natAbs ((s.blue : Int) - (d.blue : Int))
        + Int.natAbs ((s.green : Int) - (d.green : Int))
        + Int.natAbs ((s.red : Int) - (d.red : Int)) < 65536 := by omega
    rw [Nat.mod_eq_of_lt this]
    omega
  · omega

/-- Invariant of the inner loop of the swap-table construction after `n + 1`
iterations, for distances below the initial `min_diff`. -/
theorem swapLoop_inv (sp dp : Nat → FIRGBA8) (i n : Nat)
    (hlt : ∀ k, k < n + 1 → absDiff (sp i) (dp k) < 65535) :
    ∃ j, j < n + 1
      ∧ (forLoop (n + 1) (swapStep sp dp i)
          { entry := none, minDiff := 65535, done := false }).entry = some j
      ∧ (forLoop (n + 1) (swapStep sp dp i)
          { entry := none, minDiff := 65535, done := false }).minDiff = absDiff (sp i) (dp j)
      ∧ (∀ k, k < j → absDiff (sp i) (dp j) < absDiff (sp i) (dp k))
      ∧ (∀ k, k < n + 1 → absDiff (sp i) (dp j) ≤ absDiff (sp i) (dp k))
      ∧ ((forLoop (n + 1) (swapStep sp dp i)
          { entry := none, minDiff := 65535, done := false }).done = true →
            absDiff (sp i) (dp j) = 0) := by
  induction n with
  | zero =>
    refine ⟨0, by omega, ?_⟩
    have h0 := hlt 0 (by omega)
    have e : forLoop (0 + 1) (swapStep sp dp i)
        { entry := none, minDiff := 65535, done := false }
        = { entry := some 0, minDiff := absDiff (sp i) (dp 0),
            done := decide (absDiff (sp i) (dp 0) = 0) } := by
      rw [forLoop_succ]
      show swapStep sp dp i 0 { entry := none, minDiff := 65535, done := false } = _
      unfold swapStep
      simp [h0]
    rw [e]
    refine ⟨rfl, rfl, fun k hk => absurd hk (by omega), ?_, ?_⟩
    · intro k hk
      have : k = 0 := by omega
      rw [this]
    · intro h
      simpa using h
  | succ m ih =>
    obtain ⟨j, hj, he, hm, hs, hle, hdone⟩ := ih (fun k hk => hlt k (by omega))
    rw [forLoop_succ]
    generalize forLoop (m + 1) (swapStep sp dp i)
      { entry := none, minDiff := 65535, done := false } = st at he hm hdone
    unfold swapStep
    by_cases hd : st.done = true
    · rw [if_pos hd]
      refine ⟨j, by omega, he, hm, hs, ?_, hdone⟩
      intro k _
      rw [hdone hd]
      exact Nat.zero_le _
    · rw [if_neg hd]
      by_cases hc : absDiff (sp i) (dp (m + 1)) < st.minDiff
      · simp only [if_pos hc]
        rw [hm] at hc
        refine ⟨m + 1, by omega, rfl, rfl, ?_, ?_, ?_⟩
        · intro k hk
          have := hle k (by omega)
          omega
        · intro k hk
          by_cases hkm : k = m + 1
          · rw [hkm]
          · have := hle k (by omega)
            omega
        · intro h
          simpa using h
      · simp only [if_neg hc]
        rw [hm] at hc
        refine ⟨j, by omega, he, hm, hs, ?_, fun h => absurd h hd⟩
        intro k hk
        by_cases hkm : k = m + 1
        · rw [hkm]; omega
        · exact hle k (by omega)

/-- Invariant of the scan without early exit. -/
theorem specNearest_inv (dist : Nat → Nat) (n : Nat) :
    forLoop (n + 1) (fun j best => if dist j < dist best then j else best) 0 < n + 1
      ∧ (∀ k, k < forLoop (n + 1) (fun j best => if dist j < dist best then j else best) 0 →
          dist (forLoop (n + 1) (fun j best => if dist j < dist best then j else best) 0) < dist k)
      ∧ (∀ k, k < n + 1 →
          dist (forLoop (n + 1) (fun j best => if dist j < dist best then j else best) 0)
            ≤ dist k) := by
  induction n with
  | zero =>
    have e : forLoop (0 + 1) (fun j best => if dist j < dist best then j else best) 0 = 0 := by
      rw [forLoop_succ]
      show (if dist 0 < dist 0 then 0 else 0) = 0
      simp
    rw [e]
    refine ⟨by omega, fun k hk => absurd hk (by omega), ?_⟩
    intro k hk
    have : k = 0 := by omega
    rw [this]
  | succ m ih =>
    obtain ⟨h1, h2, h3⟩ := ih
    rw [forLoop_succ]
    generalize forLoop (m + 1) (fun j best => if dist j < dist best then j else best) 0 = b
      at h1 h2 h3
    show (if dist (m + 1) < dist b then m + 1 else b) < _ ∧ _
    by_cases hc : dist (m + 1) < dist b
    · simp only [if_pos hc]
      refine ⟨by omega, ?_, ?_⟩
      · intro k hk
        have := h3 k (by omega)
        omega
      · intro k hk
        by_cases hkm : k = m + 1
        · rw [hkm]
        · have := h3 k (by omega)
          omega
    · simp only [if_neg hc]
      refine ⟨by omega, h2, ?_⟩
      intro k hk
      by_cases hkm : k = m + 1
      · rw [hkm]; omega
      · exact h3 k (by omega)

/-- The least minimiser of a distance over the indices below `n` is unique. -/
theorem least_min_unique (dist : Nat → Nat) (n a b : Nat) (ha : a < n) (hb : b < n)
    (ha1 : ∀ k, k < a → dist a < dist k) (ha2 : ∀ k, k < n → dist a ≤ dist k)
    (hb1 : ∀ k, k < b → dist b < dist k) (hb2 : ∀ k, k < n → dist b ≤ dist k) : a = b := by
  rcases Nat.lt_trichotomy a b with h | h | h
  · have := hb1 a h
    have := ha2 b hb
    omega
  · exact h
  · have := ha1 b h
    have := hb2 a ha
    omega

/-- The swap table entry of `Combine4` is the least index of minimal distance,
and the scan without early exit finds the same index. -/
theorem swapTable_least (sp dp : Nat → FIRGBA8) (i : Nat)
    (hs : (sp i).IsBytes) (hd : ∀ k, k < 16 → (dp k).IsBytes) :
    swapTableEntry sp dp i = some (swapTable sp dp i)
    ∧ swapTable sp dp i < 16
    ∧ (∀ k, k < 16 →
        specDistance (sp i) (dp (swapTable sp dp i)) ≤ specDistance (sp i) (dp k))
    ∧ (∀ k, k < swapTable sp dp i →
        specDistance (sp i) (dp (swapTable sp dp i)) < specDistance (sp i) (dp k))
    ∧ swapTable sp dp i = specNearest (sp i) dp := by
  have hab : ∀ k, k < 16 → absDiff (sp i) (dp k) = specDistance (sp i) (dp k) :=
    fun k hk => (absDiff_eq _ _ hs (hd k hk)).1
  obtain ⟨j, hj, he, _, hstrict, hle, _⟩ := swapLoop_inv sp dp i 15
    (fun k hk => by rw [hab k hk]; exact (absDiff_eq _ _ hs (hd k hk)).2)
  have hentry : swapTableEntry sp dp i = some j := he
  have htab : swapTable sp dp i = j := by
    unfold swapTable
    rw [hentry]
    rfl
  have hstrict2 : ∀ k, k < j → specDistance (sp i) (dp j) < specDistance (sp i) (dp k) := by
    intro k hk
    rw [← hab j hj, ← hab k (by omega)]
    exact hstrict k hk
  have hle2 : ∀ k, k < 16 → specDistance (sp i) (dp j) ≤ specDistance (sp i) (dp k) := by
    intro k hk
    rw [← hab j hj, ← hab k hk]
    exact hle k hk
  rw [htab]
  refine ⟨hentry, hj, hle2, hstrict2, ?_⟩
  obtain ⟨h1, h2, h3⟩ := specNearest_inv (fun k => specDistance (sp i) (dp k)) 15
  exact least_min_unique (fun k => specDistance (sp i) (dp k)) 16 j _ hj h1 hstrict2 hle2 h2 h3

theorem specDistance_eq_zero (s d : FIRGBA8) :
    specDistance s d = 0 ↔ (s.red = d.red ∧ s.green = d.green ∧ s.blue = d.blue) := by
  unfold specDistance
  constructor
  · intro h
    omega
  · rintro ⟨h1, h2, h3⟩
    rw [h1, h2, h3]
    simp

/-- With equal source and destination palettes an index is mapped to the
least index of the same colour. -/
theorem swapTable_same (P : Nat → FIRGBA8) (hP : ∀ k, k < 16 → (P k).IsBytes)
    (i : Nat) (hi : i < 16) :
    swapTable P P i ≤ i
    ∧ ((P (swapTable P P i)).red = (P i).red ∧ (P (swapTable P P i)).green = (P i).green
        ∧ (P (swapTable P P i)).blue = (P i).blue)
    ∧ ∀ k, k < swapTable P P i →
        ¬ ((P k).red = (P i).red ∧ (P k).green = (P i).green ∧ (P k).blue = (P i).blue) := by
  obtain ⟨_, _, hle, hstrict, _⟩ := swapTable_least P P i (hP i hi) hP
  have hii : specDistance (P i) (P i) = 0 := (specDistance_eq_zero _ _).2 ⟨rfl, rfl, rfl⟩
  have h0 : specDistance (P i) (P (swapTable P P i)) = 0 := by
    have := hle i hi
    omega
  refine ⟨?_, ?_, ?_⟩
  · by_contra hgt
    have := hstrict i (by omega)
    omega
  · obtain ⟨h1, h2, h3⟩ := (specDistance_eq_zero _ _).1 h0
    exact ⟨h1.symm, h2.symm, h3.symm⟩
  · intro k hk hsame
    have := hstrict k hk
    have hk0 : specDistance (P i) (P k) = 0 :=
      (specDistance_eq_zero _ _).2 ⟨hsame.1.symm, hsame.2.1.symm, hsame.2.2.symm⟩
    omega

/-! ## Failure leaves the destination unchanged -/

/-- A flag-and-destination result that is either the untouched destination
with `FALSE`, or a success. -/
theorem atomic_of_shape (res : Bool × FIBITMAP) (dst : FIBITMAP)
    (hshape : res = (false, dst) ∨ res.1 = true) (h : res.1 = false) : res.2 = dst := by
  rcases hshape with h1 | h1
  · rw [h1]
  · rw [h1] at h
    exact absurd h (by simp)

theorem Combine1_shape (dst src : FIBITMAP) (x y alpha : Nat) :
    Combine1 dst src x y alpha = (false, dst) ∨ (Combine1 dst src x y alpha).1 = true := by
  unfold Combine1
  by_cases h1 : dst.bpp ≠ 1 ∨ src.bpp ≠ 1
  · rw [if_pos h1]; exact Or.inl rfl
  · rw [if_neg h1]
    by_cases h2 : uadd x src.width > dst.width ∨ uadd y src.height > dst.height
    · rw [if_pos h2]; exact Or.inl rfl
    · rw [if_neg h2]; exact Or.inr rfl

theorem Combine4_shape (env : Collaborators) (dst src : FIBITMAP) (x y alpha : Nat) :
    Combine4 env dst src x y alpha = (false, dst)
      ∨ (Combine4 env dst src x y alpha).1 = true := by
  unfold Combine4
  by_cases h1 : dst.bpp ≠ 4 ∨ src.bpp ≠ 4
  · rw [if_pos h1]; exact Or.inl rfl
  · rw [if_neg h1]
    by_cases h2 : uadd x src.width > dst.width ∨ uadd y src.height > dst.height
    · rw [if_pos h2]; exact Or.inl rfl
    · rw [if_neg h2]
      cases hs : src.palette with
      | none => exact Or.inl rfl
      | some sp =>
        cases hd : dst.palette with
        | none => exact Or.inl rfl
        | some dp =>
          show (if ¬ env.mallocOk (FreeImage_GetLine src) = true then (false, dst) else _)
              = (false, dst)
            ∨ (if ¬ env.mallocOk (FreeImage_GetLine src) = true then (false, dst) else _).1 = true
          by_cases h3 : ¬ env.mallocOk (FreeImage_GetLine src) = true
          · rw [if_pos h3]; exact Or.inl rfl
          · rw [if_neg h3]; exact Or.inr rfl

theorem combineBytes_shape (depth xoff : Nat) (dst src : FIBITMAP) (x y alpha : Nat) :
    combineBytes depth xoff dst src x y alpha = (false, dst)
      ∨ (combineBytes depth xoff dst src x y alpha).1 = true := by
  unfold combineBytes
  by_cases h1 : dst.bpp ≠ depth ∨ src.bpp ≠ depth
  · rw [if_pos h1]; exact Or.inl rfl
  · rw [if_neg h1]
    by_cases h2 : uadd x src.width > dst.width ∨ uadd y src.height > dst.height
    · rw [if_pos h2]; exact Or.inl rfl
    · rw [if_neg h2]
      right
      by_cases h3 : alpha > 255
      · simp only [if_pos h3]
      · simp only [if_neg h3]

theorem combine16_shape (pix : Nat → Nat → Nat → Nat) (dst src : FIBITMAP) (x y alpha : Nat) :
    combine16 pix dst src x y alpha = (false, dst)
      ∨ (combine16 pix dst src x y alpha).1 = true := by
  unfold combine16
  by_cases h1 : dst.bpp ≠ 16 ∨ src.bpp ≠ 16
  · rw [if_pos h1]; exact Or.inl rfl
  · rw [if_neg h1]
    by_cases h2 : uadd x src.width > dst.width ∨ uadd y src.height > dst.height
    · rw [if_pos h2]; exact Or.inl rfl
    · rw [if_neg h2]
      right
      by_cases h3 : alpha > 255
      · simp only [if_pos h3]
      · simp only [if_neg h3]

theorem CombineSameType_shape (dst src : FIBITMAP) (x y : Nat) :
    CombineSameType dst src x y = (false, dst) ∨ (CombineSameType dst src x y).1 = true := by
  unfold CombineSameType
  by_cases h1 : dst.imageType ≠ src.imageType
  · rw [if_pos h1]; exact Or.inl rfl
  · rw [if_neg h1]
    by_cases h2 : uadd x src.width > dst.width ∨ uadd y src.height > dst.height
    · simp only [if_pos h2]; exact Or.inl trivial
    · simp only [if_neg h2]; exact Or.inr trivial

theorem Paste_shape (env : Collaborators) (dst src : FIBITMAP) (left top alpha : Int) :
    FreeImage_Paste env dst src left top alpha = (false, dst)
      ∨ (FreeImage_Paste env dst src left top alpha).1 = true := by
  unfold FreeImage_Paste
  by_cases h1 : (!src.hasPixels || !dst.hasPixels) = true
  · rw [if_pos h1]; exact Or.inl rfl
  · rw [if_neg h1]
    by_cases h2 : left < 0 ∨ top < 0
    · rw [if_pos h2]; exact Or.inl rfl
    · rw [if_neg h2]
      by_cases h3 : uadd (u32 left) src.width > dst.width
          ∨ uadd (u32 top) src.height > dst.height
      · rw [if_pos h3]; exact Or.inl rfl
      · rw [if_neg h3]
        by_cases h4 : dst.imageType ≠ src.imageType
        · simp only [if_pos h4]; exact Or.inl trivial
        · simp only [if_neg h4]
          by_cases h5 : dst.imageType = FIT_BITMAP
          · simp only [if_pos h5]
            cases hp : promote env dst src
                (decide (dst.redMask = FI16_565_RED_MASK ∧ dst.greenMask = FI16_565_GREEN_MASK
                  ∧ dst.blueMask = FI16_565_BLUE_MASK)) with
            | none => exact Or.inl rfl
            | some clone =>
              show (if dst.bpp = 1 then _ else _ : Bool × FIBITMAP) = (false, dst)
                ∨ (if dst.bpp = 1 then _ else _ : Bool × FIBITMAP).1 = true
              by_cases b1 : dst.bpp = 1
              · rw [if_pos b1]; exact Combine1_shape _ _ _ _ _
              · rw [if_neg b1]
                by_cases b4 : dst.bpp = 4
                · rw [if_pos b4]; exact Combine4_shape _ _ _ _ _ _
                · rw [if_neg b4]
                  by_cases b8 : dst.bpp = 8
                  · rw [if_pos b8]; exact combineBytes_shape _ _ _ _ _ _ _
                  · rw [if_neg b8]
                    by_cases b16 : dst.bpp = 16
                    · rw [if_pos b16]
                      split
                      · exact combine16_shape _ _ _ _ _ _
                      · exact combine16_shape _ _ _ _ _ _
                    · rw [if_neg b16]
                      by_cases b24 : dst.bpp = 24
                      · rw [if_pos b24]; exact combineBytes_shape _ _ _ _ _ _ _
                      · rw [if_neg b24]
                        by_cases b32 : dst.bpp = 32
                        · rw [if_pos b32]; exact combineBytes_shape _ _ _ _ _ _ _
                        · rw [if_neg b32]; exact Or.inl rfl
          · simp only [if_neg h5]
            exact CombineSameType_shape _ _ _ _

/-! ## Frame of the 4-bit combiner -/

theorem combine4Row_zero (rd : Mem → Mem) (table : Nat → Nat) (os oe : Bool) (m : Mem)
    (d s : Nat) : combine4Row rd table 0 os oe m d s = m := by
  funext a
  unfold combine4Row
  exact (memcpy_apply _ _ _ _ _ _).trans (if_neg (show ¬ (d ≤ a ∧ a < d + 0) by omega))

theorem combine4RowSep_zero (srcm : Mem) (table : Nat → Nat) (os oe : Bool) (m : Mem) (d s : Nat) :
    combine4RowSep srcm table 0 os oe m d s = m :=
  combine4Row_zero (fun _ => srcm) table os oe m d s

/-- One row of `Combine4` writes only inside its window, wherever the source is
read from. -/
theorem combine4Row_frame (rd : Mem → Mem) (table : Nat → Nat) (line : Nat) (os oe : Bool)
    (h32 : line < 4294967296) (m : Mem) (d s a : Nat) (h : ¬ (d ≤ a ∧ a < d + line)) :
    combine4Row rd table line os oe m d s a = m a := by
  rcases Nat.eq_zero_or_pos line with h0 | h0
  · subst h0
    rw [combine4Row_zero]
  · rw [combine4Row_apply _ _ _ _ _ _ _ _ _ h0 h32, if_neg h]

theorem combine4RowSep_frame (srcm : Mem) (table : Nat → Nat) (line : Nat) (os oe : Bool)
    (h32 : line < 4294967296) (m : Mem) (d s a : Nat) (h : ¬ (d ≤ a ∧ a < d + line)) :
    combine4RowSep srcm table line os oe m d s a = m a :=
  combine4Row_frame (fun _ => srcm) table line os oe h32 m d s a h

theorem combine4RowSep_local (srcm : Mem) (table : Nat → Nat) (line : Nat) (os oe : Bool)
    (h32 : line < 4294967296) (m m2 : Mem) (d s : Nat)
    (h : ∀ a, d ≤ a → a < d + line → m a = m2 a) (a : Nat) (h1 : d ≤ a) (h2 : a < d + line) :
    combine4RowSep srcm table line os oe m d s a = combine4RowSep srcm table line os oe m2 d s a := by
  have h0 : 0 < line := by omega
  have hin : d ≤ a ∧ a < d + line := ⟨h1, h2⟩
  rw [combine4RowSep_apply _ _ _ _ _ _ _ _ _ h0 h32,
    combine4RowSep_apply _ _ _ _ _ _ _ _ _ h0 h32, if_pos hin, if_pos hin,
    h d (by omega) (by omega), h (d + (line - 1)) (by omega) (by omega)]

/-- The merge of the first byte keeps the high nibble of any destination value. -/
theorem nib_merge_high (v e : Nat) :
    (((HINIBBLE v + LOWNIBBLE e) % 256) &&& (0x0F <<< ((1 - 0) <<< 2))) >>> ((1 - 0) <<< 2)
      = (v &&& (0x0F <<< ((1 - 0) <<< 2))) >>> ((1 - 0) <<< 2) := by
  have e1 : HINIBBLE v = HINIBBLE (v % 256) := by
    unfold HINIBBLE
    exact and_mod_two_pow v 0xF0 8 (by norm_num)
  have e2 : v &&& (0x0F <<< ((1 - 0) <<< 2)) = (v % 256) &&& (0x0F <<< ((1 - 0) <<< 2)) :=
    and_mod_two_pow v _ 8 (nib_mask_lt 0 (by norm_num))
  rw [e1, e2]
  exact nib_merge (v % 256) e (Nat.mod_lt _ (by norm_num))

set_option maxRecDepth 1000000 in
theorem nib_merge_low_small : ∀ u < 256, ∀ e < 16,
    (((HINIBBLE u + e) % 256) &&& (0x0F <<< ((1 - 1) <<< 2))) >>> ((1 - 1) <<< 2) = e := by
  decide

/-- The merge of the last byte keeps the low nibble of any destination value. -/
theorem nib_merge_low (u v : Nat) :
    (((HINIBBLE u + LOWNIBBLE v) % 256) &&& (0x0F <<< ((1 - 1) <<< 2))) >>> ((1 - 1) <<< 2)
      = (v &&& (0x0F <<< ((1 - 1) <<< 2))) >>> ((1 - 1) <<< 2) := by
  have e1 : HINIBBLE u = HINIBBLE (u % 256) := by
    unfold HINIBBLE
    exact and_mod_two_pow u 0xF0 8 (by norm_num)
  have e2 : LOWNIBBLE v = v % 16 := Nat.and_pow_two_sub_one_eq_mod v 4
  have e3 : (v &&& (0x0F <<< ((1 - 1) <<< 2))) >>> ((1 - 1) <<< 2) = v % 16 := by
    show (v &&& 15) >>> 0 = v % 16
    rw [Nat.shiftRight_zero]
    exact Nat.and_pow_two_sub_one_eq_mod v 4
  rw [e1, e2, e3]
  exact nib_merge_low_small (u % 256) (Nat.mod_lt _ (by norm_num)) (v % 16)
    (Nat.mod_lt _ (by norm_num))

/-- A byte offset lies in one row only. -/
theorem row_unique (p q q2 t : Nat) (h1 : q * p ≤ t) (h2 : t < q * p + p)
    (h3 : q2 * p ≤ t) (h4 : t < q2 * p + p) : q = q2 := by
  rcases Nat.lt_trichotomy q q2 with h | h | h
  · have := Nat.mul_le_mul_right p (show q + 1 ≤ q2 by omega)
    rw [Nat.add_mul] at this
    omega
  · exact h
  · have := Nat.mul_le_mul_right p (show q2 + 1 ≤ q by omega)
    rw [Nat.add_mul] at this
    omega

/-- Frame of `Combine4` on pixels: a destination pixel outside the pasted
rectangle keeps its value, for every parity of `x` and of the source width. -/
theorem Combine4_frame_pixel (env : Collaborators) (dst src : FIBITMAP) (x y alpha : Nat)
    (hd : dst.WF) (hdb : dst.bpp = 4) (hsb : src.bpp = 4)
    (hx : x + src.width ≤ dst.width) (hy : y + src.height ≤ dst.height)
    (i j : Nat) (hi : i < dst.width) (hj : j < dst.height)
    (hout : ¬ (x ≤ i ∧ i < x + src.width ∧ y ≤ j ∧ j < y + src.height)) :
    getPixel (Combine4 env dst src x y alpha).2 i j = getPixel dst i j := by
  rcases Combine4_shape env dst src x y alpha with hf | ht
  · rw [hf]
  cases hsp : src.palette with
  | none =>
    have : Combine4 env dst src x y alpha = (false, dst) := by
      unfold Combine4
      split_ifs <;> simp [hsp]
    rw [this]
  | some sp =>
  cases hdp : dst.palette with
  | none =>
    have : Combine4 env dst src x y alpha = (false, dst) := by
      unfold Combine4
      split_ifs <;> simp [hsp, hdp]
    rw [this]
  | some dp =>
  by_cases hmal : env.mallocOk (FreeImage_GetLine src) = true
  swap
  · have : Combine4 env dst src x y alpha = (false, dst) := by
      unfold Combine4
      split_ifs <;> simp [hsp, hdp, hmal]
    rw [this]
  have hfit := Combine4_fit_live env dst src x y alpha sp dp hd hdb hsb hx hy hsp hdp hmal
  have e1 : (Combine4 env dst src x y alpha).2.bpp = 4 := by rw [hfit]; exact hdb
  have e2 : (Combine4 env dst src x y alpha).2.bits = dst.bits := by rw [hfit]
  have e3 : (Combine4 env dst src x y alpha).2.pitch = dst.pitch := by rw [hfit]
  have e4 : (Combine4 env dst src x y alpha).2.height = dst.height := by rw [hfit]
  have hline := line_of_nibbles src hsb
  have hwp := width_le_pitch4 dst hd hdb
  have hl32 : FreeImage_GetLine src < 4294967296 := by have := hd.pitch_lt; omega
  have hlp : x / 2 + FreeImage_GetLine src ≤ dst.pitch := by omega
  rw [getPixel_nib _ _ _ e1, getPixel_nib dst i j hdb, e2, e3, e4, nibAt_def, nibAt_def, hfit]
  show [((rowLoop src.height _ dst.pitch src.pitch dst.mem _ src.bits).1 _ &&& _) >>> _] = _
  by_cases hwin : ∃ r, r < src.height
      ∧ dst.bits + (dst.height - src.height - y) * dst.pitch + x / 2 + r * dst.pitch
          ≤ dst.bits + dst.pitch * (dst.height - 1 - j) + i / 2
      ∧ dst.bits + dst.pitch * (dst.height - 1 - j) + i / 2
          < dst.bits + (dst.height - src.height - y) * dst.pitch + x / 2 + r * dst.pitch
            + FreeImage_GetLine src
  swap
  · rw [rowLoop_frame _ (FreeImage_GetLine src) dst.pitch src.pitch
      (combine4Row_frame _ _ _ _ _ hl32) src.height dst.mem _ _ _
      (fun r hr hc => hwin ⟨r, hr, hc.1, hc.2⟩)]
  obtain ⟨r, hr, h1, h2⟩ := hwin
  have hrow : dst.height - 1 - j = dst.height - src.height - y + r := by
    apply row_unique dst.pitch _ _
      (dst.pitch * (dst.height - 1 - j) + i / 2)
    · rw [Nat.mul_comm]; omega
    · rw [Nat.mul_comm]; omega
    · rw [Nat.add_mul]; omega
    · rw [Nat.add_mul]; omega
  have hjr : y ≤ j ∧ j < y + src.height := by omega
  have hcol : ¬ (x ≤ i ∧ i < x + src.width) := fun h => hout ⟨h.1, h.2, hjr.1, hjr.2⟩
  have hbase : dst.bits + dst.pitch * (dst.height - 1 - j)
      = dst.bits + (dst.height - src.height - y) * dst.pitch + r * dst.pitch := by
    rw [hrow, Nat.mul_comm, Nat.add_mul]; omega
  rw [hbase] at h1 h2 ⊢
  have hl0 : 0 < FreeImage_GetLine src := by omega
  have hfr : ∀ (m : Mem) (d s a : Nat), ¬ (d ≤ a ∧ a < d + FreeImage_GetLine src) →
      combine4Row (sourceMem dst src) (swapTable sp dp) (FreeImage_GetLine src)
        (decide (x % 2 ≠ 0))
        ((decide (x % 2 ≠ 0) && decide (src.width % 2 = 0))
          || (!decide (x % 2 ≠ 0) && decide (src.width % 2 ≠ 0))) m d s a = m a :=
    combine4Row_frame _ _ _ _ _ hl32
  have hM := rowLoop_before _ (FreeImage_GetLine src) dst.pitch src.pitch hfr (by omega) r
    dst.mem (dst.bits + (dst.height - src.height - y) * dst.pitch + x / 2) src.bits
  rw [rowLoop_row_live _ (FreeImage_GetLine src) dst.pitch src.pitch hfr (by omega)
    src.height dst.mem _ _ r _ hr h2,
    combine4Row_apply _ _ _ _ _ _ _ _ _ hl0 hl32, if_pos ⟨h1, h2⟩,
    hM _ (Nat.le_refl _), hM _ (Nat.le_add_right _ _)]
  have hsub : dst.bits + (dst.height - src.height - y) * dst.pitch + r * dst.pitch + i / 2
      - (dst.bits + (dst.height - src.height - y) * dst.pitch + x / 2 + r * dst.pitch)
      = i / 2 - x / 2 := by omega
  rw [hsub]
  by_cases hlt : i < x
  · -- the pixel left of an odd origin: high nibble of the first byte
    have hxo : x % 2 = 1 := by omega
    have hie : i % 2 = 0 := by omega
    have hk : i / 2 - x / 2 = 0 := by omega
    have hos : decide (x % 2 ≠ 0) = true := by simp [hxo]
    have haddr : dst.bits + (dst.height - src.height - y) * dst.pitch + r * dst.pitch + i / 2
        = dst.bits + (dst.height - src.height - y) * dst.pitch + x / 2 + r * dst.pitch := by
      omega
    rw [hos, hk, hie, haddr]
    simp only [true_and, if_true]
    split
    · rw [nib_merge_high, nib_merge_high]
    · rw [nib_merge_high]
  · -- the pixel right of the region sharing the last byte: low nibble
    have hge : x + src.width ≤ i := by omega
    have hxe : x % 2 = 0 := by omega
    have hwo : src.width % 2 = 1 := by omega
    have hio : i % 2 = 1 := by omega
    have hk : i / 2 - x / 2 = FreeImage_GetLine src - 1 := by omega
    have hos : decide (x % 2 ≠ 0) = false := by simp [hxe]
    have hoe : decide (src.width % 2 ≠ 0) = true := by simp [hwo]
    have haddr : dst.bits + (dst.height - src.height - y) * dst.pitch + r * dst.pitch + i / 2
        = dst.bits + (dst.height - src.height - y) * dst.pitch + x / 2 + r * dst.pitch
          + (FreeImage_GetLine src - 1) := by
      omega
    rw [hos, hoe, hk, hio, haddr]
    simp only [Bool.false_and, Bool.not_false, Bool.true_and, Bool.false_or, true_and, if_true,
      Bool.false_eq_true, false_and, if_false]
    rw [nib_merge_low]

/-! ## The 16-bit blend -/

/-- Blend branch of the 16-bit combiners: the pixel `k` of the pasted row `r`
becomes `pix` of the old destination pixel and the source pixel. -/
theorem combine16_blend_pixel (pix : Nat → Nat → Nat → Nat)
    (hpix : ∀ t1 t2 a, pix t1 t2 a < 65536) (dst src : FIBITMAP) (x y alpha : Nat)
    (hd : dst.WF) (hdb : dst.bpp = 16) (hsb : src.bpp = 16)
    (hx : x + src.width ≤ dst.width) (hy : y + src.height ≤ dst.height)
    (hsep : sharesBuffer dst src = false) (ha : alpha ≤ 255)
    (r k : Nat) (hr : r < src.height) (hk : k < src.width) :
    read16 (combine16 pix dst src x y alpha).2.mem
        (dst.bits + (dst.height - src.height - y) * dst.pitch + x * 2 + r * dst.pitch + 2 * k)
      = pix (read16 dst.mem
            (dst.bits + (dst.height - src.height - y) * dst.pitch + x * 2 + r * dst.pitch + 2 * k))
          (read16 src.mem (src.bits + r * src.pitch + 2 * k)) alpha := by
  rw [combine16_fit pix dst src x y alpha hd hdb hsb hx hy hsep]
  simp only [if_neg (show ¬ alpha > 255 by omega)]
  have hline : FreeImage_GetLine src = src.width * 2 := line_of_bytes src 2 hsb
  have hlen : 2 * ((FreeImage_GetLine src + 1) / 2) = 2 * src.width := by omega
  have hle : 2 * src.width ≤ dst.pitch := by
    have := src_line_le_pitch dst src x hd (by rw [hsb, hdb]) hx
    omega
  have hframe : ∀ (m : Mem) (d s a : Nat), ¬ (d ≤ a ∧ a < d + 2 * src.width) →
      blendRow16Sep pix src.mem (FreeImage_GetLine src) alpha m d s a = m a := by
    intro m d s a h
    exact blendRow16Sep_frame _ _ _ _ _ _ _ _ (by rw [hlen]; exact h)
  have hlocal : ∀ (m m' : Mem) (d s : Nat), (∀ a, d ≤ a → a < d + 2 * src.width → m a = m' a) →
      ∀ a, d ≤ a → a < d + 2 * src.width →
        blendRow16Sep pix src.mem (FreeImage_GetLine src) alpha m d s a
          = blendRow16Sep pix src.mem (FreeImage_GetLine src) alpha m' d s a := by
    intro m m' d s h a h1 h2
    exact blendRow16Sep_local _ _ _ _ _ _ _ _ (by rw [hlen]; exact h) a h1 (by rw [hlen]; exact h2)
  have hbyte : ∀ a,
      dst.bits + (dst.height - src.height - y) * dst.pitch + x * 2 + r * dst.pitch ≤ a →
      a < dst.bits + (dst.height - src.height - y) * dst.pitch + x * 2 + r * dst.pitch
            + 2 * src.width →
      (rowLoop src.height (blendRow16Sep pix src.mem (FreeImage_GetLine src) alpha)
          dst.pitch src.pitch dst.mem
          (dst.bits + (dst.height - src.height - y) * dst.pitch + x * 2) src.bits).1 a
        = blendRow16Sep pix src.mem (FreeImage_GetLine src) alpha dst.mem
            (dst.bits + (dst.height - src.height - y) * dst.pitch + x * 2 + r * dst.pitch)
            (src.bits + r * src.pitch) a := by
    intro a h1 h2
    exact rowLoop_row _ (2 * src.width) dst.pitch src.pitch hframe hlocal hle src.height dst.mem
      _ _ r a hr h1 h2
  generalize hD : dst.bits + (dst.height - src.height - y) * dst.pitch + x * 2 + r * dst.pitch
    = D at hbyte ⊢
  have hs : src.bits + r * src.pitch + 2 * k = src.bits + r * src.pitch + 2 * k := rfl
  show read16 (rowLoop src.height (blendRow16Sep pix src.mem (FreeImage_GetLine src) alpha)
      dst.pitch src.pitch dst.mem _ src.bits).1 (D + 2 * k) = _
  have h0 := hbyte (D + 2 * k) (by omega) (by omega)
  have h1 := hbyte (D + 2 * k + 1) (by omega) (by omega)
  rw [blendRow16Sep_apply, hlen, if_pos (by omega)] at h0 h1
  have e0 : (D + 2 * k - D) % 2 = 0 := by omega
  have e1 : ¬ (D + 2 * k + 1 - D) % 2 = 0 := by omega
  have e2 : (D + 2 * k - D) / 2 = k := by omega
  have e3 : (D + 2 * k + 1 - D) / 2 = k := by omega
  rw [if_pos e0, e2] at h0
  rw [if_neg e1, e3] at h1
  have hp := hpix (read16 dst.mem (D + 2 * k)) (read16 src.mem (src.bits + r * src.pitch + 2 * k))
    alpha
  have hr16 : ∀ (m : Mem) (a : Nat), read16 m a = m a + 256 * m (a + 1) := fun _ _ => rfl
  rw [hr16 _ (D + 2 * k), h0, h1]
  omega

theorem blendPixel555_lt (t1 t2 a : Nat) : blendPixel555 t1 t2 a < 65536 :=
  Nat.mod_lt _ (by norm_num)

theorem blendPixel565_lt (t1 t2 a : Nat) : blendPixel565 t1 t2 a < 65536 :=
  Nat.mod_lt _ (by norm_num)

theorem blend_lt (s d alpha : Nat) : blend s d alpha < 256 := Nat.mod_lt _ (by norm_num)

/-- Fields of a pixel packed by `RGB555` from three bytes: the top five bits of
each channel; the top bit of the pixel is clear. -/
theorem fields_555 (r g b : Nat) (hr : r < 256) (hg : g < 256) (hb : b < 256) :
    field16 FI16_555_RED_MASK FI16_555_RED_SHIFT (RGB555 r g b % 65536) = r >>> 3
    ∧ field16 FI16_555_GREEN_MASK FI16_555_GREEN_SHIFT (RGB555 r g b % 65536) = g >>> 3
    ∧ field16 FI16_555_BLUE_MASK FI16_555_BLUE_SHIFT (RGB555 r g b % 65536) = b >>> 3
    ∧ RGB555 r g b % 65536 < 32768 := by
  have hR := and_mask_shift (RGB555 r g b % 65536) 10 5
  have hG := and_mask_shift (RGB555 r g b % 65536) 5 5
  have hB := and_mask_shift (RGB555 r g b % 65536) 0 5
  change field16 FI16_555_RED_MASK FI16_555_RED_SHIFT (RGB555 r g b % 65536)
    = RGB555 r g b % 65536 / 1024 % 32 at hR
  change field16 FI16_555_GREEN_MASK FI16_555_GREEN_SHIFT (RGB555 r g b % 65536)
    = RGB555 r g b % 65536 / 32 % 32 at hG
  change field16 FI16_555_BLUE_MASK FI16_555_BLUE_SHIFT (RGB555 r g b % 65536)
    = RGB555 r g b % 65536 / 1 % 32 at hB
  rw [hR, hG, hB, RGB555_eq r g b hg hb]
  simp only [Nat.shiftRight_eq_div_pow]
  have e : (2 : Nat) ^ 3 = 8 := rfl
  rw [e]
  omega

/-- Fields of a pixel packed by `RGB565` from three bytes: the top five bits of
red and blue and the top six bits of green. -/
theorem fields_565 (r g b : Nat) (hr : r < 256) (hg : g < 256) (hb : b < 256) :
    field16 FI16_565_RED_MASK FI16_565_RED_SHIFT (RGB565 r g b % 65536) = r >>> 3
    ∧ field16 FI16_565_GREEN_MASK FI16_565_GREEN_SHIFT (RGB565 r g b % 65536) = g >>> 2
    ∧ field16 FI16_565_BLUE_MASK FI16_565_BLUE_SHIFT (RGB565 r g b % 65536) = b >>> 3 := by
  have hR := and_mask_shift (RGB565 r g b % 65536) 11 5
  have hG := and_mask_shift (RGB565 r g b % 65536) 5 6
  have hB := and_mask_shift (RGB565 r g b % 65536) 0 5
  change field16 FI16_565_RED_MASK FI16_565_RED_SHIFT (RGB565 r g b % 65536)
    = RGB565 r g b % 65536 / 2048 % 32 at hR
  change field16 FI16_565_GREEN_MASK FI16_565_GREEN_SHIFT (RGB565 r g b % 65536)
    = RGB565 r g b % 65536 / 32 % 64 at hG
  change field16 FI16_565_BLUE_MASK FI16_565_BLUE_SHIFT (RGB565 r g b % 65536)
    = RGB565 r g b % 65536 / 1 % 32 at hB
  rw [hR, hG, hB, RGB565_eq r g b hg hb]
  simp only [Nat.shiftRight_eq_div_pow]
  have e : (2 : Nat) ^ 3 = 8 := rfl
  have e2 : (2 : Nat) ^ 2 = 4 := rfl
  rw [e, e2]
  omega

/-- The unpacking of a field to eight bits never overflows the byte. -/
theorem unpack_cast (mask shift k t : Nat) (h : field16 mask shift t <<< k < 256) :
    (((t &&& mask) >>> shift) <<< k) % 256 = field16 mask shift t <<< k :=
  Nat.mod_eq_of_lt h

theorem field_lt (n k t : Nat) : field16 ((2 ^ n - 1) <<< k) k t < 2 ^ n := by
  unfold field16
  rw [and_mask_shift]
  exact Nat.mod_lt _ (Nat.pos_pow_of_pos n (by norm_num))

/-- Channels of the pixel stored by the 555 blend: each field is the byte blend
of the source and destination channels unpacked to eight bits, shifted back by
3; the top bit of the pixel is clear. -/
theorem blendPixel555_fields (t1 t2 alpha : Nat) :
    field16 FI16_555_RED_MASK FI16_555_RED_SHIFT (blendPixel555 t1 t2 alpha)
      = blend (field16 FI16_555_RED_MASK FI16_555_RED_SHIFT t2 <<< 3)
          (field16 FI16_555_RED_MASK FI16_555_RED_SHIFT t1 <<< 3) alpha >>> 3
    ∧ field16 FI16_555_GREEN_MASK FI16_555_GREEN_SHIFT (blendPixel555 t1 t2 alpha)
      = blend (field16 FI16_555_GREEN_MASK FI16_555_GREEN_SHIFT t2 <<< 3)
          (field16 FI16_555_GREEN_MASK FI16_555_GREEN_SHIFT t1 <<< 3) alpha >>> 3
    ∧ field16 FI16_555_BLUE_MASK FI16_555_BLUE_SHIFT (blendPixel555 t1 t2 alpha)
      = blend (field16 FI16_555_BLUE_MASK FI16_555_BLUE_SHIFT t2 <<< 3)
          (field16 FI16_555_BLUE_MASK FI16_555_BLUE_SHIFT t1 <<< 3) alpha >>> 3
    ∧ blendPixel555 t1 t2 alpha < 32768 := by
  have hR : ∀ t, field16 FI16_555_RED_MASK FI16_555_RED_SHIFT t <<< 3 < 256 := by
    intro t
    have := field_lt 5 10 t
    change field16 FI16_555_RED_MASK FI16_555_RED_SHIFT t < 32 at this
    rw [Nat.shiftLeft_eq]
    omega
  have hG : ∀ t, field16 FI16_555_GREEN_MASK FI16_555_GREEN_SHIFT t <<< 3 < 256 := by
    intro t
    have := field_lt 5 5 t
    change field16 FI16_555_GREEN_MASK FI16_555_GREEN_SHIFT t < 32 at this
    rw [Nat.shiftLeft_eq]
    omega
  have hB : ∀ t, field16 FI16_555_BLUE_MASK FI16_555_BLUE_SHIFT t <<< 3 < 256 := by
    intro t
    have := field_lt 5 0 t
    change field16 FI16_555_BLUE_MASK FI16_555_BLUE_SHIFT t < 32 at this
    rw [Nat.shiftLeft_eq]
    omega
  have hp : blendPixel555 t1 t2 alpha
      = RGB555
          (blend (field16 FI16_555_RED_MASK FI16_555_RED_SHIFT t2 <<< 3)
            (field16 FI16_555_RED_MASK FI16_555_RED_SHIFT t1 <<< 3) alpha)
          (blend (field16 FI16_555_GREEN_MASK FI16_555_GREEN_SHIFT t2 <<< 3)
            (field16 FI16_555_GREEN_MASK FI16_555_GREEN_SHIFT t1 <<< 3) alpha)
          (blend (field16 FI16_555_BLUE_MASK FI16_555_BLUE_SHIFT t2 <<< 3)
            (field16 FI16_555_BLUE_MASK FI16_555_BLUE_SHIFT t1 <<< 3) alpha) % 65536 := by
    unfold blendPixel555
    simp only [unpack_cast _ _ _ _ (hR _), unpack_cast _ _ _ _ (hG _), unpack_cast _ _ _ _ (hB _)]
  rw [hp]
  exact fields_555 _ _ _ (blend_lt _ _ _) (blend_lt _ _ _) (blend_lt _ _ _)

/-- Channels of the pixel stored by the 565 blend: red and blue are unpacked by
3 bits and green by 2, blended, and shifted back by the same amounts. -/
theorem blendPixel565_fields (t1 t2 alpha : Nat) :
    field16 FI16_565_RED_MASK FI16_565_RED_SHIFT (blendPixel565 t1 t2 alpha)
      = blend (field16 FI16_565_RED_MASK FI16_565_RED_SHIFT t2 <<< 3)
          (field16 FI16_565_RED_MASK FI16_565_RED_SHIFT t1 <<< 3) alpha >>> 3
    ∧ field16 FI16_565_GREEN_MASK FI16_565_GREEN_SHIFT (blendPixel565 t1 t2 alpha)
      = blend (field16 FI16_565_GREEN_MASK FI16_565_GREEN_SHIFT t2 <<< 2)
          (field16 FI16_565_GREEN_MASK FI16_565_GREEN_SHIFT t1 <<< 2) alpha >>> 2
    ∧ field16 FI16_565_BLUE_MASK FI16_565_BLUE_SHIFT (blendPixel565 t1 t2 alpha)
      = blend (field16 FI16_565_BLUE_MASK FI16_565_BLUE_SHIFT t2 <<< 3)
          (field16 FI16_565_BLUE_MASK FI16_565_BLUE_SHIFT t1 <<< 3) alpha >>> 3 := by
  have hR : ∀ t, field16 FI16_565_RED_MASK FI16_565_RED_SHIFT t <<< 3 < 256 := by
    intro t
    have := field_lt 5 11 t
    change field16 FI16_565_RED_MASK FI16_565_RED_SHIFT t < 32 at this
    rw [Nat.shiftLeft_eq]
    omega
  have hG : ∀ t, field16 FI16_565_GREEN_MASK FI16_565_GREEN_SHIFT t <<< 2 < 256 := by
    intro t
    have := field_lt 6 5 t
    change field16 FI16_565_GREEN_MASK FI16_565_GREEN_SHIFT t < 64 at this
    rw [Nat.shiftLeft_eq]
    omega
  have hB : ∀ t, field16 FI16_565_BLUE_MASK FI16_565_BLUE_SHIFT t <<< 3 < 256 := by
    intro t
    have := field_lt 5 0 t
    change field16 FI16_565_BLUE_MASK FI16_565_BLUE_SHIFT t < 32 at this
    rw [Nat.shiftLeft_eq]
    omega
  have hp : blendPixel565 t1 t2 alpha
      = RGB565
          (blend (field16 FI16_565_RED_MASK FI16_565_RED_SHIFT t2 <<< 3)
            (field16 FI16_565_RED_MASK FI16_565_RED_SHIFT t1 <<< 3) alpha)
          (blend (field16 FI16_565_GREEN_MASK FI16_565_GREEN_SHIFT t2 <<< 2)
            (field16 FI16_565_GREEN_MASK FI16_565_GREEN_SHIFT t1 <<< 2) alpha)
          (blend (field16 FI16_565_BLUE_MASK FI16_565_BLUE_SHIFT t2 <<< 3)
            (field16 FI16_565_BLUE_MASK FI16_565_BLUE_SHIFT t1 <<< 3) alpha) % 65536 := by
    unfold blendPixel565
    simp only [unpack_cast _ _ _ _ (hR _), unpack_cast _ _ _ _ (hG _), unpack_cast _ _ _ _ (hB _)]
  rw [hp]
  exact fields_565 _ _ _ (blend_lt _ _ _) (blend_lt _ _ _) (blend_lt _ _ _)

/-! ## The same-type combiner -/

/-- For a fitting origin and a common byte-multiple depth `CombineSameType`
succeeds; its column byte offset `x * (line / width)` is `x` pixels of `B` bytes. -/
theorem CombineSameType_fit (dst src : FIBITMAP) (x y B : Nat)
    (hd : dst.WF) (hty : dst.imageType = src.imageType)
    (hdb : dst.bpp = 8 * B) (hsb : src.bpp = 8 * B) (hw : 0 < src.width)
    (hx : x + src.width ≤ dst.width) (hy : y + src.height ≤ dst.height)
    (hsep : sharesBuffer dst src = false) :
    FreeImage_GetLine src / src.width = B
    ∧ CombineSameType dst src x y =
      (true, { dst with mem :=
        (rowLoop src.height (copyRowSep src.mem (FreeImage_GetLine src))
          dst.pitch src.pitch dst.mem
          (dst.bits + (dst.height - src.height - y) * dst.pitch + x * B) src.bits).1 }) := by
  obtain ⟨hchk, hoff⟩ := fit_checks dst src x y hd hx hy
  have hq : FreeImage_GetLine src / src.width = B := by
    rw [line_of_bytes src B hsb]
    exact Nat.mul_div_cancel_left B hw
  refine ⟨hq, ?_⟩
  unfold CombineSameType
  rw [if_neg (show ¬ dst.imageType ≠ src.imageType from fun h => h hty)]
  simp only [if_neg hchk, hoff, hq, xoff_eq dst src x B hd hdb hx, sourceMem_sep dst src hsep]
  rfl

/-- For a valid paste between bitmaps of one non-standard type
`FreeImage_Paste` is `CombineSameType`, whatever alpha is. -/
theorem paste_same_type (env : Collaborators) (dst src : FIBITMAP) (left top : Nat)
    (alpha : Int) (hps : src.hasPixels = true) (hpd : dst.hasPixels = true)
    (hty : dst.imageType = src.imageType) (hns : dst.imageType ≠ FIT_BITMAP) (hd : dst.WF)
    (hx : left + src.width ≤ dst.width) (hy : top + src.height ≤ dst.height) :
    FreeImage_Paste env dst src (left : Int) (top : Int) alpha
      = CombineSameType dst src left top := by
  obtain ⟨h1, h2, h3⟩ := paste_checks dst src left top hd hx hy
  unfold FreeImage_Paste
  rw [if_neg (by simp [hps, hpd]), if_neg (by omega), if_neg h3]
  simp only [if_neg (show ¬ dst.imageType ≠ src.imageType from fun h => h hty), if_neg hns,
    h1, h2]

/-! ## The bit-clear mask -/

set_option maxRecDepth 1000000 in
theorem clearBit_small : ∀ b < 256, ∀ s < 8,
    clearBit b s = b &&& (255 - (0x80 >>> s))
      ∧ ∀ k < 8, (clearBit b s).testBit k = (decide (k ≠ 7 - s) && b.testBit k) := by
  decide

/-- Bits of a byte after `byte &= (0xFF7F >> s)`: bit `7 - s` is clear, every
other bit is kept. -/
theorem clearBit_testBit (b s : Nat) (hb : b < 256) (hs : s < 8) (k : Nat) :
    (clearBit b s).testBit k = (decide (k ≠ 7 - s) && b.testBit k) := by
  rcases Nat.lt_or_ge k 8 with hk | hk
  · exact (clearBit_small b hb s hs).2 k hk
  · have h1 : clearBit b s < 2 ^ k := by
      have : clearBit b s < 256 := Nat.mod_lt _ (by norm_num)
      have : (2 : Nat) ^ 8 ≤ 2 ^ k := Nat.pow_le_pow_right (by norm_num) hk
      omega
    have h2 : b < 2 ^ k := by
      have : (2 : Nat) ^ 8 ≤ 2 ^ k := Nat.pow_le_pow_right (by norm_num) hk
      omega
    rw [Nat.testBit_lt_two_pow h1, Nat.testBit_lt_two_pow h2, Bool.and_false]

/-- A one-column row of `Combine1` whose source bit is clear executes the
bit-clear statement on the destination byte. -/
theorem combine1Row_clear (rd : Mem → Mem) (x : Nat) (m : Mem) (d s : Nat)
    (hx : x < 4294967296) (h0 : rd m s &&& 0x80 = 0) :
    combine1Row rd x 1 m d s
      = store m (d + (x >>> 3)) (clearBit (m (d + (x >>> 3))) (x &&& 7)) := by
  have e : uadd x 0 = x := uadd_eq (by omega)
  have hv : ¬ (rd m (s + (0 >>> 3)) &&& (0x80 >>> (0 &&& 0x07)) ≠ 0) := by
    intro h
    exact h h0
  show (if (rd m (s + (0 >>> 3)) &&& (0x80 >>> (0 &&& 0x07)) ≠ 0) then _ else _) = _
  rw [if_neg hv, e]
  rfl

/-- A one-pixel copy of the 1-bit branch of `FreeImage_Copy` whose source bit is
clear executes the bit-clear statement on the destination byte. -/
theorem copyBits1_clear (srcm : Mem) (sb db : Nat) (sp dp : Int) (l : Nat) (m : Mem)
    (h0 : srcm (sb + uadd (u32 (((0 : Nat) : Int) * sp)) ((l + 0) >>> 3))
      &&& (0x80 >>> ((l + 0) &&& 0x07)) = 0) :
    copyBits1 srcm sb db sp dp l 1 1 m
      = store m (db + uadd (u32 (((0 : Nat) : Int) * dp)) (0 >>> 3))
          (clearBit (m (db + uadd (u32 (((0 : Nat) : Int) * dp)) (0 >>> 3))) (0 &&& 0x7)) := by
  show (if (srcm (sb + uadd (u32 (((0 : Nat) : Int) * sp)) ((l + 0) >>> 3))
      &&& (0x80 >>> ((l + 0) &&& 0x07)) ≠ 0) then _ else _) = _
  rw [if_neg (fun h => h h0)]
  rfl

/-! ## Bounds of the byte blend and alpha beyond 255 -/

/-- The byte blend lies between its two inputs. -/
theorem blend_between (s d alpha : Nat) (hs : s < 256) (hd : d < 256) (ha : alpha ≤ 255) :
    min s d ≤ blend s d alpha ∧ blend s d alpha ≤ max s d := by
  have h := blend_eq_floor s d alpha hs hd ha
  rcases Nat.lt_or_ge s d with hlt | hge
  · obtain ⟨p, hp⟩ : ∃ p : Nat, p = (d - s) * alpha := ⟨_, rfl⟩
    have hp1 : p ≤ (d - s) * 255 := hp ▸ Nat.mul_le_mul_left _ ha
    have hprod : ((s : Int) - (d : Int)) * (alpha : Int) = -(p : Int) := by
      rw [hp]
      push_cast [Nat.cast_sub (Nat.le_of_lt hlt)]
      ring
    rw [hprod] at h
    rw [Nat.min_eq_left (Nat.le_of_lt hlt), Nat.max_eq_right (Nat.le_of_lt hlt)]
    omega
  · obtain ⟨p, hp⟩ : ∃ p : Nat, p = (s - d) * alpha := ⟨_, rfl⟩
    have hp1 : p ≤ (s - d) * 255 := hp ▸ Nat.mul_le_mul_left _ ha
    have hprod : ((s : Int) - (d : Int)) * (alpha : Int) = (p : Int) := by
      rw [hp]
      push_cast [Nat.cast_sub hge]
      ring
    rw [hprod] at h
    rw [Nat.min_eq_right hge, Nat.max_eq_left hge]
    omega

/-- The byte combiners do not distinguish two alphas above 255. -/
theorem combineBytes_alpha (depth xoff : Nat) (dst src : FIBITMAP) (x y a1 a2 : Nat)
    (h1 : a1 > 255) (h2 : a2 > 255) :
    combineBytes depth xoff dst src x y a1 = combineBytes depth xoff dst src x y a2 := by
  unfold combineBytes
  simp only [if_pos h1, if_pos h2]

/-- The 16-bit combiners do not distinguish two alphas above 255. -/
theorem combine16_alpha (pix : Nat → Nat → Nat → Nat) (dst src : FIBITMAP) (x y a1 a2 : Nat)
    (h1 : a1 > 255) (h2 : a2 > 255) :
    combine16 pix dst src x y a1 = combine16 pix dst src x y a2 := by
  unfold combine16
  simp only [if_pos h1, if_pos h2]

/-- A negative `int` alpha is above 255 once cast to `unsigned`. -/
theorem u32_neg_gt (alpha : Int) (h1 : -2147483648 ≤ alpha) (h2 : alpha < 0) :
    u32 alpha > 255 := by
  unfold u32
  omega

/-- `FreeImage_Paste` gives the same result for any two alphas whose casts to
`unsigned` are above 255. -/
theorem paste_alpha (env : Collaborators) (dst src : FIBITMAP) (left top a1 a2 : Int)
    (h1 : u32 a1 > 255) (h2 : u32 a2 > 255) :
    FreeImage_Paste env dst src left top a1 = FreeImage_Paste env dst src left top a2 := by
  unfold FreeImage_Paste
  simp only [Combine8, Combine24, Combine32, Combine16_555, Combine16_565, Combine1, Combine4,
    combineBytes_alpha _ _ dst _ _ _ (u32 a1) (u32 a2) h1 h2,
    combine16_alpha _ dst _ _ _ (u32 a1) (u32 a2) h1 h2]

/-! ## Frame of an overwrite -/

/-- A byte inside the window of row `r` of an overwrite is a byte of a pixel of
the pasted rectangle. -/
theorem window_pixel (dst : FIBITMAP) (B x y w h r a : Nat) (hB : 0 < B)
    (hdb : dst.bpp = 8 * B) (hy : y + h ≤ dst.height) (hr : r < h)
    (h1 : dst.bits + (dst.height - h - y) * dst.pitch + x * B + r * dst.pitch ≤ a)
    (h2 : a < dst.bits + (dst.height - h - y) * dst.pitch + x * B + r * dst.pitch + w * B) :
    ∃ i j k, i < w ∧ j < h ∧ k < B ∧ a = (pixelLoc dst (x + i) (y + j)).1 + k := by
  obtain ⟨c, hc⟩ : ∃ c, c = a - (dst.bits + (dst.height - h - y) * dst.pitch + x * B
      + r * dst.pitch) := ⟨_, rfl⟩
  have hcw : c < w * B := by omega
  have hdm := Nat.div_add_mod c B
  have hmod : c % B < B := Nat.mod_lt _ hB
  have hi : c / B < w := by
    apply Nat.div_lt_of_lt_mul
    rw [Nat.mul_comm]
    exact hcw
  refine ⟨c / B, h - 1 - r, c % B, hi, by omega, hmod, ?_⟩
  have hloc : (pixelLoc dst (x + c / B) (y + (h - 1 - r))).1
      = dst.bits + dst.pitch * (dst.height - 1 - (y + (h - 1 - r))) + (x + c / B) * B := by
    unfold pixelLoc
    have h8 : dst.bpp / 8 = B := by omega
    rw [if_neg (show ¬ dst.bpp = 1 by omega), if_neg (show ¬ dst.bpp = 4 by omega), h8]
  rw [hloc, row_addr dst.bits dst.pitch dst.height h y (h - 1 - r) hy (by omega)]
  have e : h - 1 - (h - 1 - r) = r := by omega
  rw [e, Nat.add_mul, Nat.mul_comm (c / B) B]
  omega

/-- Byte frame of an overwrite of whole rows: a byte that belongs to no pixel of
the pasted rectangle keeps its content. -/
theorem copyRows_frame (dst src : FIBITMAP) (B x y : Nat) (hB : 0 < B)
    (hdb : dst.bpp = 8 * B) (hsb : src.bpp = 8 * B)
    (hy : y + src.height ≤ dst.height) (a : Nat)
    (hout : ∀ i j k, i < src.width → j < src.height → k < B →
      a ≠ (pixelLoc dst (x + i) (y + j)).1 + k) :
    (rowLoop src.height (copyRowSep src.mem (FreeImage_GetLine src)) dst.pitch src.pitch
        dst.mem (dst.bits + (dst.height - src.height - y) * dst.pitch + x * B) src.bits).1 a
      = dst.mem a := by
  have hline := line_of_bytes src B hsb
  apply rowLoop_frame _ (FreeImage_GetLine src) dst.pitch src.pitch (copyRowSep_frame src.mem _)
  intro r hr hc
  rw [hline] at hc
  obtain ⟨i, j, k, hi, hj, hk, ha⟩ :=
    window_pixel dst B x y src.width src.height r a hB hdb hy hr hc.1 hc.2
  exact hout i j k hi hj hk ha

/-- Two pixel bytes of a well-formed bitmap at the same address are the same
byte of the same pixel. -/
theorem pixel_addr_inj (dst : FIBITMAP) (B : Nat) (hd : dst.WF) (hdb : dst.bpp = 8 * B)
    (i j k i2 j2 k2 : Nat) (hi : i < dst.width) (hj : j < dst.height) (hk : k < B)
    (hi2 : i2 < dst.width) (hj2 : j2 < dst.height) (hk2 : k2 < B)
    (h : (pixelLoc dst i j).1 + k = (pixelLoc dst i2 j2).1 + k2) : i = i2 ∧ j = j2 := by
  have hloc : ∀ u v, (pixelLoc dst u v).1
      = dst.bits + dst.pitch * (dst.height - 1 - v) + u * B := by
    intro u v
    unfold pixelLoc
    have h8 : dst.bpp / 8 = B := by omega
    rw [if_neg (show ¬ dst.bpp = 1 by omega), if_neg (show ¬ dst.bpp = 4 by omega), h8]
  rw [hloc, hloc] at h
  have hline := line_of_bytes dst B hdb
  have hlp := hd.line_le
  rw [hline] at hlp
  have b1 := pixel_byte_lt dst.width B i k hi hk
  have b2 := pixel_byte_lt dst.width B i2 k2 hi2 hk2
  have hrow : dst.height - 1 - j = dst.height - 1 - j2 := by
    have c1 := Nat.mul_comm (dst.height - 1 - j) dst.pitch
    have c2 := Nat.mul_comm (dst.height - 1 - j2) dst.pitch
    apply row_unique dst.pitch _ _ (dst.pitch * (dst.height - 1 - j) + i * B + k)
    · omega
    · omega
    · omega
    · omega
  have hjj : j = j2 := by omega
  refine ⟨?_, hjj⟩
  rw [hrow] at h
  have hcol : i * B + k = i2 * B + k2 := by omega
  rcases Nat.lt_trichotomy i i2 with hlt | heq | hgt
  · have := Nat.mul_le_mul_right B (show i + 1 ≤ i2 from hlt)
    rw [Nat.add_mul] at this
    omega
  · exact heq
  · have := Nat.mul_le_mul_right B (show i2 + 1 ≤ i from hgt)
    rw [Nat.add_mul] at this
    omega

/-- Pixel frame of an overwrite of whole rows: a destination pixel outside the
pasted rectangle keeps its value. -/
theorem copyRows_frame_pixel (dst src : FIBITMAP) (B x y : Nat)
    (hd : dst.WF) (hdb : dst.bpp = 8 * B) (hsb : src.bpp = 8 * B)
    (hx : x + src.width ≤ dst.width) (hy : y + src.height ≤ dst.height)
    (i j : Nat) (hi : i < dst.width) (hj : j < dst.height)
    (hout : ¬ (x ≤ i ∧ i < x + src.width ∧ y ≤ j ∧ j < y + src.height)) :
    getPixel { dst with mem :=
        (rowLoop src.height (copyRowSep src.mem (FreeImage_GetLine src)) dst.pitch src.pitch
          dst.mem (dst.bits + (dst.height - src.height - y) * dst.pitch + x * B) src.bits).1 }
        i j
      = getPixel dst i j := by
  have hb' : ({ dst with mem :=
        (rowLoop src.height (copyRowSep src.mem (FreeImage_GetLine src)) dst.pitch src.pitch
          dst.mem (dst.bits + (dst.height - src.height - y) * dst.pitch + x * B) src.bits).1 }
      : FIBITMAP).bpp = 8 * B := hdb
  rw [getPixel_bytes _ B _ _ hb', getPixel_bytes dst B i j hdb]
  apply List.map_congr_left
  intro k hk
  have hk' : k < B := List.mem_range.1 hk
  have hB : 0 < B := by omega
  show (rowLoop src.height (copyRowSep src.mem (FreeImage_GetLine src)) dst.pitch src.pitch
          dst.mem (dst.bits + (dst.height - src.height - y) * dst.pitch + x * B) src.bits).1
        (dst.bits + dst.pitch * (dst.height - 1 - j) + i * B + k)
      = dst.mem (dst.bits + dst.pitch * (dst.height - 1 - j) + i * B + k)
  apply copyRows_frame dst src B x y hB hdb hsb hy
  intro i2 j2 k2 hi2 hj2 hk2 heq
  have hloc : (pixelLoc dst i j).1 = dst.bits + dst.pitch * (dst.height - 1 - j) + i * B := by
    unfold pixelLoc
    have h8 : dst.bpp / 8 = B := by omega
    rw [if_neg (show ¬ dst.bpp = 1 by omega), if_neg (show ¬ dst.bpp = 4 by omega), h8]
  rw [← hloc] at heq
  obtain ⟨e1, e2⟩ := pixel_addr_inj dst B hd hdb i j k (x + i2) (y + j2) k2 hi hj hk'
    (by omega) (by omega) hk2 heq
  exact hout (by omega)

/-- Placement of the overwrite branch of the byte combiners, with `B` bytes per
pixel: success, geometry unchanged, pasted pixels, byte frame, and the first
written buffer row. -/
theorem combineBytes_placement (B xoff : Nat) (dst src : FIBITMAP) (x y alpha : Nat)
    (hxoff : xoff = x * B) (hB : 0 < B)
    (hd : dst.WF) (hdb : dst.bpp = 8 * B) (hsb : src.bpp = 8 * B)
    (hx : x + src.width ≤ dst.width) (hy : y + src.height ≤ dst.height)
    (hsep : sharesBuffer dst src = false) (ha : alpha > 255) :
    (combineBytes (8 * B) xoff dst src x y alpha).1 = true
    ∧ (combineBytes (8 * B) xoff dst src x y alpha).2
        = { dst with mem := (combineBytes (8 * B) xoff dst src x y alpha).2.mem }
    ∧ (∀ i j, i < src.width → j < src.height →
        getPixel (combineBytes (8 * B) xoff dst src x y alpha).2 (x + i) (y + j)
          = getPixel src i j)
    ∧ (∀ a, (∀ i j k, i < src.width → j < src.height → k < B →
          a ≠ (pixelLoc dst (x + i) (y + j)).1 + k) →
        (combineBytes (8 * B) xoff dst src x y alpha).2.mem a = dst.mem a)
    ∧ (∀ i, i < src.width → 0 < src.height →
        (pixelLoc dst (x + i) (y + (src.height - 1))).1
          = dst.bits + (dst.height - src.height - y) * dst.pitch + (x + i) * B)
    ∧ (∀ a, a < dst.bits + (dst.height - src.height - y) * dst.pitch →
        (combineBytes (8 * B) xoff dst src x y alpha).2.mem a = dst.mem a) := by
  have hfit := combineBytes_fit (8 * B) xoff dst src x y alpha hd hdb hsb hx hy hsep
  simp only [if_pos ha, hxoff] at hfit
  rw [hxoff, hfit]
  refine ⟨rfl, rfl, ?_, ?_, ?_, ?_⟩
  · intro i j hi hj
    exact copyRows_getPixel dst src B x y hd hdb hsb hx hy i j hi hj
  · intro a hout
    exact copyRows_frame dst src B x y hB hdb hsb hy a hout
  · intro i hi hh
    unfold pixelLoc
    have h8 : dst.bpp / 8 = B := by omega
    rw [if_neg (show ¬ dst.bpp = 1 by omega), if_neg (show ¬ dst.bpp = 4 by omega), h8]
    show dst.bits + dst.pitch * (dst.height - 1 - (y + (src.height - 1))) + (x + i) * B = _
    rw [row_addr dst.bits dst.pitch dst.height src.height y (src.height - 1) hy (by omega)]
    have e : src.height - 1 - (src.height - 1) = 0 := by omega
    rw [e, Nat.zero_mul, Nat.add_zero]
  · intro a hlt
    show (rowLoop src.height (copyRowSep src.mem (FreeImage_GetLine src)) dst.pitch src.pitch
      dst.mem _ src.bits).1 a = _
    apply rowLoop_frame _ (FreeImage_GetLine src) dst.pitch src.pitch (copyRowSep_frame src.mem _)
    intro r _ hc
    omega

/-- Pixel frame of `Combine1`: a destination pixel outside the pasted rectangle
keeps its value. -/
theorem Combine1_frame_pixel (dst src : FIBITMAP) (x y alpha : Nat)
    (hd : dst.WF) (hdb : dst.bpp = 1) (hsb : src.bpp = 1)
    (hx : x + src.width ≤ dst.width) (hy : y + src.height ≤ dst.height)
    (hsep : sharesBuffer dst src = false)
    (i j : Nat) (hi : i < dst.width) (hj : j < dst.height)
    (hout : ¬ (x ≤ i ∧ i < x + src.width ∧ y ≤ j ∧ j < y + src.height)) :
    getPixel (Combine1 dst src x y alpha).2 i j = getPixel dst i j := by
  have hfit := Combine1_fit dst src x y alpha hd hdb hsb hx hy hsep
  have e1 : (Combine1 dst src x y alpha).2.bpp = 1 := by rw [hfit]; exact hdb
  have e2 : (Combine1 dst src x y alpha).2.bits = dst.bits := by rw [hfit]
  have e3 : (Combine1 dst src x y alpha).2.pitch = dst.pitch := by rw [hfit]
  have e4 : (Combine1 dst src x y alpha).2.height = dst.height := by rw [hfit]
  have hwp := width_le_pitch1 dst hd hdb
  rw [getPixel_bit _ _ _ e1, getPixel_bit dst i j hdb, e2, e3, e4]
  by_cases hrow : y ≤ j ∧ j < y + src.height
  · have hj2 : j = y + (j - y) := by omega
    have hbit := Combine1_bit dst src x y alpha hd hdb hsb hx hy hsep (src.height - 1 - (j - y)) i
      (by omega) (by omega)
    rw [if_neg (fun h => hout ⟨h.1, h.2, hrow.1, hrow.2⟩)] at hbit
    have haddr := row_addr dst.bits dst.pitch dst.height src.height y (j - y) hy (by omega)
    rw [← hj2] at haddr
    rw [haddr, hbit]
  · have hbyte : (Combine1 dst src x y alpha).2.mem
          (dst.bits + dst.pitch * (dst.height - 1 - j) + i / 8)
        = dst.mem (dst.bits + dst.pitch * (dst.height - 1 - j) + i / 8) := by
      apply Combine1_frame dst src x y alpha hd hdb hsb hx hy hsep
      intro r hr hc
      have c1 := Nat.mul_comm (dst.height - 1 - j) dst.pitch
      have c2 : (dst.height - src.height - y + r) * dst.pitch
          = (dst.height - src.height - y) * dst.pitch + r * dst.pitch := Nat.add_mul _ _ _
      have := row_unique dst.pitch (dst.height - 1 - j) (dst.height - src.height - y + r)
        (dst.pitch * (dst.height - 1 - j) + i / 8) (by omega) (by omega) (by omega) (by omega)
      omega
    have hb1 : ∀ (m m' : Mem) (row : Nat), m (row + i / 8) = m' (row + i / 8) →
        bitAt m row i = bitAt m' row i := by
      intro m m' row h
      unfold bitAt
      rw [shiftRight_three, h]
    rw [hb1 _ _ _ hbyte]

/-- Pixels of the destination after a valid overwriting paste between
bitmaps of the same depth 1, 8, 16, 24 or 32: inside the pasted rectangle the
source pixels, outside it the old destination pixels. -/
theorem paste_overwrite_pixels (env : Collaborators) (dst src : FIBITMAP) (x y : Nat)
    (alpha : Int) (hps : src.hasPixels = true) (hpd : dst.hasPixels = true)
    (hty : dst.imageType = FIT_BITMAP) (hts : src.imageType = FIT_BITMAP) (hd : dst.WF)
    (hx : x + src.width ≤ dst.width) (hy : y + src.height ≤ dst.height)
    (hsep : sharesBuffer dst src = false)
    (hbpp : dst.bpp = src.bpp)
    (hdepth : dst.bpp = 1 ∨ dst.bpp = 8 ∨ dst.bpp = 16 ∨ dst.bpp = 24 ∨ dst.bpp = 32)
    (ha : 255 < alpha) (ha2 : alpha < 2147483648) :
    (FreeImage_Paste env dst src (x : Int) (y : Int) alpha).1 = true
    ∧ ∀ i j, i < dst.width → j < dst.height →
        getPixel (FreeImage_Paste env dst src (x : Int) (y : Int) alpha).2 i j
          = if x ≤ i ∧ i < x + src.width ∧ y ≤ j ∧ j < y + src.height
            then getPixel src (i - x) (j - y) else getPixel dst i j := by
  have hclone : promote env dst src
      (decide (dst.redMask = FI16_565_RED_MASK ∧ dst.greenMask = FI16_565_GREEN_MASK
        ∧ dst.blueMask = FI16_565_BLUE_MASK)) = some src := by
    unfold promote
    rw [if_pos hbpp]
  have hdisp := paste_dispatch env dst src src x y alpha hps hpd hty hts hd hx hy hclone
  have hau : u32 alpha > 255 := by unfold u32; omega
  have hsb : src.bpp = dst.bpp := hbpp.symm
  -- the byte depths share one argument
  have bytes : ∀ (B xoff : Nat), xoff = x * B → dst.bpp = 8 * B →
      (combineBytes (8 * B) xoff dst src x y (u32 alpha)).1 = true
      ∧ ∀ i j, i < dst.width → j < dst.height →
          getPixel (combineBytes (8 * B) xoff dst src x y (u32 alpha)).2 i j
            = if x ≤ i ∧ i < x + src.width ∧ y ≤ j ∧ j < y + src.height
              then getPixel src (i - x) (j - y) else getPixel dst i j := by
    intro B xoff hxoff hdb
    have hsb8 : src.bpp = 8 * B := by rw [hsb, hdb]
    refine ⟨combineBytes_flag (8 * B) xoff dst src x y _ hd hdb hsb8 hx hy, ?_⟩
    intro i j hi hj
    by_cases hin : x ≤ i ∧ i < x + src.width ∧ y ≤ j ∧ j < y + src.height
    · rw [if_pos hin]
      have := combineBytes_getPixel B xoff dst src x y (u32 alpha) hxoff hd hdb hsb8 hx hy hsep hau
        (i - x) (j - y) (by omega) (by omega)
      rw [show x + (i - x) = i by omega, show y + (j - y) = j by omega] at this
      exact this
    · rw [if_neg hin, combineBytes_fit (8 * B) xoff dst src x y _ hd hdb hsb8 hx hy hsep]
      simp only [if_pos hau, hxoff]
      exact copyRows_frame_pixel dst src B x y hd hdb hsb8 hx hy i j hi hj hin
  have words : ∀ (pix : Nat → Nat → Nat → Nat), dst.bpp = 16 →
      (combine16 pix dst src x y (u32 alpha)).1 = true
      ∧ ∀ i j, i < dst.width → j < dst.height →
          getPixel (combine16 pix dst src x y (u32 alpha)).2 i j
            = if x ≤ i ∧ i < x + src.width ∧ y ≤ j ∧ j < y + src.height
              then getPixel src (i - x) (j - y) else getPixel dst i j := by
    intro pix hdb
    have hsb16 : src.bpp = 16 := by rw [hsb, hdb]
    refine ⟨congrArg Prod.fst (combine16_fit pix dst src x y _ hd hdb hsb16 hx hy hsep), ?_⟩
    intro i j hi hj
    by_cases hin : x ≤ i ∧ i < x + src.width ∧ y ≤ j ∧ j < y + src.height
    · rw [if_pos hin]
      have := combine16_getPixel pix dst src x y (u32 alpha) hd hdb hsb16 hx hy hsep hau
        (i - x) (j - y) (by omega) (by omega)
      rw [show x + (i - x) = i by omega, show y + (j - y) = j by omega] at this
      exact this
    · rw [if_neg hin, combine16_fit pix dst src x y _ hd hdb hsb16 hx hy hsep]
      simp only [if_pos hau]
      exact copyRows_frame_pixel dst src 2 x y hd hdb hsb16 hx hy i j hi hj hin
  rw [hdisp]
  rcases hdepth with h | h | h | h | h
  · rw [if_pos h]
    have hsb1 : src.bpp = 1 := by rw [hsb, h]
    refine ⟨by rw [Combine1_fit dst src x y _ hd h hsb1 hx hy hsep], ?_⟩
    intro i j hi hj
    by_cases hin : x ≤ i ∧ i < x + src.width ∧ y ≤ j ∧ j < y + src.height
    · rw [if_pos hin]
      have := Combine1_getPixel dst src x y (u32 alpha) hd h hsb1 hx hy hsep
        (i - x) (j - y) (by omega) (by omega)
      rw [show x + (i - x) = i by omega, show y + (j - y) = j by omega] at this
      exact this
    · rw [if_neg hin]
      exact Combine1_frame_pixel dst src x y _ hd h hsb1 hx hy hsep i j hi hj hin
  · rw [if_neg (by omega), if_neg (by omega), if_pos h]
    exact bytes 1 x (by omega) h
  · rw [if_neg (by omega), if_neg (by omega), if_neg (by omega), if_pos h]
    split
    · exact words blendPixel565 h
    · exact words blendPixel555 h
  · rw [if_neg (by omega), if_neg (by omega), if_neg (by omega), if_neg (by omega), if_pos h]
    exact bytes 3 (umul x 3) (xoff_eq dst src x 3 hd (by rw [h]) hx) h
  · rw [if_neg (by omega), if_neg (by omega), if_neg (by omega), if_neg (by omega),
      if_neg (by omega), if_pos h]
    exact bytes 4 (umul x 4) (xoff_eq dst src x 4 hd (by rw [h]) hx) h

/-- A bitmap that owns a buffer named after the buffer of `src` does not share
the buffer of `src`. -/
theorem copy_separate (src d : FIBITMAP) (hn : d.buffer = src.buffer + 1)
    (he : d.externalBits = false) : sharesBuffer src d = false := by
  unfold sharesBuffer
  rw [hn, he]
  cases src.externalBits <;> simp

/-- Result of `FreeImage_Copy` on a normalized in-bounds rectangle, with the
fields a later paste relies on. -/
theorem copy_result (env : Collaborators) (src dst0 : FIBITMAP) (l t r b : Nat)
    (hp : src.hasPixels = true) (hs : src.WF)
    (hbpp : src.bpp = 1 ∨ src.bpp = 4 ∨ ∃ B, 0 < B ∧ src.bpp = 8 * B)
    (hlr : l ≤ r) (hrw : r ≤ src.width) (htb : t ≤ b) (hbh : b ≤ src.height)
    (hal : env.allocateT src.imageType ((r : Int) - (l : Int)) ((b : Int) - (t : Int))
      src.bpp src.redMask src.greenMask src.blueMask = some dst0)
    (hspec : Allocated dst0 src.imageType ((r : Int) - (l : Int)) ((b : Int) - (t : Int))
      src.bpp) :
    ∃ d, FreeImage_Copy env src (l : Int) (t : Int) (r : Int) (b : Int) = some d
      ∧ d.hasPixels = true ∧ d.imageType = src.imageType
      ∧ d.width = r - l ∧ d.height = b - t ∧ d.bpp = src.bpp
      ∧ sharesBuffer src d = false
      ∧ ∀ i j, i < r - l → j < b - t → getPixel d i j = getPixel src (l + i) (t + j) := by
  obtain ⟨d, h1, h2, h3, h4, h5⟩ :=
    copy_pixels env src dst0 l t r b hp hs hbpp hlr hrw htb hbh hal hspec
  have hok := copy_ok env src dst0 l t r b hp hs hlr hrw htb hbh hal hspec.wf
  rw [h1] at hok
  have hd := Option.some.inj hok
  refine ⟨d, h1, ?_, ?_, h2, h3, h4, ?_, h5⟩
  · rw [hd]; exact hspec.hasPixels
  · rw [hd]; exact hspec.imageType
  · rw [hd]; exact copy_separate src _ rfl rfl

/-! ## View and copy of one rectangle -/

/-- Geometry of a view: size, depth, pitch and memory of the view, its pixel
pointer, and the storage location of its pixels in the backing image. -/
theorem view_geometry (env : Collaborators) (dib v : FIBITMAP)
    (left top right bottom : Nat) (hspec : HeaderSpec env) (hd : dib.WF)
    (hv : FreeImage_CreateView env dib left top right bottom = some v) :
    v.width = max left right - min left right
    ∧ v.height = max top bottom - min top bottom
    ∧ v.bpp = dib.bpp ∧ v.pitch = dib.pitch ∧ v.mem = dib.mem
    ∧ v.bits = dib.bits + (dib.height - max top bottom) * dib.pitch
        + viewColumnOffset dib.bpp (min left right)
    ∧ ∀ i j, i < max left right - min left right → j < max top bottom - min top bottom →
        pixelLoc v i j = pixelLoc dib (min left right + i) (min top bottom + j)
        ∧ ∀ m' : Mem, getPixel { v with mem := m' } i j
            = getPixel { dib with mem := m' } (min left right + i) (min top bottom + j) := by
  obtain ⟨hp, hr, hb⟩ := view_some_inv env dib v left top right bottom hv
  rw [view_ok env dib left top right bottom hp hd hr hb] at hv
  by_cases hal : (dib.bpp = 1 ∧ min left right % 8 ≠ 0) ∨ (dib.bpp = 4 ∧ min left right % 2 ≠ 0)
  · rw [if_pos hal] at hv; exact absurd hv (by simp)
  · rw [if_neg hal] at hv
    cases hc : env.allocateHeaderForBits dib.mem
        (dib.bits + dib.pitch * (dib.height - max top bottom)
          + viewColumnOffset dib.bpp (min left right))
        dib.pitch dib.imageType ((max left right - min left right : Nat) : Int)
        ((max top bottom - min top bottom : Nat) : Int) dib.bpp
        dib.redMask dib.greenMask dib.blueMask with
    | none => rw [hc] at hv; exact absurd hv (by simp)
    | some dst =>
      rw [hc] at hv
      have hh := hspec _ _ _ _ _ _ _ _ _ _ _ hc
      have hveq : v = { dst with
          palette := copyPalette dst.palette dib.palette dib.colorsUsed,
          buffer := dib.buffer, externalBits := true } :=
        (Option.some.inj hv).symm
      have hw : v.width = max left right - min left right := by
        rw [hveq]; have := hh.width; exact Int.ofNat_inj.1 this
      have hht : v.height = max top bottom - min top bottom := by
        rw [hveq]; have := hh.height; exact Int.ofNat_inj.1 this
      have hbpp : v.bpp = dib.bpp := by rw [hveq]; exact hh.bpp
      have hpitch : v.pitch = dib.pitch := by rw [hveq]; exact hh.pitch
      have hmem : v.mem = dib.mem := by rw [hveq]; exact hh.mem
      have hbits : v.bits = dib.bits + (dib.height - max top bottom) * dib.pitch
          + viewColumnOffset dib.bpp (min left right) := by
        rw [hveq, Nat.mul_comm]; exact hh.bits
      refine ⟨hw, hht, hbpp, hpitch, hmem, hbits, ?_⟩
      intro i j hi hj
      have hloc : pixelLoc v i j
          = pixelLoc dib (min left right + i) (min top bottom + j) := by
        have hrow : dib.pitch * (dib.height - 1 - (min top bottom + j))
            = (dib.height - max top bottom) * dib.pitch
              + dib.pitch * (max top bottom - min top bottom - 1 - j) := by
          have e : dib.height - 1 - (min top bottom + j)
              = (dib.height - max top bottom) + (max top bottom - min top bottom - 1 - j) := by
            omega
          rw [e, Nat.mul_add, Nat.mul_comm dib.pitch (dib.height - max top bottom)]
        unfold pixelLoc
        rw [hbpp, hpitch, hbits, hht, hrow]
        unfold viewColumnOffset
        by_cases h1 : dib.bpp = 1
        · have ha : min left right % 8 = 0 := by
            by_contra hne
            exact hal (Or.inl ⟨h1, hne⟩)
          simp only [if_pos h1, shiftRight_three, and_seven]
          refine Prod.ext ?_ ?_
          · show _ = _
            simp only
            omega
          · show _ = _
            simp only
            omega
        · by_cases h4 : dib.bpp = 4
          · have ha : min left right % 2 = 0 := by
              by_contra hne
              exact hal (Or.inr ⟨h4, hne⟩)
            have hpar : (min left right + i) % 2 = i % 2 := by omega
            simp only [if_neg h1, if_pos h4, shiftRight_one, hpar]
            refine Prod.ext ?_ rfl
            show _ = _
            simp only
            omega
          · simp only [if_neg h1, if_neg h4]
            refine Prod.ext ?_ rfl
            show _ = _
            simp only
            rw [Nat.add_mul]
            omega
      refine ⟨hloc, fun m' => ?_⟩
      apply getPixel_congr
      · exact hbpp
      · rfl
      · have e1 : pixelLoc { v with mem := m' } i j = pixelLoc v i j := rfl
        have e2 : pixelLoc { dib with mem := m' } (min left right + i) (min top bottom + j)
            = pixelLoc dib (min left right + i) (min top bottom + j) := rfl
        rw [e1, e2, hloc]

/-- Pixels read through a view: the view pixel at logical `(i, j)` is the pixel
of the backing image at `(left + i, top + j)` of the normalized rectangle. -/
theorem view_pixels (env : Collaborators) (dib v : FIBITMAP)
    (left top right bottom : Nat) (hspec : HeaderSpec env) (hd : dib.WF)
    (hv : FreeImage_CreateView env dib left top right bottom = some v) :
    v.width = max left right - min left right
    ∧ v.height = max top bottom - min top bottom
    ∧ v.bpp = dib.bpp ∧ v.pitch = dib.pitch
    ∧ ∀ i j, i < max left right - min left right → j < max top bottom - min top bottom →
        getPixel v i j = getPixel dib (min left right + i) (min top bottom + j) := by
  obtain ⟨h1, h2, h3, h4, h5, _, h7⟩ := view_geometry env dib v left top right bottom hspec hd hv
  refine ⟨h1, h2, h3, h4, ?_⟩
  intro i j hi hj
  have hm := (h7 i j hi hj).2 dib.mem
  have hveq : ({ v with mem := dib.mem } : FIBITMAP) = v := by rw [← h5]
  rw [hveq] at hm
  exact hm

/-- A successful `FreeImage_Copy` of a normalized in-bounds rectangle obtained
its bitmap from the allocator. -/
theorem copy_some_alloc (env : Collaborators) (src c : FIBITMAP) (l t r b : Nat)
    (hp : src.hasPixels = true) (hs : src.WF)
    (hlr : l ≤ r) (hrw : r ≤ src.width) (htb : t ≤ b) (hbh : b ≤ src.height)
    (hc : FreeImage_Copy env src (l : Int) (t : Int) (r : Int) (b : Int) = some c) :
    ∃ dst0, env.allocateT src.imageType ((r : Int) - (l : Int)) ((b : Int) - (t : Int))
      src.bpp src.redMask src.greenMask src.blueMask = some dst0 := by
  cases hal : env.allocateT src.imageType ((r : Int) - (l : Int)) ((b : Int) - (t : Int))
      src.bpp src.redMask src.greenMask src.blueMask with
  | some d0 => exact ⟨d0, rfl⟩
  | none =>
    exfalso
    have hw := hs.width_lt
    have hh := hs.height_lt
    have e1 : i32 src.width = (src.width : Int) := i32_eq hw
    have e2 : i32 src.height = (src.height : Int) := i32_eq hh
    have hnone : FreeImage_Copy env src (l : Int) (t : Int) (r : Int) (b : Int) = none := by
      unfold FreeImage_Copy
      rw [if_neg (by simp [hp])]
      simp only [if_neg (show ¬ (r : Int) < (l : Int) by omega),
        if_neg (show ¬ (b : Int) < (t : Int) by omega), e1, e2]
      rw [if_neg (by omega), hal]
    rw [hnone] at hc
    exact absurd hc (by simp)

/-- What the sample allocator returns. -/
theorem sampleEnv_alloc (ty : Nat) (w h : Int) (bpp rm gm bm : Nat) (d0 : FIBITMAP)
    (hd : sampleEnv.allocateT ty w h bpp rm gm bm = some d0) :
    d0 = sampleAlloc ty w h bpp rm gm bm := by
  have hd' : (if w < 0 ∨ h < 0 then none else some (sampleAlloc ty w h bpp rm gm bm))
      = some d0 := hd
  by_cases hneg : w < 0 ∨ h < 0
  · rw [if_pos hneg] at hd'; exact absurd hd' (by simp)
  · rw [if_neg hneg] at hd'
    exact (Option.some.inj hd').symm

/-! ## Pastes of a view into the bitmap it was created on -/

/-- A view refers to the pixel buffer of the bitmap it was created on. -/
theorem view_shares (env : Collaborators) (dib v : FIBITMAP) (left top right bottom : Nat)
    (hv : FreeImage_CreateView env dib left top right bottom = some v) :
    v.buffer = dib.buffer ∧ v.externalBits = true ∧ sharesBuffer dib v = true := by
  have key : v.buffer = dib.buffer ∧ v.externalBits = true := by
    unfold FreeImage_CreateView at hv
    simp only at hv
    repeat' split at hv
    all_goals first
      | exact (Option.some.inj hv) ▸ ⟨rfl, rfl⟩
      | exact Option.noConfusion hv
  refine ⟨key.1, key.2, ?_⟩
  unfold sharesBuffer
  rw [key.1, key.2]
  simp

/-- The copy made by `FreeImage_Copy` shares the buffer neither of its source
nor of a view of its source. -/
theorem copy_fresh (env : Collaborators) (src c v : FIBITMAP) (left top right bottom : Int)
    (hc : FreeImage_Copy env src left top right bottom = some c)
    (hv : v.buffer = src.buffer) :
    sharesBuffer src c = false ∧ sharesBuffer v c = false := by
  have key : c.buffer = src.buffer + 1 ∧ c.externalBits = false := by
    unfold FreeImage_Copy at hc
    simp only at hc
    repeat' split at hc
    all_goals first
      | exact (Option.some.inj hc) ▸ ⟨rfl, rfl⟩
      | exact Option.noConfusion hc
  unfold sharesBuffer
  rw [key.1, key.2, hv]
  cases src.externalBits <;> cases v.externalBits <;> simp

/-- With a source that shares the buffer of the destination, the 8-bit blend
reads the bytes that the same call has already written: pasting the view of
columns 0..2 of the row `0, 60, 120, 180` at column 1 with alpha 77 gives
`0, 41, 96, 154` (96 blends the new 41, not the old 60, over 120). -/
theorem alias_blend8 :
    (FreeImage_CreateView sampleEnv (sampleBitmap 8 4 1 4 (sampleBytes [0, 60, 120, 180]))
        0 0 3 1).map
      (fun v => firstBytes (FreeImage_Paste sampleEnv
        (sampleBitmap 8 4 1 4 (sampleBytes [0, 60, 120, 180])) v 1 0 77).2.mem 4)
      = some [0, 41, 96, 154] := by
  decide

/-- With a source that shares the buffer of the destination, a later row copy
reads the row that an earlier copy of the same call has written: in a 1x3
8-bit bitmap with rows 10, 20, 30 (bottom up), pasting the view of the two
bottom rows at the top gives 10, 10, 10. -/
theorem alias_copy8 :
    (FreeImage_CreateView sampleEnv
        (sampleBitmap 8 1 3 4 (sampleBytes [10, 0, 0, 0, 20, 0, 0, 0, 30])) 0 1 1 3).map
      (fun v => firstBytes (FreeImage_Paste sampleEnv
        (sampleBitmap 8 1 3 4 (sampleBytes [10, 0, 0, 0, 20, 0, 0, 0, 30])) v 0 0 256).2.mem 9)
      = some [10, 0, 0, 0, 10, 0, 0, 0, 10] := by
  decide

/-- The 1-bit combiner reads the source bits live: in a 16x1 bitmap whose first
byte is `0xA0`, pasting the view of columns 0..7 at column 4 gives the bytes
`0xAA, 0xA0`. -/
theorem alias_bits1 :
    (FreeImage_CreateView sampleEnv (sampleBitmap 1 16 1 4 (sampleBytes [160, 0])) 0 0 8 1).map
      (fun v => firstBytes (FreeImage_Paste sampleEnv
        (sampleBitmap 1 16 1 4 (sampleBytes [160, 0])) v 4 0 256).2.mem 2)
      = some [170, 160] := by
  decide

/-- The 4-bit combiner copies the source row live: in a 2x3 bitmap with the
grey palette and rows `0x12, 0x34, 0x56` (bottom up), pasting the view of the
two bottom rows (with the palette of the bitmap) at the top gives `0x12` in
every row. -/
theorem alias_nibbles4 :
    (FreeImage_CreateView sampleEnv
        (sampleGray 2 3 4 (sampleBytes [18, 0, 0, 0, 52, 0, 0, 0, 86])) 0 1 2 3).map
      (fun v => firstBytes (FreeImage_Paste sampleEnv
        (sampleGray 2 3 4 (sampleBytes [18, 0, 0, 0, 52, 0, 0, 0, 86]))
        { v with palette := some grayPalette } 0 0 256).2.mem 9)
      = some [18, 0, 0, 0, 18, 0, 0, 0, 18] := by
  decide

/-- The same-type combiner copies the source rows live: for a 16-bit 1x3 bitmap
of a non-standard type with rows 10, 20, 30 (bottom up), pasting the view of
the two bottom rows at the top gives 10, 10, 10. -/
theorem alias_same_type :
    (FreeImage_CreateView sampleEnv
        { sampleBitmap 16 1 3 4 (sampleBytes [10, 0, 0, 0, 20, 0, 0, 0, 30]) with
          imageType := 2 } 0 1 1 3).map
      (fun v => firstBytes (FreeImage_Paste sampleEnv
        { sampleBitmap 16 1 3 4 (sampleBytes [10, 0, 0, 0, 20, 0, 0, 0, 30]) with
          imageType := 2 } v 0 0 256).2.mem 9)
      = some [10, 0, 0, 0, 10, 0, 0, 0, 10] := by
  decide

/-- The same paste of a view on another buffer (named 1) with the same content
reads the old bytes: the blend gives `0, 41, 101, 161`. -/
theorem separate_blend8 :
    (FreeImage_CreateView sampleEnv
        { sampleBitmap 8 4 1 4 (sampleBytes [0, 60, 120, 180]) with buffer := 1 } 0 0 3 1).map
      (fun v => firstBytes (FreeImage_Paste sampleEnv
        (sampleBitmap 8 4 1 4 (sampleBytes [0, 60, 120, 180])) v 1 0 77).2.mem 4)
      = some [0, 41, 101, 161] := by
  decide

/-! ## Claims -/

/-- C1: for equal-depth 8-, 24- and 32-bit images and every alpha in [0,255],
`Combine8` / `Combine24` / `Combine32` succeed on a fitting origin and, when the
source does not share the pixel buffer of the destination, replace each
destination byte `d` of the pasted rows by `d + floor(((s - d) * alpha) / 256)`,
`s` being the corresponding source byte; this is `floor((256*d + (s - d)*alpha) / 256)`,
so nothing is lost by wrap-around or truncation. -/
theorem C1_blend_formula (depth : Nat)
    (f : FIBITMAP → FIBITMAP → Nat → Nat → Nat → Bool × FIBITMAP)
    (hf : (depth = 8 ∧ f = Combine8) ∨ (depth = 24 ∧ f = Combine24)
      ∨ (depth = 32 ∧ f = Combine32))
    (dst src : FIBITMAP) (x y alpha : Nat)
    (hd : dst.WF) (hdb : dst.bpp = depth) (hsb : src.bpp = depth)
    (hx : x + src.width ≤ dst.width) (hy : y + src.height ≤ dst.height)
    (hsep : sharesBuffer dst src = false)
    (ha : alpha ≤ 255) (hdm : ∀ a, dst.mem a < 256) (hsm : ∀ a, src.mem a < 256) :
    (f dst src x y alpha).1 = true ∧
    ∀ r c, r < src.height → c < FreeImage_GetLine src →
      (((f dst src x y alpha).2.mem
          (dst.bits + (dst.height - src.height - y + r) * dst.pitch + x * (depth / 8) + c) : Nat)
          : Int)
        = (dst.mem (dst.bits + (dst.height - src.height - y + r) * dst.pitch
              + x * (depth / 8) + c) : Int)
          + (((src.mem (src.bits + r * src.pitch + c) : Int)
              - (dst.mem (dst.bits + (dst.height - src.height - y + r) * dst.pitch
                  + x * (depth / 8) + c) : Int)) * (alpha : Int)) / 256
      ∧ (((f dst src x y alpha).2.mem
          (dst.bits + (dst.height - src.height - y + r) * dst.pitch + x * (depth / 8) + c) : Nat)
          : Int)
        = (256 * (dst.mem (dst.bits + (dst.height - src.height - y + r) * dst.pitch
              + x * (depth / 8) + c) : Int)
            + ((src.mem (src.bits + r * src.pitch + c) : Int)
              - (dst.mem (dst.bits + (dst.height - src.height - y + r) * dst.pitch
                  + x * (depth / 8) + c) : Int)) * (alpha : Int)) / 256 := by
  have key : ∀ xoff, xoff = x * (depth / 8) →
      (combineBytes depth xoff dst src x y alpha).1 = true ∧
      ∀ r c, r < src.height → c < FreeImage_GetLine src →
        (((combineBytes depth xoff dst src x y alpha).2.mem
            (dst.bits + (dst.height - src.height - y + r) * dst.pitch + x * (depth / 8) + c)
            : Nat) : Int)
          = (256 * (dst.mem (dst.bits + (dst.height - src.height - y + r) * dst.pitch
                + x * (depth / 8) + c) : Int)
              + ((src.mem (src.bits + r * src.pitch + c) : Int)
                - (dst.mem (dst.bits + (dst.height - src.height - y + r) * dst.pitch
                    + x * (depth / 8) + c) : Int)) * (alpha : Int)) / 256 := by
    intro xoff hxoff
    refine ⟨combineBytes_flag depth xoff dst src x y alpha hd hdb hsb hx hy, ?_⟩
    intro r c hr hc
    have haddr : dst.bits + (dst.height - src.height - y + r) * dst.pitch + x * (depth / 8) + c
        = dst.bits + (dst.height - src.height - y) * dst.pitch + xoff + r * dst.pitch + c := by
      rw [hxoff, Nat.add_mul]; omega
    rw [haddr,
      combineBytes_blend depth xoff dst src x y alpha hd hdb hsb hx hy hsep ha r c hr hc]
    exact blend_eq_floor _ _ _ (hsm _) (hdm _) ha
  have main : (f dst src x y alpha).1 = true ∧
      ∀ r c, r < src.height → c < FreeImage_GetLine src →
        (((f dst src x y alpha).2.mem
            (dst.bits + (dst.height - src.height - y + r) * dst.pitch + x * (depth / 8) + c)
            : Nat) : Int)
          = (256 * (dst.mem (dst.bits + (dst.height - src.height - y + r) * dst.pitch
                + x * (depth / 8) + c) : Int)
              + ((src.mem (src.bits + r * src.pitch + c) : Int)
                - (dst.mem (dst.bits + (dst.height - src.height - y + r) * dst.pitch
                    + x * (depth / 8) + c) : Int)) * (alpha : Int)) / 256 := by
    rcases hf with ⟨h8, rfl⟩ | ⟨h24, rfl⟩ | ⟨h32, rfl⟩
    · subst h8
      exact key x (by norm_num)
    · subst h24
      exact key (umul x 3) (by rw [xoff_eq dst src x 3 hd (by rw [hdb]) hx])
    · subst h32
      exact key (umul x 4) (by rw [xoff_eq dst src x 4 hd (by rw [hdb]) hx])
  refine ⟨main.1, fun r c hr hc => ⟨?_, main.2 r c hr hc⟩⟩
  rw [main.2 r c hr hc]
  rw [Int.add_comm (256 * _), Int.add_mul_ediv_left _ _ (by norm_num : (256 : Int) ≠ 0)]
  exact Int.add_comm _ _

/-- C1 witness: an 8x8 8-bit destination filled with 100, pasted with an 8x8
source filled with 200 at (0,0) with alpha 128: the first byte becomes 150. -/
theorem C1_blend_formula_witness :
    (Combine8 (sampleBitmap 8 8 8 8 (fun _ => 100)) (sampleBitmap 8 8 8 8 (fun _ => 200))
        0 0 128).1 = true
    ∧ (((Combine8 (sampleBitmap 8 8 8 8 (fun _ => 100)) (sampleBitmap 8 8 8 8 (fun _ => 200))
        0 0 128).2.mem 0 : Nat) : Int) = 150 :=
  have h := C1_blend_formula 8 Combine8 (Or.inl ⟨rfl, rfl⟩)
    (sampleBitmap 8 8 8 8 (fun _ => 100)) (sampleBitmap 8 8 8 8 (fun _ => 200)) 0 0 128
    ⟨by decide, by decide, by decide, by decide, by decide⟩ rfl rfl
    (by decide) (by decide) rfl (by decide)
    (fun _ => (by decide : (100 : Nat) < 256)) (fun _ => (by decide : (200 : Nat) < 256))
  ⟨h.1, (h.2 0 0 (by decide) (by decide)).1.trans (by decide)⟩

/-- C2 (amended): for every valid paste with alpha > 255 whose promotion step
yields a bitmap `clone` of the destination depth and of the source size
(`clone` is `src` itself when the depths are equal) that does not share the
pixel buffer of the destination (`clone` is not a view on the buffer of `dst`,
nor `dst` a view on the buffer of `clone`), `FreeImage_Paste` returns TRUE and
afterwards, for destination depths 1, 8, 16, 24 and 32, every pixel of the
pasted region of `dst` equals the corresponding pixel of `clone`; for
destination depth 4 with an even `left`, both palettes present and the row
buffer allocated, every pixel of the pasted region is the swap-table image of
the corresponding pixel of `clone`. -/
theorem C2_overwrite (env : Collaborators) (dst src clone : FIBITMAP) (left top : Nat)
    (alpha : Int) (sp dp : Nat → FIRGBA8)
    (hps : src.hasPixels = true) (hpd : dst.hasPixels = true)
    (hty : dst.imageType = FIT_BITMAP) (hts : src.imageType = FIT_BITMAP) (hd : dst.WF)
    (hx : left + src.width ≤ dst.width) (hy : top + src.height ≤ dst.height)
    (hdepth : dst.bpp = 1 ∨ dst.bpp = 4 ∨ dst.bpp = 8 ∨ dst.bpp = 16 ∨ dst.bpp = 24
      ∨ dst.bpp = 32)
    (ha : 255 < alpha) (ha2 : alpha < 2147483648)
    (hclone : promote env dst src
      (decide (dst.redMask = FI16_565_RED_MASK ∧ dst.greenMask = FI16_565_GREEN_MASK
        ∧ dst.blueMask = FI16_565_BLUE_MASK)) = some clone)
    (hcb : clone.bpp = dst.bpp) (hcw : clone.width = src.width)
    (hch : clone.height = src.height)
    (hsep : sharesBuffer dst clone = false)
    (h4 : dst.bpp = 4 → left % 2 = 0 ∧ clone.palette = some sp ∧ dst.palette = some dp
      ∧ env.mallocOk (FreeImage_GetLine clone) = true) :
    (FreeImage_Paste env dst src (left : Int) (top : Int) alpha).1 = true
    ∧ (dst.bpp = src.bpp → clone = src)
    ∧ ∀ i j, i < src.width → j < src.height →
        getPixel (FreeImage_Paste env dst src (left : Int) (top : Int) alpha).2
            (left + i) (top + j)
          = if dst.bpp = 4 then (getPixel clone i j).map (swapTable sp dp)
            else getPixel clone i j := by
  have hdisp := paste_dispatch env dst src clone left top alpha hps hpd hty hts hd hx hy hclone
  have hau : u32 alpha > 255 := by unfold u32; omega
  have hx' : left + clone.width ≤ dst.width := by rw [hcw]; exact hx
  have hy' : top + clone.height ≤ dst.height := by rw [hch]; exact hy
  have hsame : dst.bpp = src.bpp → clone = src := by
    intro h
    unfold promote at hclone
    rw [if_pos h] at hclone
    exact (Option.some.inj hclone).symm
  refine ⟨?_, hsame, ?_⟩
  · rw [hdisp]
    rcases hdepth with h | h | h | h | h | h
    · rw [if_pos h, Combine1_fit dst clone left top _ hd h (by rw [hcb, h]) hx' hy' hsep]
    · obtain ⟨_, hsp, hdp, hmal⟩ := h4 h
      rw [if_neg (by omega), if_pos h,
        Combine4_fit env dst clone left top _ sp dp hd h (by rw [hcb, h]) hx' hy' hsp hdp hmal hsep]
    · rw [if_neg (by omega), if_neg (by omega), if_pos h]
      exact combineBytes_flag 8 left dst clone left top _ hd h (by rw [hcb, h]) hx' hy'
    · rw [if_neg (by omega), if_neg (by omega), if_neg (by omega), if_pos h]
      split
      · exact (congrArg Prod.fst
          (combine16_fit blendPixel565 dst clone left top _ hd h (by rw [hcb, h]) hx' hy' hsep))
      · exact (congrArg Prod.fst
          (combine16_fit blendPixel555 dst clone left top _ hd h (by rw [hcb, h]) hx' hy' hsep))
    · rw [if_neg (by omega), if_neg (by omega), if_neg (by omega), if_neg (by omega), if_pos h]
      exact combineBytes_flag 24 _ dst clone left top _ hd h (by rw [hcb, h]) hx' hy'
    · rw [if_neg (by omega), if_neg (by omega), if_neg (by omega), if_neg (by omega),
        if_neg (by omega), if_pos h]
      exact combineBytes_flag 32 _ dst clone left top _ hd h (by rw [hcb, h]) hx' hy'
  · intro i j hi hj
    rw [← hcw] at hi
    rw [← hch] at hj
    rw [hdisp]
    rcases hdepth with h | h | h | h | h | h
    · rw [if_pos h, if_neg (show ¬ dst.bpp = 4 by omega)]
      exact Combine1_getPixel dst clone left top _ hd h (by rw [hcb, h]) hx' hy' hsep i j hi hj
    · obtain ⟨hev, hsp, hdp, hmal⟩ := h4 h
      rw [if_neg (by omega), if_pos h, if_pos h]
      exact Combine4_getPixel_even env dst clone left top _ sp dp hd h (by rw [hcb, h]) hx' hy' hsep
        hsp hdp hmal hev i j hi hj
    · rw [if_neg (by omega), if_neg (by omega), if_pos h, if_neg (show ¬ dst.bpp = 4 by omega)]
      exact combineBytes_getPixel 1 left dst clone left top _ (by omega) hd h
        (by rw [hcb, h]) hx' hy' hsep hau i j hi hj
    · rw [if_neg (by omega), if_neg (by omega), if_neg (by omega), if_pos h,
        if_neg (show ¬ dst.bpp = 4 by omega)]
      split
      · exact combine16_getPixel blendPixel565 dst clone left top _ hd h (by rw [hcb, h])
          hx' hy' hsep hau i j hi hj
      · exact combine16_getPixel blendPixel555 dst clone left top _ hd h (by rw [hcb, h])
          hx' hy' hsep hau i j hi hj
    · rw [if_neg (by omega), if_neg (by omega), if_neg (by omega), if_neg (by omega), if_pos h,
        if_neg (show ¬ dst.bpp = 4 by omega)]
      exact combineBytes_getPixel 3 _ dst clone left top _
        (xoff_eq dst clone left 3 hd (by rw [h]) hx') hd h (by rw [hcb, h]) hx' hy' hsep hau
        i j hi hj
    · rw [if_neg (by omega), if_neg (by omega), if_neg (by omega), if_neg (by omega),
        if_neg (by omega), if_pos h, if_neg (show ¬ dst.bpp = 4 by omega)]
      exact combineBytes_getPixel 4 _ dst clone left top _
        (xoff_eq dst clone left 4 hd (by rw [h]) hx') hd h (by rw [hcb, h]) hx' hy' hsep hau
        i j hi hj

/-- C2 witness: a 4x4 8-bit source pasted at (2,1) into an 8x8 8-bit
destination with alpha 256, and a 4-bit paste at (0,0) whose pasted pixel is the
swap-table image of the source pixel. -/
theorem C2_overwrite_witness :
    ((FreeImage_Paste sampleEnv (sampleBitmap 8 8 8 8 (fun _ => 100))
        (sampleBitmap 8 4 4 4 (fun a => a)) ((2 : Nat) : Int) ((1 : Nat) : Int) 256).1 = true
      ∧ getPixel (FreeImage_Paste sampleEnv (sampleBitmap 8 8 8 8 (fun _ => 100))
          (sampleBitmap 8 4 4 4 (fun a => a)) ((2 : Nat) : Int) ((1 : Nat) : Int) 256).2
          (2 + 3) (1 + 0)
        = if (sampleBitmap 8 8 8 8 (fun _ => 100)).bpp = 4 then
            (getPixel (sampleBitmap 8 4 4 4 (fun a => a)) 3 0).map
              (swapTable (onePalette 0) (onePalette 0))
          else getPixel (sampleBitmap 8 4 4 4 (fun a => a)) 3 0)
    ∧ ((FreeImage_Paste sampleEnv (samplePaletted 0 2) (samplePaletted 1 1)
        ((0 : Nat) : Int) ((0 : Nat) : Int) 256).1 = true
      ∧ getPixel (FreeImage_Paste sampleEnv (samplePaletted 0 2) (samplePaletted 1 1)
          ((0 : Nat) : Int) ((0 : Nat) : Int) 256).2 (0 + 0) (0 + 0)
        = if (samplePaletted 0 2).bpp = 4 then
            (getPixel (samplePaletted 1 1) 0 0).map (swapTable (onePalette 1) (onePalette 2))
          else getPixel (samplePaletted 1 1) 0 0) :=
  have h8 := C2_overwrite sampleEnv (sampleBitmap 8 8 8 8 (fun _ => 100))
    (sampleBitmap 8 4 4 4 (fun a => a)) (sampleBitmap 8 4 4 4 (fun a => a)) 2 1 256
    (onePalette 0) (onePalette 0)
    rfl rfl rfl rfl ⟨by decide, by decide, by decide, by decide, by decide⟩
    (by decide) (by decide) (by decide) (by decide) (by decide) rfl rfl rfl rfl rfl
    (fun h => absurd h (by decide))
  have h4 := C2_overwrite sampleEnv (samplePaletted 0 2) (samplePaletted 1 1)
    (samplePaletted 1 1) 0 0 256 (onePalette 1) (onePalette 2)
    rfl rfl rfl rfl ⟨by decide, by decide, by decide, by decide, by decide⟩
    (by decide) (by decide) (by decide) (by decide) (by decide) rfl rfl rfl rfl rfl
    (fun _ => ⟨by decide, rfl, rfl, rfl⟩)
  ⟨⟨h8.1, h8.2.2 3 0 (by decide) (by decide)⟩, ⟨h4.1, h4.2.2 0 0 (by decide) (by decide)⟩⟩

/-- C2 counterexample: a 4-bit paste with alpha 256 whose palettes differ
(source index 1 is white, destination index 2 is white) returns TRUE, and the
pasted pixel holds index 2 while the source pixel holds index 1. -/
theorem C2_counterexample :
    (FreeImage_Paste sampleEnv (samplePaletted 0 2) (samplePaletted 1 1) 0 0 256).1 = true
    ∧ getPixel (FreeImage_Paste sampleEnv (samplePaletted 0 2) (samplePaletted 1 1) 0 0 256).2
        0 0 = [2]
    ∧ getPixel (samplePaletted 1 1) 0 0 = [1]
    ∧ getPixel (FreeImage_Paste sampleEnv (samplePaletted 0 2) (samplePaletted 1 1) 0 0 256).2
        0 0 ≠ getPixel (samplePaletted 1 1) 0 0 := by
  decide

/-- C3 (amended): for every valid paste with alpha = 0 into a destination of
depth 8, 16, 24 or 32 (after promotion of the source to the destination depth),
`FreeImage_Paste` returns TRUE; for depths 8, 24, 32 and for the 16-bit 565
layout the destination is unchanged; for the 16-bit 555 layout every byte is
unchanged except the high byte of each pasted pixel, which loses its top bit
(bit 15 of the pixel is cleared, the 15 colour bits are kept). -/
theorem C3_alpha_zero (env : Collaborators) (dst src clone : FIBITMAP) (left top : Nat)
    (hps : src.hasPixels = true) (hpd : dst.hasPixels = true)
    (hty : dst.imageType = FIT_BITMAP) (hts : src.imageType = FIT_BITMAP) (hd : dst.WF)
    (hx : left + src.width ≤ dst.width) (hy : top + src.height ≤ dst.height)
    (hdepth : dst.bpp = 8 ∨ dst.bpp = 16 ∨ dst.bpp = 24 ∨ dst.bpp = 32)
    (hclone : promote env dst src
      (decide (dst.redMask = FI16_565_RED_MASK ∧ dst.greenMask = FI16_565_GREEN_MASK
        ∧ dst.blueMask = FI16_565_BLUE_MASK)) = some clone)
    (hcb : clone.bpp = dst.bpp) (hcw : clone.width = src.width)
    (hch : clone.height = src.height) (hdm : ∀ a, dst.mem a < 256) :
    (FreeImage_Paste env dst src (left : Int) (top : Int) 0).1 = true
    ∧ (¬ (dst.bpp = 16 ∧ ¬ (dst.redMask = FI16_565_RED_MASK
          ∧ dst.greenMask = FI16_565_GREEN_MASK ∧ dst.blueMask = FI16_565_BLUE_MASK)) →
        (FreeImage_Paste env dst src (left : Int) (top : Int) 0).2 = dst)
    ∧ ((dst.bpp = 16 ∧ ¬ (dst.redMask = FI16_565_RED_MASK
          ∧ dst.greenMask = FI16_565_GREEN_MASK ∧ dst.blueMask = FI16_565_BLUE_MASK)) →
        (∀ i j, i < src.width → j < src.height →
          (FreeImage_Paste env dst src (left : Int) (top : Int) 0).2.mem
              (pixelLoc dst (left + i) (top + j)).1
            = dst.mem (pixelLoc dst (left + i) (top + j)).1
          ∧ (FreeImage_Paste env dst src (left : Int) (top : Int) 0).2.mem
              ((pixelLoc dst (left + i) (top + j)).1 + 1)
            = dst.mem ((pixelLoc dst (left + i) (top + j)).1 + 1) % 128)
        ∧ (∀ a, (∀ i j, i < src.width → j < src.height →
              a ≠ (pixelLoc dst (left + i) (top + j)).1 + 1) →
            (FreeImage_Paste env dst src (left : Int) (top : Int) 0).2.mem a = dst.mem a)) := by
  have hdisp := paste_dispatch env dst src clone left top 0 hps hpd hty hts hd hx hy hclone
  have hu0 : u32 0 = 0 := rfl
  rw [hu0] at hdisp
  have hx' : left + clone.width ≤ dst.width := by rw [hcw]; exact hx
  have hy' : top + clone.height ≤ dst.height := by rw [hch]; exact hy
  rw [hdisp]
  rcases hdepth with h | h | h | h
  · rw [if_neg (by omega), if_neg (by omega), if_pos h]
    have hz : Combine8 dst clone left top 0 = (true, dst) :=
      combineBytes_zero 8 left dst clone left top hd h (by rw [hcb, h]) hx' hy' hdm
    rw [hz]
    exact ⟨rfl, fun _ => rfl, fun h16 => absurd h16.1 (by omega)⟩
  · rw [if_neg (by omega), if_neg (by omega), if_neg (by omega), if_pos h]
    by_cases h565 : dst.redMask = FI16_565_RED_MASK ∧ dst.greenMask = FI16_565_GREEN_MASK
        ∧ dst.blueMask = FI16_565_BLUE_MASK
    · rw [if_pos (decide_eq_true h565)]
      have hz : Combine16_565 dst clone left top 0 = (true, dst) :=
        combine16_565_zero dst clone left top hd h (by rw [hcb, h]) hx' hy' hdm
      rw [hz]
      exact ⟨rfl, fun _ => rfl, fun h16 => absurd h565 h16.2⟩
    · rw [if_neg (by simpa using h565)]
      have hfit := combine16_fit_live blendPixel555 dst clone left top 0 hd h (by rw [hcb, h])
        hx' hy'
      obtain ⟨hin, hout⟩ :=
        combine16_555_zero dst clone left top hd h (by rw [hcb, h]) hx' hy' hdm
      rw [hcw, hch] at hin hout
      have hloc : ∀ i j, j < src.height → (pixelLoc dst (left + i) (top + j)).1
          = dst.bits + (dst.height - src.height - top) * dst.pitch + left * 2
            + (src.height - 1 - j) * dst.pitch + 2 * i := by
        intro i j hj
        unfold pixelLoc
        rw [if_neg (show ¬ dst.bpp = 1 by omega), if_neg (show ¬ dst.bpp = 4 by omega), h]
        show dst.bits + dst.pitch * (dst.height - 1 - (top + j)) + (left + i) * (16 / 8) = _
        rw [row_addr dst.bits dst.pitch dst.height src.height top j hy hj]
        omega
      refine ⟨congrArg Prod.fst hfit, fun hn => absurd ⟨h, h565⟩ hn, fun _ => ⟨?_, ?_⟩⟩
      · intro i j hi hj
        rw [hloc i j hj]
        constructor
        · rw [show Combine16_555 dst clone left top 0
              = combine16 blendPixel555 dst clone left top 0 from rfl,
            hin (src.height - 1 - j) _ (by omega) (by omega) (by omega), if_neg (by omega)]
        · rw [show Combine16_555 dst clone left top 0
              = combine16 blendPixel555 dst clone left top 0 from rfl,
            hin (src.height - 1 - j) _ (by omega) (by omega) (by omega), if_pos (by omega)]
      · intro a ha
        rw [show Combine16_555 dst clone left top 0
              = combine16 blendPixel555 dst clone left top 0 from rfl]
        by_cases hwin : ∃ r, r < src.height
            ∧ dst.bits + (dst.height - src.height - top) * dst.pitch + left * 2
                + r * dst.pitch ≤ a
            ∧ a < dst.bits + (dst.height - src.height - top) * dst.pitch + left * 2
                + r * dst.pitch + 2 * src.width
        · obtain ⟨r, hr, h1, h2⟩ := hwin
          rw [hin r a hr h1 h2]
          by_cases hodd : (a - (dst.bits + (dst.height - src.height - top) * dst.pitch
              + left * 2 + r * dst.pitch)) % 2 = 1
          · exfalso
            apply ha ((a - (dst.bits + (dst.height - src.height - top) * dst.pitch
              + left * 2 + r * dst.pitch)) / 2) (src.height - 1 - r) (by omega) (by omega)
            rw [hloc _ _ (by omega)]
            have e : src.height - 1 - (src.height - 1 - r) = r := by omega
            rw [e]
            omega
          · rw [if_neg hodd]
        · apply hout
          intro r hr hc
          exact hwin ⟨r, hr, hc.1, hc.2⟩
  · rw [if_neg (by omega), if_neg (by omega), if_neg (by omega), if_neg (by omega), if_pos h]
    have hz : Combine24 dst clone left top 0 = (true, dst) :=
      combineBytes_zero 24 _ dst clone left top hd h (by rw [hcb, h]) hx' hy' hdm
    rw [hz]
    exact ⟨rfl, fun _ => rfl, fun h16 => absurd h16.1 (by omega)⟩
  · rw [if_neg (by omega), if_neg (by omega), if_neg (by omega), if_neg (by omega),
      if_neg (by omega), if_pos h]
    have hz : Combine32 dst clone left top 0 = (true, dst) :=
      combineBytes_zero 32 _ dst clone left top hd h (by rw [hcb, h]) hx' hy' hdm
    rw [hz]
    exact ⟨rfl, fun _ => rfl, fun h16 => absurd h16.1 (by omega)⟩

/-- C3 witness: alpha 0 leaves an 8-bit destination unchanged, and clears
bit 15 of a pasted 16-bit 555 pixel (high byte 255 becomes 127). -/
theorem C3_alpha_zero_witness :
    ((FreeImage_Paste sampleEnv (sampleBitmap 8 8 8 8 (fun _ => 100))
        (sampleBitmap 8 4 4 4 (fun a => a)) ((2 : Nat) : Int) ((1 : Nat) : Int) 0).1 = true
      ∧ (FreeImage_Paste sampleEnv (sampleBitmap 8 8 8 8 (fun _ => 100))
        (sampleBitmap 8 4 4 4 (fun a => a)) ((2 : Nat) : Int) ((1 : Nat) : Int) 0).2
          = sampleBitmap 8 8 8 8 (fun _ => 100))
    ∧ (FreeImage_Paste sampleEnv (sampleBitmap 16 2 1 4 (fun _ => 255))
        (sampleBitmap 16 1 1 4 (fun _ => 0)) ((1 : Nat) : Int) ((0 : Nat) : Int) 0).2.mem
          ((pixelLoc (sampleBitmap 16 2 1 4 (fun _ => 255)) (1 + 0) (0 + 0)).1 + 1)
        = (sampleBitmap 16 2 1 4 (fun _ => 255)).mem
            ((pixelLoc (sampleBitmap 16 2 1 4 (fun _ => 255)) (1 + 0) (0 + 0)).1 + 1) % 128 :=
  have h8 := C3_alpha_zero sampleEnv (sampleBitmap 8 8 8 8 (fun _ => 100))
    (sampleBitmap 8 4 4 4 (fun a => a)) (sampleBitmap 8 4 4 4 (fun a => a)) 2 1
    rfl rfl rfl rfl ⟨by decide, by decide, by decide, by decide, by decide⟩
    (by decide) (by decide) (by decide) rfl rfl rfl rfl
    (fun _ => (by decide : (100 : Nat) < 256))
  have h16 := C3_alpha_zero sampleEnv (sampleBitmap 16 2 1 4 (fun _ => 255))
    (sampleBitmap 16 1 1 4 (fun _ => 0)) (sampleBitmap 16 1 1 4 (fun _ => 0)) 1 0
    rfl rfl rfl rfl ⟨by decide, by decide, by decide, by decide, by decide⟩
    (by decide) (by decide) (by decide) rfl rfl rfl rfl
    (fun _ => (by decide : (255 : Nat) < 256))
  ⟨⟨h8.1, h8.2.1 (by decide)⟩, ((h16.2.2 (by decide)).1 0 0 (by decide) (by decide)).2⟩

/-- C3 counterexample: with alpha 0 a 1-bit paste still overwrites the
destination bit (0 becomes 1), and a 16-bit 555 paste clears bit 15 of the
destination pixel (high byte 255 becomes 127); both calls return TRUE. -/
theorem C3_counterexample :
    ((FreeImage_Paste sampleEnv (sampleBitmap 1 8 1 4 (fun _ => 0))
        (sampleBitmap 1 8 1 4 (fun _ => 255)) 0 0 0).1 = true
      ∧ getPixel (FreeImage_Paste sampleEnv (sampleBitmap 1 8 1 4 (fun _ => 0))
        (sampleBitmap 1 8 1 4 (fun _ => 255)) 0 0 0).2 0 0 = [1]
      ∧ getPixel (sampleBitmap 1 8 1 4 (fun _ => 0)) 0 0 = [0])
    ∧ ((FreeImage_Paste sampleEnv (sampleBitmap 16 2 1 4 (fun _ => 255))
        (sampleBitmap 16 1 1 4 (fun _ => 0)) 1 0 0).1 = true
      ∧ (FreeImage_Paste sampleEnv (sampleBitmap 16 2 1 4 (fun _ => 255))
        (sampleBitmap 16 1 1 4 (fun _ => 0)) 1 0 0).2.mem 3 = 127
      ∧ (sampleBitmap 16 2 1 4 (fun _ => 255)).mem 3 = 255) := by
  decide

/-- C4: for all bitmaps `dst`, `src` whose source dimensions fit an `int` (as
every dimension that `FreeImage_GetWidth` / `FreeImage_GetHeight` reports for an
allocated bitmap does) and all `int` arguments `left`, `top`, `alpha`: if
`left + src.width > dst.width` or `top + src.height > dst.height` as
mathematical integers, `FreeImage_Paste` returns FALSE and the destination,
with every byte of its pixel buffer, is unchanged; for a non-negative origin
the 32-bit unsigned sums that the code compares with the destination size are
the mathematical sums. -/
theorem C4_out_of_bounds (env : Collaborators) (dst src : FIBITMAP) (left top alpha : Int)
    (hl : left < 2147483648) (ht : top < 2147483648)
    (hsw : src.width < 2147483648) (hsh : src.height < 2147483648)
    (hout : left + (src.width : Int) > (dst.width : Int)
      ∨ top + (src.height : Int) > (dst.height : Int)) :
    FreeImage_Paste env dst src left top alpha = (false, dst)
    ∧ (0 ≤ left → ((uadd (u32 left) src.width : Nat) : Int) = left + (src.width : Int))
    ∧ (0 ≤ top → ((uadd (u32 top) src.height : Nat) : Int) = top + (src.height : Int)) := by
  refine ⟨?_, ?_, ?_⟩
  · unfold FreeImage_Paste
    by_cases hp : (!src.hasPixels || !dst.hasPixels) = true
    · rw [if_pos hp]
    · rw [if_neg hp]
      by_cases hneg : left < 0 ∨ top < 0
      · rw [if_pos hneg]
      · rw [if_neg hneg]
        have hchk : uadd (u32 left) src.width > dst.width
            ∨ uadd (u32 top) src.height > dst.height := by
          unfold uadd u32
          omega
        rw [if_pos hchk]
  · intro h0
    unfold uadd u32
    omega
  · intro h0
    unfold uadd u32
    omega

/-- C4 witness: a 4x1 source pasted at column 1 of a 4x1 destination is
rejected, the destination is returned as it was, and the unsigned sum 1 + 4 is
the mathematical sum 5. -/
theorem C4_out_of_bounds_witness :
    FreeImage_Paste sampleEnv (sampleBitmap 8 4 1 4 (fun _ => 100))
        (sampleBitmap 8 4 1 4 (fun _ => 200)) 1 0 256
      = (false, sampleBitmap 8 4 1 4 (fun _ => 100))
    ∧ ((uadd (u32 1) (sampleBitmap 8 4 1 4 (fun _ => 200)).width : Nat) : Int) = 5 :=
  have h := C4_out_of_bounds sampleEnv (sampleBitmap 8 4 1 4 (fun _ => 100))
    (sampleBitmap 8 4 1 4 (fun _ => 200)) 1 0 256 (by decide) (by decide) (by decide)
    (by decide) (by decide)
  ⟨h.1, (h.2.1 (by decide)).trans (by decide)⟩

/-- C5: for every well-formed source bitmap with pixels of depth 1, 4, 8, 16,
24 or 32 and every rectangle with `0 <= left < right <= width` and
`0 <= top < bottom <= height`, when the allocation succeeds `FreeImage_Copy`
returns a bitmap of width `right - left`, height `bottom - top` and the source
depth whose pixel at logical `(i, j)` equals the source pixel at
`(left + i, top + j)`; sub-byte left offsets of 1-bit and 4-bit sources are
included. -/
theorem C5_copy_rectangle (env : Collaborators) (src dst0 : FIBITMAP) (left top right bottom : Nat)
    (hp : src.hasPixels = true) (hs : src.WF)
    (hdepth : src.bpp = 1 ∨ src.bpp = 4 ∨ src.bpp = 8 ∨ src.bpp = 16 ∨ src.bpp = 24
      ∨ src.bpp = 32)
    (hlr : left < right) (hrw : right ≤ src.width) (htb : top < bottom)
    (hbh : bottom ≤ src.height)
    (hal : env.allocateT src.imageType ((right : Int) - (left : Int))
      ((bottom : Int) - (top : Int)) src.bpp src.redMask src.greenMask src.blueMask
        = some dst0)
    (hspec : Allocated dst0 src.imageType ((right : Int) - (left : Int))
      ((bottom : Int) - (top : Int)) src.bpp) :
    ∃ d, FreeImage_Copy env src (left : Int) (top : Int) (right : Int) (bottom : Int) = some d
      ∧ d.width = right - left ∧ d.height = bottom - top ∧ d.bpp = src.bpp
      ∧ ∀ i j, i < right - left → j < bottom - top →
          getPixel d i j = getPixel src (left + i) (top + j) := by
  apply copy_pixels env src dst0 left top right bottom hp hs ?_ (Nat.le_of_lt hlr) hrw
    (Nat.le_of_lt htb) hbh hal hspec
  rcases hdepth with h | h | h | h | h | h
  · exact Or.inl h
  · exact Or.inr (Or.inl h)
  · exact Or.inr (Or.inr ⟨1, by omega, by omega⟩)
  · exact Or.inr (Or.inr ⟨2, by omega, by omega⟩)
  · exact Or.inr (Or.inr ⟨3, by omega, by omega⟩)
  · exact Or.inr (Or.inr ⟨4, by omega, by omega⟩)

/-- C5 witness: the rectangle (1,1)-(6,3) of a 4-bit 8x8 bitmap (odd left). -/
theorem C5_copy_rectangle_witness :
    ∃ d, FreeImage_Copy sampleEnv (sampleBitmap 4 8 8 4 (fun a => a + 16))
        ((1 : Nat) : Int) ((1 : Nat) : Int) ((6 : Nat) : Int) ((3 : Nat) : Int) = some d
      ∧ d.width = 6 - 1 ∧ d.height = 3 - 1
      ∧ d.bpp = (sampleBitmap 4 8 8 4 (fun a => a + 16)).bpp
      ∧ getPixel d 4 1 = getPixel (sampleBitmap 4 8 8 4 (fun a => a + 16)) (1 + 4) (1 + 1) :=
  have h := C5_copy_rectangle sampleEnv (sampleBitmap 4 8 8 4 (fun a => a + 16))
    (sampleAlloc FIT_BITMAP 5 2 4 0 0 0) 1 1 6 3 rfl
    ⟨by decide, by decide, by decide, by decide, by decide⟩ (by decide)
    (by decide) (by decide) (by decide) (by decide) rfl
    ⟨⟨by decide, by decide, by decide, by decide, by decide⟩, rfl, rfl, by decide, by decide,
      rfl⟩
  Exists.elim h (fun d hd => ⟨d, hd.1, hd.2.1, hd.2.2.1, hd.2.2.2.1,
    hd.2.2.2.2 4 1 (by decide) (by decide)⟩)

/-- C6: for every well-formed bitmap with pixels whose depth is 1, 4 or a
multiple of 8, when the allocation succeeds `FreeImage_Copy(src, 0, 0, width,
height)` yields a bitmap of the same width, height and depth in which every
pixel equals the pixel of `src` at the same coordinate. -/
theorem C6_copy_full (env : Collaborators) (src dst0 : FIBITMAP)
    (hp : src.hasPixels = true) (hs : src.WF)
    (hbpp : src.bpp = 1 ∨ src.bpp = 4 ∨ ∃ B, 0 < B ∧ src.bpp = 8 * B)
    (hal : env.allocateT src.imageType (src.width : Int) (src.height : Int)
      src.bpp src.redMask src.greenMask src.blueMask = some dst0)
    (hspec : Allocated dst0 src.imageType (src.width : Int) (src.height : Int) src.bpp) :
    ∃ d, FreeImage_Copy env src 0 0 (src.width : Int) (src.height : Int) = some d
      ∧ d.width = src.width ∧ d.height = src.height ∧ d.bpp = src.bpp
      ∧ ∀ i j, i < src.width → j < src.height → getPixel d i j = getPixel src i j := by
  have e1 : (src.width : Int) - ((0 : Nat) : Int) = (src.width : Int) := by simp
  have e2 : (src.height : Int) - ((0 : Nat) : Int) = (src.height : Int) := by simp
  obtain ⟨d, h1, h2, h3, h4, h5⟩ := copy_pixels env src dst0 0 0 src.width src.height hp hs hbpp
    (Nat.zero_le _) (Nat.le_refl _) (Nat.zero_le _) (Nat.le_refl _)
    (by rw [e1, e2]; exact hal) (by rw [e1, e2]; exact hspec)
  refine ⟨d, h1, h2, h3, h4, ?_⟩
  intro i j hi hj
  have := h5 i j hi hj
  rw [Nat.zero_add, Nat.zero_add] at this
  exact this

/-- C6 witness: the full copy of a 2x2 24-bit bitmap. -/
theorem C6_copy_full_witness :
    ∃ d, FreeImage_Copy sampleEnv (sampleBitmap 24 2 2 8 (fun a => a)) 0 0
        (((sampleBitmap 24 2 2 8 (fun a => a)).width : Nat) : Int)
        (((sampleBitmap 24 2 2 8 (fun a => a)).height : Nat) : Int) = some d
      ∧ d.width = 2 ∧ d.height = 2 ∧ d.bpp = 24
      ∧ getPixel d 1 0 = getPixel (sampleBitmap 24 2 2 8 (fun a => a)) 1 0 :=
  have h := C6_copy_full sampleEnv (sampleBitmap 24 2 2 8 (fun a => a))
    (sampleAlloc FIT_BITMAP 2 2 24 0 0 0) rfl
    ⟨by decide, by decide, by decide, by decide, by decide⟩
    (Or.inr (Or.inr ⟨3, by decide, rfl⟩)) rfl
    ⟨⟨by decide, by decide, by decide, by decide, by decide⟩, rfl, rfl, by decide, by decide,
      rfl⟩
  Exists.elim h (fun d hd => ⟨d, hd.1, hd.2.1, hd.2.2.1, hd.2.2.2.1,
    hd.2.2.2.2 1 0 (by decide) (by decide)⟩)

/-- C7: for every source and all integers `a`, `b`, `t`, `u` the calls
`FreeImage_Copy(src, a, t, b, u)` and `FreeImage_Copy(src, b, t, a, u)` give the
same outcome, and likewise when top and bottom are exchanged. -/
theorem C7_copy_endpoint_order (env : Collaborators) (src : FIBITMAP) (a b t u : Int) :
    FreeImage_Copy env src a t b u = FreeImage_Copy env src b t a u
    ∧ FreeImage_Copy env src a t b u = FreeImage_Copy env src a u b t := by
  constructor
  · rw [copy_normalized env src a t b u, copy_normalized env src b t a u,
      min_comm a b, max_comm a b]
  · rw [copy_normalized env src a t b u, copy_normalized env src a u b t,
      min_comm t u, max_comm t u]

/-- C8: `FreeImage_Copy` returns null whenever the normalized rectangle has
`left < 0`, `right > src.width`, `top < 0` or `bottom > src.height`; and when the
normalized rectangle lies inside a source with pixels whose dimensions fit an
`int` and the allocator succeeds, it returns a bitmap. -/
theorem C8_copy_bounds (env : Collaborators) (src : FIBITMAP) (left top right bottom : Int) :
    ((min left right < 0 ∨ max left right > (src.width : Int) ∨ min top bottom < 0
        ∨ max top bottom > (src.height : Int)) →
      FreeImage_Copy env src left top right bottom = none)
    ∧ (src.hasPixels = true → src.width < 2147483648 → src.height < 2147483648 →
        0 ≤ min left right → max left right ≤ (src.width : Int) →
        0 ≤ min top bottom → max top bottom ≤ (src.height : Int) →
        (env.allocateT src.imageType (max left right - min left right)
          (max top bottom - min top bottom) src.bpp src.redMask src.greenMask
          src.blueMask).isSome = true →
        (FreeImage_Copy env src left top right bottom).isSome = true) := by
  have h3 : (if max left right < min left right then (max left right, min left right)
      else (min left right, max left right)) = (min left right, max left right) :=
    if_neg (not_lt.2 (le_trans (min_le_left _ _) (le_max_left _ _)))
  have h4 : (if max top bottom < min top bottom then (max top bottom, min top bottom)
      else (min top bottom, max top bottom)) = (min top bottom, max top bottom) :=
    if_neg (not_lt.2 (le_trans (min_le_left _ _) (le_max_left _ _)))
  rw [copy_normalized env src left top right bottom]
  constructor
  · intro hout
    unfold FreeImage_Copy
    simp only [h3, h4]
    by_cases hp : (!src.hasPixels) = true
    · rw [if_pos hp]
    · rw [if_neg hp]
      have hw := i32_le src.width
      have hh := i32_le src.height
      rw [if_pos (by omega)]
  · intro hp hw hh h1 h2 h5 h6 hal
    unfold FreeImage_Copy
    simp only [h3, h4]
    rw [if_neg (by simp [hp]), i32_eq hw, i32_eq hh, if_neg (by omega)]
    cases hc : env.allocateT src.imageType (max left right - min left right)
        (max top bottom - min top bottom) src.bpp src.redMask src.greenMask src.blueMask with
    | none => rw [hc] at hal; exact absurd hal (by simp)
    | some d => rfl

/-- C8 witness: an out-of-bounds rectangle gives null, an in-bounds rectangle
with inverted endpoints gives a bitmap. -/
theorem C8_copy_bounds_witness :
    FreeImage_Copy sampleEnv (sampleBitmap 8 8 8 8 (fun a => a)) 9 0 2 3 = none
    ∧ (FreeImage_Copy sampleEnv (sampleBitmap 8 8 8 8 (fun a => a)) 5 3 2 1).isSome = true :=
  ⟨(C8_copy_bounds sampleEnv (sampleBitmap 8 8 8 8 (fun a => a)) 9 0 2 3).1 (by decide),
   (C8_copy_bounds sampleEnv (sampleBitmap 8 8 8 8 (fun a => a)) 5 3 2 1).2 rfl
     (by decide) (by decide) (by decide) (by decide) (by decide) (by decide) rfl⟩

/-- C9: `FreeImage_CreateView` returns null for a 1-bit backing image whenever
the normalized left is not a multiple of 8 and for a 4-bit backing image
whenever it is odd; with an aligned left, an in-bounds rectangle of a
well-formed bitmap with pixels and a succeeding header allocation it returns a
view. -/
theorem C9_view_alignment (env : Collaborators) (dib : FIBITMAP) (left top right bottom : Nat) :
    (dib.bpp = 1 → min left right % 8 ≠ 0 →
      FreeImage_CreateView env dib left top right bottom = none)
    ∧ (dib.bpp = 4 → min left right % 2 ≠ 0 →
      FreeImage_CreateView env dib left top right bottom = none)
    ∧ (dib.hasPixels = true → dib.WF →
        max left right ≤ dib.width → max top bottom ≤ dib.height →
        (dib.bpp = 1 → min left right % 8 = 0) → (dib.bpp = 4 → min left right % 2 = 0) →
        (∀ bits, (env.allocateHeaderForBits dib.mem bits dib.pitch dib.imageType
            ((max left right - min left right : Nat) : Int)
            ((max top bottom - min top bottom : Nat) : Int) dib.bpp
            dib.redMask dib.greenMask dib.blueMask).isSome = true) →
        (FreeImage_CreateView env dib left top right bottom).isSome = true) := by
  refine ⟨?_, ?_, ?_⟩
  · intro h1 ha
    unfold FreeImage_CreateView
    simp only [minmax_swap_nat]
    by_cases hp : (!dib.hasPixels) = true
    · rw [if_pos hp]
    · rw [if_neg hp]
      split
      · rfl
      · simp [h1, ha]
  · intro h4 ha
    unfold FreeImage_CreateView
    simp only [minmax_swap_nat]
    by_cases hp : (!dib.hasPixels) = true
    · rw [if_pos hp]
    · rw [if_neg hp]
      split
      · rfl
      · simp [h4, ha]
  · intro hp hd hr hb h1 h4 hal
    rw [view_ok env dib left top right bottom hp hd hr hb]
    rw [if_neg (by
      intro h
      rcases h with ⟨hb1, hm⟩ | ⟨hb4, hm⟩
      · exact hm (h1 hb1)
      · exact hm (h4 hb4))]
    have := hal (dib.bits + dib.pitch * (dib.height - max top bottom)
      + viewColumnOffset dib.bpp (min left right))
    cases hc : env.allocateHeaderForBits dib.mem
        (dib.bits + dib.pitch * (dib.height - max top bottom)
          + viewColumnOffset dib.bpp (min left right))
        dib.pitch dib.imageType ((max left right - min left right : Nat) : Int)
        ((max top bottom - min top bottom : Nat) : Int) dib.bpp
        dib.redMask dib.greenMask dib.blueMask with
    | none => rw [hc] at this; exact absurd this (by simp)
    | some d => rfl

/-- C9 witness: on a 1-bit 16x8 image, `left = 3` gives null and `left = 8`
gives a view. -/
theorem C9_view_alignment_witness :
    FreeImage_CreateView sampleEnv (sampleBitmap 1 16 8 4 (fun a => a)) 3 1 16 3 = none
    ∧ (FreeImage_CreateView sampleEnv (sampleBitmap 1 16 8 4 (fun a => a)) 8 1 16 3).isSome
        = true :=
  ⟨(C9_view_alignment sampleEnv (sampleBitmap 1 16 8 4 (fun a => a)) 3 1 16 3).1 rfl
      (by decide),
   (C9_view_alignment sampleEnv (sampleBitmap 1 16 8 4 (fun a => a)) 8 1 16 3).2.2 rfl
      ⟨by decide, by decide, by decide, by decide, by decide⟩ (by decide) (by decide)
      (fun _ => by decide) (fun h => absurd h (by decide)) (fun _ => rfl)⟩

/-- C10: for every successful `FreeImage_CreateView` on a well-formed bitmap
(the header allocator returning headers as requested), the view has width
`right - left`, height `bottom - top` (of the normalized rectangle), the depth,
pitch and memory of `dib`, its pixel pointer is `(height - bottom) * pitch` plus
the column byte offset past that of `dib`, and the storage location (byte
address and bit or nibble position) of the view pixel at logical `(i, j)` is
the storage location of the pixel of `dib` at `(left + i, top + j)`; hence in
every state of the shared memory the two pixels have the same value. -/
theorem C10_view_geometry (env : Collaborators) (dib v : FIBITMAP)
    (left top right bottom : Nat) (hspec : HeaderSpec env) (hd : dib.WF)
    (hv : FreeImage_CreateView env dib left top right bottom = some v) :
    v.width = max left right - min left right
    ∧ v.height = max top bottom - min top bottom
    ∧ v.bpp = dib.bpp ∧ v.pitch = dib.pitch ∧ v.mem = dib.mem
    ∧ v.bits = dib.bits + (dib.height - max top bottom) * dib.pitch
        + viewColumnOffset dib.bpp (min left right)
    ∧ ∀ i j, i < max left right - min left right → j < max top bottom - min top bottom →
        pixelLoc v i j = pixelLoc dib (min left right + i) (min top bottom + j)
        ∧ ∀ m' : Mem, getPixel { v with mem := m' } i j
            = getPixel { dib with mem := m' } (min left right + i) (min top bottom + j) := by
  obtain ⟨hp, hr, hb⟩ := view_some_inv env dib v left top right bottom hv
  rw [view_ok env dib left top right bottom hp hd hr hb] at hv
  by_cases hal : (dib.bpp = 1 ∧ min left right % 8 ≠ 0) ∨ (dib.bpp = 4 ∧ min left right % 2 ≠ 0)
  · rw [if_pos hal] at hv; exact absurd hv (by simp)
  · rw [if_neg hal] at hv
    cases hc : env.allocateHeaderForBits dib.mem
        (dib.bits + dib.pitch * (dib.height - max top bottom)
          + viewColumnOffset dib.bpp (min left right))
        dib.pitch dib.imageType ((max left right - min left right : Nat) : Int)
        ((max top bottom - min top bottom : Nat) : Int) dib.bpp
        dib.redMask dib.greenMask dib.blueMask with
    | none => rw [hc] at hv; exact absurd hv (by simp)
    | some dst =>
      rw [hc] at hv
      have hh := hspec _ _ _ _ _ _ _ _ _ _ _ hc
      have hveq : v = { dst with
          palette := copyPalette dst.palette dib.palette dib.colorsUsed,
          buffer := dib.buffer, externalBits := true } :=
        (Option.some.inj hv).symm
      have hw : v.width = max left right - min left right := by
        rw [hveq]; have := hh.width; exact Int.ofNat_inj.1 this
      have hht : v.height = max top bottom - min top bottom := by
        rw [hveq]; have := hh.height; exact Int.ofNat_inj.1 this
      have hbpp : v.bpp = dib.bpp := by rw [hveq]; exact hh.bpp
      have hpitch : v.pitch = dib.pitch := by rw [hveq]; exact hh.pitch
      have hmem : v.mem = dib.mem := by rw [hveq]; exact hh.mem
      have hbits : v.bits = dib.bits + (dib.height - max top bottom) * dib.pitch
          + viewColumnOffset dib.bpp (min left right) := by
        rw [hveq, Nat.mul_comm]; exact hh.bits
      refine ⟨hw, hht, hbpp, hpitch, hmem, hbits, ?_⟩
      intro i j hi hj
      have hloc : pixelLoc v i j
          = pixelLoc dib (min left right + i) (min top bottom + j) := by
        have hrow : dib.pitch * (dib.height - 1 - (min top bottom + j))
            = (dib.height - max top bottom) * dib.pitch
              + dib.pitch * (max top bottom - min top bottom - 1 - j) := by
          have e : dib.height - 1 - (min top bottom + j)
              = (dib.height - max top bottom) + (max top bottom - min top bottom - 1 - j) := by
            omega
          rw [e, Nat.mul_add, Nat.mul_comm dib.pitch (dib.height - max top bottom)]
        unfold pixelLoc
        rw [hbpp, hpitch, hbits, hht, hrow]
        unfold viewColumnOffset
        by_cases h1 : dib.bpp = 1
        · have ha : min left right % 8 = 0 := by
            by_contra hne
            exact hal (Or.inl ⟨h1, hne⟩)
          simp only [if_pos h1, shiftRight_three, and_seven]
          refine Prod.ext ?_ ?_
          · show _ = _
            simp only
            omega
          · show _ = _
            simp only
            omega
        · by_cases h4 : dib.bpp = 4
          · have ha : min left right % 2 = 0 := by
              by_contra hne
              exact hal (Or.inr ⟨h4, hne⟩)
            have hpar : (min left right + i) % 2 = i % 2 := by omega
            simp only [if_neg h1, if_pos h4, shiftRight_one, hpar]
            refine Prod.ext ?_ rfl
            show _ = _
            simp only
            omega
          · simp only [if_neg h1, if_neg h4]
            refine Prod.ext ?_ rfl
            show _ = _
            simp only
            rw [Nat.add_mul]
            omega
      refine ⟨hloc, fun m' => ?_⟩
      apply getPixel_congr
      · exact hbpp
      · rfl
      · have e1 : pixelLoc { v with mem := m' } i j = pixelLoc v i j := rfl
        have e2 : pixelLoc { dib with mem := m' } (min left right + i) (min top bottom + j)
            = pixelLoc dib (min left right + i) (min top bottom + j) := rfl
        rw [e1, e2, hloc]

/-- C10 witness: the view (8,1)-(16,3) of a 1-bit 16x8 image of pitch 4 starts
at byte `(8 - 3) * 4 + 1 = 21`, and its pixel (2,1) is stored where the pixel
(10,2) of the backing image is stored. -/
theorem C10_view_geometry_witness :
    ∃ v, FreeImage_CreateView sampleEnv (sampleBitmap 1 16 8 4 (fun a => a)) 8 1 16 3 = some v
      ∧ v.width = max 8 16 - min 8 16 ∧ v.height = max 1 3 - min 1 3
      ∧ v.bits = 21
      ∧ pixelLoc v 2 1 = pixelLoc (sampleBitmap 1 16 8 4 (fun a => a)) (min 8 16 + 2)
          (min 1 3 + 1) :=
  have hv : FreeImage_CreateView sampleEnv (sampleBitmap 1 16 8 4 (fun a => a)) 8 1 16 3
      = some { sampleHeader (fun a => a) 21 4 FIT_BITMAP 8 2 1 0 0 0 with
          externalBits := true } := rfl
  have h := C10_view_geometry sampleEnv (sampleBitmap 1 16 8 4 (fun a => a))
    { sampleHeader (fun a => a) 21 4 FIT_BITMAP 8 2 1 0 0 0 with externalBits := true }
    8 1 16 3 sampleEnv_headerSpec
    ⟨by decide, by decide, by decide, by decide, by decide⟩ hv
  ⟨_, hv, h.1, h.2.1, rfl, (h.2.2.2.2.2.2 2 1 (by decide) (by decide)).1⟩

/-- C11: for all palettes with byte channels and every source index `i`, the
entry `swapTable[i]` built by `Combine4` is always assigned, lies in 0..15, and
is the least destination index minimising `|Δr| + |Δg| + |Δb|`; it is the index
found by the scan without early exit, so the `break` on distance 0 does not
change the choice. -/
theorem C11_swap_table (sp dp : Nat → FIRGBA8) (i : Nat)
    (hs : (sp i).IsBytes) (hd : ∀ k, k < 16 → (dp k).IsBytes) :
    swapTableEntry sp dp i = some (swapTable sp dp i)
    ∧ swapTable sp dp i < 16
    ∧ (∀ k, k < 16 →
        specDistance (sp i) (dp (swapTable sp dp i)) ≤ specDistance (sp i) (dp k))
    ∧ (∀ k, k < swapTable sp dp i →
        specDistance (sp i) (dp (swapTable sp dp i)) < specDistance (sp i) (dp k))
    ∧ swapTable sp dp i = specNearest (sp i) dp :=
  swapTable_least sp dp i hs hd

/-- C11 witness: the white source entry 1 is mapped to the white destination
entry 2 of a palette that is black elsewhere. -/
theorem C11_swap_table_witness :
    swapTable (onePalette 1) (onePalette 2) 1 = 2
    ∧ swapTableEntry (onePalette 1) (onePalette 2) 1
        = some (swapTable (onePalette 1) (onePalette 2) 1)
    ∧ swapTable (onePalette 1) (onePalette 2) 1 = specNearest (onePalette 1 1) (onePalette 2) :=
  have h := C11_swap_table (onePalette 1) (onePalette 2) 1
    ⟨by decide, by decide, by decide⟩
    (fun k _ => by unfold onePalette; split <;> exact ⟨by decide, by decide, by decide⟩)
  ⟨by decide, h.1, h.2.2.2.2⟩

/-- C12 (amended): for every 16-entry palette `P` with byte channels used as
source and destination palette, `swapTable[i]` is the least index whose entry
has the colour of `P[i]` (so the colour is kept); when the 16 entries have
pairwise distinct colours the table is the identity and a valid 4-bit paste at
an even `left`, of a source that does not share the pixel buffer of the
destination, returns TRUE and keeps the index of every pasted pixel. -/
theorem C12_identical_palettes (env : Collaborators) (dst src : FIBITMAP) (P : Nat → FIRGBA8)
    (left top : Nat) (alpha : Int)
    (hP : ∀ k, k < 16 → (P k).IsBytes) :
    (∀ i, i < 16 →
      swapTable P P i ≤ i
      ∧ ((P (swapTable P P i)).red = (P i).red ∧ (P (swapTable P P i)).green = (P i).green
          ∧ (P (swapTable P P i)).blue = (P i).blue)
      ∧ ∀ k, k < swapTable P P i →
          ¬ ((P k).red = (P i).red ∧ (P k).green = (P i).green ∧ (P k).blue = (P i).blue))
    ∧ ((∀ a b, a < 16 → b < 16 →
          ((P a).red = (P b).red ∧ (P a).green = (P b).green ∧ (P a).blue = (P b).blue) →
            a = b) →
        (∀ i, i < 16 → swapTable P P i = i)
        ∧ (src.hasPixels = true → dst.hasPixels = true → dst.imageType = FIT_BITMAP →
            src.imageType = FIT_BITMAP → dst.WF → dst.bpp = 4 → src.bpp = 4 →
            left + src.width ≤ dst.width → top + src.height ≤ dst.height →
            sharesBuffer dst src = false →
            src.palette = some P → dst.palette = some P →
            env.mallocOk (FreeImage_GetLine src) = true → left % 2 = 0 →
            (FreeImage_Paste env dst src (left : Int) (top : Int) alpha).1 = true
            ∧ ∀ i j, i < src.width → j < src.height →
                getPixel (FreeImage_Paste env dst src (left : Int) (top : Int) alpha).2
                  (left + i) (top + j) = getPixel src i j)) := by
  refine ⟨fun i hi => swapTable_same P hP i hi, ?_⟩
  intro hdist
  have hid : ∀ i, i < 16 → swapTable P P i = i := by
    intro i hi
    obtain ⟨h1, h2, _⟩ := swapTable_same P hP i hi
    exact hdist _ _ (by omega) hi h2
  refine ⟨hid, ?_⟩
  intro hps hpd hty hts hd hdb hsb hx hy hsep hsp hdp hmal hev
  have hclone : promote env dst src
      (decide (dst.redMask = FI16_565_RED_MASK ∧ dst.greenMask = FI16_565_GREEN_MASK
        ∧ dst.blueMask = FI16_565_BLUE_MASK)) = some src := by
    unfold promote
    rw [if_pos (by rw [hdb, hsb])]
  have hdisp := paste_dispatch env dst src src left top alpha hps hpd hty hts hd hx hy hclone
  rw [if_neg (show ¬ dst.bpp = 1 by omega), if_pos hdb] at hdisp
  rw [hdisp]
  constructor
  · rw [Combine4_fit env dst src left top _ P P hd hdb hsb hx hy hsp hdp hmal hsep]
  · intro i j hi hj
    rw [Combine4_getPixel_even env dst src left top _ P P hd hdb hsb hx hy hsep hsp hdp hmal
      hev i j hi hj, getPixel_nib src i j hsb, List.map_cons, List.map_nil,
      hid _ (nibAt_lt _ _ _)]

/-- C12 witness: with the grey palette on both sides the table maps 7 to 7 and
the pixel pasted at (3,0) keeps the source index. -/
theorem C12_identical_palettes_witness :
    swapTable grayPalette grayPalette 7 = 7
    ∧ getPixel (FreeImage_Paste sampleEnv (sampleGray 4 1 4 (fun _ => 0))
        (sampleGray 2 1 4 (fun a => if a = 0 then 18 else 0)) ((2 : Nat) : Int) ((0 : Nat) : Int)
        256).2 (2 + 1) (0 + 0)
      = getPixel (sampleGray 2 1 4 (fun a => if a = 0 then 18 else 0)) 1 0 :=
  have h := (C12_identical_palettes sampleEnv (sampleGray 4 1 4 (fun _ => 0))
    (sampleGray 2 1 4 (fun a => if a = 0 then 18 else 0)) grayPalette 2 0 256
    (fun k hk => ⟨Nat.lt_trans hk (by decide), Nat.lt_trans hk (by decide),
      Nat.lt_trans hk (by decide)⟩)).2 (fun _ _ _ _ hc => hc.1)
  ⟨h.1 7 (by decide),
   (h.2 rfl rfl rfl rfl ⟨by decide, by decide, by decide, by decide, by decide⟩ rfl rfl
      (by decide) (by decide) rfl rfl rfl rfl (by decide)).2 1 0 (by decide) (by decide)⟩

/-- C12 counterexample: with the same palette on both sides, black except for
a white entry 1, index 2 is mapped to index 0 (the first black entry), and a
pasted source pixel of index 2 is stored as index 0; the call returns TRUE. -/
theorem C12_counterexample :
    swapTable (onePalette 1) (onePalette 1) 2 = 0
    ∧ (FreeImage_Paste sampleEnv (samplePaletted 5 1) (samplePaletted 2 1) 0 0 256).1 = true
    ∧ getPixel (FreeImage_Paste sampleEnv (samplePaletted 5 1) (samplePaletted 2 1) 0 0 256).2
        0 0 = [0]
    ∧ getPixel (samplePaletted 2 1) 0 0 = [2] := by
  decide

/-- C13: `FreeImage_Paste` returns FALSE and leaves the destination unchanged
whenever the image types differ, and whenever both bitmaps are standard and the
destination depth is below the source depth; when the destination depth is
above the source depth but is none of 4, 8, 16, 24, 32 the promotion step yields
nothing, no combiner is reached and the result is FALSE with the destination
unchanged. -/
theorem C13_paste_rejects (env : Collaborators) (dst src : FIBITMAP) (left top alpha : Int) :
    (dst.imageType ≠ src.imageType →
      FreeImage_Paste env dst src left top alpha = (false, dst))
    ∧ (dst.imageType = FIT_BITMAP → src.imageType = FIT_BITMAP → dst.bpp < src.bpp →
        FreeImage_Paste env dst src left top alpha = (false, dst))
    ∧ (dst.imageType = FIT_BITMAP → src.imageType = FIT_BITMAP → src.bpp < dst.bpp →
        dst.bpp ≠ 4 → dst.bpp ≠ 8 → dst.bpp ≠ 16 → dst.bpp ≠ 24 → dst.bpp ≠ 32 →
        (∀ b, promote env dst src b = none)
        ∧ FreeImage_Paste env dst src left top alpha = (false, dst)) := by
  have key : dst.imageType = src.imageType → dst.imageType = FIT_BITMAP →
      promote env dst src
        (decide (dst.redMask = FI16_565_RED_MASK ∧ dst.greenMask = FI16_565_GREEN_MASK
          ∧ dst.blueMask = FI16_565_BLUE_MASK)) = none →
      FreeImage_Paste env dst src left top alpha = (false, dst) := by
    intro hty hstd hp
    unfold FreeImage_Paste
    by_cases h1 : (!src.hasPixels || !dst.hasPixels) = true
    · rw [if_pos h1]
    · rw [if_neg h1]
      by_cases h2 : left < 0 ∨ top < 0
      · rw [if_pos h2]
      · rw [if_neg h2]
        by_cases h3 : uadd (u32 left) src.width > dst.width
            ∨ uadd (u32 top) src.height > dst.height
        · rw [if_pos h3]
        · rw [if_neg h3]
          simp only [if_neg (show ¬ dst.imageType ≠ src.imageType from fun h => h hty),
            if_pos hstd, hp]
  refine ⟨?_, ?_, ?_⟩
  · intro hty
    unfold FreeImage_Paste
    by_cases h1 : (!src.hasPixels || !dst.hasPixels) = true
    · rw [if_pos h1]
    · rw [if_neg h1]
      by_cases h2 : left < 0 ∨ top < 0
      · rw [if_pos h2]
      · rw [if_neg h2]
        by_cases h3 : uadd (u32 left) src.width > dst.width
            ∨ uadd (u32 top) src.height > dst.height
        · rw [if_pos h3]
        · rw [if_neg h3]
          simp only [if_pos hty]
  · intro hd hs hlt
    apply key (by rw [hd, hs]) hd
    unfold promote
    simp only [if_neg (show ¬ dst.bpp = src.bpp by omega),
      if_neg (show ¬ dst.bpp > src.bpp by omega)]
  · intro hd hs hlt h4 h8 h16 h24 h32
    have hp : ∀ b, promote env dst src b = none := by
      intro b
      unfold promote
      simp only [if_neg (show ¬ dst.bpp = src.bpp by omega),
        if_pos (show dst.bpp > src.bpp from hlt), if_neg h4, if_neg h8, if_neg h16, if_neg h24,
        if_neg h32]
    exact ⟨hp, key (by rw [hd, hs]) hd (hp _)⟩

/-- C13 witness: a paste between different image types, a paste of an 8-bit
source into a 4-bit destination, and a paste of a 1-bit source into a 2-bit
destination are all refused. -/
theorem C13_paste_rejects_witness :
    FreeImage_Paste sampleEnv (sampleBitmap 8 4 4 4 (fun _ => 100))
        { sampleBitmap 8 2 2 4 (fun _ => 200) with imageType := 2 } 0 0 256
      = (false, sampleBitmap 8 4 4 4 (fun _ => 100))
    ∧ FreeImage_Paste sampleEnv (sampleBitmap 4 4 4 4 (fun _ => 100))
        (sampleBitmap 8 2 2 4 (fun _ => 200)) 0 0 256
      = (false, sampleBitmap 4 4 4 4 (fun _ => 100))
    ∧ FreeImage_Paste sampleEnv (sampleBitmap 2 4 4 4 (fun _ => 100))
        (sampleBitmap 1 2 2 4 (fun _ => 200)) 0 0 256
      = (false, sampleBitmap 2 4 4 4 (fun _ => 100)) :=
  ⟨(C13_paste_rejects sampleEnv (sampleBitmap 8 4 4 4 (fun _ => 100))
      { sampleBitmap 8 2 2 4 (fun _ => 200) with imageType := 2 } 0 0 256).1 (by decide),
   (C13_paste_rejects sampleEnv (sampleBitmap 4 4 4 4 (fun _ => 100))
      (sampleBitmap 8 2 2 4 (fun _ => 200)) 0 0 256).2.1 rfl rfl (by decide),
   ((C13_paste_rejects sampleEnv (sampleBitmap 2 4 4 4 (fun _ => 100))
      (sampleBitmap 1 2 2 4 (fun _ => 200)) 0 0 256).2.2 rfl rfl (by decide) (by decide)
      (by decide) (by decide) (by decide) (by decide)).2⟩

/-- C14: for every combiner (`Combine1`, `Combine4`, `Combine8`,
`Combine16_555`, `Combine16_565`, `Combine24`, `Combine32`, `CombineSameType`)
and for `FreeImage_Paste`, on every input for which the call returns FALSE the
destination after the call is the destination before the call (in particular
its pixel buffer is byte-for-byte the same). -/
theorem C14_atomic_failure (env : Collaborators) (dst src : FIBITMAP) (x y alpha : Nat)
    (left top a : Int) :
    ((Combine1 dst src x y alpha).1 = false → (Combine1 dst src x y alpha).2 = dst)
    ∧ ((Combine4 env dst src x y alpha).1 = false → (Combine4 env dst src x y alpha).2 = dst)
    ∧ ((Combine8 dst src x y alpha).1 = false → (Combine8 dst src x y alpha).2 = dst)
    ∧ ((Combine16_555 dst src x y alpha).1 = false → (Combine16_555 dst src x y alpha).2 = dst)
    ∧ ((Combine16_565 dst src x y alpha).1 = false → (Combine16_565 dst src x y alpha).2 = dst)
    ∧ ((Combine24 dst src x y alpha).1 = false → (Combine24 dst src x y alpha).2 = dst)
    ∧ ((Combine32 dst src x y alpha).1 = false → (Combine32 dst src x y alpha).2 = dst)
    ∧ ((CombineSameType dst src x y).1 = false → (CombineSameType dst src x y).2 = dst)
    ∧ ((FreeImage_Paste env dst src left top a).1 = false →
        (FreeImage_Paste env dst src left top a).2 = dst) :=
  ⟨atomic_of_shape _ _ (Combine1_shape dst src x y alpha),
   atomic_of_shape _ _ (Combine4_shape env dst src x y alpha),
   atomic_of_shape _ _ (combineBytes_shape 8 x dst src x y alpha),
   atomic_of_shape _ _ (combine16_shape blendPixel555 dst src x y alpha),
   atomic_of_shape _ _ (combine16_shape blendPixel565 dst src x y alpha),
   atomic_of_shape _ _ (combineBytes_shape 24 (umul x 3) dst src x y alpha),
   atomic_of_shape _ _ (combineBytes_shape 32 (umul x 4) dst src x y alpha),
   atomic_of_shape _ _ (CombineSameType_shape dst src x y),
   atomic_of_shape _ _ (Paste_shape env dst src left top a)⟩

/-- C14 witness: a 4-bit destination without palette, asked to receive an
8-bit source at column 3: every combiner and `FreeImage_Paste` return FALSE (depth
mismatch, missing palette, region too wide, or no demotion) and the destination
is unchanged. -/
theorem C14_atomic_failure_witness :
    (Combine1 (sampleBitmap 4 4 4 4 (fun _ => 100)) (sampleBitmap 8 2 2 4 (fun _ => 200))
        3 0 256).2 = sampleBitmap 4 4 4 4 (fun _ => 100)
    ∧ (Combine4 sampleEnv (sampleBitmap 4 4 4 4 (fun _ => 100))
        (sampleBitmap 4 2 2 4 (fun _ => 200)) 0 0 256).2 = sampleBitmap 4 4 4 4 (fun _ => 100)
    ∧ (Combine8 (sampleBitmap 8 4 4 4 (fun _ => 100)) (sampleBitmap 8 2 2 4 (fun _ => 200))
        3 0 256).2 = sampleBitmap 8 4 4 4 (fun _ => 100)
    ∧ (Combine16_555 (sampleBitmap 4 4 4 4 (fun _ => 100)) (sampleBitmap 8 2 2 4 (fun _ => 200))
        3 0 256).2 = sampleBitmap 4 4 4 4 (fun _ => 100)
    ∧ (Combine16_565 (sampleBitmap 4 4 4 4 (fun _ => 100)) (sampleBitmap 8 2 2 4 (fun _ => 200))
        3 0 256).2 = sampleBitmap 4 4 4 4 (fun _ => 100)
    ∧ (Combine24 (sampleBitmap 4 4 4 4 (fun _ => 100)) (sampleBitmap 8 2 2 4 (fun _ => 200))
        3 0 256).2 = sampleBitmap 4 4 4 4 (fun _ => 100)
    ∧ (Combine32 (sampleBitmap 4 4 4 4 (fun _ => 100)) (sampleBitmap 8 2 2 4 (fun _ => 200))
        3 0 256).2 = sampleBitmap 4 4 4 4 (fun _ => 100)
    ∧ (CombineSameType (sampleBitmap 4 4 4 4 (fun _ => 100))
        (sampleBitmap 8 2 2 4 (fun _ => 200)) 3 0).2 = sampleBitmap 4 4 4 4 (fun _ => 100)
    ∧ (FreeImage_Paste sampleEnv (sampleBitmap 4 4 4 4 (fun _ => 100))
        (sampleBitmap 8 2 2 4 (fun _ => 200)) 3 0 256).2 = sampleBitmap 4 4 4 4 (fun _ => 100) :=
  ⟨(C14_atomic_failure sampleEnv (sampleBitmap 4 4 4 4 (fun _ => 100))
      (sampleBitmap 8 2 2 4 (fun _ => 200)) 3 0 256 3 0 256).1 (by decide),
   (C14_atomic_failure sampleEnv (sampleBitmap 4 4 4 4 (fun _ => 100))
      (sampleBitmap 4 2 2 4 (fun _ => 200)) 0 0 256 0 0 256).2.1 (by decide),
   (C14_atomic_failure sampleEnv (sampleBitmap 8 4 4 4 (fun _ => 100))
      (sampleBitmap 8 2 2 4 (fun _ => 200)) 3 0 256 3 0 256).2.2.1 (by decide),
   (C14_atomic_failure sampleEnv (sampleBitmap 4 4 4 4 (fun _ => 100))
      (sampleBitmap 8 2 2 4 (fun _ => 200)) 3 0 256 3 0 256).2.2.2.1 (by decide),
   (C14_atomic_failure sampleEnv (sampleBitmap 4 4 4 4 (fun _ => 100))
      (sampleBitmap 8 2 2 4 (fun _ => 200)) 3 0 256 3 0 256).2.2.2.2.1 (by decide),
   (C14_atomic_failure sampleEnv (sampleBitmap 4 4 4 4 (fun _ => 100))
      (sampleBitmap 8 2 2 4 (fun _ => 200)) 3 0 256 3 0 256).2.2.2.2.2.1 (by decide),
   (C14_atomic_failure sampleEnv (sampleBitmap 4 4 4 4 (fun _ => 100))
      (sampleBitmap 8 2 2 4 (fun _ => 200)) 3 0 256 3 0 256).2.2.2.2.2.2.1 (by decide),
   (C14_atomic_failure sampleEnv (sampleBitmap 4 4 4 4 (fun _ => 100))
      (sampleBitmap 8 2 2 4 (fun _ => 200)) 3 0 256 3 0 256).2.2.2.2.2.2.2.1 (by decide),
   (C14_atomic_failure sampleEnv (sampleBitmap 4 4 4 4 (fun _ => 100))
      (sampleBitmap 8 2 2 4 (fun _ => 200)) 3 0 256 3 0 256).2.2.2.2.2.2.2.2 (by decide)⟩

/-- C15: for the byte blend of `Combine8` / `Combine24` / `Combine32` with
alpha = 255 and all bytes `s` (source) and `d` (destination), the result `r` is
`s` when `d >= s` and `s - 1` when `d < s`, hence `|r - s| <= 1`; and every byte
of the pasted rows written by these combiners at alpha 255 has that value, when
the source does not share the pixel buffer of the destination. -/
theorem C15_blend_255 :
    (∀ s d, s < 256 → d < 256 →
      blend s d 255 = (if d < s then s - 1 else s)
      ∧ blend s d 255 ≤ s ∧ s ≤ blend s d 255 + 1)
    ∧ ∀ (depth : Nat) (f : FIBITMAP → FIBITMAP → Nat → Nat → Nat → Bool × FIBITMAP)
        (dst src : FIBITMAP) (x y : Nat),
        ((depth = 8 ∧ f = Combine8) ∨ (depth = 24 ∧ f = Combine24)
          ∨ (depth = 32 ∧ f = Combine32)) →
        dst.WF → dst.bpp = depth → src.bpp = depth →
        x + src.width ≤ dst.width → y + src.height ≤ dst.height →
        sharesBuffer dst src = false →
        (∀ a, dst.mem a < 256) → (∀ a, src.mem a < 256) →
        ∀ r c, r < src.height → c < FreeImage_GetLine src →
          (f dst src x y 255).2.mem
              (dst.bits + (dst.height - src.height - y + r) * dst.pitch + x * (depth / 8) + c)
            = if dst.mem (dst.bits + (dst.height - src.height - y + r) * dst.pitch
                  + x * (depth / 8) + c) < src.mem (src.bits + r * src.pitch + c)
              then src.mem (src.bits + r * src.pitch + c) - 1
              else src.mem (src.bits + r * src.pitch + c) := by
  have hb : ∀ s d, s < 256 → d < 256 → blend s d 255 = (if d < s then s - 1 else s) := by
    intro s d hs hd
    have h := blend_eq_floor s d 255 hs hd (by norm_num)
    by_cases hlt : d < s
    · rw [if_pos hlt]
      have : (256 * (d : Int) + ((s : Int) - d) * ((255 : Nat) : Int)) / 256 = (s : Int) - 1 := by
        push_cast
        omega
      rw [this] at h
      omega
    · rw [if_neg hlt]
      have : (256 * (d : Int) + ((s : Int) - d) * ((255 : Nat) : Int)) / 256 = (s : Int) := by
        push_cast
        omega
      rw [this] at h
      omega
  constructor
  · intro s d hs hd
    refine ⟨hb s d hs hd, ?_, ?_⟩
    · rw [hb s d hs hd]; split <;> omega
    · rw [hb s d hs hd]; split <;> omega
  · intro depth f dst src x y hf hd hdb hsb hx hy hsep hdm hsm r c hr hc
    have key : ∀ xoff, xoff = x * (depth / 8) →
        (combineBytes depth xoff dst src x y 255).2.mem
            (dst.bits + (dst.height - src.height - y + r) * dst.pitch + x * (depth / 8) + c)
          = blend (src.mem (src.bits + r * src.pitch + c))
              (dst.mem (dst.bits + (dst.height - src.height - y + r) * dst.pitch
                + x * (depth / 8) + c)) 255 := by
      intro xoff hxoff
      have haddr : dst.bits + (dst.height - src.height - y + r) * dst.pitch + x * (depth / 8) + c
          = dst.bits + (dst.height - src.height - y) * dst.pitch + xoff + r * dst.pitch + c := by
        rw [hxoff, Nat.add_mul]; omega
      rw [haddr]
      exact combineBytes_blend depth xoff dst src x y 255 hd hdb hsb hx hy hsep (by norm_num)
        r c hr hc
    rw [← hb _ _ (hsm _) (hdm _)]
    rcases hf with ⟨h8, rfl⟩ | ⟨h24, rfl⟩ | ⟨h32, rfl⟩
    · subst h8
      exact key x (by norm_num)
    · subst h24
      exact key (umul x 3) (by rw [xoff_eq dst src x 3 hd (by rw [hdb]) hx])
    · subst h32
      exact key (umul x 4) (by rw [xoff_eq dst src x 4 hd (by rw [hdb]) hx])

/-- C15 witness: source 200 over destination 100 gives 199, source 100 over
destination 200 gives 100, and `Combine8` at alpha 255 stores 199. -/
theorem C15_blend_255_witness :
    blend 200 100 255 = 199 ∧ blend 100 200 255 = 100
    ∧ (Combine8 (sampleBitmap 8 8 8 8 (fun _ => 100)) (sampleBitmap 8 8 8 8 (fun _ => 200))
        0 0 255).2.mem 0 = 199 :=
  ⟨((C15_blend_255.1 200 100 (by decide) (by decide)).1).trans (by decide),
   ((C15_blend_255.1 100 200 (by decide) (by decide)).1).trans (by decide),
   (C15_blend_255.2 8 Combine8 (sampleBitmap 8 8 8 8 (fun _ => 100))
      (sampleBitmap 8 8 8 8 (fun _ => 200)) 0 0 (Or.inl ⟨rfl, rfl⟩)
      ⟨by decide, by decide, by decide, by decide, by decide⟩ rfl rfl (by decide) (by decide)
      rfl (fun _ => (by decide : (100 : Nat) < 256)) (fun _ => (by decide : (200 : Nat) < 256))
      0 0 (by decide) (by decide)).trans (by decide)⟩

/-- C16: for 1-bit `dst` and `src` with `x + src.width <= dst.width` and
`y + src.height <= dst.height`, the source not sharing the pixel buffer of the
destination, `Combine1` returns TRUE and, whatever alpha is,
for each source buffer row `r` and column `c < src.width` the bit `x + c` of the
destination row `dst.height - src.height - y + r` (byte `(x+c) >> 3`, mask
`0x80 >> ((x+c) & 7)`) equals the source bit `c` of row `r`; every other bit of
the pasted rows and every byte outside the pasted rows is unchanged. -/
theorem C16_combine1_bits (dst src : FIBITMAP) (x y alpha : Nat)
    (hd : dst.WF) (hdb : dst.bpp = 1) (hsb : src.bpp = 1)
    (hx : x + src.width ≤ dst.width) (hy : y + src.height ≤ dst.height)
    (hsep : sharesBuffer dst src = false) :
    (Combine1 dst src x y alpha).1 = true
    ∧ (∀ r c, r < src.height → c < src.width →
        bitAt (Combine1 dst src x y alpha).2.mem
            (dst.bits + (dst.height - src.height - y + r) * dst.pitch) (x + c)
          = bitAt src.mem (src.bits + r * src.pitch) c)
    ∧ (∀ r c, r < src.height → c < 8 * dst.pitch → ¬ (x ≤ c ∧ c < x + src.width) →
        bitAt (Combine1 dst src x y alpha).2.mem
            (dst.bits + (dst.height - src.height - y + r) * dst.pitch) c
          = bitAt dst.mem (dst.bits + (dst.height - src.height - y + r) * dst.pitch) c)
    ∧ (∀ a, (∀ r, r < src.height →
          ¬ (dst.bits + (dst.height - src.height - y + r) * dst.pitch ≤ a
            ∧ a < dst.bits + (dst.height - src.height - y + r) * dst.pitch + dst.pitch)) →
        (Combine1 dst src x y alpha).2.mem a = dst.mem a)
    ∧ (∀ alpha2, Combine1 dst src x y alpha2 = Combine1 dst src x y alpha) := by
  have hrow : ∀ r, dst.bits + (dst.height - src.height - y + r) * dst.pitch
      = dst.bits + (dst.height - src.height - y) * dst.pitch + r * dst.pitch := by
    intro r
    rw [Nat.add_mul]; omega
  have hwp := width_le_pitch1 dst hd hdb
  refine ⟨?_, ?_, ?_, ?_, ?_⟩
  · rw [Combine1_fit dst src x y alpha hd hdb hsb hx hy hsep]
  · intro r c hr hc
    rw [hrow, Combine1_bit dst src x y alpha hd hdb hsb hx hy hsep r (x + c) hr (by omega),
      if_pos (show x ≤ x + c ∧ x + c < x + src.width by omega), Nat.add_sub_cancel_left]
  · intro r c hr hc hout
    rw [hrow, Combine1_bit dst src x y alpha hd hdb hsb hx hy hsep r c hr hc, if_neg hout]
  · intro a hout
    apply Combine1_frame dst src x y alpha hd hdb hsb hx hy hsep a
    intro r hr
    rw [← hrow]
    exact hout r hr
  · intro alpha2
    rfl

/-- C16 witness: a 3-pixel source row of ones pasted at column 6 of a zeroed
16x1 destination sets bit 6 (spanning two bytes) and leaves bit 5 clear. -/
theorem C16_combine1_bits_witness :
    (Combine1 (sampleBitmap 1 16 1 4 (fun _ => 0)) (sampleBitmap 1 3 1 4 (fun _ => 255))
        6 0 0).1 = true
    ∧ bitAt (Combine1 (sampleBitmap 1 16 1 4 (fun _ => 0)) (sampleBitmap 1 3 1 4 (fun _ => 255))
        6 0 0).2.mem
        ((sampleBitmap 1 16 1 4 (fun _ => 0)).bits
          + ((sampleBitmap 1 16 1 4 (fun _ => 0)).height
              - (sampleBitmap 1 3 1 4 (fun _ => 255)).height - 0 + 0)
            * (sampleBitmap 1 16 1 4 (fun _ => 0)).pitch) (6 + 2)
      = bitAt (sampleBitmap 1 3 1 4 (fun _ => 255)).mem
          ((sampleBitmap 1 3 1 4 (fun _ => 255)).bits
            + 0 * (sampleBitmap 1 3 1 4 (fun _ => 255)).pitch) 2 :=
  have h := C16_combine1_bits (sampleBitmap 1 16 1 4 (fun _ => 0))
    (sampleBitmap 1 3 1 4 (fun _ => 255)) 6 0 0
    ⟨by decide, by decide, by decide, by decide, by decide⟩ rfl rfl (by decide) (by decide)
    rfl
  ⟨h.1, h.2.1 0 2 (by decide) (by decide)⟩

/-- C17 (failing input): a 3x1 4-bit source with pixels 1, 2, 3 combined at the
odd column `x = 1` into a zeroed 4x1 destination, both with the grey palette
(identity swap table). `Combine4` returns TRUE, but the destination columns 1, 2,
3 hold 2, 3, 0 instead of `swapTable[1]`, `swapTable[2]`, `swapTable[3]` = 1, 2, 3:
the source row is written byte-aligned, one pixel to the left of its place, and
source pixel 0 is dropped. -/
theorem C17_odd_origin :
    (Combine4 sampleEnv (sampleGray 4 1 4 (fun _ => 0))
        (sampleGray 3 1 4 (fun a => if a = 0 then 18 else if a = 1 then 48 else 0)) 1 0 0).1
      = true
    ∧ (List.range 3).map (fun k => getPixel
        (sampleGray 3 1 4 (fun a => if a = 0 then 18 else if a = 1 then 48 else 0)) k 0)
      = [[1], [2], [3]]
    ∧ (List.range 3).map (fun k => swapTable grayPalette grayPalette (k + 1)) = [1, 2, 3]
    ∧ (List.range 3).map (fun k => getPixel
        (Combine4 sampleEnv (sampleGray 4 1 4 (fun _ => 0))
          (sampleGray 3 1 4 (fun a => if a = 0 then 18 else if a = 1 then 48 else 0)) 1 0 0).2
        (1 + k) 0)
      = [[2], [3], [0]] := by
  decide

/-- C18: for 4-bit `dst` and `src` and every `x`, `y` with the region fitting
(all parities of `x` and of the source width), `Combine4` leaves every
destination pixel outside the rectangle `[x, x + src.width)` x pasted rows
unchanged, whether it succeeds or fails; this covers the pixel at column
`x - 1` when `x` is odd and the pixel sharing the last written byte when the
end is half-covered. -/
theorem C18_combine4_frame (env : Collaborators) (dst src : FIBITMAP) (x y alpha : Nat)
    (hd : dst.WF) (hdb : dst.bpp = 4) (hsb : src.bpp = 4)
    (hx : x + src.width ≤ dst.width) (hy : y + src.height ≤ dst.height) :
    ∀ i j, i < dst.width → j < dst.height →
      ¬ (x ≤ i ∧ i < x + src.width ∧ y ≤ j ∧ j < y + src.height) →
      getPixel (Combine4 env dst src x y alpha).2 i j = getPixel dst i j :=
  fun i j hi hj hout => Combine4_frame_pixel env dst src x y alpha hd hdb hsb hx hy i j hi hj hout

/-- C18 witness: on a 4x1 destination whose pixels are all 5, a 3x1 source
combined at the odd column 1 leaves pixel 0 (sharing the first written byte)
unchanged, and a 1x1 source combined at column 2 leaves pixel 3 (sharing the
last written byte) unchanged. -/
theorem C18_combine4_frame_witness :
    getPixel (Combine4 sampleEnv (sampleGray 4 1 4 (fun _ => 85))
        (sampleGray 3 1 4 (fun _ => 17)) 1 0 0).2 0 0
      = getPixel (sampleGray 4 1 4 (fun _ => 85)) 0 0
    ∧ getPixel (Combine4 sampleEnv (sampleGray 4 1 4 (fun _ => 85))
        (sampleGray 1 1 4 (fun _ => 17)) 2 0 0).2 3 0
      = getPixel (sampleGray 4 1 4 (fun _ => 85)) 3 0 :=
  ⟨C18_combine4_frame sampleEnv (sampleGray 4 1 4 (fun _ => 85))
      (sampleGray 3 1 4 (fun _ => 17)) 1 0 0
      ⟨by decide, by decide, by decide, by decide, by decide⟩ rfl rfl (by decide) (by decide)
      0 0 (by decide) (by decide) (by decide),
   C18_combine4_frame sampleEnv (sampleGray 4 1 4 (fun _ => 85))
      (sampleGray 1 1 4 (fun _ => 17)) 2 0 0
      ⟨by decide, by decide, by decide, by decide, by decide⟩ rfl rfl (by decide) (by decide)
      3 0 (by decide) (by decide) (by decide)⟩

/-- C19: for 16-bit images, a fitting origin, a source that does not share the
pixel buffer of the destination and alpha in [0,255],
`Combine16_555` and `Combine16_565` return TRUE and replace the pixel `k` of every
pasted row `r` by the pixel blend of the old destination pixel and the source
pixel: its red, green and blue fields (in the same 555 / 565 layout) are the
byte blends of the source and destination fields unpacked to eight bits (555:
each field `<< 3`; 565: red and blue `<< 3`, green `<< 2`), shifted back (`>> 3`,
or `>> 2` for 565 green); the byte blend of bytes `s` over `d` is
`d + floor(((s - d) * alpha) / 256)`. -/
theorem C19_blend16 (dst src : FIBITMAP) (x y alpha : Nat)
    (hd : dst.WF) (hdb : dst.bpp = 16) (hsb : src.bpp = 16)
    (hx : x + src.width ≤ dst.width) (hy : y + src.height ≤ dst.height)
    (hsep : sharesBuffer dst src = false) (ha : alpha ≤ 255)
    (r k : Nat) (hr : r < src.height) (hk : k < src.width) (da sa : Nat)
    (hda : da = dst.bits + (dst.height - src.height - y + r) * dst.pitch + x * 2 + 2 * k)
    (hsa : sa = src.bits + r * src.pitch + 2 * k) :
    ((Combine16_555 dst src x y alpha).1 = true
      ∧ read16 (Combine16_555 dst src x y alpha).2.mem da
          = blendPixel555 (read16 dst.mem da) (read16 src.mem sa) alpha
      ∧ field16 FI16_555_RED_MASK FI16_555_RED_SHIFT
            (read16 (Combine16_555 dst src x y alpha).2.mem da)
          = blend (field16 FI16_555_RED_MASK FI16_555_RED_SHIFT (read16 src.mem sa) <<< 3)
              (field16 FI16_555_RED_MASK FI16_555_RED_SHIFT (read16 dst.mem da) <<< 3) alpha
            >>> 3
      ∧ field16 FI16_555_GREEN_MASK FI16_555_GREEN_SHIFT
            (read16 (Combine16_555 dst src x y alpha).2.mem da)
          = blend (field16 FI16_555_GREEN_MASK FI16_555_GREEN_SHIFT (read16 src.mem sa) <<< 3)
              (field16 FI16_555_GREEN_MASK FI16_555_GREEN_SHIFT (read16 dst.mem da) <<< 3) alpha
            >>> 3
      ∧ field16 FI16_555_BLUE_MASK FI16_555_BLUE_SHIFT
            (read16 (Combine16_555 dst src x y alpha).2.mem da)
          = blend (field16 FI16_555_BLUE_MASK FI16_555_BLUE_SHIFT (read16 src.mem sa) <<< 3)
              (field16 FI16_555_BLUE_MASK FI16_555_BLUE_SHIFT (read16 dst.mem da) <<< 3) alpha
            >>> 3)
    ∧ ((Combine16_565 dst src x y alpha).1 = true
      ∧ read16 (Combine16_565 dst src x y alpha).2.mem da
          = blendPixel565 (read16 dst.mem da) (read16 src.mem sa) alpha
      ∧ field16 FI16_565_RED_MASK FI16_565_RED_SHIFT
            (read16 (Combine16_565 dst src x y alpha).2.mem da)
          = blend (field16 FI16_565_RED_MASK FI16_565_RED_SHIFT (read16 src.mem sa) <<< 3)
              (field16 FI16_565_RED_MASK FI16_565_RED_SHIFT (read16 dst.mem da) <<< 3) alpha
            >>> 3
      ∧ field16 FI16_565_GREEN_MASK FI16_565_GREEN_SHIFT
            (read16 (Combine16_565 dst src x y alpha).2.mem da)
          = blend (field16 FI16_565_GREEN_MASK FI16_565_GREEN_SHIFT (read16 src.mem sa) <<< 2)
              (field16 FI16_565_GREEN_MASK FI16_565_GREEN_SHIFT (read16 dst.mem da) <<< 2) alpha
            >>> 2
      ∧ field16 FI16_565_BLUE_MASK FI16_565_BLUE_SHIFT
            (read16 (Combine16_565 dst src x y alpha).2.mem da)
          = blend (field16 FI16_565_BLUE_MASK FI16_565_BLUE_SHIFT (read16 src.mem sa) <<< 3)
              (field16 FI16_565_BLUE_MASK FI16_565_BLUE_SHIFT (read16 dst.mem da) <<< 3) alpha
            >>> 3)
    ∧ (∀ s d, s < 256 → d < 256 →
        ((blend s d alpha : Nat) : Int) = (d : Int) + (((s : Int) - (d : Int)) * (alpha : Int)) / 256)
    := by
  have haddr : da
      = dst.bits + (dst.height - src.height - y) * dst.pitch + x * 2 + r * dst.pitch + 2 * k := by
    rw [hda, Nat.add_mul]; omega
  have h555 : read16 (Combine16_555 dst src x y alpha).2.mem da
      = blendPixel555 (read16 dst.mem da) (read16 src.mem sa) alpha := by
    rw [haddr, hsa]
    exact combine16_blend_pixel blendPixel555 blendPixel555_lt dst src x y alpha hd hdb hsb hx hy
      hsep ha r k hr hk
  have h565 : read16 (Combine16_565 dst src x y alpha).2.mem da
      = blendPixel565 (read16 dst.mem da) (read16 src.mem sa) alpha := by
    rw [haddr, hsa]
    exact combine16_blend_pixel blendPixel565 blendPixel565_lt dst src x y alpha hd hdb hsb hx hy
      hsep ha r k hr hk
  have f555 := blendPixel555_fields (read16 dst.mem da) (read16 src.mem sa) alpha
  have f565 := blendPixel565_fields (read16 dst.mem da) (read16 src.mem sa) alpha
  refine ⟨⟨?_, h555, ?_, ?_, ?_⟩, ⟨?_, h565, ?_, ?_, ?_⟩, ?_⟩
  · exact congrArg Prod.fst
      (combine16_fit_live blendPixel555 dst src x y alpha hd hdb hsb hx hy)
  · rw [h555]; exact f555.1
  · rw [h555]; exact f555.2.1
  · rw [h555]; exact f555.2.2.1
  · exact congrArg Prod.fst
      (combine16_fit_live blendPixel565 dst src x y alpha hd hdb hsb hx hy)
  · rw [h565]; exact f565.1
  · rw [h565]; exact f565.2.1
  · rw [h565]; exact f565.2.2
  · intro s d hs hd'
    rw [blend_eq_floor s d alpha hs hd' ha, Int.add_comm (256 * _),
      Int.add_mul_ediv_left _ _ (by norm_num : (256 : Int) ≠ 0)]
    exact Int.add_comm _ _

/-- C19 witness: a 565 destination pixel `0x0000` blended at alpha 128 with the
source pixel `0xFFFF` becomes `0x7BEF`: red 15, green 31 and blue 15 (the blends
124, 126 and 124 of 248, 252 and 248 over 0, shifted back). -/
theorem C19_blend16_witness :
    read16 (Combine16_565 (sampleBitmap 16 2 1 4 (fun _ => 0))
        (sampleBitmap 16 1 1 4 (fun _ => 255)) 1 0 128).2.mem 2 = 31727
    ∧ field16 FI16_565_GREEN_MASK FI16_565_GREEN_SHIFT
        (read16 (Combine16_565 (sampleBitmap 16 2 1 4 (fun _ => 0))
          (sampleBitmap 16 1 1 4 (fun _ => 255)) 1 0 128).2.mem 2) = 31 :=
  have h := C19_blend16 (sampleBitmap 16 2 1 4 (fun _ => 0))
    (sampleBitmap 16 1 1 4 (fun _ => 255)) 1 0 128
    ⟨by decide, by decide, by decide, by decide, by decide⟩ rfl rfl (by decide) (by decide)
    rfl (by decide) 0 0 (by decide) (by decide) 2 0 (by decide) (by decide)
  ⟨h.2.1.2.1.trans (by decide), h.2.1.2.2.2.1.trans (by decide)⟩

/-- C20: for two bitmaps of the same non-standard image type (with a common
byte-multiple depth and a non-empty source row) that do not share a pixel
buffer and a fitting region,
`FreeImage_Paste` returns TRUE and, for every alpha, copies the `line` bytes of
each source row `r` unchanged to the destination at byte column
`x * (src.line / src.width)` of row `dst.height - src.height - y + r`; bytes
outside these row windows are unchanged and the result does not depend on
alpha. -/
theorem C20_same_type_copy (env : Collaborators) (dst src : FIBITMAP) (left top B : Nat)
    (alpha : Int) (hps : src.hasPixels = true) (hpd : dst.hasPixels = true)
    (hty : dst.imageType = src.imageType) (hns : dst.imageType ≠ FIT_BITMAP) (hd : dst.WF)
    (hdb : dst.bpp = 8 * B) (hsb : src.bpp = 8 * B) (hw : 0 < src.width)
    (hx : left + src.width ≤ dst.width) (hy : top + src.height ≤ dst.height)
    (hsep : sharesBuffer dst src = false) :
    (FreeImage_Paste env dst src (left : Int) (top : Int) alpha).1 = true
    ∧ (∀ r c, r < src.height → c < FreeImage_GetLine src →
        (FreeImage_Paste env dst src (left : Int) (top : Int) alpha).2.mem
            (dst.bits + (dst.height - src.height - top + r) * dst.pitch
              + left * (FreeImage_GetLine src / src.width) + c)
          = src.mem (src.bits + r * src.pitch + c))
    ∧ (∀ a, (∀ r, r < src.height →
          ¬ (dst.bits + (dst.height - src.height - top + r) * dst.pitch
                + left * (FreeImage_GetLine src / src.width) ≤ a
            ∧ a < dst.bits + (dst.height - src.height - top + r) * dst.pitch
                + left * (FreeImage_GetLine src / src.width) + FreeImage_GetLine src)) →
        (FreeImage_Paste env dst src (left : Int) (top : Int) alpha).2.mem a = dst.mem a)
    ∧ (∀ alpha2 : Int, FreeImage_Paste env dst src (left : Int) (top : Int) alpha2
        = FreeImage_Paste env dst src (left : Int) (top : Int) alpha) := by
  obtain ⟨hq, hfit⟩ := CombineSameType_fit dst src left top B hd hty hdb hsb hw hx hy hsep
  have hpaste := fun a => paste_same_type env dst src left top a hps hpd hty hns hd hx hy
  have hrow : ∀ r, dst.bits + (dst.height - src.height - top + r) * dst.pitch + left * B
      = dst.bits + (dst.height - src.height - top) * dst.pitch + left * B + r * dst.pitch := by
    intro r
    rw [Nat.add_mul]; omega
  have hlp := src_line_le_pitch dst src left hd (by rw [hsb, hdb]) hx
  rw [hpaste alpha, hq, hfit]
  refine ⟨rfl, ?_, ?_, ?_⟩
  · intro r c hr hc
    show (rowLoop src.height (copyRowSep src.mem (FreeImage_GetLine src)) dst.pitch src.pitch
      dst.mem _ src.bits).1 _ = _
    rw [hrow, rowLoop_row _ (FreeImage_GetLine src) dst.pitch src.pitch
      (copyRowSep_frame src.mem _) (copyRowSep_local src.mem _) hlp src.height dst.mem _ _ r _ hr
      (by omega) (by omega), copyRowSep_apply, if_pos (by omega)]
    congr 1
    omega
  · intro a hout
    show (rowLoop src.height (copyRowSep src.mem (FreeImage_GetLine src)) dst.pitch src.pitch
      dst.mem _ src.bits).1 a = _
    apply rowLoop_frame _ (FreeImage_GetLine src) dst.pitch src.pitch
      (copyRowSep_frame src.mem _) src.height dst.mem _ _ a
    intro r hr
    rw [← hrow]
    exact hout r hr
  · intro alpha2
    rw [hpaste alpha2, hfit]

/-- C20 witness: a 2x1 source of a non-standard 16-bit type pasted at column 1
of a 4x1 destination of the same type with alpha 0: the byte at offset 2 (column
1, two bytes per pixel) receives the first source byte. -/
theorem C20_same_type_copy_witness :
    (FreeImage_Paste sampleEnv { sampleBitmap 16 4 1 8 (fun _ => 100) with imageType := 2 }
        { sampleBitmap 16 2 1 4 (fun a => a + 1) with imageType := 2 }
        ((1 : Nat) : Int) ((0 : Nat) : Int) 0).1 = true
    ∧ (FreeImage_Paste sampleEnv { sampleBitmap 16 4 1 8 (fun _ => 100) with imageType := 2 }
        { sampleBitmap 16 2 1 4 (fun a => a + 1) with imageType := 2 }
        ((1 : Nat) : Int) ((0 : Nat) : Int) 0).2.mem 2 = 1 :=
  have h := C20_same_type_copy sampleEnv
    { sampleBitmap 16 4 1 8 (fun _ => 100) with imageType := 2 }
    { sampleBitmap 16 2 1 4 (fun a => a + 1) with imageType := 2 } 1 0 2 0
    rfl rfl rfl (by decide) ⟨by decide, by decide, by decide, by decide, by decide⟩ rfl rfl
    (by decide) (by decide) (by decide) rfl
  ⟨h.1, h.2.1 0 0 (by decide) (by decide)⟩

/-- C21: placement under bottom-up storage. For equal-depth 8-, 24- or 32-bit
images that do not share a pixel buffer, a fitting origin `(x, y)` and
alpha > 255, `Combine8` / `Combine24` /
`Combine32` return TRUE and change only the pixel memory of the destination;
afterwards the destination pixel at logical `(x + i, y + j)` equals the source
pixel at `(i, j)` for all `i < src.width`, `j < src.height`; every destination
byte that belongs to no pixel of that rectangle (row padding included) is
unchanged; the bottom source row lands in buffer row
`dst.height - src.height - y`, and no byte below that row is written. -/
theorem C21_placement (depth : Nat)
    (f : FIBITMAP → FIBITMAP → Nat → Nat → Nat → Bool × FIBITMAP)
    (hf : (depth = 8 ∧ f = Combine8) ∨ (depth = 24 ∧ f = Combine24)
      ∨ (depth = 32 ∧ f = Combine32))
    (dst src : FIBITMAP) (x y alpha : Nat)
    (hd : dst.WF) (hdb : dst.bpp = depth) (hsb : src.bpp = depth)
    (hx : x + src.width ≤ dst.width) (hy : y + src.height ≤ dst.height)
    (hsep : sharesBuffer dst src = false) (ha : alpha > 255) :
    (f dst src x y alpha).1 = true
    ∧ (f dst src x y alpha).2 = { dst with mem := (f dst src x y alpha).2.mem }
    ∧ (∀ i j, i < src.width → j < src.height →
        getPixel (f dst src x y alpha).2 (x + i) (y + j) = getPixel src i j)
    ∧ (∀ a, (∀ i j k, i < src.width → j < src.height → k < depth / 8 →
          a ≠ (pixelLoc dst (x + i) (y + j)).1 + k) →
        (f dst src x y alpha).2.mem a = dst.mem a)
    ∧ (∀ i, i < src.width → 0 < src.height →
        (pixelLoc dst (x + i) (y + (src.height - 1))).1
          = dst.bits + (dst.height - src.height - y) * dst.pitch + (x + i) * (depth / 8))
    ∧ (∀ a, a < dst.bits + (dst.height - src.height - y) * dst.pitch →
        (f dst src x y alpha).2.mem a = dst.mem a) := by
  rcases hf with ⟨h8, rfl⟩ | ⟨h24, rfl⟩ | ⟨h32, rfl⟩
  · subst h8
    exact combineBytes_placement 1 x dst src x y alpha (by omega) (by norm_num) hd hdb hsb hx hy
      hsep ha
  · subst h24
    exact combineBytes_placement 3 (umul x 3) dst src x y alpha
      (xoff_eq dst src x 3 hd (by rw [hdb]) hx) (by norm_num) hd hdb hsb hx hy hsep ha
  · subst h32
    exact combineBytes_placement 4 (umul x 4) dst src x y alpha
      (xoff_eq dst src x 4 hd (by rw [hdb]) hx) (by norm_num) hd hdb hsb hx hy hsep ha

/-- C21 witness: a 2x2 24-bit source pasted at (1,1) into a 4x4 destination of
pitch 12: the pixel at (2,2) is the source pixel (1,1), the source lands in
buffer rows 1 and 2, and byte 0 of the bottom row is unchanged. -/
theorem C21_placement_witness :
    (Combine24 (sampleBitmap 24 4 4 12 (fun _ => 100)) (sampleBitmap 24 2 2 8 (fun a => a))
        1 1 256).1 = true
    ∧ getPixel (Combine24 (sampleBitmap 24 4 4 12 (fun _ => 100))
        (sampleBitmap 24 2 2 8 (fun a => a)) 1 1 256).2 (1 + 1) (1 + 1)
      = getPixel (sampleBitmap 24 2 2 8 (fun a => a)) 1 1
    ∧ (pixelLoc (sampleBitmap 24 4 4 12 (fun _ => 100)) (1 + 0)
        (1 + ((sampleBitmap 24 2 2 8 (fun a => a)).height - 1))).1 = 15
    ∧ (Combine24 (sampleBitmap 24 4 4 12 (fun _ => 100)) (sampleBitmap 24 2 2 8 (fun a => a))
        1 1 256).2.mem 0 = 100 :=
  have h := C21_placement 24 Combine24 (Or.inr (Or.inl ⟨rfl, rfl⟩))
    (sampleBitmap 24 4 4 12 (fun _ => 100)) (sampleBitmap 24 2 2 8 (fun a => a)) 1 1 256
    ⟨by decide, by decide, by decide, by decide, by decide⟩ rfl rfl (by decide) (by decide)
    rfl (by decide)
  ⟨h.1, h.2.2.1 1 1 (by decide) (by decide),
   (h.2.2.2.2.1 0 (by decide) (by decide)).trans (by decide),
   h.2.2.2.2.2 0 (by decide)⟩

/-- C22: for every shift `s` in 0..7 the bit-clear mask of `Combine1` and of the
1-bit branch of `FreeImage_Copy`, `0xFF7F >> s` truncated to 8 bits, is the 8-bit
complement of `0x80 >> s`; hence `byte &= (0xFF7F >> s)` clears exactly bit
`7 - s` of the byte and keeps the other seven bits. The statement is the one
executed by `Combine1` and by the copy for a clear source bit. -/
theorem C22_clear_mask :
    (∀ s, s < 8 → (0xFF7F >>> s) % 256 = 255 - (0x80 >>> s)
      ∧ (0xFF7F >>> s) % 256 = 255 ^^^ (0x80 >>> s))
    ∧ (∀ b s, b < 256 → s < 8 →
        clearBit b s = b &&& (255 - (0x80 >>> s))
        ∧ (clearBit b s).testBit (7 - s) = false
        ∧ ∀ k, k ≠ 7 - s → (clearBit b s).testBit k = b.testBit k)
    ∧ (∀ (rd : Mem → Mem) (x : Nat) (m : Mem) (d s : Nat), x < 4294967296 →
        rd m s &&& 0x80 = 0 →
        combine1Row rd x 1 m d s
          = store m (d + (x >>> 3)) (clearBit (m (d + (x >>> 3))) (x &&& 7)))
    ∧ (∀ (srcm : Mem) (sb db : Nat) (sp dp : Int) (l : Nat) (m : Mem),
        srcm (sb + uadd (u32 (((0 : Nat) : Int) * sp)) ((l + 0) >>> 3))
          &&& (0x80 >>> ((l + 0) &&& 0x07)) = 0 →
        copyBits1 srcm sb db sp dp l 1 1 m
          = store m (db + uadd (u32 (((0 : Nat) : Int) * dp)) (0 >>> 3))
              (clearBit (m (db + uadd (u32 (((0 : Nat) : Int) * dp)) (0 >>> 3))) (0 &&& 0x7))) := by
  refine ⟨?_, ?_, ?_, ?_⟩
  · intro s hs
    interval_cases s <;> exact ⟨rfl, rfl⟩
  · intro b s hb hs
    refine ⟨(clearBit_small b hb s hs).1, ?_, ?_⟩
    · rw [clearBit_testBit b s hb hs]
      simp
    · intro k hk
      rw [clearBit_testBit b s hb hs]
      simp [hk]
  · intro rd x m d s hx h0
    exact combine1Row_clear rd x m d s hx h0
  · intro srcm sb db sp dp l m h0
    exact copyBits1_clear srcm sb db sp dp l m h0

/-- C22 witness: at shift 3 the mask is `0xEF`, and clearing the byte `0xFF`
gives `0xEF`, with bit 4 clear and bit 5 kept. -/
theorem C22_clear_mask_witness :
    (0xFF7F >>> 3) % 256 = 255 - (0x80 >>> 3)
    ∧ clearBit 255 3 = 255 &&& (255 - (0x80 >>> 3))
    ∧ (clearBit 255 3).testBit (7 - 3) = false
    ∧ (clearBit 255 3).testBit 5 = (255 : Nat).testBit 5
    ∧ combine1Row (fun _ _ => 0) 11 1 (fun _ => 255) 0 0
        = store (fun _ => 255) (0 + (11 >>> 3)) (clearBit ((fun _ => 255) (0 + (11 >>> 3))) (11 &&& 7)) :=
  ⟨(C22_clear_mask.1 3 (by decide)).1,
   (C22_clear_mask.2.1 255 3 (by decide) (by decide)).1,
   (C22_clear_mask.2.1 255 3 (by decide) (by decide)).2.1,
   (C22_clear_mask.2.1 255 3 (by decide) (by decide)).2.2 5 (by decide),
   C22_clear_mask.2.2.1 (fun _ _ => 0) 11 (fun _ => 255) 0 0 (by decide) (by decide)⟩

/-- C23: for all bytes `s`, `d` and every alpha in 0..255 the byte blend
`r = (uint8)(((s - d) * alpha + (d << 8)) >> 8)` satisfies
`min(s, d) <= r <= max(s, d)`; and every byte of the pasted rows written by
`Combine8` / `Combine24` / `Combine32` in the blend branch lies between the source
byte and the old destination byte, when the source does not share the pixel
buffer of the destination. -/
theorem C23_blend_bounds :
    (∀ s d alpha, s < 256 → d < 256 → alpha ≤ 255 →
      min s d ≤ blend s d alpha ∧ blend s d alpha ≤ max s d)
    ∧ ∀ (depth : Nat) (f : FIBITMAP → FIBITMAP → Nat → Nat → Nat → Bool × FIBITMAP)
        (dst src : FIBITMAP) (x y alpha : Nat),
        ((depth = 8 ∧ f = Combine8) ∨ (depth = 24 ∧ f = Combine24)
          ∨ (depth = 32 ∧ f = Combine32)) →
        dst.WF → dst.bpp = depth → src.bpp = depth →
        x + src.width ≤ dst.width → y + src.height ≤ dst.height →
        sharesBuffer dst src = false → alpha ≤ 255 →
        (∀ a, dst.mem a < 256) → (∀ a, src.mem a < 256) →
        ∀ r c, r < src.height → c < FreeImage_GetLine src →
          min (src.mem (src.bits + r * src.pitch + c))
              (dst.mem (dst.bits + (dst.height - src.height - y + r) * dst.pitch
                + x * (depth / 8) + c))
            ≤ (f dst src x y alpha).2.mem
                (dst.bits + (dst.height - src.height - y + r) * dst.pitch + x * (depth / 8) + c)
          ∧ (f dst src x y alpha).2.mem
                (dst.bits + (dst.height - src.height - y + r) * dst.pitch + x * (depth / 8) + c)
            ≤ max (src.mem (src.bits + r * src.pitch + c))
                (dst.mem (dst.bits + (dst.height - src.height - y + r) * dst.pitch
                  + x * (depth / 8) + c)) := by
  refine ⟨fun s d alpha hs hd ha => blend_between s d alpha hs hd ha, ?_⟩
  intro depth f dst src x y alpha hf hd hdb hsb hx hy hsep ha hdm hsm r c hr hc
  have key : ∀ xoff, xoff = x * (depth / 8) →
      (combineBytes depth xoff dst src x y alpha).2.mem
          (dst.bits + (dst.height - src.height - y + r) * dst.pitch + x * (depth / 8) + c)
        = blend (src.mem (src.bits + r * src.pitch + c))
            (dst.mem (dst.bits + (dst.height - src.height - y + r) * dst.pitch
              + x * (depth / 8) + c)) alpha := by
    intro xoff hxoff
    have haddr : dst.bits + (dst.height - src.height - y + r) * dst.pitch + x * (depth / 8) + c
        = dst.bits + (dst.height - src.height - y) * dst.pitch + xoff + r * dst.pitch + c := by
      rw [hxoff, Nat.add_mul]; omega
    rw [haddr]
    exact combineBytes_blend depth xoff dst src x y alpha hd hdb hsb hx hy hsep ha r c hr hc
  have hres : (f dst src x y alpha).2.mem
        (dst.bits + (dst.height - src.height - y + r) * dst.pitch + x * (depth / 8) + c)
      = blend (src.mem (src.bits + r * src.pitch + c))
          (dst.mem (dst.bits + (dst.height - src.height - y + r) * dst.pitch
            + x * (depth / 8) + c)) alpha := by
    rcases hf with ⟨h8, rfl⟩ | ⟨h24, rfl⟩ | ⟨h32, rfl⟩
    · subst h8
      exact key x (by norm_num)
    · subst h24
      exact key (umul x 3) (by rw [xoff_eq dst src x 3 hd (by rw [hdb]) hx])
    · subst h32
      exact key (umul x 4) (by rw [xoff_eq dst src x 4 hd (by rw [hdb]) hx])
  rw [hres]
  exact blend_between _ _ _ (hsm _) (hdm _) ha

/-- C23 witness: source 10 over destination 250 at alpha 255 stays within
10..250, also in the byte stored by `Combine32`. -/
theorem C23_blend_bounds_witness :
    (min 10 250 ≤ blend 10 250 255 ∧ blend 10 250 255 ≤ max 10 250)
    ∧ (Combine32 (sampleBitmap 32 2 2 8 (fun _ => 250)) (sampleBitmap 32 2 2 8 (fun _ => 10))
        0 0 255).2.mem
          ((sampleBitmap 32 2 2 8 (fun _ => 250)).bits
            + ((sampleBitmap 32 2 2 8 (fun _ => 250)).height
                - (sampleBitmap 32 2 2 8 (fun _ => 10)).height - 0 + 1)
              * (sampleBitmap 32 2 2 8 (fun _ => 250)).pitch + 0 * (32 / 8) + 5)
        ≤ max ((sampleBitmap 32 2 2 8 (fun _ => 10)).mem
              ((sampleBitmap 32 2 2 8 (fun _ => 10)).bits
                + 1 * (sampleBitmap 32 2 2 8 (fun _ => 10)).pitch + 5))
            ((sampleBitmap 32 2 2 8 (fun _ => 250)).mem
              ((sampleBitmap 32 2 2 8 (fun _ => 250)).bits
                + ((sampleBitmap 32 2 2 8 (fun _ => 250)).height
                    - (sampleBitmap 32 2 2 8 (fun _ => 10)).height - 0 + 1)
                  * (sampleBitmap 32 2 2 8 (fun _ => 250)).pitch + 0 * (32 / 8) + 5)) :=
  ⟨C23_blend_bounds.1 10 250 255 (by decide) (by decide) (by decide),
   (C23_blend_bounds.2 32 Combine32 (sampleBitmap 32 2 2 8 (fun _ => 250))
      (sampleBitmap 32 2 2 8 (fun _ => 10)) 0 0 255 (Or.inr (Or.inr ⟨rfl, rfl⟩))
      ⟨by decide, by decide, by decide, by decide, by decide⟩ rfl rfl (by decide) (by decide)
      rfl (by decide) (fun _ => (by decide : (250 : Nat) < 256))
      (fun _ => (by decide : (10 : Nat) < 256)) 1 5 (by decide) (by decide)).2⟩

/-- C24: `FreeImage_Paste` casts its `int` alpha to `unsigned` before the
dispatch, so for every negative alpha and every alpha above 255 (both in the
range of `int`) the two calls give the same flag and the same destination, for
every depth and type: a negative alpha selects the overwrite branch and never
blends. -/
theorem C24_negative_alpha (env : Collaborators) (dst src : FIBITMAP) (left top : Int)
    (alpha beta : Int) (h1 : -2147483648 ≤ alpha) (h2 : alpha < 0)
    (h3 : 255 < beta) (h4 : beta < 2147483648) :
    u32 alpha > 255
    ∧ FreeImage_Paste env dst src left top alpha = FreeImage_Paste env dst src left top beta
    ∧ FreeImage_Paste env dst src left top alpha = FreeImage_Paste env dst src left top 256 := by
  have ha := u32_neg_gt alpha h1 h2
  have hb : u32 beta > 255 := by unfold u32; omega
  exact ⟨ha, paste_alpha env dst src left top alpha beta ha hb,
    paste_alpha env dst src left top alpha 256 ha (by decide)⟩

/-- C24 witness: with alpha -1 an 8-bit paste overwrites the destination byte
with the source byte, as with alpha 256. -/
theorem C24_negative_alpha_witness :
    FreeImage_Paste sampleEnv (sampleBitmap 8 8 8 8 (fun _ => 100))
        (sampleBitmap 8 4 4 4 (fun _ => 200)) 2 1 (-1)
      = FreeImage_Paste sampleEnv (sampleBitmap 8 8 8 8 (fun _ => 100))
        (sampleBitmap 8 4 4 4 (fun _ => 200)) 2 1 256
    ∧ (FreeImage_Paste sampleEnv (sampleBitmap 8 8 8 8 (fun _ => 100))
        (sampleBitmap 8 4 4 4 (fun _ => 200)) 2 1 256).2.mem 26 = 200 :=
  ⟨(C24_negative_alpha sampleEnv (sampleBitmap 8 8 8 8 (fun _ => 100))
      (sampleBitmap 8 4 4 4 (fun _ => 200)) 2 1 (-1) 256 (by decide) (by decide) (by decide)
      (by decide)).2.1, by decide⟩

/-- C25: crop/paste round trip. For every well-formed standard bitmap `src`
with pixels of depth 1, 8, 16, 24 or 32 and every rectangle with
`0 <= left < right <= width`, `0 <= top < bottom <= height`, when the allocation
succeeds, pasting `FreeImage_Copy(src, left, top, right, bottom)` back into
`src` at `(left, top)` with alpha > 255 returns TRUE and leaves every pixel of
`src` unchanged. -/
theorem C25_crop_paste_round_trip (env : Collaborators) (src dst0 : FIBITMAP)
    (left top right bottom : Nat) (alpha : Int)
    (hp : src.hasPixels = true) (hty : src.imageType = FIT_BITMAP) (hs : src.WF)
    (hdepth : src.bpp = 1 ∨ src.bpp = 8 ∨ src.bpp = 16 ∨ src.bpp = 24 ∨ src.bpp = 32)
    (hlr : left < right) (hrw : right ≤ src.width) (htb : top < bottom)
    (hbh : bottom ≤ src.height)
    (hal : env.allocateT src.imageType ((right : Int) - (left : Int))
      ((bottom : Int) - (top : Int)) src.bpp src.redMask src.greenMask src.blueMask
        = some dst0)
    (hspec : Allocated dst0 src.imageType ((right : Int) - (left : Int))
      ((bottom : Int) - (top : Int)) src.bpp)
    (ha : 255 < alpha) (ha2 : alpha < 2147483648) :
    ∃ d, FreeImage_Copy env src (left : Int) (top : Int) (right : Int) (bottom : Int) = some d
      ∧ (FreeImage_Paste env src d (left : Int) (top : Int) alpha).1 = true
      ∧ ∀ i j, i < src.width → j < src.height →
          getPixel (FreeImage_Paste env src d (left : Int) (top : Int) alpha).2 i j
            = getPixel src i j := by
  have hbpp : src.bpp = 1 ∨ src.bpp = 4 ∨ ∃ B, 0 < B ∧ src.bpp = 8 * B := by
    rcases hdepth with h | h | h | h | h
    · exact Or.inl h
    · exact Or.inr (Or.inr ⟨1, by omega, by omega⟩)
    · exact Or.inr (Or.inr ⟨2, by omega, by omega⟩)
    · exact Or.inr (Or.inr ⟨3, by omega, by omega⟩)
    · exact Or.inr (Or.inr ⟨4, by omega, by omega⟩)
  obtain ⟨d, hcopy, hdp, hdt, hdw, hdh, hdb, hsep, hpix⟩ :=
    copy_result env src dst0 left top right bottom hp hs hbpp (Nat.le_of_lt hlr) hrw
      (Nat.le_of_lt htb) hbh hal hspec
  obtain ⟨hflag, hres⟩ := paste_overwrite_pixels env src d left top alpha hdp hp hty
    (by rw [hdt, hty]) hs (by rw [hdw]; omega) (by rw [hdh]; omega) hsep hdb.symm hdepth ha
    ha2
  refine ⟨d, hcopy, hflag, ?_⟩
  intro i j hi hj
  rw [hres i j hi hj]
  by_cases hin : left ≤ i ∧ i < left + d.width ∧ top ≤ j ∧ j < top + d.height
  · rw [if_pos hin, hpix (i - left) (j - top) (by omega) (by omega),
      show left + (i - left) = i by omega, show top + (j - top) = j by omega]
  · rw [if_neg hin]

/-- C25 witness: the rectangle (3,1)-(9,3) of a 1-bit 16x4 bitmap (unaligned
left) pasted back at (3,1) with alpha 256: the call returns TRUE and the pixels
(5,2) inside and (0,0) outside the rectangle are unchanged. -/
theorem C25_crop_paste_round_trip_witness :
    ∃ d, FreeImage_Copy sampleEnv (sampleBitmap 1 16 4 4 (fun a => a + 37))
        ((3 : Nat) : Int) ((1 : Nat) : Int) ((9 : Nat) : Int) ((3 : Nat) : Int) = some d
      ∧ (FreeImage_Paste sampleEnv (sampleBitmap 1 16 4 4 (fun a => a + 37)) d
          ((3 : Nat) : Int) ((1 : Nat) : Int) 256).1 = true
      ∧ getPixel (FreeImage_Paste sampleEnv (sampleBitmap 1 16 4 4 (fun a => a + 37)) d
          ((3 : Nat) : Int) ((1 : Nat) : Int) 256).2 5 2
        = getPixel (sampleBitmap 1 16 4 4 (fun a => a + 37)) 5 2
      ∧ getPixel (FreeImage_Paste sampleEnv (sampleBitmap 1 16 4 4 (fun a => a + 37)) d
          ((3 : Nat) : Int) ((1 : Nat) : Int) 256).2 0 0
        = getPixel (sampleBitmap 1 16 4 4 (fun a => a + 37)) 0 0 :=
  have h := C25_crop_paste_round_trip sampleEnv (sampleBitmap 1 16 4 4 (fun a => a + 37))
    (sampleAlloc FIT_BITMAP 6 2 1 0 0 0) 3 1 9 3 256 rfl rfl
    ⟨by decide, by decide, by decide, by decide, by decide⟩ (Or.inl rfl)
    (by decide) (by decide) (by decide) (by decide) rfl
    ⟨⟨by decide, by decide, by decide, by decide, by decide⟩, rfl, rfl, by decide, by decide,
      rfl⟩ (by decide) (by decide)
  Exists.elim h (fun d hd => ⟨d, hd.1, hd.2.1, hd.2.2 5 2 (by decide) (by decide),
    hd.2.2 0 0 (by decide) (by decide)⟩)

/-- C26: view and crop agree. For every well-formed bitmap `dib` of depth 1, 4
or a multiple of 8 and every rectangle for which both
`FreeImage_CreateView(dib, l, t, r, b)` and `FreeImage_Copy(dib, l, t, r, b)`
succeed (the allocators returning what they are asked for), the two results
have the same width, height and depth, and the pixel read through the view at
logical `(i, j)` equals the pixel of the copy at `(i, j)` for every in-range
`(i, j)`; the view uses the pitch of `dib`. -/
theorem C26_view_crop_agree (env : Collaborators) (dib v c : FIBITMAP) (l t r b : Nat)
    (hspec : HeaderSpec env)
    (hA : ∀ d0, env.allocateT dib.imageType (((max l r : Nat) : Int) - ((min l r : Nat) : Int))
        (((max t b : Nat) : Int) - ((min t b : Nat) : Int)) dib.bpp dib.redMask dib.greenMask
        dib.blueMask = some d0 →
      Allocated d0 dib.imageType (((max l r : Nat) : Int) - ((min l r : Nat) : Int))
        (((max t b : Nat) : Int) - ((min t b : Nat) : Int)) dib.bpp)
    (hd : dib.WF) (hbpp : dib.bpp = 1 ∨ dib.bpp = 4 ∨ ∃ B, 0 < B ∧ dib.bpp = 8 * B)
    (hv : FreeImage_CreateView env dib l t r b = some v)
    (hc : FreeImage_Copy env dib (l : Int) (t : Int) (r : Int) (b : Int) = some c) :
    v.width = c.width ∧ v.height = c.height ∧ v.bpp = c.bpp ∧ v.pitch = dib.pitch
    ∧ ∀ i j, i < v.width → j < v.height → getPixel v i j = getPixel c i j := by
  obtain ⟨hp, hr, hb⟩ := view_some_inv env dib v l t r b hv
  obtain ⟨hvw, hvh, hvb, hvp, hvpix⟩ := view_pixels env dib v l t r b hspec hd hv
  have hll : min l r ≤ max l r := le_trans (min_le_left _ _) (le_max_left _ _)
  have htt : min t b ≤ max t b := le_trans (min_le_left _ _) (le_max_left _ _)
  rw [copy_normalized, ← Nat.cast_min, ← Nat.cast_min, ← Nat.cast_max, ← Nat.cast_max] at hc
  obtain ⟨dst0, hal⟩ := copy_some_alloc env dib c (min l r) (min t b) (max l r) (max t b)
    hp hd hll hr htt hb hc
  obtain ⟨d, hcopy, hdw, hdh, hdb, hdpix⟩ := copy_pixels env dib dst0 (min l r) (min t b)
    (max l r) (max t b) hp hd hbpp hll hr htt hb hal (hA dst0 hal)
  rw [hc] at hcopy
  have hcd : c = d := Option.some.inj hcopy
  subst hcd
  refine ⟨by rw [hvw, hdw], by rw [hvh, hdh], by rw [hvb, hdb], hvp, ?_⟩
  intro i j hi hj
  rw [hvw] at hi
  rw [hvh] at hj
  rw [hvpix i j hi hj, hdpix i j hi hj]

/-- C26 witness: the view and the copy of the rectangle (8,1)-(16,3) of a 1-bit
16x8 image of pitch 4 have the same size and depth, and agree at pixel (2,1),
although the view has pitch 4 of the backing image. -/
theorem C26_view_crop_agree_witness :
    ∃ v c, FreeImage_CreateView sampleEnv (sampleBitmap 1 16 8 4 (fun a => a + 37)) 8 1 16 3
        = some v
      ∧ FreeImage_Copy sampleEnv (sampleBitmap 1 16 8 4 (fun a => a + 37))
          ((8 : Nat) : Int) ((1 : Nat) : Int) ((16 : Nat) : Int) ((3 : Nat) : Int) = some c
      ∧ v.width = c.width ∧ v.height = c.height ∧ v.bpp = c.bpp
      ∧ v.pitch = (sampleBitmap 1 16 8 4 (fun a => a + 37)).pitch
      ∧ getPixel v 2 1 = getPixel c 2 1 :=
  have hv : FreeImage_CreateView sampleEnv (sampleBitmap 1 16 8 4 (fun a => a + 37)) 8 1 16 3
      = some { sampleHeader (fun a => a + 37) 21 4 FIT_BITMAP 8 2 1 0 0 0 with
          externalBits := true } := rfl
  have hc : (FreeImage_Copy sampleEnv (sampleBitmap 1 16 8 4 (fun a => a + 37))
      ((8 : Nat) : Int) ((1 : Nat) : Int) ((16 : Nat) : Int) ((3 : Nat) : Int)).isSome = true :=
    rfl
  Exists.elim (Option.isSome_iff_exists.1 hc) (fun c hc' =>
    have h := C26_view_crop_agree sampleEnv (sampleBitmap 1 16 8 4 (fun a => a + 37))
      { sampleHeader (fun a => a + 37) 21 4 FIT_BITMAP 8 2 1 0 0 0 with externalBits := true }
      c 8 1 16 3
      sampleEnv_headerSpec
      (fun d0 h0 => by
        rw [sampleEnv_alloc _ _ _ _ _ _ _ d0 h0]
        exact ⟨⟨by decide, by decide, by decide, by decide, by decide⟩, rfl, rfl, by decide,
          by decide, rfl⟩)
      ⟨by decide, by decide, by decide, by decide, by decide⟩ (Or.inl rfl) hv hc'
    ⟨_, c, hv, hc', h.1, h.2.1, h.2.2.1, h.2.2.2.1, h.2.2.2.2 2 1 (by decide) (by decide)⟩)

end FreeImage
